import Mathlib

/-!
# CJ runtime: dependency analysis, scheduling and worker steps

Shallow embedding of `src/src/cj.c` and of the entry point `cj_Chol_l` of
`src/src/cj_Lapack.c`.

Conventions of the embedding:

* A `cj_Task *` is a natural number: the index of the allocation (`malloc`) that created the
  task.  The integer field `id` of a task is kept as a separate field, as in the source; the
  static counter `taskid` is an `int` of 32 bits and wraps (`cj_int`).
* The three per-tile arrays of a base matrix (`rset`, `wset`, `dist`) are functions from tile
  keys `(base, offm / BLOCK_SIZE, offn / BLOCK_SIZE)` to lists; a `CJ_DQUEUE` is a list whose
  head is the head of the queue.
* `float` quantities (`cost`, `time_remaining`, autotuner coefficients) are represented by
  integers ordered as the floats are, with `0` for `0.0` and `-1` for `-1.0`: the code under
  study compares them and adds them, nothing else.  The sum of two floats is the rounded sum of
  the platform, the parameter `fadd` of the environment; no law of exact arithmetic is assumed
  of it, and a theorem that needs a law of float addition (`x + 0.0 = x`, monotonicity, a sum of
  two non-negative floats is non-negative) names it as a hypothesis.
* Locks are not modelled: a submission, `cj_Queue_begin` and the pop, execute and complete of
  a worker are atomic steps (`cj_step`).  Two interleavings at the granularity of the critical
  sections are followed as well: `cj_Task_dependency_add` is split into its two critical
  sections (`cj_Task_dependency_add_out`, `cj_Task_dependency_add_in`), and an iteration of a
  worker can be stopped before it writes `task->status = DONE`
  (`cj_Worker_entry_point_before_done`).
* `cj_error` aborts the process: functions that can reach it return `Except cj_Error _`.
* The fields `kernel_log` and `enqueue_log` of the state are ghost fields: no function reads
  them, they record at which points the kernel call and `cj_Task_enqueue` happen.
* `cj_Lapack_error` aborts the process as well: `cj_Chol_l` returns `Except cj_Abort _`, and
  the value of an abort carries the state of the runtime at the abort.
* The loop of a worker thread and the loop of `cj_Chol_l_blk_var3` are followed for a bounded
  number of iterations; a result says whether the loop has ended within the bound.
-/

/-- Device kinds (cj_devType). -/
inductive cj_devType where
  | CJ_DEV_CPU
  | CJ_DEV_CUDA
  | CJ_DEV_MIC
  deriving DecidableEq, Repr

/-- Task status, in the order of the life cycle. -/
inductive cj_taskStatus where
  | ALLOCATED_ONLY
  | NOTREADY
  | QUEUED
  | RUNNING
  | DONE
  deriving DecidableEq, Repr

/-- Access mode of an argument. -/
inductive cj_rwType where
  | CJ_R
  | CJ_W
  | CJ_RW
  deriving DecidableEq, Repr

/-- Type tag of a generic object. -/
inductive cj_objType where
  | CJ_MATRIX
  | CJ_TASK
  | CJ_DQUEUE
  | CJ_VERTEX
  | CJ_EDGE
  | CJ_DISTRIBUTION
  deriving DecidableEq, Repr

/-- Kernel entry points a task's `function` pointer can hold. -/
inductive cj_Function where
  | cj_Gemm_nn_task_function
  | cj_Chol_l_task_function
  | other (k : Nat)
  deriving DecidableEq, Repr

/-- Reasons for which the process stops. -/
inductive cj_Error where
  | init_nworker
  | negative_dependencies
  | null_pointer
  | bad_index
  | no_thread
  deriving DecidableEq, Repr

/-- A matrix view: base matrix, offsets and extent. -/
structure cj_Matrix where
  base : Nat
  offm : Nat
  offn : Nat
  m : Nat
  n : Nat
  deriving DecidableEq, Repr

/-- A generic object used as a task argument. The field `matrix` is meaningful when
`objtype = CJ_MATRIX`. -/
structure cj_Object where
  objtype : cj_objType
  rwtype : cj_rwType
  matrix : cj_Matrix
  deriving DecidableEq, Repr

/-- A location of a tile: device (host is `-1`) and cache line on that device. -/
structure cj_Distribution where
  device_id : Int
  cache_id : Int
  deriving DecidableEq, Repr

/-- Key of a tile: base matrix, tile row, tile column. -/
abbrev cj_Tile := Nat × Nat × Nat

/-- A task descriptor. -/
@[ext]
structure cj_Task where
  id : Int
  status : cj_taskStatus
  function : Option cj_Function
  num_dependencies_remaining : Int
  in_ : List Nat
  out : List Nat
  arg : List cj_Object
  cost : Int
  worker : Option Nat
  deriving DecidableEq, Repr

/-- A worker. -/
structure cj_Worker where
  devtype : cj_devType
  id : Nat
  device_id : Int
  deriving DecidableEq, Repr

/-- Cache line status of a device cache. -/
inductive cj_cacheStatus where
  | CJ_CACHE_CLEAN
  | CJ_CACHE_DIRTY
  deriving DecidableEq, Repr

/-- A device with its cache, as set up by `cj_Device_new`. -/
structure cj_Device where
  devtype : cj_devType
  status : List cj_cacheStatus
  last_use : List Nat
  deriving DecidableEq, Repr

/-- Autotuner coefficients read by the cost model (`model->mkl_dgemm[0]`,
`model->cublas_dgemm[0]`, `model->pci_bandwidth`). -/
structure cj_Autotune where
  mkl_dgemm : Int
  cublas_dgemm : Int
  pci_bandwidth : Int
  deriving DecidableEq, Repr

/-- What `cj.c` uses and does not define: the macro `BLOCK_SIZE`, the autotuner model, the
addition of two `float` values (`fadd`, the rounded sum of the platform) and the two device
cache operations. -/
structure cj_Env where
  BLOCK_SIZE : Nat
  model : cj_Autotune
  fadd : Int → Int → Int
  cj_Cache_fetch : cj_Device → cj_Object → cj_Device × Int
  cj_Cache_write_back : cj_Device → Int → cj_Object → cj_Device

/-- Ghost record of one call of `cj_Task_enqueue`: the task, its status and counter at the call,
and the entries of its predecessor list that were not `DONE` at the call. -/
structure cj_EnqueueCall where
  task : Nat
  status : cj_taskStatus
  num_dependencies_remaining : Int
  pending : List Nat
  deriving DecidableEq, Repr

/-- The runtime state: the globals `cj`, `taskid`, `cj_queue_enable`, the task heap, the graph
and the per-tile sets. -/
@[ext]
structure cj_State where
  taskid : Int
  cj_queue_enable : Bool
  nworker : Nat
  worker : Nat → cj_Worker
  device : Int → cj_Device
  ready_queue : Nat → List Nat
  time_remaining : Nat → Int
  ntask : Nat
  task : Nat → cj_Task
  vertex : List Nat
  edge : List (Nat × Nat)
  rset : cj_Tile → List Nat
  wset : cj_Tile → List Nat
  dist : cj_Tile → List cj_Distribution
  kernel_log : List Nat
  enqueue_log : List cj_EnqueueCall

open cj_taskStatus cj_rwType cj_objType cj_devType

/-- Tile addressed by a matrix view: `[matrix->offm/BLOCK_SIZE][matrix->offn/BLOCK_SIZE]` of
`matrix->base`. -/
def cj_tile (E : cj_Env) (matrix : cj_Matrix) : cj_Tile :=
  (matrix.base, matrix.offm / E.BLOCK_SIZE, matrix.offn / E.BLOCK_SIZE)

/-- Modelled from the spec: `cj_Object_new(CJ_DISTRIBUTION)` (cj_Object.c is not part of the
sources). A fresh location names the host, device `-1`; `cj.c` pushes such a fresh object as
`dist_cpu`. -/
def cj_Distribution_new : cj_Distribution :=
  { device_id := -1, cache_id := 0 }

/-- Modelled from the spec: `cj_Distribution_set(dist, device, device_id, cache_id)`
(not part of the sources) fills a location with a device and a cache line. -/
def cj_Distribution_set (device_id cache_id : Int) : cj_Distribution :=
  { device_id := device_id, cache_id := cache_id }

/-- Modelled from the spec: `cj_Graph_vertex_add` (cj_Graph.c is not part of the sources)
appends the vertex to the vertex queue that `cj_Queue_begin` walks from its head. -/
def cj_Graph_vertex_add (s : cj_State) (t : Nat) : cj_State :=
  { s with vertex := s.vertex ++ [t] }

/-- Modelled from the spec: `cj_Graph_edge_add` (cj_Graph.c is not part of the sources)
appends the edge `(predecessor, successor)` to the edge queue. -/
def cj_Graph_edge_add (s : cj_State) (e : Nat × Nat) : cj_State :=
  { s with edge := s.edge ++ [e] }

/-- Value of an `int` after an operation that leaves its range: the static `taskid` is an
`int` of 32 bits, and `taskid ++` at `INT_MAX` gives `INT_MIN`. -/
def cj_int (x : Int) : Int :=
  (x + 2147483648) % 4294967296 - 2147483648

/-- Allocation of a task, `cj_Task_new`: returns the new state and the new task. The content of
the field `cost` is whatever `malloc` returned, given here by `uninit_cost`. -/
def cj_Task_new (s : cj_State) (uninit_cost : Int) : cj_State × Nat :=
  ({ s with
      taskid := cj_int (s.taskid + 1)
      ntask := s.ntask + 1
      task := Function.update s.task s.ntask
        { id := s.taskid
          status := NOTREADY
          function := none
          num_dependencies_remaining := 0
          in_ := []
          out := []
          arg := []
          cost := uninit_cost
          worker := none } },
   s.ntask)

/-- Setting the kernel of a task, `cj_Task_set`. -/
def cj_Task_set (s : cj_State) (t : Nat) (function : cj_Function) : cj_State :=
  { s with task := Function.update s.task t { s.task t with function := some function } }

/-- Pushing the arguments of a task: `cj_Dqueue_push_tail(task->task->arg, arg)` of the callers,
once per argument. -/
def cj_Task_push_args (s : cj_State) (t : Nat) (args : List cj_Object) : cj_State :=
  { s with task := Function.update s.task t { s.task t with arg := (s.task t).arg ++ args } }

/-- Recording of one dependency, `cj_Task_dependency_add (out, in)`. -/
def cj_Task_dependency_add (s : cj_State) (out in_ : Nat) : cj_State :=
  let s1 : cj_State :=
    { s with
        task := Function.update s.task out
          { (s.task out) with out := (s.task out).out ++ [in_] } }
  { s1 with
      task := Function.update s1.task in_
        { (s1.task in_) with
            in_ := (s1.task in_).in_ ++ [out]
            num_dependencies_remaining :=
              if (s1.task out).status ≠ DONE then (s1.task in_).num_dependencies_remaining + 1
              else (s1.task in_).num_dependencies_remaining } }

/-- The two inner loops of `cj_Task_dependency_analysis` (`while (now_w)` over the writer set,
`while (now_r)` over the reader set): every member whose id differs from the id of the task gets
an edge to the task. -/
def cj_Task_dependency_link : Nat → List Nat → cj_State → cj_State
  | _, [], s => s
  | t, p :: rest, s =>
    if (s.task p).id ≠ (s.task t).id then
      cj_Task_dependency_link t rest (cj_Task_dependency_add (cj_Graph_edge_add s (p, t)) p t)
    else
      cj_Task_dependency_link t rest s

/-- Read half of the loop body of `cj_Task_dependency_analysis` for an argument on tile `k`
(lines 98 to 113). -/
def cj_Task_dependency_analysis_read (t : Nat) (k : cj_Tile) (rwtype : cj_rwType)
    (s : cj_State) : cj_State :=
  if rwtype = CJ_R ∨ rwtype = CJ_RW then
    let s1 : cj_State := { s with rset := Function.update s.rset k (s.rset k ++ [t]) }
    if (s1.wset k).length > 0 then cj_Task_dependency_link t (s1.wset k) s1 else s1
  else s

/-- Write half of the loop body of `cj_Task_dependency_analysis` for an argument on tile `k`
(lines 114 to 129). -/
def cj_Task_dependency_analysis_write (t : Nat) (k : cj_Tile) (rwtype : cj_rwType)
    (s : cj_State) : cj_State :=
  if rwtype = CJ_W ∨ rwtype = CJ_RW then
    let s1 := cj_Task_dependency_link t (s.rset k) s
    { s1 with
        wset := Function.update s1.wset k [t]
        rset := Function.update s1.rset k [] }
  else s

/-- Loop body of `cj_Task_dependency_analysis` for one argument. -/
def cj_Task_dependency_analysis_arg (E : cj_Env) (t : Nat) (now : cj_Object)
    (s : cj_State) : cj_State :=
  if now.objtype = CJ_MATRIX then
    cj_Task_dependency_analysis_write t (cj_tile E now.matrix) now.rwtype
      (cj_Task_dependency_analysis_read t (cj_tile E now.matrix) now.rwtype s)
  else s

/-- The loop `while (now)` of `cj_Task_dependency_analysis` over the argument list. -/
def cj_Task_dependency_analysis_args (E : cj_Env) (t : Nat) :
    List cj_Object → cj_State → cj_State
  | [], s => s
  | now :: rest, s =>
    cj_Task_dependency_analysis_args E t rest (cj_Task_dependency_analysis_arg E t now s)

/-- Dependency analysis of task `t`, `cj_Task_dependency_analysis`. -/
def cj_Task_dependency_analysis (E : cj_Env) (s : cj_State) (t : Nat) : cj_State :=
  cj_Task_dependency_analysis_args E t (s.task t).arg (cj_Graph_vertex_add s t)

/-- The loop over the arguments in `cj_Worker_estimate_cost`, with the running value of the
local `cost`: `cost += comm_cost` for every matrix argument, where `comm_cost` is
`pci_bandwidth`, or `0.0` when the tile has a location on the device of the worker. -/
def cj_Worker_estimate_comm (E : cj_Env) (s : cj_State) (device_id : Int) :
    List cj_Object → Int → Int
  | [], cost => cost
  | now :: rest, cost =>
    cj_Worker_estimate_comm E s device_id rest
      (if now.objtype = CJ_MATRIX then
        E.fadd cost
          (if (s.dist (cj_tile E now.matrix)).any (fun d => decide (d.device_id = device_id))
            then 0 else E.model.pci_bandwidth)
       else cost)

/-- Cost estimate of a task on a worker, `cj_Worker_estimate_cost`: the loop from `cost = 0.0`,
then `cost += comp_cost`; for a task that is not a GEMM task and for a worker of kind MIC both
are `0.0`. -/
def cj_Worker_estimate_cost (E : cj_Env) (s : cj_State) (task : cj_Task)
    (worker : cj_Worker) : Int :=
  if task.function = some cj_Function.cj_Gemm_nn_task_function then
    if worker.devtype = CJ_DEV_CUDA then
      E.fadd (cj_Worker_estimate_comm E s worker.device_id task.arg 0) E.model.cublas_dgemm
    else if worker.devtype = CJ_DEV_CPU then
      E.fadd (cj_Worker_estimate_comm E s worker.device_id task.arg 0) E.model.mkl_dgemm
    else E.fadd 0 0
  else E.fadd 0 0

/-- Locals of the loop of `cj_Task_enqueue`: `min_time`, the cost written to the task and
`dest`. -/
structure cj_EnqueueScan where
  min_time : Int
  cost : Int
  dest : Nat
  deriving DecidableEq, Repr

/-- The loop `for (i = 1; i < cj.nworker; i++)` of `cj_Task_enqueue`, over the worker ids still
to visit. The sentinel `-1.0` stands for "no candidate yet". -/
def cj_Task_enqueue_scan (E : cj_Env) (s : cj_State) (t : Nat) :
    List Nat → cj_EnqueueScan → cj_EnqueueScan
  | [], acc => acc
  | i :: rest, acc =>
    if acc.min_time = -1 ∨
        E.fadd (s.time_remaining i) (cj_Worker_estimate_cost E s (s.task t) (s.worker i))
          < acc.min_time then
      cj_Task_enqueue_scan E s t rest
        { min_time :=
            E.fadd (s.time_remaining i) (cj_Worker_estimate_cost E s (s.task t) (s.worker i))
          cost := cj_Worker_estimate_cost E s (s.task t) (s.worker i)
          dest := i }
    else
      cj_Task_enqueue_scan E s t rest acc

/-- Result of the loop of `cj_Task_enqueue` for task `t`: workers `1 .. nworker - 1`, starting
from `min_time = -1.0`, `dest = 1` and the cost field the task already has. -/
def cj_Task_enqueue_choice (E : cj_Env) (s : cj_State) (t : Nat) : cj_EnqueueScan :=
  cj_Task_enqueue_scan E s t (List.range' 1 (s.nworker - 1))
    { min_time := -1, cost := (s.task t).cost, dest := 1 }

/-- Assignment of a ready task to a worker, `cj_Task_enqueue`. -/
def cj_Task_enqueue (E : cj_Env) (s : cj_State) (t : Nat) : cj_State :=
  { s with
      task := Function.update s.task t
        { (s.task t) with status := QUEUED, cost := (cj_Task_enqueue_choice E s t).cost }
      time_remaining := Function.update s.time_remaining (cj_Task_enqueue_choice E s t).dest
        (E.fadd (s.time_remaining (cj_Task_enqueue_choice E s t).dest)
          (cj_Task_enqueue_choice E s t).cost)
      ready_queue := Function.update s.ready_queue (cj_Task_enqueue_choice E s t).dest
        (s.ready_queue (cj_Task_enqueue_choice E s t).dest ++ [t])
      enqueue_log := s.enqueue_log ++
        [{ task := t
           status := (s.task t).status
           num_dependencies_remaining := (s.task t).num_dependencies_remaining
           pending := (s.task t).in_.filter (fun p => decide ((s.task p).status ≠ DONE)) }] }

/-- The loop `while (now)` of `cj_Task_dependencies_update` over the successor list. -/
def cj_Task_dependencies_update_loop (E : cj_Env) :
    List Nat → cj_State → Except cj_Error cj_State
  | [], s => .ok s
  | child :: rest, s =>
    if (s.task child).num_dependencies_remaining - 1 < 0 then
      .error cj_Error.negative_dependencies
    else if (s.task child).num_dependencies_remaining - 1 = 0 ∧ (s.task child).status = NOTREADY then
      cj_Task_dependencies_update_loop E rest
        (cj_Task_enqueue E
          { s with
              task := Function.update s.task child
                { (s.task child) with
                    num_dependencies_remaining := (s.task child).num_dependencies_remaining - 1 } }
          child)
    else
      cj_Task_dependencies_update_loop E rest
        { s with
            task := Function.update s.task child
              { (s.task child) with
                  num_dependencies_remaining := (s.task child).num_dependencies_remaining - 1 } }

/-- Completion of task `t`, `cj_Task_dependencies_update`. -/
def cj_Task_dependencies_update (E : cj_Env) (s : cj_State) (t : Nat) :
    Except cj_Error cj_State :=
  match cj_Task_dependencies_update_loop E (s.task t).out s with
  | .error e => .error e
  | .ok s1 => .ok { s1 with task := Function.update s1.task t { (s1.task t) with status := DONE } }

/-- The scan `while (dist_now)` of the staging code: returns `distribution` (the first location
on the device of the worker, if any) and `dist_cpu` (the last host location seen before). -/
def cj_dist_scan (device_id : Int) :
    List cj_Distribution → Option cj_Distribution →
      Option cj_Distribution × Option cj_Distribution
  | [], dist_cpu => (none, dist_cpu)
  | d :: rest, dist_cpu =>
    if d.device_id = device_id then (some d, dist_cpu)
    else if d.device_id = -1 then cj_dist_scan device_id rest (some d)
    else cj_dist_scan device_id rest dist_cpu

/-- Staging, host part (`if (!dist_cpu)`): write back from the device of the head location and
push a host location at the head. -/
def cj_Worker_stage_host (E : cj_Env) (now : cj_Object) (k : cj_Tile)
    (head : cj_Distribution) (dist_cpu : Option cj_Distribution) (s : cj_State) :
    Except cj_Error cj_State :=
  match dist_cpu with
  | some _ => .ok s
  | none =>
    if head.device_id < 0 then .error cj_Error.bad_index
    else
      .ok { s with
              device := Function.update s.device head.device_id
                (E.cj_Cache_write_back (s.device head.device_id) head.cache_id now)
              dist := Function.update s.dist k (cj_Distribution_new :: s.dist k) }

/-- Staging, device part (`if (worker->devtype != CJ_DEV_CPU)`): fetch into the cache of the
device of the worker and push the new location at the head. -/
def cj_Worker_stage_device (E : cj_Env) (worker : cj_Worker) (now : cj_Object) (k : cj_Tile)
    (s : cj_State) : Except cj_Error cj_State :=
  if worker.devtype ≠ CJ_DEV_CPU then
    if worker.device_id < 0 then .error cj_Error.bad_index
    else
      .ok { s with
              device := Function.update s.device worker.device_id
                (E.cj_Cache_fetch (s.device worker.device_id) now).1
              dist := Function.update s.dist k
                (cj_Distribution_set worker.device_id
                  (E.cj_Cache_fetch (s.device worker.device_id) now).2 :: s.dist k) }
  else .ok s

/-- Staging of one argument: the body of the first loop of `cj_Worker_execute`, which is also
the body of the loop of `cj_Worker_fetch`. -/
def cj_Worker_stage_arg (E : cj_Env) (worker : cj_Worker) (now : cj_Object) (s : cj_State) :
    Except cj_Error cj_State :=
  if now.objtype = CJ_MATRIX then
    match cj_dist_scan worker.device_id (s.dist (cj_tile E now.matrix)) none with
    | (some _, _) => .ok s
    | (none, dist_cpu) =>
      match s.dist (cj_tile E now.matrix) with
      | [] => .error cj_Error.null_pointer
      | head :: _ =>
        match cj_Worker_stage_host E now (cj_tile E now.matrix) head dist_cpu s with
        | .error e => .error e
        | .ok s1 => cj_Worker_stage_device E worker now (cj_tile E now.matrix) s1
  else .ok s

/-- Staging of all arguments, `cj_Worker_fetch`, and the first loop of `cj_Worker_execute`. -/
def cj_Worker_fetch (E : cj_Env) (worker : cj_Worker) :
    List cj_Object → cj_State → Except cj_Error cj_State
  | [], s => .ok s
  | now :: rest, s =>
    match cj_Worker_stage_arg E worker now s with
    | .error e => .error e
    | .ok s1 => cj_Worker_fetch E worker rest s1

/-- Modelled from the spec: `cj_Distribution_duplicate(dist_new, dist_now)` (not part of the
sources) copies the device and the cache line of `dist_now`. Here: the location pushed by the
commit loop, a copy of the first location on the device, or a fresh location if there is none. -/
def cj_Distribution_duplicate (device_id : Int) (dist : List cj_Distribution) :
    cj_Distribution :=
  match dist.find? (fun d => decide (d.device_id = device_id)) with
  | some d => d
  | none => cj_Distribution_new

/-- Commit of one argument: the body of the second loop of `cj_Worker_execute`
(lines 486 to 505). -/
def cj_Worker_commit_arg (E : cj_Env) (worker : cj_Worker) (now : cj_Object) (s : cj_State) :
    cj_State :=
  if now.rwtype = CJ_W ∨ now.rwtype = CJ_RW then
    if now.objtype = CJ_MATRIX then
      { s with
          dist := Function.update s.dist (cj_tile E now.matrix)
            [cj_Distribution_duplicate worker.device_id (s.dist (cj_tile E now.matrix))] }
    else s
  else s

/-- The second loop of `cj_Worker_execute` over the argument list. -/
def cj_Worker_commit (E : cj_Env) (worker : cj_Worker) : List cj_Object → cj_State → cj_State
  | [], s => s
  | now :: rest, s => cj_Worker_commit E worker rest (cj_Worker_commit_arg E worker now s)

/-- Marking the task `RUNNING` on worker `w`: the first two assignments of
`cj_Worker_execute`. -/
def cj_Worker_execute_begin (s : cj_State) (t w : Nat) : cj_State :=
  { s with
      task := Function.update s.task t { (s.task t) with status := RUNNING, worker := some w } }

/-- The kernel call `(*task->function)((void *) task)`. Kernels are external and work on the
matrix buffers, which are not part of the state; the call is recorded in the ghost log. -/
def cj_kernel_call (s : cj_State) (t : Nat) : cj_State :=
  { s with kernel_log := s.kernel_log ++ [t] }

/-- Execution of task `t` by worker `w`, `cj_Worker_execute`. -/
def cj_Worker_execute (E : cj_Env) (s : cj_State) (t w : Nat) : Except cj_Error cj_State :=
  match cj_Worker_fetch E (s.worker w) (s.task t).arg (cj_Worker_execute_begin s t w) with
  | .error e => .error e
  | .ok s1 => .ok (cj_Worker_commit E (s.worker w) (s.task t).arg (cj_kernel_call s1 t))

/-- One iteration of the loop of `cj_Worker_entry_point` for worker `id`: pop the head of the
ready queue (`cj_Worker_wait_dqueue`); if there is a task, execute it and update the
dependencies of its successors. -/
def cj_Worker_entry_point_iteration (E : cj_Env) (s : cj_State) (id : Nat) :
    Except cj_Error cj_State :=
  match s.ready_queue id with
  | [] => .ok s
  | t :: rest =>
    match cj_Worker_execute E
        { s with ready_queue := Function.update s.ready_queue id rest } t id with
    | .error e => .error e
    | .ok s1 => cj_Task_dependencies_update E s1 t

/-- The loop of `cj_Queue_begin` over the vertices of the graph. -/
def cj_Queue_begin_loop (E : cj_Env) : List Nat → cj_State → cj_State
  | [], s => s
  | now :: rest, s =>
    if (s.task now).num_dependencies_remaining = 0 ∧ (s.task now).status = NOTREADY then
      cj_Queue_begin_loop E rest (cj_Task_enqueue E s now)
    else
      cj_Queue_begin_loop E rest s

/-- Opening of the queue, `cj_Queue_begin`. -/
def cj_Queue_begin (E : cj_Env) (s : cj_State) : cj_State :=
  cj_Queue_begin_loop E s.vertex { s with cj_queue_enable := true }

/-- Closing of the queue, `cj_Queue_end`. -/
def cj_Queue_end (s : cj_State) : cj_State :=
  { s with cj_queue_enable := false }

/-- Modelled from the spec: the location list of a tile of a freshly allocated base matrix
(the matrix allocation is not part of the sources) is the single host location. -/
def cj_Matrix_dist_init : List cj_Distribution :=
  [cj_Distribution_new]

/-- State set up by `cj_Init` for `nworker` workers: the statics `taskid = 0` and
`cj_queue_enable = FALSE`, empty graph, empty ready queues with `time_remaining = 0.0`, CPU
workers created by `cj_Worker_new` (`device_id = -1`), no device (`cj.ngpu = cj.nmic = 0`). -/
def cj_Init_state (nworker : Nat) : cj_State :=
  { taskid := 0
    cj_queue_enable := false
    nworker := nworker
    worker := fun i => { devtype := CJ_DEV_CPU, id := i, device_id := -1 }
    device := fun _ => { devtype := CJ_DEV_CPU, status := [], last_use := [] }
    ready_queue := fun _ => []
    time_remaining := fun _ => 0
    ntask := 0
    task := fun _ =>
      { id := 0, status := ALLOCATED_ONLY, function := none
        num_dependencies_remaining := 0, in_ := [], out := [], arg := []
        cost := 0, worker := none }
    vertex := []
    edge := []
    rset := fun _ => []
    wset := fun _ => []
    dist := fun _ => cj_Matrix_dist_init
    kernel_log := []
    enqueue_log := [] }

/-- Start of the runtime, `cj_Init(nworker)`: an error if `nworker <= 0`. -/
def cj_Init (nworker : Int) : Except cj_Error cj_State :=
  if nworker ≤ 0 then .error cj_Error.init_nworker
  else .ok (cj_Init_state nworker.toNat)

/-- What the task constructors of the library do before the analysis (`cj_Chol_l_task`):
allocate the task, set its kernel, push its arguments. The new task is `s.ntask`. -/
def cj_prepare (s : cj_State) (function : cj_Function) (args : List cj_Object)
    (uninit_cost : Int) : cj_State :=
  cj_Task_push_args
    (cj_Task_set (cj_Task_new s uninit_cost).1 (cj_Task_new s uninit_cost).2 function)
    (cj_Task_new s uninit_cost).2 args

/-- Submission of one task: the task is created and its dependencies are analysed right
away. -/
def cj_submit (E : cj_Env) (s : cj_State) (function : cj_Function) (args : List cj_Object)
    (uninit_cost : Int) : cj_State :=
  cj_Task_dependency_analysis E (cj_prepare s function args uninit_cost)
    (cj_Task_new s uninit_cost).2

/-- Atomic steps of the runtime. -/
inductive cj_Event where
  | submit (function : cj_Function) (args : List cj_Object) (uninit_cost : Int)
  | queue_begin
  | queue_end
  | worker (id : Nat)
  deriving DecidableEq, Repr

/-- Effect of one atomic step. Worker threads exist for the ids `1 .. nworker - 1` only. -/
def cj_step (E : cj_Env) (s : cj_State) : cj_Event → Except cj_Error cj_State
  | .submit function args uninit_cost => .ok (cj_submit E s function args uninit_cost)
  | .queue_begin => .ok (cj_Queue_begin E s)
  | .queue_end => .ok (cj_Queue_end s)
  | .worker id =>
    if 1 ≤ id ∧ id < s.nworker then cj_Worker_entry_point_iteration E s id
    else .error cj_Error.no_thread

/-- Effect of a sequence of atomic steps. -/
def cj_run (E : cj_Env) : List cj_Event → cj_State → Except cj_Error cj_State
  | [], s => .ok s
  | ev :: rest, s =>
    match cj_step E s ev with
    | .error e => .error e
    | .ok s1 => cj_run E rest s1

/-- States reached from `cj_Init` by atomic steps. -/
inductive cj_Reachable (E : cj_Env) : cj_State → Prop where
  | init (nworker : Int) (s : cj_State) : cj_Init nworker = .ok s → cj_Reachable E s
  | step (s s' : cj_State) (ev : cj_Event) :
      cj_Reachable E s → cj_step E s ev = .ok s' → cj_Reachable E s'

/-! ## Relations and invariants used in the proofs -/

/-- Members of `ps` that get an edge to `t`: those whose id differs from the id of `t`. -/
def cj_linked (s : cj_State) (t : Nat) (ps : List Nat) : List Nat :=
  ps.filter (fun p => decide ((s.task p).id ≠ (s.task t).id))

/-- Number of members of `ps` for which the counter of `t` is incremented. -/
def cj_linked_pending (s : cj_State) (t : Nat) (ps : List Nat) : Nat :=
  (cj_linked s t ps).countP (fun p => decide ((s.task p).status ≠ DONE))

/-- Growth of the graph during the analysis of the arguments of a task: predecessor lists,
successor lists and the edge list are extended at the tail, pending counters, reader sets and
writer sets may change, everything else stays. -/
structure cj_Grows (s s' : cj_State) : Prop where
  taskid : s'.taskid = s.taskid
  cj_queue_enable : s'.cj_queue_enable = s.cj_queue_enable
  nworker : s'.nworker = s.nworker
  worker : s'.worker = s.worker
  device : s'.device = s.device
  ready_queue : s'.ready_queue = s.ready_queue
  time_remaining : s'.time_remaining = s.time_remaining
  ntask : s'.ntask = s.ntask
  vertex : s'.vertex = s.vertex
  dist : s'.dist = s.dist
  kernel_log : s'.kernel_log = s.kernel_log
  enqueue_log : s'.enqueue_log = s.enqueue_log
  task_id : ∀ x, (s'.task x).id = (s.task x).id
  task_status : ∀ x, (s'.task x).status = (s.task x).status
  task_function : ∀ x, (s'.task x).function = (s.task x).function
  task_arg : ∀ x, (s'.task x).arg = (s.task x).arg
  task_cost : ∀ x, (s'.task x).cost = (s.task x).cost
  task_worker : ∀ x, (s'.task x).worker = (s.task x).worker
  task_in : ∀ x, (s.task x).in_ <+: (s'.task x).in_
  task_out : ∀ x, (s.task x).out <+: (s'.task x).out
  edge : s.edge <+: s'.edge

/-- State of the analysis of task `t` at the moment the arguments `pre` have been processed and
the next argument is reached. -/
def cj_analysis_before (E : cj_Env) (s : cj_State) (t : Nat) (pre : List cj_Object) : cj_State :=
  cj_Task_dependency_analysis_args E t pre (cj_Graph_vertex_add s t)

/-- Invariant of the graph part of the state: ids are the allocation indices as `int` values, all task references
are allocated tasks, edges go from an earlier to a later task, and the successor lists, the
predecessor lists and the edge list agree. -/
structure cj_InvGraph (s : cj_State) : Prop where
  taskid_eq : s.taskid = cj_int s.ntask
  id_eq : ∀ a, a < s.ntask → (s.task a).id = cj_int a
  rset_lt : ∀ k a, a ∈ s.rset k → a < s.ntask
  wset_lt : ∀ k a, a ∈ s.wset k → a < s.ntask
  vertex_lt : ∀ a, a ∈ s.vertex → a < s.ntask
  in_lt : ∀ a, a < s.ntask → ∀ p, p ∈ (s.task a).in_ → p < a
  out_lt : ∀ a, a < s.ntask → ∀ c, c ∈ (s.task a).out → a < c ∧ c < s.ntask
  edge_lt : ∀ e, e ∈ s.edge → e.1 < e.2 ∧ e.2 < s.ntask
  adj_out : ∀ p c, p < s.ntask → c < s.ntask → (s.task p).out.count c = s.edge.count (p, c)
  adj_in : ∀ p c, p < s.ntask → c < s.ntask → (s.task c).in_.count p = s.edge.count (p, c)

/-- Steps that do not touch the graph part of the state: the queue operations and the worker
steps leave the id counter, the allocation count, the workers, the vertices, the edges, the
reader and writer sets, and the id, predecessor list, successor list, arguments and kernel of
every task as they are. -/
structure cj_SameGraph (s s' : cj_State) : Prop where
  taskid : s'.taskid = s.taskid
  ntask : s'.ntask = s.ntask
  nworker : s'.nworker = s.nworker
  worker : s'.worker = s.worker
  vertex : s'.vertex = s.vertex
  edge : s'.edge = s.edge
  rset : s'.rset = s.rset
  wset : s'.wset = s.wset
  task_id : ∀ x, (s'.task x).id = (s.task x).id
  task_in : ∀ x, (s'.task x).in_ = (s.task x).in_
  task_out : ∀ x, (s'.task x).out = (s.task x).out
  task_arg : ∀ x, (s'.task x).arg = (s.task x).arg
  task_function : ∀ x, (s'.task x).function = (s.task x).function

/-- Staging and commit only touch the location lists and the devices. -/
structure cj_SameButDist (s s' : cj_State) : Prop where
  taskid : s'.taskid = s.taskid
  cj_queue_enable : s'.cj_queue_enable = s.cj_queue_enable
  nworker : s'.nworker = s.nworker
  worker : s'.worker = s.worker
  ready_queue : s'.ready_queue = s.ready_queue
  time_remaining : s'.time_remaining = s.time_remaining
  ntask : s'.ntask = s.ntask
  task : s'.task = s.task
  vertex : s'.vertex = s.vertex
  edge : s'.edge = s.edge
  rset : s'.rset = s.rset
  wset : s'.wset = s.wset
  kernel_log : s'.kernel_log = s.kernel_log
  enqueue_log : s'.enqueue_log = s.enqueue_log

/-- Number of entries of the predecessor list of `a` whose task is not `DONE`. -/
def cj_pending (s : cj_State) (a : Nat) : Nat :=
  (s.task a).in_.countP (fun p => decide ((s.task p).status ≠ DONE))

/-- Invariant of the ready queues and of the calls of `cj_Task_enqueue`: a task is `QUEUED`
exactly if it is in a ready queue, it is there once, a task that left `NOTREADY` has a zero
counter and is exactly a task that was passed to `cj_Task_enqueue`, which happened once, from
`NOTREADY` with a zero counter. -/
structure cj_InvQueue (s : cj_State) : Prop where
  queue_lt : ∀ i a, a ∈ s.ready_queue i → a < s.ntask
  queued_iff : ∀ a, a < s.ntask → ((s.task a).status = QUEUED ↔ ∃ i, a ∈ s.ready_queue i)
  queue_nodup : ∀ i, (s.ready_queue i).Nodup
  queue_disj : ∀ i j a, a ∈ s.ready_queue i → a ∈ s.ready_queue j → i = j
  ready_cnt : ∀ a, a < s.ntask → (s.task a).status ≠ NOTREADY →
    (s.task a).num_dependencies_remaining = 0
  elog_nodup : (s.enqueue_log.map cj_EnqueueCall.task).Nodup
  elog_pre : ∀ e, e ∈ s.enqueue_log → e.status = NOTREADY ∧ e.num_dependencies_remaining = 0
  elog_iff : ∀ a, a < s.ntask →
    ((s.task a).status ≠ NOTREADY ↔ a ∈ s.enqueue_log.map cj_EnqueueCall.task)
  elog_lt : ∀ e, e ∈ s.enqueue_log → e.task < s.ntask

/-- Invariant of the states between two atomic steps: no task is `RUNNING`, the pending counter
counts the predecessors that are not `DONE`, and the kernel log holds the `DONE` tasks, each
once and after all its predecessors. -/
structure cj_InvRun (s : cj_State) : Prop where
  status_ok : ∀ a, a < s.ntask →
    (s.task a).status = NOTREADY ∨ (s.task a).status = QUEUED ∨ (s.task a).status = DONE
  cnt : ∀ a, a < s.ntask → (s.task a).num_dependencies_remaining = cj_pending s a
  klog_iff : ∀ a, a ∈ s.kernel_log ↔ (a < s.ntask ∧ (s.task a).status = DONE)
  klog_nodup : s.kernel_log.Nodup
  klog_order : ∀ pre t post, s.kernel_log = pre ++ t :: post →
    ∀ p, p ∈ (s.task t).in_ → p ∈ pre

/-- A law of float addition: the sum of two non-negative floats is non-negative. -/
def cj_fadd_nonneg (E : cj_Env) : Prop :=
  ∀ a b : Int, 0 ≤ a → 0 ≤ b → 0 ≤ E.fadd a b

/-- An environment for concrete runs: tiles of side 1, small integer costs, cache operations that leave
the device as it is and stage into line 0. -/
def cj_Env_example : cj_Env :=
  { BLOCK_SIZE := 1
    model := { mkl_dgemm := 2, cublas_dgemm := 1, pci_bandwidth := 3 }
    fadd := fun a b => a + b
    cj_Cache_fetch := fun d _ => (d, 0)
    cj_Cache_write_back := fun d _ _ => d }

/-- A matrix argument on the tile `(base, 0, 0)` with the given access mode. -/
def cj_arg (rwtype : cj_rwType) (base : Nat) : cj_Object :=
  { objtype := CJ_MATRIX, rwtype := rwtype
    matrix := { base := base, offm := 0, offn := 0, m := 1, n := 1 } }

/-- Scenario S1, first task submitted: T1 (task 0) writes tile A (base 0). -/
def cj_S1_one : cj_State :=
  cj_submit cj_Env_example (cj_Init_state 3) (cj_Function.other 0) [cj_arg CJ_W 0] 0

/-- Scenario S1, second task submitted: T2 (task 1) reads A and writes B (base 1). -/
def cj_S1_two : cj_State :=
  cj_submit cj_Env_example cj_S1_one (cj_Function.other 0) [cj_arg CJ_R 0, cj_arg CJ_W 1] 0

/-- Scenario S1, third task submitted: T3 (task 2) reads B and writes C (base 2). -/
def cj_S1_three : cj_State :=
  cj_submit cj_Env_example cj_S1_two (cj_Function.other 0) [cj_arg CJ_R 1, cj_arg CJ_W 2] 0

/-- Scenario S3, first task submitted: T1 (task 0) reads tile A. -/
def cj_S3_one : cj_State :=
  cj_submit cj_Env_example (cj_Init_state 3) (cj_Function.other 0) [cj_arg CJ_R 0] 0

/-- Three submissions on one tile A, where the second and the third task name A twice:
T1 = `[W A]`, T2 = `[R A, W A]`, T3 = `[RW A, R A]`. -/
def cj_same_tile_events : List cj_Event :=
  [cj_Event.submit (cj_Function.other 0) [cj_arg CJ_W 0] 0,
   cj_Event.submit (cj_Function.other 0) [cj_arg CJ_R 0, cj_arg CJ_W 0] 0,
   cj_Event.submit (cj_Function.other 0) [cj_arg CJ_RW 0, cj_arg CJ_R 0] 0]

/-- Scenario S1 as a run with three workers (two executors): T1 writes A, T2 reads A and
writes B, T3 reads B and writes C, all GEMM tasks; then `cj_Queue_begin`, then worker 1 runs
T1, worker 2 runs T2 and worker 1 runs T3. -/
def cj_S1_events : List cj_Event :=
  [cj_Event.submit cj_Function.cj_Gemm_nn_task_function [cj_arg CJ_W 0] 0,
   cj_Event.submit cj_Function.cj_Gemm_nn_task_function [cj_arg CJ_R 0, cj_arg CJ_W 1] 0,
   cj_Event.submit cj_Function.cj_Gemm_nn_task_function [cj_arg CJ_R 1, cj_arg CJ_W 2] 0,
   cj_Event.queue_begin, cj_Event.worker 1, cj_Event.worker 2, cj_Event.worker 1]

/-- An environment with a device cache that stages every tile into line 5. -/
def cj_Env_device : cj_Env :=
  { BLOCK_SIZE := 1
    model := { mkl_dgemm := 2, cublas_dgemm := 1, pci_bandwidth := 3 }
    fadd := fun a b => a + b
    cj_Cache_fetch := fun d _ => (d, 5)
    cj_Cache_write_back := fun d _ _ => d }

/-- A state with a device worker: one task `[RW A]` submitted, worker 1 of kind CUDA on
device 0. -/
def cj_device_state : cj_State :=
  { (cj_submit cj_Env_device (cj_Init_state 2) cj_Function.cj_Gemm_nn_task_function
      [cj_arg CJ_RW 0] 0) with
    worker := fun i =>
      if i = 1 then { devtype := CJ_DEV_CUDA, id := 1, device_id := 0 }
      else { devtype := CJ_DEV_CPU, id := i, device_id := -1 } }

/-- Two GEMM tasks that both write tile A with mode `W`, then `cj_Queue_begin`; worker 2 runs
its task first, then worker 1. -/
def cj_waw_events : List cj_Event :=
  [cj_Event.submit cj_Function.cj_Gemm_nn_task_function [cj_arg CJ_W 0] 0,
   cj_Event.submit cj_Function.cj_Gemm_nn_task_function [cj_arg CJ_W 0] 0,
   cj_Event.queue_begin, cj_Event.worker 2, cj_Event.worker 1]

/-- Tasks of the list `l` that `cj_Queue_begin` finds ready in state `s`: zero counter and status
`NOTREADY`, in the order of `l`. -/
def cj_ready_in (s : cj_State) (l : List Nat) : List Nat :=
  l.filter (fun a =>
    decide ((s.task a).num_dependencies_remaining = 0 ∧ (s.task a).status = NOTREADY))

/-- The state `s` with the flag `cj_queue_enable` set to `b`. -/
def cj_set_enable (b : Bool) (s : cj_State) : cj_State :=
  { s with cj_queue_enable := b }

/-- Two submissions, T1 = `[W A]` and T2 = `[R A]`, then `cj_Queue_begin` and `cj_Queue_end`:
T1 is in the ready queue of worker 1 and the flag `cj_queue_enable` is `FALSE` again. -/
def cj_recording_events : List cj_Event :=
  [cj_Event.submit (cj_Function.other 0) [cj_arg CJ_W 0] 0,
   cj_Event.submit (cj_Function.other 0) [cj_arg CJ_R 0] 0,
   cj_Event.queue_begin, cj_Event.queue_end]

/-- Entries of the predecessor list of `a` whose task is not `DONE` in state `s`: what a call
of `cj_Task_enqueue` for `a` in state `s` records in the field `pending` of the ghost log. -/
def cj_pending_list (s : cj_State) (a : Nat) : List Nat :=
  (s.task a).in_.filter (fun p => decide ((s.task p).status ≠ DONE))

/-- Matrix arguments of task `t` as accesses `(task, argument)`, in the order of the argument
list. -/
def cj_accesses (t : Nat) (args : List cj_Object) : List (Nat × cj_Object) :=
  (args.filter (fun a => decide (a.objtype = CJ_MATRIX))).map (fun a => (t, a))

/-- All accesses of the allocated tasks, in the order in which `cj_Task_dependency_analysis`
has processed them: task after task, argument after argument. -/
def cj_history (s : cj_State) : List (Nat × cj_Object) :=
  (List.range s.ntask).flatMap (fun t => cj_accesses t (s.task t).arg)

/-- Bookkeeping of the specification for one access, on the pair (reader sets, writer sets):
a `W` or `RW` access makes the task the only writer of the tile and clears the reader set; an
`R` access appends the task to the reader set. -/
def cj_spec_sets_step (E : cj_Env)
    (sets : (cj_Tile → List Nat) × (cj_Tile → List Nat)) (x : Nat × cj_Object) :
    (cj_Tile → List Nat) × (cj_Tile → List Nat) :=
  if x.2.rwtype = CJ_R then
    (Function.update sets.1 (cj_tile E x.2.matrix) (sets.1 (cj_tile E x.2.matrix) ++ [x.1]),
     sets.2)
  else
    (Function.update sets.1 (cj_tile E x.2.matrix) [],
     Function.update sets.2 (cj_tile E x.2.matrix) [x.1])

/-- Bookkeeping of the specification for a sequence of accesses. -/
def cj_spec_sets (E : cj_Env) (h : List (Nat × cj_Object))
    (sets : (cj_Tile → List Nat) × (cj_Tile → List Nat)) :
    (cj_Tile → List Nat) × (cj_Tile → List Nat) :=
  h.foldl (cj_spec_sets_step E) sets

/-- Invariant of the runs that start with `cj_Init`: every worker is a host worker
(`device_id = -1`, `cj_Init` creates CPU workers only), every tile has a host location, the
vertex list holds the allocated tasks in the order of their submission, and with at least one
executor the ready queues of the ids without a thread are empty. -/
structure cj_InvHost (s : cj_State) : Prop where
  worker_host : ∀ i, (s.worker i).device_id = -1
  dist_host : ∀ k, ∃ e, e ∈ s.dist k ∧ e.device_id = -1
  vertex_eq : s.vertex = List.range s.ntask
  queue_range : 2 ≤ s.nworker → ∀ i, ¬ (1 ≤ i ∧ i < s.nworker) → s.ready_queue i = []

/-- States of a draining phase: reached by `cj_Queue_begin` from a reachable state and then by
worker steps only (no submission, no `cj_Queue_end`). -/
inductive cj_Draining (E : cj_Env) : cj_State → Prop where
  | begin (s : cj_State) : cj_Reachable E s → cj_Draining E (cj_Queue_begin E s)
  | worker (s s' : cj_State) (id : Nat) :
      cj_Draining E s → cj_step E s (cj_Event.worker id) = .ok s' → cj_Draining E s'

/-- A worker step of `id` is enabled: `id` is an executor (it has a thread) and its ready queue
is not empty, so that the step pops the head, executes it and completes it. -/
def cj_enabled (s : cj_State) (id : Nat) : Prop :=
  (1 ≤ id ∧ id < s.nworker) ∧ s.ready_queue id ≠ []

/-- Whether a worker step is enabled can be computed. -/
instance cj_enabled_decidable (s : cj_State) (id : Nat) : Decidable (cj_enabled s id) :=
  inferInstanceAs (Decidable ((1 ≤ id ∧ id < s.nworker) ∧ s.ready_queue id ≠ []))

/-- What is compared after the analysis of a task `t` under two orders of its arguments: the
reader sets, the writer sets, the pending counter of `t`, and the edges as a multiset. -/
@[ext]
structure cj_Summary where
  rset : cj_Tile → List Nat
  wset : cj_Tile → List Nat
  counter : Int
  edge : Multiset (Nat × Nat)

/-- The summary of a state for task `t`. -/
def cj_summary (s : cj_State) (t : Nat) : cj_Summary :=
  { rset := s.rset
    wset := s.wset
    counter := (s.task t).num_dependencies_remaining
    edge := Multiset.ofList s.edge }

/-- Sources of the edges that the loop body of `cj_Task_dependency_analysis` adds for the
argument `now` of task `t`, given the ids of the tasks and the sets when the argument is
reached: the members of the writer set (mode `R` or `RW`) and of the reader set (mode `W` or
`RW`) of the tile whose id differs from the id of `t`. -/
def cj_arg_sources (E : cj_Env) (id : Nat → Int) (t : Nat) (rset wset : cj_Tile → List Nat)
    (now : cj_Object) : List Nat :=
  if now.objtype = CJ_MATRIX then
    (if now.rwtype = CJ_R ∨ now.rwtype = CJ_RW then
      (wset (cj_tile E now.matrix)).filter (fun p => decide (id p ≠ id t)) else []) ++
    (if now.rwtype = CJ_W ∨ now.rwtype = CJ_RW then
      (rset (cj_tile E now.matrix)).filter (fun p => decide (id p ≠ id t)) else [])
  else []

/-- Effect of the loop body for one argument on the summary, given the ids of the tasks and
which tasks are not `DONE` (`pend`). -/
def cj_summary_step (E : cj_Env) (id : Nat → Int) (pend : Nat → Bool) (t : Nat)
    (A : cj_Summary) (now : cj_Object) : cj_Summary :=
  if now.objtype = CJ_MATRIX then
    { rset := (cj_spec_sets_step E (A.rset, A.wset) (t, now)).1
      wset := (cj_spec_sets_step E (A.rset, A.wset) (t, now)).2
      counter := A.counter + ((cj_arg_sources E id t A.rset A.wset now).countP pend : Nat)
      edge := A.edge +
        Multiset.ofList ((cj_arg_sources E id t A.rset A.wset now).map (fun p => (p, t))) }
  else A

/-- A task built as `cj_Chol_l_task` builds it (kernel `cj_Chol_l_task_function`, one argument
`[RW A]`), in a state whose worker 1 is of kind CUDA on device 0. Tile A is on the host only. -/
def cj_potrf_state : cj_State :=
  { (cj_submit cj_Env_device (cj_Init_state 2) cj_Function.cj_Chol_l_task_function
      [cj_arg CJ_RW 0] 0) with
    worker := fun i =>
      if i = 1 then { devtype := CJ_DEV_CUDA, id := 1, device_id := 0 }
      else { devtype := CJ_DEV_CPU, id := i, device_id := -1 } }

/-- The state `cj_potrf_state` after worker 1 has staged the argument of the task with
`cj_Worker_fetch`: tile A has a copy on device 0. -/
def cj_potrf_staged : cj_State :=
  match cj_Worker_fetch cj_Env_device (cj_potrf_state.worker 1) (cj_potrf_state.task 0).arg
      cj_potrf_state with
  | .ok s => s
  | .error _ => cj_potrf_state

/-- Number of tile arguments in `args` of which device `device_id` holds no copy in state `s`,
counted with multiplicity. -/
def cj_missing (E : cj_Env) (s : cj_State) (device_id : Int) (args : List cj_Object) : Nat :=
  args.countP (fun now => decide (now.objtype = CJ_MATRIX) &&
    !(s.dist (cj_tile E now.matrix)).any (fun d => decide (d.device_id = device_id)))

/-- An argument that is not a matrix: an object of type `CJ_DQUEUE`. -/
def cj_arg_other : cj_Object :=
  { objtype := CJ_DQUEUE, rwtype := CJ_R
    matrix := { base := 0, offm := 0, offn := 0, m := 0, n := 0 } }

/-- A session after `cj_Init(1)`: one GEMM task `[W A]` whose cost field holds 7 when the task
is allocated, then `cj_Queue_begin`. -/
def cj_single_events : List cj_Event :=
  [cj_Event.submit cj_Function.cj_Gemm_nn_task_function [cj_arg CJ_W 0] 7,
   cj_Event.queue_begin]

/-- Messages with which `cj_Chol_l` calls `cj_Lapack_error`, and the two other ways in which
a call into the library does not return: a routine outside the sources stops the process,
or a loop has not ended after the number of iterations the model follows. -/
inductive cj_Message where
  | chol_not_initialized
  | chol_not_matrix
  | chol_not_square
  | library (code : Nat)
  | iterations
  deriving DecidableEq, Repr

/-- A stopped process: the message and the state of the runtime at the stop. -/
structure cj_Abort where
  message : cj_Message
  state : cj_State

/-- Process stop of `cj_Lapack_error`: it prints the message and calls `abort()`, nothing after
the call runs. -/
def cj_Lapack_error {α : Type} (message : cj_Message) (s : cj_State) : Except cj_Abort α :=
  .error { message := message, state := s }

/-- Routines that `cj_Chol_l_blk_var3` calls and that are not part of the sources
(cj_Blas.c): they are parameters of the model. -/
structure cj_Blas where
  cj_Trsm_rlt : cj_Matrix → cj_Matrix → cj_State → Except cj_Abort cj_State
  cj_Syrk_ln : cj_Matrix → cj_Matrix → cj_State → Except cj_Abort cj_State

/-- Modelled from the spec: the views that `cj_Matrix_repart_2x2_to_3x3(..., b, b, CJ_BR)`
gives in `cj_Chol_l_blk_var3` (the partitioning routines are not part of the sources) when
`ATL` is `k × k`: `A11` is the `b × b` block at `(k, k)` of `A`, `A21` the block below it and
`A22` the trailing block. A view is a base, offsets and extents. -/
def cj_Matrix_repart (A : cj_Matrix) (k b : Nat) : cj_Matrix × cj_Matrix × cj_Matrix :=
  ({ base := A.base, offm := A.offm + k, offn := A.offn + k, m := b, n := b },
   { base := A.base, offm := A.offm + k + b, offn := A.offn + k, m := A.m - k - b, n := b },
   { base := A.base, offm := A.offm + k + b, offn := A.offn + k + b,
     m := A.m - k - b, n := A.n - k - b })

/-- Submission of the POTRF task of a block, `cj_Chol_l_task`: a new task with kernel
`cj_Chol_l_task_function` and the one argument `A` of mode `RW`, analysed right away. The
argument `uninit_cost` gives what the cost field of a new task holds. -/
def cj_Chol_l_task (E : cj_Env) (uninit_cost : Nat → Int) (A : cj_Matrix) (s : cj_State) :
    cj_State :=
  cj_submit E s cj_Function.cj_Chol_l_task_function
    [{ objtype := CJ_MATRIX, rwtype := CJ_RW, matrix := A }] (uninit_cost s.ntask)

/-- The loop `while (ATL->matrix->m < A->matrix->m)` of `cj_Chol_l_blk_var3`, with `k` the
extent of `ATL`; `fuel` bounds the number of iterations followed. -/
def cj_Chol_l_blk_var3_loop (E : cj_Env) (B : cj_Blas) (uninit_cost : Nat → Int)
    (A : cj_Matrix) : Nat → Nat → cj_State → Except cj_Abort cj_State
  | 0, k, s =>
    if k < A.m then .error { message := cj_Message.iterations, state := s } else .ok s
  | fuel + 1, k, s =>
    if k < A.m then
      match B.cj_Trsm_rlt (cj_Matrix_repart A k (min (A.m - k) E.BLOCK_SIZE)).1
          (cj_Matrix_repart A k (min (A.m - k) E.BLOCK_SIZE)).2.1
          (cj_Chol_l_task E uninit_cost
            (cj_Matrix_repart A k (min (A.m - k) E.BLOCK_SIZE)).1 s) with
      | .error e => .error e
      | .ok s1 =>
        match B.cj_Syrk_ln (cj_Matrix_repart A k (min (A.m - k) E.BLOCK_SIZE)).2.1
            (cj_Matrix_repart A k (min (A.m - k) E.BLOCK_SIZE)).2.2 s1 with
        | .error e => .error e
        | .ok s2 =>
          cj_Chol_l_blk_var3_loop E B uninit_cost A fuel (k + min (A.m - k) E.BLOCK_SIZE) s2
    else .ok s

/-- Blocked Cholesky factorisation, `cj_Chol_l_blk_var3`: the loop started with an empty
`ATL`. -/
def cj_Chol_l_blk_var3 (E : cj_Env) (B : cj_Blas) (uninit_cost : Nat → Int) (fuel : Nat)
    (A : cj_Matrix) (s : cj_State) : Except cj_Abort cj_State :=
  cj_Chol_l_blk_var3_loop E B uninit_cost A fuel 0 s

/-- Entry point `cj_Chol_l(A)`. The argument is `none` for a null pointer, `some none` for
an object whose field `matrix` is null and `some (some a)` for an object with the matrix `a`.
The three checks come first; then `cj_Queue_end`, `cj_Chol_l_blk_var3`, `cj_Queue_begin`. -/
def cj_Chol_l (E : cj_Env) (B : cj_Blas) (uninit_cost : Nat → Int) (fuel : Nat)
    (A : Option (Option cj_Matrix)) (s : cj_State) : Except cj_Abort cj_State :=
  match A with
  | none => cj_Lapack_error cj_Message.chol_not_initialized s
  | some none => cj_Lapack_error cj_Message.chol_not_matrix s
  | some (some a) =>
    if a.m ≠ a.n then cj_Lapack_error cj_Message.chol_not_square s
    else
      match cj_Chol_l_blk_var3 E B uninit_cost fuel a (cj_Queue_end s) with
      | .error e => .error e
      | .ok s1 => .ok (cj_Queue_begin E s1)

/-- An instance of the routines of cj_Blas.c for the examples: each routine submits one task
on its two operands (read the first, update the second) and returns. -/
def cj_Blas_example : cj_Blas :=
  { cj_Trsm_rlt := fun A B s =>
      .ok (cj_submit cj_Env_example s (cj_Function.other 1)
        [{ objtype := CJ_MATRIX, rwtype := CJ_R, matrix := A },
         { objtype := CJ_MATRIX, rwtype := CJ_RW, matrix := B }] 0)
    cj_Syrk_ln := fun A C s =>
      .ok (cj_submit cj_Env_example s (cj_Function.other 2)
        [{ objtype := CJ_MATRIX, rwtype := CJ_R, matrix := A },
         { objtype := CJ_MATRIX, rwtype := CJ_RW, matrix := C }] 0) }

/-- A view of `m` rows and `n` columns at the origin of the base matrix 0. -/
def cj_Matrix_example (m n : Nat) : cj_Matrix :=
  { base := 0, offm := 0, offn := 0, m := m, n := n }

/-- The loop `while (condition)` of `cj_Worker_entry_point` for worker `id`, followed for at
most `fuel` iterations while no other thread takes a step. No statement of the body assigns
`condition`. The result is `some s` when the loop has ended in state `s` (the function
returns `NULL`) and `none` when it is still running after `fuel` iterations. -/
def cj_Worker_entry_point_loop (E : cj_Env) (id : Nat) :
    Nat → Int → cj_State → Except cj_Error (Option cj_State)
  | 0, condition, s => if condition ≠ 0 then .ok none else .ok (some s)
  | fuel + 1, condition, s =>
    if condition ≠ 0 then
      match cj_Worker_entry_point_iteration E s id with
      | .error e => .error e
      | .ok s1 => cj_Worker_entry_point_loop E id fuel condition s1
    else .ok (some s)

/-- Thread function of worker `id`, `cj_Worker_entry_point`: `condition = 1`, then the
loop. -/
def cj_Worker_entry_point (E : cj_Env) (id fuel : Nat) (s : cj_State) :
    Except cj_Error (Option cj_State) :=
  cj_Worker_entry_point_loop E id fuel 1 s

/-- The loop `for (i = 1; i < cj.nworker; i++)` of `cj_Term` over the worker ids still to
join: `pthread_join` completes when the thread function of the worker has returned. The
result is `none` when a join has not completed. -/
def cj_Term_join (E : cj_Env) (fuel : Nat) : List Nat → cj_State →
    Except cj_Error (Option cj_State)
  | [], s => .ok (some s)
  | i :: rest, s =>
    match cj_Worker_entry_point E i fuel s with
    | .error e => .error e
    | .ok none => .ok none
    | .ok (some s1) => cj_Term_join E fuel rest s1

/-- What a call of `cj_Term` has done: the graph written by `cj_Graph_output_dot` (vertices
and edges) and whether the call has returned. -/
structure cj_TermOutcome where
  graph : List Nat × List (Nat × Nat)
  returned : Bool
  deriving DecidableEq, Repr

/-- End of the session, `cj_Term`: first `cj_Graph_output_dot`, then the joins of the
threads of the workers `1 .. nworker - 1`. -/
def cj_Term (E : cj_Env) (fuel : Nat) (s : cj_State) : Except cj_Error cj_TermOutcome :=
  match cj_Term_join E fuel (List.range' 1 (s.nworker - 1)) s with
  | .error e => .error e
  | .ok none => .ok { graph := (s.vertex, s.edge), returned := false }
  | .ok (some _) => .ok { graph := (s.vertex, s.edge), returned := true }

/-- An environment in which the GEMM coefficient of both device kinds is `c` and a transfer
costs nothing: every GEMM task has the estimate `c` on every CPU or CUDA worker. -/
def cj_Env_cost (c : Int) : cj_Env :=
  { BLOCK_SIZE := 1
    model := { mkl_dgemm := c, cublas_dgemm := c, pci_bandwidth := 0 }
    fadd := fun a b => a + b
    cj_Cache_fetch := fun d _ => (d, 0)
    cj_Cache_write_back := fun d _ _ => d }

/-- The ready queues of the two executors, workers 1 and 2, at the end of a run. -/
def cj_queues (r : Except cj_Error cj_State) : Option (List Nat × List Nat) :=
  match r with
  | .ok s => some (s.ready_queue 1, s.ready_queue 2)
  | .error _ => none

/-- Scenario S1 with every task run by worker 1: the three submissions, `cj_Queue_begin`, then
three steps of worker 1. -/
def cj_chain_events : List cj_Event :=
  [cj_Event.submit cj_Function.cj_Gemm_nn_task_function [cj_arg CJ_W 0] 0,
   cj_Event.submit cj_Function.cj_Gemm_nn_task_function [cj_arg CJ_R 0, cj_arg CJ_W 1] 0,
   cj_Event.submit cj_Function.cj_Gemm_nn_task_function [cj_arg CJ_R 1, cj_arg CJ_W 2] 0,
   cj_Event.queue_begin, cj_Event.worker 1, cj_Event.worker 1, cj_Event.worker 1]

/-- All expected finish times are zero and only worker 1 has been given tasks. -/
def cj_InvZero (s : cj_State) : Prop :=
  2 ≤ s.nworker ∧ (∀ i, s.time_remaining i = 0) ∧ ∀ i, i ≠ 1 → s.ready_queue i = []

/-- A long recording: `n` submissions of a task without arguments. -/
def cj_many_events (n : Nat) : List cj_Event :=
  List.replicate n (cj_Event.submit (cj_Function.other 0) [] 0)

/-- Number of low bits that a natural number loses when it is stored in a `float`: the number
of halvings that bring it below `2 ^ 24`, for numbers below `2 ^ 128`. -/
def cj_float_shift : Nat → Nat → Nat
  | 0, _ => 0
  | fuel + 1, n => if n < 2 ^ 24 then 0 else cj_float_shift fuel (n / 2) + 1

/-- Rounding of a natural number to the nearest `float` (24 bits of mantissa, ties to the even
mantissa): numbers below `2 ^ 24` are floats; above, the low bits are rounded away. -/
def cj_float_round (n : Nat) : Nat :=
  if 2 * (n % 2 ^ cj_float_shift 128 n) > 2 ^ cj_float_shift 128 n ∨
      (2 * (n % 2 ^ cj_float_shift 128 n) = 2 ^ cj_float_shift 128 n ∧
        (n / 2 ^ cj_float_shift 128 n) % 2 = 1) then
    (n / 2 ^ cj_float_shift 128 n + 1) * 2 ^ cj_float_shift 128 n
  else (n / 2 ^ cj_float_shift 128 n) * 2 ^ cj_float_shift 128 n

/-- Addition of two `float` values that are integers, as IEEE 754 single precision computes it
below the overflow threshold: the exact sum rounded to the nearest float. -/
def cj_fadd32 (a b : Int) : Int :=
  if 0 ≤ a + b then (cj_float_round (a + b).toNat : Int)
  else -(cj_float_round (-(a + b)).toNat : Int)

/-- An environment with single precision addition and coefficients near `2 ^ 24`. -/
def cj_Env_float32 : cj_Env :=
  { BLOCK_SIZE := 1
    model := { mkl_dgemm := 16777215, cublas_dgemm := 16777216, pci_bandwidth := 1 }
    fadd := cj_fadd32
    cj_Cache_fetch := fun d _ => (d, 5)
    cj_Cache_write_back := fun d _ _ => d }

/-- The local `cost` of `cj_Worker_estimate_cost` after `k` transfer terms have been added to
`cost`, one `cost += comm_cost` at a time. -/
def cj_transfer_sum (E : cj_Env) (cost : Int) (k : Nat) : Int :=
  (fun x => E.fadd x E.model.pci_bandwidth)^[k] cost

/-- A law of float addition: the sum is monotone in its first argument. -/
def cj_fadd_mono (E : cj_Env) : Prop :=
  ∀ a b c : Int, a ≤ b → E.fadd a c ≤ E.fadd b c

/-- The state `cj_device_state` after worker 1 has staged the argument of the task with
`cj_Worker_fetch`: tile A has a copy on device 0. -/
def cj_device_staged : cj_State :=
  match cj_Worker_fetch cj_Env_device (cj_device_state.worker 1) (cj_device_state.task 0).arg
      cj_device_state with
  | .ok s => s
  | .error _ => cj_device_state

/-- First critical section of `cj_Task_dependency_add (out, in)` (cj.c:143-147, under the lock
of `out`): `in` is appended to the successor list of `out`. -/
def cj_Task_dependency_add_out (s : cj_State) (out in_ : Nat) : cj_State :=
  { s with
      task := Function.update s.task out
        { (s.task out) with out := (s.task out).out ++ [in_] } }

/-- Second critical section of `cj_Task_dependency_add (out, in)` (cj.c:150-155, under the lock
of `in`): `out` is appended to the predecessor list of `in`, and the counter of `in` is raised
if `out` is not `DONE`. -/
def cj_Task_dependency_add_in (s : cj_State) (out in_ : Nat) : cj_State :=
  { s with
      task := Function.update s.task in_
        { (s.task in_) with
            in_ := (s.task in_).in_ ++ [out]
            num_dependencies_remaining :=
              if (s.task out).status ≠ DONE then (s.task in_).num_dependencies_remaining + 1
              else (s.task in_).num_dependencies_remaining } }

/-- The state after `cj_Init(2)`, the submission of T1 = `[W A]` and `cj_Queue_begin`: T1 is in
the ready queue of worker 1. -/
def cj_race_start : cj_State :=
  cj_Queue_begin cj_Env_example
    (cj_submit cj_Env_example (cj_Init_state 2) cj_Function.cj_Gemm_nn_task_function
      [cj_arg CJ_W 0] 0)

/-- The submission of T2 = `[R A]` from `cj_race_start`, stopped between the two critical
sections of `cj_Task_dependency_add (T1, T2)`: T2 has been created, its vertex added, T2
pushed to the reader set of tile A, the edge T1 → T2 added to the graph and T2 appended to the
successor list of T1; the predecessor list and the counter of T2 are not yet written. -/
def cj_race_state : cj_State :=
  cj_Task_dependency_add_out
    (cj_Graph_edge_add
      { (cj_Graph_vertex_add
          (cj_prepare cj_race_start cj_Function.cj_Gemm_nn_task_function [cj_arg CJ_R 0] 0) 1)
        with rset := Function.update cj_race_start.rset (0, 0, 0) [1] }
      (0, 1))
    0 1

/-- One iteration of the loop of `cj_Worker_entry_point` for worker `id`, stopped at the end of
the loop of `cj_Task_dependencies_update` (cj.c:193-212), before `task->status = DONE`
(cj.c:213), which is written with no lock held. -/
def cj_Worker_entry_point_before_done (E : cj_Env) (s : cj_State) (id : Nat) :
    Except cj_Error cj_State :=
  match s.ready_queue id with
  | [] => .ok s
  | t :: rest =>
    match cj_Worker_execute E
        { s with ready_queue := Function.update s.ready_queue id rest } t id with
    | .error e => .error e
    | .ok s1 => cj_Task_dependencies_update_loop E (s1.task t).out s1

/-- Two tasks and a common successor: T1 = `[W A]`, T2 = `[W B]`, T3 = `[R A, R B]`, then
`cj_Queue_begin`: T1 is enqueued to worker 1 and T2 to worker 2. -/
def cj_join_events : List cj_Event :=
  [cj_Event.submit cj_Function.cj_Gemm_nn_task_function [cj_arg CJ_W 0] 0,
   cj_Event.submit cj_Function.cj_Gemm_nn_task_function [cj_arg CJ_W 1] 0,
   cj_Event.submit cj_Function.cj_Gemm_nn_task_function [cj_arg CJ_R 0, cj_arg CJ_R 1] 0,
   cj_Event.queue_begin]

/-! # Theorems -/

/-! ## Dependency analysis: lemmas -/

/-- Per-task fields after `cj_Task_dependency_add`. -/
theorem cj_Task_dependency_add_task (s : cj_State) (p t x : Nat) (hpt : p ≠ t) :
    ((cj_Task_dependency_add s p t).task x) =
      if x = t then
        { (s.task t) with
            in_ := (s.task t).in_ ++ [p]
            num_dependencies_remaining :=
              if (s.task p).status ≠ DONE then (s.task t).num_dependencies_remaining + 1
              else (s.task t).num_dependencies_remaining }
      else if x = p then { (s.task p) with out := (s.task p).out ++ [t] }
      else s.task x := by
  unfold cj_Task_dependency_add
  by_cases hxt : x = t
  · subst hxt
    simp [Function.update_apply, hpt, Ne.symm hpt]
  · by_cases hxp : x = p
    · subst hxp
      simp [Function.update_apply, hxt]
    · simp [Function.update_apply, hxt, hxp]

theorem cj_linked_ne (s : cj_State) (t : Nat) (ps : List Nat) : t ∉ cj_linked s t ps := by
  simp [cj_linked]

/-- Closed form of the linking loop. -/
theorem cj_Task_dependency_link_eq (t : Nat) (ps : List Nat) (s : cj_State) :
    cj_Task_dependency_link t ps s =
      { s with
          edge := s.edge ++ (cj_linked s t ps).map (fun p => (p, t))
          task := fun x =>
            { (s.task x) with
                in_ := if x = t then (s.task x).in_ ++ cj_linked s t ps else (s.task x).in_
                out := (s.task x).out ++ List.replicate ((cj_linked s t ps).count x) t
                num_dependencies_remaining :=
                  if x = t then (s.task x).num_dependencies_remaining + cj_linked_pending s t ps
                  else (s.task x).num_dependencies_remaining } } := by
  induction ps generalizing s with
  | nil =>
    simp [cj_Task_dependency_link, cj_linked, cj_linked_pending]
  | cons p rest ih =>
    unfold cj_Task_dependency_link
    by_cases hid : (s.task p).id ≠ (s.task t).id
    · have hpt : p ≠ t := fun h => hid (by rw [h])
      rw [if_pos hid, ih]
      have htask : ∀ x, (cj_Task_dependency_add (cj_Graph_edge_add s (p, t)) p t).task x =
          if x = t then
            { (s.task t) with
                in_ := (s.task t).in_ ++ [p]
                num_dependencies_remaining :=
                  if (s.task p).status ≠ DONE then (s.task t).num_dependencies_remaining + 1
                  else (s.task t).num_dependencies_remaining }
          else if x = p then { (s.task p) with out := (s.task p).out ++ [t] }
          else s.task x := by
        intro x
        rw [cj_Task_dependency_add_task _ _ _ _ hpt]
        rfl
      have hidx : ∀ x, ((cj_Task_dependency_add (cj_Graph_edge_add s (p, t)) p t).task x).id
          = (s.task x).id := by
        intro x; rw [htask]; split_ifs with h1 h2 <;> simp [*]
      have hstx : ∀ x, ((cj_Task_dependency_add (cj_Graph_edge_add s (p, t)) p t).task x).status
          = (s.task x).status := by
        intro x; rw [htask]; split_ifs with h1 h2 <;> simp [*]
      have hL : cj_linked (cj_Task_dependency_add (cj_Graph_edge_add s (p, t)) p t) t rest
          = cj_linked s t rest := by
        simp only [cj_linked, hidx]
      have hP : cj_linked_pending (cj_Task_dependency_add (cj_Graph_edge_add s (p, t)) p t) t rest
          = cj_linked_pending s t rest := by
        simp only [cj_linked_pending, hL, hstx]
      have hL2 : cj_linked s t (p :: rest) = p :: cj_linked s t rest := by
        simp [cj_linked, hid]
      have hP2 : cj_linked_pending s t (p :: rest)
          = (if (s.task p).status ≠ DONE then 1 else 0) + cj_linked_pending s t rest := by
        simp only [cj_linked_pending, hL2, List.countP_cons]
        split_ifs <;> simp_all
        omega
      rw [hL, hP, hL2, hP2]
      have hedge : (cj_Task_dependency_add (cj_Graph_edge_add s (p, t)) p t).edge
          = s.edge ++ [(p, t)] := by
        simp [cj_Task_dependency_add, cj_Graph_edge_add]
      have hrest : ∀ s1 : cj_State, s1 = cj_Task_dependency_add (cj_Graph_edge_add s (p, t)) p t →
          s1.taskid = s.taskid ∧ s1.cj_queue_enable = s.cj_queue_enable ∧ s1.nworker = s.nworker ∧
          s1.worker = s.worker ∧ s1.device = s.device ∧ s1.ready_queue = s.ready_queue ∧
          s1.time_remaining = s.time_remaining ∧ s1.ntask = s.ntask ∧ s1.vertex = s.vertex ∧
          s1.rset = s.rset ∧ s1.wset = s.wset ∧ s1.dist = s.dist ∧
          s1.kernel_log = s.kernel_log ∧ s1.enqueue_log = s.enqueue_log := by
        intro s1 h; subst h
        simp [cj_Task_dependency_add, cj_Graph_edge_add]
      obtain ⟨h1, h2, h3, h4, h5, h6, h7, h8, h9, h10, h11, h12, h13, h14⟩ := hrest _ rfl
      apply cj_State.ext <;> simp only [h1, h2, h3, h4, h5, h6, h7, h8, h9, h10, h11, h12, h13, h14, hedge]
      · funext x
        rw [htask]
        by_cases hxt : x = t
        · subst hxt
          simp only [if_true, List.count_cons, List.append_assoc]
          apply cj_Task.ext <;> simp [hpt, Ne.symm hpt]
          · split_ifs <;> omega
        · by_cases hxp : x = p
          · subst hxp
            apply cj_Task.ext <;> simp [hxt, List.replicate_succ]
          · apply cj_Task.ext <;> simp [hxt, hxp, Ne.symm hxp]
      · simp
    · rw [if_neg hid, ih]
      have hL2 : cj_linked s t (p :: rest) = cj_linked s t rest := by
        simp only [cj_linked]
        rw [List.filter_cons_of_neg]
        simpa using hid
      have hP2 : cj_linked_pending s t (p :: rest) = cj_linked_pending s t rest := by
        simp only [cj_linked_pending, hL2]
      rw [hL2, hP2]

/-- The read half is the linking loop over the writer set, after the push onto the reader set. -/
theorem cj_Task_dependency_analysis_read_eq (t : Nat) (k : cj_Tile) (rwtype : cj_rwType)
    (s : cj_State) (h : rwtype = CJ_R ∨ rwtype = CJ_RW) :
    cj_Task_dependency_analysis_read t k rwtype s =
      cj_Task_dependency_link t (s.wset k)
        { s with rset := Function.update s.rset k (s.rset k ++ [t]) } := by
  unfold cj_Task_dependency_analysis_read
  rw [if_pos h]
  by_cases hl : (s.wset k).length > 0
  · simp [hl]
  · have : s.wset k = [] := by
      cases hw : s.wset k with
      | nil => rfl
      | cons a l => simp [hw] at hl
    simp [this, cj_Task_dependency_link]

theorem cj_Task_dependency_analysis_write_skip (t : Nat) (k : cj_Tile) (rwtype : cj_rwType)
    (s : cj_State) (h : rwtype = CJ_R) :
    cj_Task_dependency_analysis_write t k rwtype s = s := by
  subst h
  simp [cj_Task_dependency_analysis_write]

theorem cj_Grows_refl (s : cj_State) : cj_Grows s s := by
  constructor <;> intros <;> rfl

theorem cj_Grows_trans {s1 s2 s3 : cj_State} (h12 : cj_Grows s1 s2) (h23 : cj_Grows s2 s3) :
    cj_Grows s1 s3 where
  taskid := h23.taskid.trans h12.taskid
  cj_queue_enable := h23.cj_queue_enable.trans h12.cj_queue_enable
  nworker := h23.nworker.trans h12.nworker
  worker := h23.worker.trans h12.worker
  device := h23.device.trans h12.device
  ready_queue := h23.ready_queue.trans h12.ready_queue
  time_remaining := h23.time_remaining.trans h12.time_remaining
  ntask := h23.ntask.trans h12.ntask
  vertex := h23.vertex.trans h12.vertex
  dist := h23.dist.trans h12.dist
  kernel_log := h23.kernel_log.trans h12.kernel_log
  enqueue_log := h23.enqueue_log.trans h12.enqueue_log
  task_id := fun x => (h23.task_id x).trans (h12.task_id x)
  task_status := fun x => (h23.task_status x).trans (h12.task_status x)
  task_function := fun x => (h23.task_function x).trans (h12.task_function x)
  task_arg := fun x => (h23.task_arg x).trans (h12.task_arg x)
  task_cost := fun x => (h23.task_cost x).trans (h12.task_cost x)
  task_worker := fun x => (h23.task_worker x).trans (h12.task_worker x)
  task_in := fun x => (h12.task_in x).trans (h23.task_in x)
  task_out := fun x => (h12.task_out x).trans (h23.task_out x)
  edge := h12.edge.trans h23.edge

theorem cj_Grows_link (t : Nat) (ps : List Nat) (s : cj_State) :
    cj_Grows s (cj_Task_dependency_link t ps s) := by
  rw [cj_Task_dependency_link_eq]
  constructor <;> intros <;> first | rfl | skip
  · rename_i x
    by_cases hx : x = t <;> simp [hx]
  · simp
  · simp

theorem cj_Grows_sets (s : cj_State) (r w : cj_Tile → List Nat) :
    cj_Grows s { s with rset := r, wset := w } := by
  constructor <;> intros <;> rfl

theorem cj_Grows_read (t : Nat) (k : cj_Tile) (rwtype : cj_rwType) (s : cj_State) :
    cj_Grows s (cj_Task_dependency_analysis_read t k rwtype s) := by
  by_cases h : rwtype = CJ_R ∨ rwtype = CJ_RW
  · rw [cj_Task_dependency_analysis_read_eq _ _ _ _ h]
    exact cj_Grows_trans (cj_Grows_sets s _ s.wset) (cj_Grows_link _ _ _)
  · simp only [cj_Task_dependency_analysis_read, if_neg h]
    exact cj_Grows_refl s

theorem cj_Grows_write (t : Nat) (k : cj_Tile) (rwtype : cj_rwType) (s : cj_State) :
    cj_Grows s (cj_Task_dependency_analysis_write t k rwtype s) := by
  by_cases h : rwtype = CJ_W ∨ rwtype = CJ_RW
  · simp only [cj_Task_dependency_analysis_write, if_pos h]
    exact cj_Grows_trans (cj_Grows_link t (s.rset k) s) (cj_Grows_sets _ _ _)
  · simp only [cj_Task_dependency_analysis_write, if_neg h]
    exact cj_Grows_refl s

theorem cj_Grows_arg (E : cj_Env) (t : Nat) (now : cj_Object) (s : cj_State) :
    cj_Grows s (cj_Task_dependency_analysis_arg E t now s) := by
  unfold cj_Task_dependency_analysis_arg
  split_ifs
  · exact cj_Grows_trans (cj_Grows_read _ _ _ _) (cj_Grows_write _ _ _ _)
  · exact cj_Grows_refl s

theorem cj_Grows_args (E : cj_Env) (t : Nat) (args : List cj_Object) (s : cj_State) :
    cj_Grows s (cj_Task_dependency_analysis_args E t args s) := by
  induction args generalizing s with
  | nil => exact cj_Grows_refl s
  | cons now rest ih =>
    exact cj_Grows_trans (cj_Grows_arg E t now s) (ih _)

/-- The argument loop processes a list of arguments one part after the other. -/
theorem cj_Task_dependency_analysis_args_append (E : cj_Env) (t : Nat)
    (l1 l2 : List cj_Object) (s : cj_State) :
    cj_Task_dependency_analysis_args E t (l1 ++ l2) s =
      cj_Task_dependency_analysis_args E t l2 (cj_Task_dependency_analysis_args E t l1 s) := by
  induction l1 generalizing s with
  | nil => rfl
  | cons now rest ih => exact ih _

theorem cj_linked_pending_eq (s : cj_State) (t : Nat) (ps : List Nat) :
    cj_linked_pending s t ps =
      ps.countP (fun p => decide ((s.task p).id ≠ (s.task t).id ∧ (s.task p).status ≠ DONE)) := by
  unfold cj_linked_pending cj_linked
  rw [List.countP_filter]
  congr 1
  funext p
  simp [Bool.and_comm]

/-- What the linking loop does for a member `p` of the list whose id differs from the id of
`t`: the edge and both list entries exist afterwards. -/
theorem cj_Task_dependency_link_mem (t p : Nat) (ps : List Nat) (s : cj_State)
    (hp : p ∈ ps) (hid : (s.task p).id ≠ (s.task t).id) :
    t ∈ ((cj_Task_dependency_link t ps s).task p).out ∧
    p ∈ ((cj_Task_dependency_link t ps s).task t).in_ ∧
    (p, t) ∈ (cj_Task_dependency_link t ps s).edge := by
  have hL : p ∈ cj_linked s t ps := by
    simp [cj_linked, hp, hid]
  rw [cj_Task_dependency_link_eq]
  refine ⟨?_, ?_, ?_⟩
  · simp only [List.mem_append, List.mem_replicate]
    right
    exact ⟨fun h => (List.count_eq_zero.mp h) hL, trivial⟩
  · simp [hL]
  · simp [hL]

/-- Counter of `t` after the linking loop. -/
theorem cj_Task_dependency_link_counter (t : Nat) (ps : List Nat) (s : cj_State) :
    ((cj_Task_dependency_link t ps s).task t).num_dependencies_remaining =
      (s.task t).num_dependencies_remaining +
        ps.countP (fun p => decide ((s.task p).id ≠ (s.task t).id ∧ (s.task p).status ≠ DONE)) := by
  rw [cj_Task_dependency_link_eq, ← cj_linked_pending_eq]
  simp

theorem cj_Task_dependency_link_rset (t : Nat) (ps : List Nat) (s : cj_State) :
    (cj_Task_dependency_link t ps s).rset = s.rset ∧
    (cj_Task_dependency_link t ps s).wset = s.wset := by
  rw [cj_Task_dependency_link_eq]
  exact ⟨rfl, rfl⟩

/-- A task that is in the reader set of tile `k` stays there while further arguments are
processed, unless one of them is a `W` or `RW` argument on `k`. -/
theorem cj_Task_dependency_analysis_args_rset (E : cj_Env) (t x : Nat) (k : cj_Tile)
    (args : List cj_Object) (s : cj_State) (hx : x ∈ s.rset k) :
    x ∈ (cj_Task_dependency_analysis_args E t args s).rset k ∨
    ∃ b ∈ args, b.objtype = CJ_MATRIX ∧ cj_tile E b.matrix = k ∧
      (b.rwtype = CJ_W ∨ b.rwtype = CJ_RW) := by
  induction args generalizing s with
  | nil => exact Or.inl hx
  | cons now rest ih =>
    by_cases hclear : now.objtype = CJ_MATRIX ∧ cj_tile E now.matrix = k ∧
        (now.rwtype = CJ_W ∨ now.rwtype = CJ_RW)
    · exact Or.inr ⟨now, List.mem_cons_self _ _, hclear⟩
    · have hkeep : x ∈ (cj_Task_dependency_analysis_arg E t now s).rset k := by
        unfold cj_Task_dependency_analysis_arg
        by_cases hm : now.objtype = CJ_MATRIX
        · rw [if_pos hm]
          have h1 : x ∈ (cj_Task_dependency_analysis_read t (cj_tile E now.matrix) now.rwtype
              s).rset k := by
            by_cases hr : now.rwtype = CJ_R ∨ now.rwtype = CJ_RW
            · rw [cj_Task_dependency_analysis_read_eq _ _ _ _ hr,
                (cj_Task_dependency_link_rset _ _ _).1]
              by_cases hk : k = cj_tile E now.matrix
              · subst hk; simp [hx]
              · simp [Function.update_apply, hk, hx]
            · simp only [cj_Task_dependency_analysis_read, if_neg hr]
              exact hx
          by_cases hwr : now.rwtype = CJ_W ∨ now.rwtype = CJ_RW
          · have hk : k ≠ cj_tile E now.matrix := fun h => hclear ⟨hm, h.symm, hwr⟩
            simp only [cj_Task_dependency_analysis_write, if_pos hwr]
            simp only [Function.update_apply, hk, if_false]
            rw [(cj_Task_dependency_link_rset _ _ _).1]
            exact h1
          · simp only [cj_Task_dependency_analysis_write, if_neg hwr]
            exact h1
        · rw [if_neg hm]; exact hx
      rcases ih _ hkeep with h | ⟨b, hb, hb2⟩
      · exact Or.inl h
      · exact Or.inr ⟨b, List.mem_cons_of_mem _ hb, hb2⟩

/-- Decomposition of the analysis at an argument: the arguments before it, its read half, its
write half, the arguments after it. -/
theorem cj_Task_dependency_analysis_split (E : cj_Env) (s : cj_State) (t : Nat)
    (pre post : List cj_Object) (a : cj_Object)
    (hargs : (s.task t).arg = pre ++ a :: post) (hm : a.objtype = CJ_MATRIX) :
    cj_Task_dependency_analysis E s t =
      cj_Task_dependency_analysis_args E t post
        (cj_Task_dependency_analysis_write t (cj_tile E a.matrix) a.rwtype
          (cj_Task_dependency_analysis_read t (cj_tile E a.matrix) a.rwtype
            (cj_analysis_before E s t pre))) := by
  unfold cj_Task_dependency_analysis cj_analysis_before
  rw [hargs, cj_Task_dependency_analysis_args_append]
  simp [cj_Task_dependency_analysis_args, cj_Task_dependency_analysis_arg, hm]

/-- C2 (amended). Let `a` be a matrix argument of task `t` with mode `R` or `RW`, and `w` a
member of the writer set of its tile at the moment the analysis reaches `a`, with an id
different from the id of `t`. After the analysis, `t` is in the successor list of `w`, `w` is in
the predecessor list of `t` and `(w, t)` is an edge of the graph. The read half of `a` increases
the pending counter of `t` by the number of such writers that are not `DONE` (by one for `w`
exactly if `w` is not `DONE`, when `w` is the only writer). After the analysis `t` is in the
reader set of the tile, unless `a` itself has mode `RW` or a later `W` or `RW` argument of `t`
on the same tile cleared the set. -/
theorem cj_C2_raw_edge (E : cj_Env) (s : cj_State) (t w : Nat) (pre post : List cj_Object)
    (a : cj_Object)
    (hargs : (s.task t).arg = pre ++ a :: post)
    (hm : a.objtype = CJ_MATRIX)
    (hr : a.rwtype = CJ_R ∨ a.rwtype = CJ_RW)
    (hw : w ∈ (cj_analysis_before E s t pre).wset (cj_tile E a.matrix))
    (hid : ((cj_analysis_before E s t pre).task w).id ≠ ((cj_analysis_before E s t pre).task t).id) :
    (t ∈ ((cj_Task_dependency_analysis E s t).task w).out ∧
      w ∈ ((cj_Task_dependency_analysis E s t).task t).in_ ∧
      (w, t) ∈ (cj_Task_dependency_analysis E s t).edge) ∧
    ((cj_Task_dependency_analysis_read t (cj_tile E a.matrix) a.rwtype
        (cj_analysis_before E s t pre)).task t).num_dependencies_remaining =
      ((cj_analysis_before E s t pre).task t).num_dependencies_remaining +
        ((cj_analysis_before E s t pre).wset (cj_tile E a.matrix)).countP
          (fun p => decide (((cj_analysis_before E s t pre).task p).id ≠
              ((cj_analysis_before E s t pre).task t).id ∧
            ((cj_analysis_before E s t pre).task p).status ≠ DONE)) ∧
    ((cj_analysis_before E s t pre).wset (cj_tile E a.matrix) = [w] →
      ((cj_Task_dependency_analysis_read t (cj_tile E a.matrix) a.rwtype
          (cj_analysis_before E s t pre)).task t).num_dependencies_remaining =
        ((cj_analysis_before E s t pre).task t).num_dependencies_remaining +
          (if ((cj_analysis_before E s t pre).task w).status ≠ DONE then 1 else 0)) ∧
    (t ∈ (cj_Task_dependency_analysis E s t).rset (cj_tile E a.matrix) ∨
      a.rwtype = CJ_RW ∨
      ∃ b ∈ post, b.objtype = CJ_MATRIX ∧ cj_tile E b.matrix = cj_tile E a.matrix ∧
        (b.rwtype = CJ_W ∨ b.rwtype = CJ_RW)) := by
  have hsplit := cj_Task_dependency_analysis_split E s t pre post a hargs hm
  generalize cj_analysis_before E s t pre = s1 at *
  have hread := cj_Task_dependency_analysis_read_eq t (cj_tile E a.matrix) a.rwtype s1 hr
  have hcount : ((cj_Task_dependency_analysis_read t (cj_tile E a.matrix) a.rwtype
        s1).task t).num_dependencies_remaining =
      (s1.task t).num_dependencies_remaining +
        (s1.wset (cj_tile E a.matrix)).countP
          (fun p => decide ((s1.task p).id ≠ (s1.task t).id ∧ (s1.task p).status ≠ DONE)) := by
    rw [hread, cj_Task_dependency_link_counter]
  have hgrow : cj_Grows (cj_Task_dependency_analysis_read t (cj_tile E a.matrix) a.rwtype s1)
      (cj_Task_dependency_analysis E s t) := by
    rw [hsplit]
    exact cj_Grows_trans (cj_Grows_write _ _ _ _) (cj_Grows_args _ _ _ _)
  have hmem := cj_Task_dependency_link_mem t w (s1.wset (cj_tile E a.matrix))
    { s1 with
        rset := Function.update s1.rset (cj_tile E a.matrix)
          (s1.rset (cj_tile E a.matrix) ++ [t]) } hw hid
  rw [← hread] at hmem
  refine ⟨⟨?_, ?_, ?_⟩, hcount, ?_, ?_⟩
  · exact (hgrow.task_out w).subset hmem.1
  · exact (hgrow.task_in t).subset hmem.2.1
  · exact hgrow.edge.subset hmem.2.2
  · intro hone
    rw [hcount, hone]
    by_cases hd : (s1.task w).status = DONE <;> simp [hid, hd]
  · by_cases hrw : a.rwtype = CJ_RW
    · exact Or.inr (Or.inl hrw)
    · have hR : a.rwtype = CJ_R := by
        rcases hr with h | h
        · exact h
        · exact absurd h hrw
      have hin : t ∈ (cj_Task_dependency_analysis_read t (cj_tile E a.matrix) a.rwtype
          s1).rset (cj_tile E a.matrix) := by
        rw [hread, (cj_Task_dependency_link_rset _ _ _).1]
        simp
      rw [hsplit, cj_Task_dependency_analysis_write_skip _ _ _ _ hR]
      rcases cj_Task_dependency_analysis_args_rset E t t (cj_tile E a.matrix) post _ hin with h | h
      · exact Or.inl h
      · exact Or.inr (Or.inr h)

/-- C3. Let `a` be a matrix argument of task `t` with mode `W` or `RW`, and `r` a member of the
reader set of its tile at the moment the write half of `a` starts, with an id different from the
id of `t`. After the analysis, `(r, t)` is an edge of the graph, `t` is in the successor list of
`r` and `r` is in the predecessor list of `t`. The write half increases the pending counter of
`t` by the number of such readers that are not `DONE` (by one for `r` exactly if `r` is not
`DONE`, when `r` is the only reader). -/
theorem cj_C3_war_edge (E : cj_Env) (s : cj_State) (t r : Nat) (pre post : List cj_Object)
    (a : cj_Object)
    (hargs : (s.task t).arg = pre ++ a :: post)
    (hm : a.objtype = CJ_MATRIX)
    (hwr : a.rwtype = CJ_W ∨ a.rwtype = CJ_RW)
    (hrd : r ∈ (cj_Task_dependency_analysis_read t (cj_tile E a.matrix) a.rwtype
        (cj_analysis_before E s t pre)).rset (cj_tile E a.matrix))
    (hid : ((cj_analysis_before E s t pre).task r).id ≠ ((cj_analysis_before E s t pre).task t).id) :
    ((r, t) ∈ (cj_Task_dependency_analysis E s t).edge ∧
      t ∈ ((cj_Task_dependency_analysis E s t).task r).out ∧
      r ∈ ((cj_Task_dependency_analysis E s t).task t).in_) ∧
    ((cj_Task_dependency_analysis_write t (cj_tile E a.matrix) a.rwtype
        (cj_Task_dependency_analysis_read t (cj_tile E a.matrix) a.rwtype
          (cj_analysis_before E s t pre))).task t).num_dependencies_remaining =
      ((cj_Task_dependency_analysis_read t (cj_tile E a.matrix) a.rwtype
          (cj_analysis_before E s t pre)).task t).num_dependencies_remaining +
        ((cj_Task_dependency_analysis_read t (cj_tile E a.matrix) a.rwtype
            (cj_analysis_before E s t pre)).rset (cj_tile E a.matrix)).countP
          (fun p => decide (((cj_analysis_before E s t pre).task p).id ≠
              ((cj_analysis_before E s t pre).task t).id ∧
            ((cj_analysis_before E s t pre).task p).status ≠ DONE)) ∧
    ((cj_Task_dependency_analysis_read t (cj_tile E a.matrix) a.rwtype
        (cj_analysis_before E s t pre)).rset (cj_tile E a.matrix) = [r] →
      ((cj_Task_dependency_analysis_write t (cj_tile E a.matrix) a.rwtype
          (cj_Task_dependency_analysis_read t (cj_tile E a.matrix) a.rwtype
            (cj_analysis_before E s t pre))).task t).num_dependencies_remaining =
        ((cj_Task_dependency_analysis_read t (cj_tile E a.matrix) a.rwtype
            (cj_analysis_before E s t pre)).task t).num_dependencies_remaining +
          (if ((cj_analysis_before E s t pre).task r).status ≠ DONE then 1 else 0)) := by
  have hsplit := cj_Task_dependency_analysis_split E s t pre post a hargs hm
  generalize cj_analysis_before E s t pre = s1 at *
  have hg1 := cj_Grows_read t (cj_tile E a.matrix) a.rwtype s1
  generalize cj_Task_dependency_analysis_read t (cj_tile E a.matrix) a.rwtype s1 = sR at *
  have hidR : (sR.task r).id ≠ (sR.task t).id := by
    rw [hg1.task_id r, hg1.task_id t]; exact hid
  have hfun : (fun p => decide ((s1.task p).id ≠ (s1.task t).id ∧ (s1.task p).status ≠ DONE)) =
      (fun p => decide ((sR.task p).id ≠ (sR.task t).id ∧ (sR.task p).status ≠ DONE)) := by
    funext p
    rw [hg1.task_id p, hg1.task_id t, hg1.task_status p]
  have hwrite : cj_Task_dependency_analysis_write t (cj_tile E a.matrix) a.rwtype sR =
      { cj_Task_dependency_link t (sR.rset (cj_tile E a.matrix)) sR with
          wset := Function.update (cj_Task_dependency_link t (sR.rset (cj_tile E a.matrix)) sR).wset
            (cj_tile E a.matrix) [t]
          rset := Function.update (cj_Task_dependency_link t (sR.rset (cj_tile E a.matrix)) sR).rset
            (cj_tile E a.matrix) [] } := by
    simp only [cj_Task_dependency_analysis_write, if_pos hwr]
  have hmem := cj_Task_dependency_link_mem t r (sR.rset (cj_tile E a.matrix)) sR hrd hidR
  have hgrow : cj_Grows (cj_Task_dependency_analysis_write t (cj_tile E a.matrix) a.rwtype sR)
      (cj_Task_dependency_analysis E s t) := by
    rw [hsplit]
    exact cj_Grows_args _ _ _ _
  have hcount : ((cj_Task_dependency_analysis_write t (cj_tile E a.matrix) a.rwtype
        sR).task t).num_dependencies_remaining =
      (sR.task t).num_dependencies_remaining +
        (sR.rset (cj_tile E a.matrix)).countP
          (fun p => decide ((s1.task p).id ≠ (s1.task t).id ∧ (s1.task p).status ≠ DONE)) := by
    rw [hwrite, hfun]
    exact cj_Task_dependency_link_counter t _ sR
  refine ⟨⟨?_, ?_, ?_⟩, hcount, ?_⟩
  · apply hgrow.edge.subset
    rw [hwrite]; exact hmem.2.2
  · apply (hgrow.task_out r).subset
    rw [hwrite]; exact hmem.1
  · apply (hgrow.task_in t).subset
    rw [hwrite]; exact hmem.2.1
  · intro hone
    rw [hcount, hone]
    by_cases hd : (s1.task r).status = DONE <;> simp [hid, hd]

/-- Witness of C2 on scenario S1: the analysis of T2 (task 1, arguments `R A`, `W B`) after T1
(task 0, writer of A) gives the edge T1 -> T2 with the counter of T2 raised by one, T2 stays in
the reader set of A, and the whole chain has the edges T1 -> T2 and T2 -> T3 and no others. -/
theorem cj_C2_raw_edge_witness :
    (1 ∈ ((cj_Task_dependency_analysis cj_Env_example
          (cj_prepare cj_S1_one (cj_Function.other 0) [cj_arg CJ_R 0, cj_arg CJ_W 1] 0) 1).task
            0).out ∧
      0 ∈ ((cj_Task_dependency_analysis cj_Env_example
          (cj_prepare cj_S1_one (cj_Function.other 0) [cj_arg CJ_R 0, cj_arg CJ_W 1] 0) 1).task
            1).in_ ∧
      (0, 1) ∈ (cj_Task_dependency_analysis cj_Env_example
          (cj_prepare cj_S1_one (cj_Function.other 0) [cj_arg CJ_R 0, cj_arg CJ_W 1] 0) 1).edge) ∧
    cj_S1_three.edge = [(0, 1), (1, 2)] ∧
    (cj_S1_two.task 1).num_dependencies_remaining = 1 ∧
    cj_S1_two.rset (0, 0, 0) = [1] :=
  ⟨(cj_C2_raw_edge cj_Env_example
      (cj_prepare cj_S1_one (cj_Function.other 0) [cj_arg CJ_R 0, cj_arg CJ_W 1] 0) 1 0
      [] [cj_arg CJ_W 1] (cj_arg CJ_R 0) (by decide) (by decide) (by decide) (by decide)
      (by decide)).1, by decide, by decide, by decide⟩

/-- Counterexample to C2 as stated: T1 (task 0) writes A, then T2 (task 1) has the single
argument `RW A`. The edge T1 -> T2 is added, but after the analysis T2 is not in the reader set
of A although no later argument of T2 exists: the write half of the same argument cleared the
set. -/
theorem cj_C2_counterexample :
    ((cj_prepare cj_S1_one (cj_Function.other 0) [cj_arg CJ_RW 0] 0).task 1).arg
      = [] ++ cj_arg CJ_RW 0 :: [] ∧
    0 ∈ (cj_analysis_before cj_Env_example
      (cj_prepare cj_S1_one (cj_Function.other 0) [cj_arg CJ_RW 0] 0) 1 []).wset (0, 0, 0) ∧
    ((cj_prepare cj_S1_one (cj_Function.other 0) [cj_arg CJ_RW 0] 0).task 0).id ≠
      ((cj_prepare cj_S1_one (cj_Function.other 0) [cj_arg CJ_RW 0] 0).task 1).id ∧
    (0, 1) ∈ (cj_Task_dependency_analysis cj_Env_example
      (cj_prepare cj_S1_one (cj_Function.other 0) [cj_arg CJ_RW 0] 0) 1).edge ∧
    ¬ (1 ∈ (cj_Task_dependency_analysis cj_Env_example
        (cj_prepare cj_S1_one (cj_Function.other 0) [cj_arg CJ_RW 0] 0) 1).rset (0, 0, 0) ∨
      ∃ b ∈ ([] : List cj_Object), b.objtype = CJ_MATRIX ∧
        cj_tile cj_Env_example b.matrix = (0, 0, 0) ∧ (b.rwtype = CJ_W ∨ b.rwtype = CJ_RW)) := by
  refine ⟨by decide, by decide, by decide, by decide, ?_⟩
  simp only [List.not_mem_nil, false_and, exists_false, or_false]
  decide

/-- Witness of C3 on scenario S3: T1 (task 0) reads A, T2 (task 1) writes A; the analysis of T2
gives the anti-dependency edge T1 -> T2 and raises the counter of T2 by one. -/
theorem cj_C3_war_edge_witness :
    ((0, 1) ∈ (cj_Task_dependency_analysis cj_Env_example
        (cj_prepare cj_S3_one (cj_Function.other 0) [cj_arg CJ_W 0] 0) 1).edge ∧
      1 ∈ ((cj_Task_dependency_analysis cj_Env_example
        (cj_prepare cj_S3_one (cj_Function.other 0) [cj_arg CJ_W 0] 0) 1).task 0).out ∧
      0 ∈ ((cj_Task_dependency_analysis cj_Env_example
        (cj_prepare cj_S3_one (cj_Function.other 0) [cj_arg CJ_W 0] 0) 1).task 1).in_) ∧
    (cj_submit cj_Env_example cj_S3_one (cj_Function.other 0) [cj_arg CJ_W 0] 0).edge
      = [(0, 1)] ∧
    ((cj_submit cj_Env_example cj_S3_one (cj_Function.other 0) [cj_arg CJ_W 0] 0).task
      1).num_dependencies_remaining = 1 :=
  ⟨(cj_C3_war_edge cj_Env_example
      (cj_prepare cj_S3_one (cj_Function.other 0) [cj_arg CJ_W 0] 0) 1 0
      [] [] (cj_arg CJ_W 0) (by decide) (by decide) (by decide) (by decide) (by decide)).1,
    by decide, by decide⟩

/-! ## The graph invariant -/

theorem cj_count_map_pair (L : List Nat) (t p c : Nat) :
    (L.map (fun q => (q, t))).count (p, c) = if c = t then L.count p else 0 := by
  induction L with
  | nil => simp
  | cons q rest ih =>
    simp only [List.map_cons, List.count_cons, ih]
    by_cases hc : c = t
    · subst hc
      by_cases hq : q = p <;> simp [hq]
    · have : ¬ ((q, t) == (p, c)) = true := by
        simp only [beq_iff_eq, Prod.mk.injEq, not_and]
        intro _ h; exact hc h.symm
      simp [hc, this]

theorem cj_count_replicate (n t c : Nat) :
    (List.replicate n t).count c = if c = t then n else 0 := by
  rw [List.count_replicate]
  by_cases h : c = t
  · subst h; simp
  · have : ¬ (t == c) = true := by simpa using fun h' => h h'.symm
    simp [h, this]

/-- The linking loop for the newest task keeps the graph invariant. -/
theorem cj_InvGraph_link (t : Nat) (ps : List Nat) (s : cj_State) (h : cj_InvGraph s)
    (ht : t + 1 = s.ntask) (hps : ∀ p, p ∈ ps → p < s.ntask) :
    cj_InvGraph (cj_Task_dependency_link t ps s) := by
  have hL : ∀ p, p ∈ cj_linked s t ps → p < t := by
    intro p hp
    have hne : p ≠ t := fun e => cj_linked_ne s t ps (e ▸ hp)
    have := hps p (List.mem_of_mem_filter hp)
    omega
  rw [cj_Task_dependency_link_eq]
  constructor
  · exact h.taskid_eq
  · intro a ha; exact h.id_eq a ha
  · exact h.rset_lt
  · exact h.wset_lt
  · exact h.vertex_lt
  · intro a ha p hp
    simp only at hp
    by_cases hat : a = t
    · rw [if_pos hat, List.mem_append] at hp
      rcases hp with hp | hp
      · exact h.in_lt a ha p hp
      · rw [hat]; exact hL p hp
    · rw [if_neg hat] at hp
      exact h.in_lt a ha p hp
  · intro a ha c hc
    simp only [List.mem_append, List.mem_replicate] at hc
    rcases hc with hc | ⟨hn, hc⟩
    · exact h.out_lt a ha c hc
    · rw [hc]
      have : a ∈ cj_linked s t ps := by
        by_contra hcon
        exact hn (List.count_eq_zero.mpr hcon)
      have := hL a this
      simp only
      omega
  · intro e he
    simp only [List.mem_append, List.mem_map] at he
    rcases he with he | ⟨p, hp, rfl⟩
    · exact h.edge_lt e he
    · have := hL p hp
      simp only
      omega
  · intro p c hp hc
    simp only [List.count_append, cj_count_map_pair, cj_count_replicate]
    rw [h.adj_out p c hp hc]
  · intro p c hp hc
    simp only [List.count_append, cj_count_map_pair]
    by_cases hct : c = t
    · simp only [hct, if_true, List.count_append]
      rw [h.adj_in p t hp (by omega)]
    · simp only [hct, if_false]
      rw [h.adj_in p c hp hc]; simp

theorem cj_InvGraph_sets (s : cj_State) (r w : cj_Tile → List Nat) (h : cj_InvGraph s)
    (hr : ∀ k a, a ∈ r k → a < s.ntask) (hw : ∀ k a, a ∈ w k → a < s.ntask) :
    cj_InvGraph { s with rset := r, wset := w } where
  taskid_eq := h.taskid_eq
  id_eq := h.id_eq
  rset_lt := hr
  wset_lt := hw
  vertex_lt := h.vertex_lt
  in_lt := h.in_lt
  out_lt := h.out_lt
  edge_lt := h.edge_lt
  adj_out := h.adj_out
  adj_in := h.adj_in

theorem cj_InvGraph_read (t : Nat) (k : cj_Tile) (rwtype : cj_rwType) (s : cj_State)
    (h : cj_InvGraph s) (ht : t + 1 = s.ntask) :
    cj_InvGraph (cj_Task_dependency_analysis_read t k rwtype s) := by
  by_cases hr : rwtype = CJ_R ∨ rwtype = CJ_RW
  · rw [cj_Task_dependency_analysis_read_eq _ _ _ _ hr]
    apply cj_InvGraph_link
    · apply cj_InvGraph_sets s _ s.wset h _ h.wset_lt
      intro k' a ha
      by_cases hk : k' = k
      · subst hk
        simp only [Function.update_same, List.mem_append, List.mem_singleton] at ha
        rcases ha with ha | ha
        · exact h.rset_lt _ a ha
        · omega
      · simp only [Function.update_apply, hk, if_false] at ha
        exact h.rset_lt _ a ha
    · exact ht
    · exact fun p hp => h.wset_lt k p hp
  · simp only [cj_Task_dependency_analysis_read, if_neg hr]
    exact h

theorem cj_InvGraph_write (t : Nat) (k : cj_Tile) (rwtype : cj_rwType) (s : cj_State)
    (h : cj_InvGraph s) (ht : t + 1 = s.ntask) :
    cj_InvGraph (cj_Task_dependency_analysis_write t k rwtype s) := by
  by_cases hw : rwtype = CJ_W ∨ rwtype = CJ_RW
  · simp only [cj_Task_dependency_analysis_write, if_pos hw]
    have h1 := cj_InvGraph_link t (s.rset k) s h ht (fun p hp => h.rset_lt k p hp)
    have hn := (cj_Grows_link t (s.rset k) s).ntask
    apply cj_InvGraph_sets _ _ _ h1
    · intro k' a ha
      by_cases hk : k' = k
      · subst hk; simp at ha
      · simp only [Function.update_apply, hk, if_false] at ha
        exact h1.rset_lt _ a ha
    · intro k' a ha
      by_cases hk : k' = k
      · subst hk
        simp only [Function.update_same, List.mem_singleton] at ha
        omega
      · simp only [Function.update_apply, hk, if_false] at ha
        exact h1.wset_lt _ a ha
  · simp only [cj_Task_dependency_analysis_write, if_neg hw]
    exact h

theorem cj_InvGraph_args (E : cj_Env) (t : Nat) (args : List cj_Object) (s : cj_State)
    (h : cj_InvGraph s) (ht : t + 1 = s.ntask) :
    cj_InvGraph (cj_Task_dependency_analysis_args E t args s) := by
  induction args generalizing s with
  | nil => exact h
  | cons now rest ih =>
    apply ih
    · unfold cj_Task_dependency_analysis_arg
      split_ifs
      · apply cj_InvGraph_write
        · exact cj_InvGraph_read _ _ _ _ h ht
        · rw [(cj_Grows_read _ _ _ _).ntask]; exact ht
      · exact h
    · rw [(cj_Grows_arg E t now s).ntask]; exact ht

/-- Tasks of the state in which a new task has been allocated and filled. -/
theorem cj_prepare_task (s : cj_State) (function : cj_Function) (args : List cj_Object)
    (uninit_cost : Int) (x : Nat) :
    (cj_prepare s function args uninit_cost).task x =
      if x = s.ntask then
        { id := s.taskid, status := NOTREADY, function := some function
          num_dependencies_remaining := 0, in_ := [], out := [], arg := args
          cost := uninit_cost, worker := none }
      else s.task x := by
  unfold cj_prepare cj_Task_push_args cj_Task_set cj_Task_new
  by_cases hx : x = s.ntask
  · subst hx; simp
  · simp [Function.update_apply, hx]

/-- Fields other than the tasks of the state in which a new task has been allocated. -/
theorem cj_prepare_fields (s : cj_State) (function : cj_Function) (args : List cj_Object)
    (uninit_cost : Int) :
    (cj_prepare s function args uninit_cost) =
      { s with
          taskid := cj_int (s.taskid + 1)
          ntask := s.ntask + 1
          task := (cj_prepare s function args uninit_cost).task } := by
  unfold cj_prepare cj_Task_push_args cj_Task_set cj_Task_new
  rfl

theorem cj_int_succ (x : Int) : cj_int (cj_int x + 1) = cj_int (x + 1) := by
  unfold cj_int
  omega

theorem cj_int_of_lt (x : Int) (h0 : 0 ≤ x) (h1 : x < 2147483648) : cj_int x = x := by
  unfold cj_int
  omega

theorem cj_InvGraph_prepare (s : cj_State) (function : cj_Function) (args : List cj_Object)
    (uninit_cost : Int) (h : cj_InvGraph s) :
    cj_InvGraph (cj_prepare s function args uninit_cost) := by
  have hedge : ∀ p c, (s.ntask ≤ p ∨ s.ntask ≤ c) → s.edge.count (p, c) = 0 := by
    intro p c hpc
    apply List.count_eq_zero.mpr
    intro hmem
    have := h.edge_lt _ hmem
    simp only at this
    omega
  rw [cj_prepare_fields]
  constructor
  · simp only; rw [h.taskid_eq, cj_int_succ]; push_cast; rfl
  · intro a ha
    simp only at ha
    rw [cj_prepare_task]
    by_cases hx : a = s.ntask
    · rw [if_pos hx, hx]; exact h.taskid_eq
    · rw [if_neg hx]; exact h.id_eq a (by omega)
  · intro k a ha; have := h.rset_lt k a ha; simp only; omega
  · intro k a ha; have := h.wset_lt k a ha; simp only; omega
  · intro a ha; have := h.vertex_lt a ha; simp only; omega
  · intro a ha p hp
    simp only at ha
    rw [cj_prepare_task] at hp
    by_cases hx : a = s.ntask
    · rw [if_pos hx] at hp; simp at hp
    · rw [if_neg hx] at hp; exact h.in_lt a (by omega) p hp
  · intro a ha c hc
    simp only at ha
    rw [cj_prepare_task] at hc
    by_cases hx : a = s.ntask
    · rw [if_pos hx] at hc; simp at hc
    · rw [if_neg hx] at hc
      have := h.out_lt a (by omega) c hc
      simp only; omega
  · intro e he
    have := h.edge_lt e he
    simp only; omega
  · intro p c hp hc
    simp only at hp hc
    rw [cj_prepare_task]
    by_cases hx : p = s.ntask
    · rw [if_pos hx]
      simp only [List.count_nil]
      exact (hedge p c (Or.inl (by omega))).symm
    · rw [if_neg hx]
      by_cases hcn : c = s.ntask
      · simp only
        rw [hedge p c (Or.inr (by omega))]
        apply List.count_eq_zero.mpr
        intro hmem
        have := h.out_lt p (by omega) c hmem
        omega
      · exact h.adj_out p c (by omega) (by omega)
  · intro p c hp hc
    simp only at hp hc
    rw [cj_prepare_task]
    by_cases hx : c = s.ntask
    · rw [if_pos hx]
      simp only [List.count_nil]
      exact (hedge p c (Or.inr (by omega))).symm
    · rw [if_neg hx]
      by_cases hpn : p = s.ntask
      · simp only
        rw [hedge p c (Or.inl (by omega))]
        apply List.count_eq_zero.mpr
        intro hmem
        have := h.in_lt c (by omega) p hmem
        omega
      · exact h.adj_in p c (by omega) (by omega)

theorem cj_InvGraph_submit (E : cj_Env) (s : cj_State) (function : cj_Function)
    (args : List cj_Object) (uninit_cost : Int) (h : cj_InvGraph s) :
    cj_InvGraph (cj_submit E s function args uninit_cost) := by
  unfold cj_submit cj_Task_dependency_analysis
  have h1 := cj_InvGraph_prepare s function args uninit_cost h
  have hn : (cj_prepare s function args uninit_cost).ntask = s.ntask + 1 := by
    rw [cj_prepare_fields]
  apply cj_InvGraph_args
  · unfold cj_Graph_vertex_add
    constructor
    · exact h1.taskid_eq
    · exact h1.id_eq
    · exact h1.rset_lt
    · exact h1.wset_lt
    · intro a ha
      simp only [List.mem_append, List.mem_singleton] at ha
      rcases ha with ha | ha
      · exact h1.vertex_lt a ha
      · simp only [cj_Task_new] at ha
        simp only; omega
    · exact h1.in_lt
    · exact h1.out_lt
    · exact h1.edge_lt
    · exact h1.adj_out
    · exact h1.adj_in
  · simp only [cj_Graph_vertex_add, cj_Task_new]
    omega

/-! ## Steps that leave the graph part alone -/

theorem cj_SameGraph_refl (s : cj_State) : cj_SameGraph s s := by
  constructor <;> intros <;> rfl

theorem cj_SameGraph_trans {s1 s2 s3 : cj_State} (h12 : cj_SameGraph s1 s2)
    (h23 : cj_SameGraph s2 s3) : cj_SameGraph s1 s3 where
  taskid := h23.taskid.trans h12.taskid
  ntask := h23.ntask.trans h12.ntask
  nworker := h23.nworker.trans h12.nworker
  worker := h23.worker.trans h12.worker
  vertex := h23.vertex.trans h12.vertex
  edge := h23.edge.trans h12.edge
  rset := h23.rset.trans h12.rset
  wset := h23.wset.trans h12.wset
  task_id := fun x => (h23.task_id x).trans (h12.task_id x)
  task_in := fun x => (h23.task_in x).trans (h12.task_in x)
  task_out := fun x => (h23.task_out x).trans (h12.task_out x)
  task_arg := fun x => (h23.task_arg x).trans (h12.task_arg x)
  task_function := fun x => (h23.task_function x).trans (h12.task_function x)

/-- A change of the scheduling fields of one task does not touch the graph part. -/
theorem cj_SameGraph_task (s s' : cj_State) (a : Nat) (t' : cj_Task)
    (h1 : s'.taskid = s.taskid) (h2 : s'.ntask = s.ntask) (h3 : s'.nworker = s.nworker)
    (h4 : s'.worker = s.worker) (h5 : s'.vertex = s.vertex) (h6 : s'.edge = s.edge)
    (h7 : s'.rset = s.rset) (h8 : s'.wset = s.wset)
    (ht : s'.task = Function.update s.task a t')
    (hid : t'.id = (s.task a).id) (hin : t'.in_ = (s.task a).in_)
    (hout : t'.out = (s.task a).out) (harg : t'.arg = (s.task a).arg)
    (hf : t'.function = (s.task a).function) : cj_SameGraph s s' := by
  constructor <;> first | assumption | skip
  all_goals
    intro x
    rw [ht]
    by_cases hx : x = a
    · subst hx; simp [*]
    · simp [Function.update_apply, hx]

theorem cj_SameGraph_enqueue (E : cj_Env) (s : cj_State) (t : Nat) :
    cj_SameGraph s (cj_Task_enqueue E s t) := by
  apply cj_SameGraph_task s _ t
    { (s.task t) with status := QUEUED, cost := (cj_Task_enqueue_choice E s t).cost } <;> rfl

theorem cj_SameGraph_counter (s : cj_State) (a : Nat) (n : Int) :
    cj_SameGraph s
      { s with
          task := Function.update s.task a
            { (s.task a) with num_dependencies_remaining := n } } := by
  apply cj_SameGraph_task s _ a { (s.task a) with num_dependencies_remaining := n } <;> rfl

theorem cj_SameGraph_update_loop (E : cj_Env) (l : List Nat) (s s' : cj_State)
    (h : cj_Task_dependencies_update_loop E l s = .ok s') : cj_SameGraph s s' := by
  induction l generalizing s with
  | nil =>
    simp only [cj_Task_dependencies_update_loop, Except.ok.injEq] at h
    subst h; exact cj_SameGraph_refl s
  | cons child rest ih =>
    unfold cj_Task_dependencies_update_loop at h
    split_ifs at h
    · exact cj_SameGraph_trans
        (cj_SameGraph_trans (cj_SameGraph_counter s child _) (cj_SameGraph_enqueue E _ child))
        (ih _ h)
    · exact cj_SameGraph_trans (cj_SameGraph_counter s child _) (ih _ h)

theorem cj_SameGraph_update (E : cj_Env) (s s' : cj_State) (t : Nat)
    (h : cj_Task_dependencies_update E s t = .ok s') : cj_SameGraph s s' := by
  unfold cj_Task_dependencies_update at h
  split at h
  · exact absurd h (by simp)
  · rename_i s1 hs1
    simp only [Except.ok.injEq] at h
    subst h
    exact cj_SameGraph_trans (cj_SameGraph_update_loop E _ s s1 hs1)
      (by apply cj_SameGraph_task s1 _ t { (s1.task t) with status := DONE } <;> rfl)

theorem cj_SameButDist_refl (s : cj_State) : cj_SameButDist s s := by
  constructor <;> rfl

theorem cj_SameButDist_trans {s1 s2 s3 : cj_State} (h12 : cj_SameButDist s1 s2)
    (h23 : cj_SameButDist s2 s3) : cj_SameButDist s1 s3 where
  taskid := h23.taskid.trans h12.taskid
  cj_queue_enable := h23.cj_queue_enable.trans h12.cj_queue_enable
  nworker := h23.nworker.trans h12.nworker
  worker := h23.worker.trans h12.worker
  ready_queue := h23.ready_queue.trans h12.ready_queue
  time_remaining := h23.time_remaining.trans h12.time_remaining
  ntask := h23.ntask.trans h12.ntask
  task := h23.task.trans h12.task
  vertex := h23.vertex.trans h12.vertex
  edge := h23.edge.trans h12.edge
  rset := h23.rset.trans h12.rset
  wset := h23.wset.trans h12.wset
  kernel_log := h23.kernel_log.trans h12.kernel_log
  enqueue_log := h23.enqueue_log.trans h12.enqueue_log

theorem cj_SameButDist_set (s : cj_State) (d : cj_Tile → List cj_Distribution)
    (dev : Int → cj_Device) : cj_SameButDist s { s with dist := d, device := dev } := by
  constructor <;> rfl

theorem cj_SameButDist_stage_host (E : cj_Env) (now : cj_Object) (k : cj_Tile)
    (head : cj_Distribution) (dist_cpu : Option cj_Distribution) (s s' : cj_State)
    (h : cj_Worker_stage_host E now k head dist_cpu s = .ok s') : cj_SameButDist s s' := by
  unfold cj_Worker_stage_host at h
  split at h
  · simp only [Except.ok.injEq] at h; subst h; exact cj_SameButDist_refl s
  · split_ifs at h
    simp only [Except.ok.injEq] at h; subst h; exact cj_SameButDist_set s _ _

theorem cj_SameButDist_stage_device (E : cj_Env) (w : cj_Worker) (now : cj_Object)
    (k : cj_Tile) (s s' : cj_State)
    (h : cj_Worker_stage_device E w now k s = .ok s') : cj_SameButDist s s' := by
  unfold cj_Worker_stage_device at h
  split_ifs at h
  · simp only [Except.ok.injEq] at h; subst h; exact cj_SameButDist_set s _ _
  · simp only [Except.ok.injEq] at h; subst h; exact cj_SameButDist_refl s

theorem cj_SameButDist_stage_arg (E : cj_Env) (w : cj_Worker) (now : cj_Object)
    (s s' : cj_State) (h : cj_Worker_stage_arg E w now s = .ok s') : cj_SameButDist s s' := by
  unfold cj_Worker_stage_arg at h
  split_ifs at h
  · split at h
    · simp only [Except.ok.injEq] at h; subst h; exact cj_SameButDist_refl s
    · split at h
      · exact absurd h (by simp)
      · split at h
        · exact absurd h (by simp)
        · rename_i s1 hs1
          exact cj_SameButDist_trans (cj_SameButDist_stage_host E _ _ _ _ _ _ hs1)
            (cj_SameButDist_stage_device E _ _ _ _ _ h)
  · simp only [Except.ok.injEq] at h; subst h; exact cj_SameButDist_refl s

theorem cj_SameButDist_fetch (E : cj_Env) (w : cj_Worker) (args : List cj_Object)
    (s s' : cj_State) (h : cj_Worker_fetch E w args s = .ok s') : cj_SameButDist s s' := by
  induction args generalizing s with
  | nil =>
    simp only [cj_Worker_fetch, Except.ok.injEq] at h
    subst h; exact cj_SameButDist_refl s
  | cons now rest ih =>
    unfold cj_Worker_fetch at h
    split at h
    · exact absurd h (by simp)
    · rename_i s1 hs1
      exact cj_SameButDist_trans (cj_SameButDist_stage_arg E w now s s1 hs1) (ih s1 h)

theorem cj_SameButDist_commit (E : cj_Env) (w : cj_Worker) (args : List cj_Object)
    (s : cj_State) : cj_SameButDist s (cj_Worker_commit E w args s) := by
  induction args generalizing s with
  | nil => exact cj_SameButDist_refl s
  | cons now rest ih =>
    unfold cj_Worker_commit
    refine cj_SameButDist_trans ?_ (ih _)
    unfold cj_Worker_commit_arg
    split_ifs
    · constructor <;> rfl
    · exact cj_SameButDist_refl s
    · exact cj_SameButDist_refl s

/-- Effect of `cj_Worker_execute` apart from the location lists and the devices: the task is
`RUNNING` on the worker and the kernel call is logged at the end of the log. -/
theorem cj_Worker_execute_frame (E : cj_Env) (s s' : cj_State) (t w : Nat)
    (h : cj_Worker_execute E s t w = .ok s') :
    s'.task = Function.update s.task t { (s.task t) with status := RUNNING, worker := some w } ∧
    s'.kernel_log = s.kernel_log ++ [t] ∧
    s'.taskid = s.taskid ∧ s'.cj_queue_enable = s.cj_queue_enable ∧ s'.nworker = s.nworker ∧
    s'.worker = s.worker ∧ s'.ready_queue = s.ready_queue ∧
    s'.time_remaining = s.time_remaining ∧ s'.ntask = s.ntask ∧ s'.vertex = s.vertex ∧
    s'.edge = s.edge ∧ s'.rset = s.rset ∧ s'.wset = s.wset ∧
    s'.enqueue_log = s.enqueue_log := by
  unfold cj_Worker_execute at h
  split at h
  · exact absurd h (by simp)
  · rename_i s1 hs1
    simp only [Except.ok.injEq] at h
    have e1 := cj_SameButDist_fetch E _ _ _ s1 hs1
    have e2 := cj_SameButDist_commit E (s.worker w) (s.task t).arg (cj_kernel_call s1 t)
    rw [h] at e2
    refine ⟨?_, ?_, ?_, ?_, ?_, ?_, ?_, ?_, ?_, ?_, ?_, ?_, ?_, ?_⟩
    · rw [e2.task]; exact e1.task
    · rw [e2.kernel_log]; simp only [cj_kernel_call]; rw [e1.kernel_log]; rfl
    · rw [e2.taskid]; exact e1.taskid
    · rw [e2.cj_queue_enable]; exact e1.cj_queue_enable
    · rw [e2.nworker]; exact e1.nworker
    · rw [e2.worker]; exact e1.worker
    · rw [e2.ready_queue]; exact e1.ready_queue
    · rw [e2.time_remaining]; exact e1.time_remaining
    · rw [e2.ntask]; exact e1.ntask
    · rw [e2.vertex]; exact e1.vertex
    · rw [e2.edge]; exact e1.edge
    · rw [e2.rset]; exact e1.rset
    · rw [e2.wset]; exact e1.wset
    · rw [e2.enqueue_log]; exact e1.enqueue_log

theorem cj_SameGraph_execute (E : cj_Env) (s s' : cj_State) (t w : Nat)
    (h : cj_Worker_execute E s t w = .ok s') : cj_SameGraph s s' := by
  obtain ⟨h1, -, h3, -, h5, h6, -, -, h9, h10, h11, h12, h13, -⟩ :=
    cj_Worker_execute_frame E s s' t w h
  exact cj_SameGraph_task s s' t { (s.task t) with status := RUNNING, worker := some w }
    h3 h9 h5 h6 h10 h11 h12 h13 h1 rfl rfl rfl rfl rfl

theorem cj_SameGraph_iteration (E : cj_Env) (s s' : cj_State) (id : Nat)
    (h : cj_Worker_entry_point_iteration E s id = .ok s') : cj_SameGraph s s' := by
  unfold cj_Worker_entry_point_iteration at h
  split at h
  · simp only [Except.ok.injEq] at h; subst h; exact cj_SameGraph_refl s
  · split at h
    · exact absurd h (by simp)
    · rename_i t rest _ _ s1 hs1
      have e0 : cj_SameGraph s { s with ready_queue := Function.update s.ready_queue id rest } := by
        constructor <;> intros <;> rfl
      exact cj_SameGraph_trans e0
        (cj_SameGraph_trans (cj_SameGraph_execute E _ s1 t id hs1) (cj_SameGraph_update E s1 s' t h))

theorem cj_SameGraph_begin_loop (E : cj_Env) (l : List Nat) (s : cj_State) :
    cj_SameGraph s (cj_Queue_begin_loop E l s) := by
  induction l generalizing s with
  | nil => exact cj_SameGraph_refl s
  | cons now rest ih =>
    unfold cj_Queue_begin_loop
    split_ifs
    · exact cj_SameGraph_trans (cj_SameGraph_enqueue E s now) (ih _)
    · exact ih s

theorem cj_SameGraph_begin (E : cj_Env) (s : cj_State) : cj_SameGraph s (cj_Queue_begin E s) := by
  unfold cj_Queue_begin
  have e0 : cj_SameGraph s { s with cj_queue_enable := true } := by
    constructor <;> intros <;> rfl
  exact cj_SameGraph_trans e0 (cj_SameGraph_begin_loop E _ _)

theorem cj_SameGraph_end (s : cj_State) : cj_SameGraph s (cj_Queue_end s) := by
  constructor <;> intros <;> rfl

theorem cj_InvGraph_same (s s' : cj_State) (h : cj_InvGraph s) (e : cj_SameGraph s s') :
    cj_InvGraph s' := by
  constructor
  · rw [e.taskid, e.ntask]; exact h.taskid_eq
  · intro a ha; rw [e.task_id]; rw [e.ntask] at ha; exact h.id_eq a ha
  · rw [e.rset, e.ntask]; exact h.rset_lt
  · rw [e.wset, e.ntask]; exact h.wset_lt
  · rw [e.vertex, e.ntask]; exact h.vertex_lt
  · intro a ha p hp; rw [e.task_in] at hp; rw [e.ntask] at ha; exact h.in_lt a ha p hp
  · intro a ha c hc; rw [e.task_out] at hc; rw [e.ntask] at ha ⊢; exact h.out_lt a ha c hc
  · rw [e.edge, e.ntask]; exact h.edge_lt
  · intro p c hp hc; rw [e.task_out, e.edge]; rw [e.ntask] at hp hc; exact h.adj_out p c hp hc
  · intro p c hp hc; rw [e.task_in, e.edge]; rw [e.ntask] at hp hc; exact h.adj_in p c hp hc

theorem cj_InvGraph_init (n : Nat) : cj_InvGraph (cj_Init_state n) := by
  constructor <;> simp [cj_Init_state, cj_int]

theorem cj_InvGraph_step (E : cj_Env) (s s' : cj_State) (ev : cj_Event) (h : cj_InvGraph s)
    (hstep : cj_step E s ev = .ok s') : cj_InvGraph s' := by
  cases ev with
  | submit function args uninit_cost =>
    simp only [cj_step, Except.ok.injEq] at hstep
    subst hstep
    exact cj_InvGraph_submit E s function args uninit_cost h
  | queue_begin =>
    simp only [cj_step, Except.ok.injEq] at hstep
    subst hstep
    exact cj_InvGraph_same _ _ h (cj_SameGraph_begin E s)
  | queue_end =>
    simp only [cj_step, Except.ok.injEq] at hstep
    subst hstep
    exact cj_InvGraph_same _ _ h (cj_SameGraph_end s)
  | worker id =>
    simp only [cj_step] at hstep
    split_ifs at hstep
    exact cj_InvGraph_same _ _ h (cj_SameGraph_iteration E s s' id hstep)

theorem cj_Init_ok (nworker : Int) (s : cj_State) (h : cj_Init nworker = .ok s) :
    0 < nworker ∧ s = cj_Init_state nworker.toNat := by
  unfold cj_Init at h
  split_ifs at h with hn
  simp only [Except.ok.injEq] at h
  exact ⟨by omega, h.symm⟩

theorem cj_InvGraph_reachable (E : cj_Env) (s : cj_State) (h : cj_Reachable E s) :
    cj_InvGraph s := by
  induction h with
  | init nworker s hinit =>
    rw [(cj_Init_ok nworker s hinit).2]
    exact cj_InvGraph_init _
  | step s s' ev _ hstep ih => exact cj_InvGraph_step E s s' ev ih hstep

/-- A run of atomic steps from a reachable state ends in a reachable state. -/
theorem cj_Reachable_run (E : cj_Env) (evs : List cj_Event) (s s' : cj_State)
    (h : cj_Reachable E s) (hrun : cj_run E evs s = .ok s') : cj_Reachable E s' := by
  induction evs generalizing s with
  | nil =>
    simp only [cj_run, Except.ok.injEq] at hrun
    subst hrun; exact h
  | cons ev rest ih =>
    unfold cj_run at hrun
    split at hrun
    · exact absurd hrun (by simp)
    · rename_i s1 hs1
      exact ih s1 (cj_Reachable.step s s1 ev h hs1) hrun

/-- Edges and task ids. In every state reached by submissions and the other atomic steps, with
every task analysed right after its creation: as long as at most `2 ^ 31` tasks have been
created (the `int` counter `taskid` has handed out the ids `0 .. INT_MAX` and no wrapped id),
every edge `(u, v)` of the graph goes from a lower to a higher task id. Whatever the number of
tasks, every edge goes from a task to a task created later, so no edge is a self-edge, and the
graph is acyclic (no task reaches itself along one or more edges). -/
theorem cj_edges_increase_bounded (E : cj_Env) (s : cj_State) (h : cj_Reachable E s) :
    (s.ntask ≤ 2147483648 → ∀ u v, (u, v) ∈ s.edge → (s.task u).id < (s.task v).id) ∧
    (∀ u v, (u, v) ∈ s.edge → u < v ∧ v < s.ntask) ∧
    (∀ u v, (u, v) ∈ s.edge → u ≠ v) ∧
    (∀ v, ¬ Relation.TransGen (fun a b => (a, b) ∈ s.edge) v v) := by
  have hg := cj_InvGraph_reachable E s h
  have hlt : ∀ u v, (u, v) ∈ s.edge → u < v ∧ v < s.ntask := fun u v huv => hg.edge_lt _ huv
  have hpath : ∀ u v, Relation.TransGen (fun a b => (a, b) ∈ s.edge) u v → u < v := by
    intro u v huv
    induction huv with
    | single hab => exact (hlt _ _ hab).1
    | tail _ hbc ih => exact lt_trans ih (hlt _ _ hbc).1
  refine ⟨?_, hlt, ?_, ?_⟩
  · intro hn u v huv
    obtain ⟨h1, h2⟩ := hlt u v huv
    rw [hg.id_eq u (by omega), hg.id_eq v h2,
      cj_int_of_lt u (Int.natCast_nonneg u) (by omega),
      cj_int_of_lt v (Int.natCast_nonneg v) (by omega)]
    exact_mod_cast h1
  · intro u v huv
    have := (hlt u v huv).1
    omega
  · intro v hv
    exact lt_irrefl v (hpath v v hv)

/-- Three tasks on one tile, two of which name the tile twice. The edges are T1 -> T2 and
T2 -> T3, none of them a self-edge, and the ids increase along them. -/
theorem cj_edges_increase_bounded_witness :
    ∃ s, cj_run cj_Env_example cj_same_tile_events (cj_Init_state 2) = .ok s ∧
      s.edge = [(0, 1), (1, 2)] ∧ s.ntask ≤ 2147483648 ∧
      (∀ u v, (u, v) ∈ s.edge → (s.task u).id < (s.task v).id) ∧
      (∀ u v, (u, v) ∈ s.edge → u ≠ v) ∧
      (∀ v, ¬ Relation.TransGen (fun a b => (a, b) ∈ s.edge) v v) :=
  ⟨_, rfl, by decide, by decide,
    (cj_edges_increase_bounded cj_Env_example _
      (cj_Reachable_run cj_Env_example cj_same_tile_events (cj_Init_state 2) _
        (cj_Reachable.init 2 _ rfl) rfl)).1 (by decide),
    (cj_edges_increase_bounded cj_Env_example _
      (cj_Reachable_run cj_Env_example cj_same_tile_events (cj_Init_state 2) _
        (cj_Reachable.init 2 _ rfl) rfl)).2.2⟩

/-! ## The scheduling invariants -/

theorem cj_InvQueue_enqueue (E : cj_Env) (s : cj_State) (t : Nat) (h : cj_InvQueue s)
    (ht : t < s.ntask) (hst : (s.task t).status = NOTREADY)
    (hc : (s.task t).num_dependencies_remaining = 0) :
    cj_InvQueue (cj_Task_enqueue E s t) := by
  have hnq : ∀ i, t ∉ s.ready_queue i := by
    intro i hi
    have := (h.queued_iff t ht).mpr ⟨i, hi⟩
    rw [hst] at this
    exact absurd this (by decide)
  have hnl : t ∉ s.enqueue_log.map cj_EnqueueCall.task := by
    intro hi
    exact (h.elog_iff t ht).mpr hi hst
  have hq : ∀ i a, a ∈ (cj_Task_enqueue E s t).ready_queue i ↔
      (a ∈ s.ready_queue i ∨ (a = t ∧ i = (cj_Task_enqueue_choice E s t).dest)) := by
    intro i a
    simp only [cj_Task_enqueue]
    by_cases hi : i = (cj_Task_enqueue_choice E s t).dest
    · subst hi; simp
    · simp [Function.update_apply, hi]
  have hs : ∀ a, ((cj_Task_enqueue E s t).task a).status =
      if a = t then QUEUED else (s.task a).status := by
    intro a
    simp only [cj_Task_enqueue]
    by_cases ha : a = t
    · subst ha; simp
    · simp [Function.update_apply, ha]
  have hcn : ∀ a, ((cj_Task_enqueue E s t).task a).num_dependencies_remaining =
      (s.task a).num_dependencies_remaining := by
    intro a
    simp only [cj_Task_enqueue]
    by_cases ha : a = t
    · subst ha; simp
    · simp [Function.update_apply, ha]
  have hlog : (cj_Task_enqueue E s t).enqueue_log.map cj_EnqueueCall.task =
      s.enqueue_log.map cj_EnqueueCall.task ++ [t] := by
    simp [cj_Task_enqueue]
  have hn : (cj_Task_enqueue E s t).ntask = s.ntask := rfl
  constructor
  · intro i a ha
    rw [hn]
    rcases (hq i a).mp ha with ha | ⟨ha, -⟩
    · exact h.queue_lt i a ha
    · rw [ha]; exact ht
  · intro a ha
    rw [hn] at ha
    rw [hs]
    by_cases hat : a = t
    · rw [if_pos hat]
      exact iff_of_true rfl ⟨_, (hq _ a).mpr (Or.inr ⟨hat, rfl⟩)⟩
    · rw [if_neg hat, h.queued_iff a ha]
      constructor
      · rintro ⟨i, hi⟩; exact ⟨i, (hq i a).mpr (Or.inl hi)⟩
      · rintro ⟨i, hi⟩
        rcases (hq i a).mp hi with hi | ⟨hi, -⟩
        · exact ⟨i, hi⟩
        · exact absurd hi hat
  · intro i
    simp only [cj_Task_enqueue]
    by_cases hi : i = (cj_Task_enqueue_choice E s t).dest
    · subst hi
      simp only [Function.update_same]
      rw [List.nodup_append]
      refine ⟨h.queue_nodup _, List.nodup_singleton t, ?_⟩
      intro a ha hb
      rw [List.mem_singleton] at hb
      exact hnq _ (hb ▸ ha)
    · simp only [Function.update_apply, hi, if_false]
      exact h.queue_nodup i
  · intro i j a hi hj
    rcases (hq i a).mp hi with hi | ⟨hi1, hi2⟩
    · rcases (hq j a).mp hj with hj | ⟨hj1, -⟩
      · exact h.queue_disj i j a hi hj
      · exact absurd (hj1 ▸ hi) (hnq i)
    · rcases (hq j a).mp hj with hj | ⟨-, hj2⟩
      · exact absurd (hi1 ▸ hj) (hnq j)
      · rw [hi2, hj2]
  · intro a ha hsa
    rw [hn] at ha
    rw [hcn]
    rw [hs] at hsa
    by_cases hat : a = t
    · rw [hat]; exact hc
    · rw [if_neg hat] at hsa; exact h.ready_cnt a ha hsa
  · rw [hlog, List.nodup_append]
    refine ⟨h.elog_nodup, List.nodup_singleton t, ?_⟩
    intro a ha hb
    rw [List.mem_singleton] at hb
    exact hnl (hb ▸ ha)
  · intro e he
    simp only [cj_Task_enqueue, List.mem_append, List.mem_singleton] at he
    rcases he with he | he
    · exact h.elog_pre e he
    · rw [he]; exact ⟨hst, hc⟩
  · intro a ha
    rw [hn] at ha
    rw [hs, hlog, List.mem_append, List.mem_singleton]
    by_cases hat : a = t
    · rw [if_pos hat]
      exact iff_of_true (by decide) (Or.inr hat)
    · rw [if_neg hat, h.elog_iff a ha]
      exact ⟨Or.inl, fun h' => h'.resolve_right hat⟩
  · intro e he
    rw [hn]
    simp only [cj_Task_enqueue, List.mem_append, List.mem_singleton] at he
    rcases he with he | he
    · exact h.elog_lt e he
    · rw [he]; exact ht

theorem cj_pending_congr (s s' : cj_State) (a : Nat)
    (hin : (s'.task a).in_ = (s.task a).in_)
    (hd : ∀ p, (s'.task p).status = DONE ↔ (s.task p).status = DONE) :
    cj_pending s' a = cj_pending s a := by
  unfold cj_pending
  rw [hin]
  congr 1
  funext p
  simp only [ne_eq, decide_not, hd p]

theorem cj_count_le_pending (s : cj_State) (a x : Nat) (hx : (s.task x).status ≠ DONE) :
    (s.task a).in_.count x ≤ cj_pending s a := by
  unfold cj_pending List.count
  apply List.countP_mono_left
  intro p _ hp
  simp only [beq_iff_eq] at hp
  subst hp
  simpa using hx

/-- A change of the counter of a task that is `NOTREADY` keeps the queue invariant. -/
theorem cj_InvQueue_counter (s : cj_State) (c : Nat) (n : Int) (h : cj_InvQueue s)
    (hc : (s.task c).status = NOTREADY) :
    cj_InvQueue
      { s with
          task := Function.update s.task c
            { (s.task c) with num_dependencies_remaining := n } } := by
  have hs : ∀ a, ((Function.update s.task c
      { (s.task c) with num_dependencies_remaining := n }) a).status = (s.task a).status := by
    intro a
    by_cases ha : a = c
    · subst ha; simp
    · simp [Function.update_apply, ha]
  constructor
  · exact h.queue_lt
  · intro a ha; simp only [hs]; exact h.queued_iff a ha
  · exact h.queue_nodup
  · exact h.queue_disj
  · intro a ha hsa
    simp only [hs] at hsa
    by_cases hac : a = c
    · subst hac; exact absurd hc hsa
    · simp only [Function.update_apply, hac, if_false]
      exact h.ready_cnt a ha hsa
  · exact h.elog_nodup
  · exact h.elog_pre
  · intro a ha; simp only [hs]; exact h.elog_iff a ha
  · exact h.elog_lt

/-- The completion loop of a running task `x` over the rest `todo` of its successor list: it
does not reach the error, it keeps the graph part and the queue invariant, no task becomes
`DONE` or stops being `DONE`, and at the end the counter of every task is its number of pending
predecessors (with `x` still counted) minus the number of its entries in the successor list of
`x`. -/
theorem cj_update_loop_ok (E : cj_Env) (x : Nat) (todo : List Nat) (s : cj_State)
    (hg : cj_InvGraph s) (hq : cj_InvQueue s) (hx : x < s.ntask)
    (hxr : (s.task x).status = RUNNING)
    (hst : ∀ a, a < s.ntask → a ≠ x →
      (s.task a).status = NOTREADY ∨ (s.task a).status = QUEUED ∨ (s.task a).status = DONE)
    (hcnt : ∀ a, a < s.ntask →
      (s.task a).num_dependencies_remaining + ((s.task x).out.count a : Int) =
        (cj_pending s a : Int) + (todo.count a : Int))
    (htodo : ∀ c, c ∈ todo → c ∈ (s.task x).out) :
    ∃ s', cj_Task_dependencies_update_loop E todo s = .ok s' ∧ cj_SameGraph s s' ∧
      cj_InvQueue s' ∧ s'.kernel_log = s.kernel_log ∧
      (∀ a, (s'.task a).status = DONE ↔ (s.task a).status = DONE) ∧
      (s'.task x).status = RUNNING ∧
      (∀ a, a < s.ntask → a ≠ x →
        (s'.task a).status = NOTREADY ∨ (s'.task a).status = QUEUED ∨
          (s'.task a).status = DONE) ∧
      (∀ a, a < s.ntask →
        (s'.task a).num_dependencies_remaining + ((s.task x).out.count a : Int) =
          (cj_pending s a : Int)) := by
  induction todo generalizing s with
  | nil =>
    refine ⟨s, rfl, cj_SameGraph_refl s, hq, rfl, fun _ => Iff.rfl, hxr, hst, ?_⟩
    intro a ha
    have := hcnt a ha
    simpa using this
  | cons c rest ih =>
    have hcout : c ∈ (s.task x).out := htodo c (List.mem_cons_self _ _)
    obtain ⟨hxc, hc⟩ := hg.out_lt x hx c hcout
    have hcx : c ≠ x := by omega
    have hadj : (s.task x).out.count c = (s.task c).in_.count x := by
      rw [hg.adj_out x c hx hc, hg.adj_in x c hx hc]
    have hxnd : (s.task x).status ≠ DONE := by rw [hxr]; decide
    have hge := cj_count_le_pending s c x hxnd
    have hcc := hcnt c hc
    rw [List.count_cons_self] at hcc
    have hpos : 1 ≤ (s.task c).num_dependencies_remaining := by
      push_cast at hcc
      omega
    have hcst : (s.task c).status = NOTREADY := by
      by_contra hne
      have := hq.ready_cnt c hc hne
      omega
    -- the state after the decrement
    have hq1 := cj_InvQueue_counter s c ((s.task c).num_dependencies_remaining - 1) hq hcst
    have hg1 := cj_SameGraph_counter s c ((s.task c).num_dependencies_remaining - 1)
    generalize hs1 : ({ s with
      task := Function.update s.task c
        { (s.task c) with
            num_dependencies_remaining := (s.task c).num_dependencies_remaining - 1 } }
      : cj_State) = s1 at hq1 hg1
    have hs1st : ∀ a, (s1.task a).status = (s.task a).status := by
      intro a
      rw [← hs1]
      by_cases ha : a = c
      · subst ha; simp
      · simp [Function.update_apply, ha]
    have hs1c : ∀ a, (s1.task a).num_dependencies_remaining =
        if a = c then (s.task c).num_dependencies_remaining - 1
        else (s.task a).num_dependencies_remaining := by
      intro a
      rw [← hs1]
      by_cases ha : a = c
      · subst ha; simp
      · simp [Function.update_apply, ha]
    have hs1k : s1.kernel_log = s.kernel_log := by rw [← hs1]
    -- the state after the conditional enqueue
    have key : ∃ s2, cj_Task_dependencies_update_loop E (c :: rest) s =
          cj_Task_dependencies_update_loop E rest s2 ∧
        cj_SameGraph s s2 ∧ cj_InvQueue s2 ∧ s2.kernel_log = s.kernel_log ∧
        (∀ a, (s2.task a).status = (s.task a).status ∨
          (a = c ∧ (s2.task a).status = QUEUED)) ∧
        (∀ a, (s2.task a).num_dependencies_remaining =
          if a = c then (s.task c).num_dependencies_remaining - 1
          else (s.task a).num_dependencies_remaining) := by
      by_cases hz : (s.task c).num_dependencies_remaining - 1 = 0
      · refine ⟨cj_Task_enqueue E s1 c, ?_, ?_, ?_, ?_, ?_, ?_⟩
        · conv_lhs => unfold cj_Task_dependencies_update_loop
          rw [if_neg (by omega), if_pos ⟨hz, hcst⟩, hs1]
        · exact cj_SameGraph_trans hg1 (cj_SameGraph_enqueue E s1 c)
        · apply cj_InvQueue_enqueue E s1 c hq1
          · rw [hg1.ntask]; exact hc
          · rw [hs1st]; exact hcst
          · rw [hs1c, if_pos rfl]; exact hz
        · exact hs1k
        · intro a
          by_cases ha : a = c
          · right
            subst ha
            exact ⟨rfl, by simp [cj_Task_enqueue]⟩
          · left
            rw [← hs1st a]
            simp [cj_Task_enqueue, Function.update_apply, ha]
        · intro a
          rw [← hs1c a]
          by_cases ha : a = c
          · subst ha; simp [cj_Task_enqueue]
          · simp [cj_Task_enqueue, Function.update_apply, ha]
      · refine ⟨s1, ?_, hg1, hq1, hs1k, fun a => Or.inl (hs1st a), hs1c⟩
        conv_lhs => unfold cj_Task_dependencies_update_loop
        rw [if_neg (by omega), if_neg (fun h => hz h.1), hs1]
    obtain ⟨s2, hloop, hg2, hq2, hk2, hst2, hc2⟩ := key
    have hdone : ∀ a, (s2.task a).status = DONE ↔ (s.task a).status = DONE := by
      intro a
      rcases hst2 a with h | ⟨ha, h⟩
      · rw [h]
      · rw [h, ha, hcst]
        constructor <;> intro h' <;> exact absurd h' (by decide)
    have hpend : ∀ a, cj_pending s2 a = cj_pending s a :=
      fun a => cj_pending_congr s s2 a (hg2.task_in a) hdone
    have hx2 : (s2.task x).status = RUNNING := by
      rcases hst2 x with h | ⟨ha, -⟩
      · rw [h]; exact hxr
      · exact absurd ha.symm hcx
    obtain ⟨s', hrun, hg', hq', hk', hd', hx', hst', hcnt'⟩ :=
      ih s2 (cj_InvGraph_same s s2 hg hg2) hq2 (by rw [hg2.ntask]; exact hx) hx2
        (by
          intro a ha hax
          rw [hg2.ntask] at ha
          rcases hst2 a with h | ⟨-, h⟩
          · rw [h]; exact hst a ha hax
          · exact Or.inr (Or.inl h))
        (by
          intro a ha
          rw [hg2.ntask] at ha
          rw [hc2, hg2.task_out, hpend]
          have := hcnt a ha
          by_cases hac : a = c
          · subst hac
            rw [if_pos rfl]
            rw [List.count_cons_self] at this
            push_cast at this
            omega
          · rw [if_neg hac]
            rw [List.count_cons_of_ne hac] at this
            exact this)
        (by
          intro c' hc'
          rw [hg2.task_out]
          exact htodo c' (List.mem_cons_of_mem _ hc'))
    refine ⟨s', hloop.trans hrun, cj_SameGraph_trans hg2 hg', hq', hk'.trans hk2,
      fun a => (hd' a).trans (hdone a), hx', ?_, ?_⟩
    · intro a ha hax
      exact hst' a (by rw [hg2.ntask]; exact ha) hax
    · intro a ha
      have := hcnt' a (by rw [hg2.ntask]; exact ha)
      rw [hg2.task_out, hpend] at this
      exact this

theorem cj_InvQueue_congr (s s' : cj_State) (h : cj_InvQueue s) (e1 : s'.ntask = s.ntask)
    (e2 : s'.task = s.task) (e3 : s'.ready_queue = s.ready_queue)
    (e4 : s'.enqueue_log = s.enqueue_log) : cj_InvQueue s' := by
  constructor
  · rw [e1, e3]; exact h.queue_lt
  · rw [e1, e2, e3]; exact h.queued_iff
  · rw [e3]; exact h.queue_nodup
  · rw [e3]; exact h.queue_disj
  · rw [e1, e2]; exact h.ready_cnt
  · rw [e4]; exact h.elog_nodup
  · rw [e4]; exact h.elog_pre
  · rw [e1, e2, e4]; exact h.elog_iff
  · rw [e1, e4]; exact h.elog_lt

theorem cj_InvRun_congr (s s' : cj_State) (h : cj_InvRun s) (e1 : s'.ntask = s.ntask)
    (e2 : s'.task = s.task) (e3 : s'.kernel_log = s.kernel_log) : cj_InvRun s' := by
  have hp : ∀ a, cj_pending s' a = cj_pending s a := by
    intro a; unfold cj_pending; rw [e2]
  constructor
  · rw [e1, e2]; exact h.status_ok
  · intro a ha; rw [hp, e2]; rw [e1] at ha; exact h.cnt a ha
  · rw [e1, e2, e3]; exact h.klog_iff
  · rw [e3]; exact h.klog_nodup
  · rw [e2, e3]; exact h.klog_order

/-- Staging never stops with the error of the dependency counter. -/
theorem cj_Worker_fetch_error (E : cj_Env) (w : cj_Worker) (args : List cj_Object)
    (s : cj_State) (e : cj_Error) (h : cj_Worker_fetch E w args s = .error e) :
    e ≠ cj_Error.negative_dependencies := by
  induction args generalizing s with
  | nil => simp [cj_Worker_fetch] at h
  | cons now rest ih =>
    unfold cj_Worker_fetch at h
    split at h
    · rename_i e' he'
      simp only [Except.error.injEq] at h
      subst h
      unfold cj_Worker_stage_arg at he'
      split_ifs at he'
      split at he'
      · simp at he'
      · split at he'
        · simp only [Except.error.injEq] at he'
          subst he'; decide
        · split at he'
          · rename_i e2 he2
            simp only [Except.error.injEq] at he'
            subst he'
            unfold cj_Worker_stage_host at he2
            split at he2
            · simp at he2
            · split_ifs at he2
              simp only [Except.error.injEq] at he2
              subst he2; decide
          · unfold cj_Worker_stage_device at he'
            split_ifs at he'
            simp only [Except.error.injEq] at he'
            subst he'; decide
    · exact ih _ h

theorem cj_Worker_execute_error (E : cj_Env) (s : cj_State) (t w : Nat) (e : cj_Error)
    (h : cj_Worker_execute E s t w = .error e) : e ≠ cj_Error.negative_dependencies := by
  unfold cj_Worker_execute at h
  split at h
  · rename_i e' he'
    simp only [Except.error.injEq] at h
    subst h
    exact cj_Worker_fetch_error E _ _ _ _ he'
  · simp at h

/-- Pending predecessors before and after task `x` becomes `DONE`. -/
theorem cj_pending_done (s s' : cj_State) (a x : Nat)
    (hin : (s'.task a).in_ = (s.task a).in_)
    (hx : (s.task x).status ≠ DONE) (hx' : (s'.task x).status = DONE)
    (hd : ∀ p, p ≠ x → ((s'.task p).status = DONE ↔ (s.task p).status = DONE)) :
    cj_pending s a = cj_pending s' a + (s.task a).in_.count x := by
  unfold cj_pending
  rw [hin]
  generalize (s.task a).in_ = l
  simp only [ne_eq, decide_not]
  induction l with
  | nil => simp
  | cons p rest ih =>
    simp only [List.countP_cons, List.count_cons]
    by_cases hp : p = x
    · subst hp
      simp [hx, hx']
      omega
    · have := hd p hp
      have hne : ¬ (p == x) = true := by simpa using hp
      by_cases hdp : (s.task p).status = DONE
      · simp [hdp, this.mpr hdp, hne]; omega
      · have hdp' : ¬ (s'.task p).status = DONE := fun h => hdp (this.mp h)
        simp [hdp, hdp', hne]; omega

/-- Setting a task that is neither `NOTREADY` nor `QUEUED` to `DONE` keeps the queue
invariant. -/
theorem cj_InvQueue_done (s : cj_State) (x : Nat) (h : cj_InvQueue s) (hx : x < s.ntask)
    (h1 : (s.task x).status ≠ NOTREADY) (h2 : (s.task x).status ≠ QUEUED) :
    cj_InvQueue
      { s with task := Function.update s.task x { (s.task x) with status := DONE } } := by
  have hs : ∀ a, a ≠ x → (Function.update s.task x { (s.task x) with status := DONE }) a
      = s.task a := by
    intro a ha
    simp [Function.update_apply, ha]
  have hxs : (Function.update s.task x { (s.task x) with status := DONE }) x
      = { (s.task x) with status := DONE } := by simp
  constructor
  · exact h.queue_lt
  · intro a ha
    by_cases hax : a = x
    · subst hax
      simp only [hxs]
      rw [← h.queued_iff a ha]
      exact iff_of_false (by decide) h2
    · simp only [hs a hax]; exact h.queued_iff a ha
  · exact h.queue_nodup
  · exact h.queue_disj
  · intro a ha hsa
    by_cases hax : a = x
    · subst hax
      simp only [hxs]
      exact h.ready_cnt a ha h1
    · simp only [hs a hax] at hsa ⊢; exact h.ready_cnt a ha hsa
  · exact h.elog_nodup
  · exact h.elog_pre
  · intro a ha
    by_cases hax : a = x
    · subst hax
      simp only [hxs]
      rw [← h.elog_iff a ha]
      exact iff_of_true (by decide) h1
    · simp only [hs a hax]; exact h.elog_iff a ha
  · exact h.elog_lt

/-- One worker step on a non-empty queue, after a successful execution of the head task: the
completion does not reach the error and the invariants hold again. -/
theorem cj_iteration_ok (E : cj_Env) (s s1 : cj_State) (id x : Nat) (rest : List Nat)
    (hg : cj_InvGraph s) (hq : cj_InvQueue s) (hr : cj_InvRun s)
    (hqu : s.ready_queue id = x :: rest)
    (hexec : cj_Worker_execute E
      { s with ready_queue := Function.update s.ready_queue id rest } x id = .ok s1) :
    ∃ s', cj_Task_dependencies_update E s1 x = .ok s' ∧ cj_InvQueue s' ∧ cj_InvRun s' := by
  have hxq : x ∈ s.ready_queue id := by rw [hqu]; exact List.mem_cons_self _ _
  have hx : x < s.ntask := hq.queue_lt id x hxq
  have hxs : (s.task x).status = QUEUED := (hq.queued_iff x hx).mpr ⟨id, hxq⟩
  have hxc : (s.task x).num_dependencies_remaining = 0 :=
    hq.ready_cnt x hx (by rw [hxs]; decide)
  have hnd : (x :: rest).Nodup := hqu ▸ hq.queue_nodup id
  have hxrest : x ∉ rest := (List.nodup_cons.mp hnd).1
  obtain ⟨f1, f2, -, -, -, -, f7, -, f9, -, -, -, -, f14⟩ :=
    cj_Worker_execute_frame E _ s1 x id hexec
  simp only at f1 f2 f7 f9 f14
  have hsg : cj_SameGraph s s1 :=
    @cj_SameGraph_trans s { s with ready_queue := Function.update s.ready_queue id rest } s1
      (by constructor <;> intros <;> rfl) (cj_SameGraph_execute E _ s1 x id hexec)
  have hg1 : cj_InvGraph s1 := cj_InvGraph_same s s1 hg hsg
  have hst1 : ∀ a, (s1.task a).status = if a = x then RUNNING else (s.task a).status := by
    intro a
    rw [f1]
    by_cases ha : a = x
    · subst ha; simp
    · simp [Function.update_apply, ha]
  have hc1 : ∀ a, (s1.task a).num_dependencies_remaining =
      (s.task a).num_dependencies_remaining := by
    intro a
    rw [f1]
    by_cases ha : a = x
    · subst ha; simp
    · simp [Function.update_apply, ha]
  have hq1mem : ∀ i a, a ∈ s1.ready_queue i ↔ (a ∈ s.ready_queue i ∧ a ≠ x) := by
    intro i a
    rw [f7]
    by_cases hi : i = id
    · subst hi
      simp only [Function.update_same, hqu, List.mem_cons]
      constructor
      · intro h; exact ⟨Or.inr h, fun e => hxrest (e ▸ h)⟩
      · rintro ⟨h | h, hne⟩
        · exact absurd h hne
        · exact h
    · simp only [Function.update_apply, hi, if_false]
      constructor
      · intro h
        exact ⟨h, fun e => hi (hq.queue_disj i id a h (e ▸ hxq))⟩
      · exact fun h => h.1
  have hq1 : cj_InvQueue s1 := by
    constructor
    · intro i a ha
      rw [f9]; exact hq.queue_lt i a ((hq1mem i a).mp ha).1
    · intro a ha
      rw [f9] at ha
      rw [hst1]
      by_cases hax : a = x
      · rw [if_pos hax]
        refine iff_of_false (by decide) ?_
        rintro ⟨i, hi⟩
        exact ((hq1mem i a).mp hi).2 hax
      · rw [if_neg hax, hq.queued_iff a ha]
        constructor
        · rintro ⟨i, hi⟩; exact ⟨i, (hq1mem i a).mpr ⟨hi, hax⟩⟩
        · rintro ⟨i, hi⟩; exact ⟨i, ((hq1mem i a).mp hi).1⟩
    · intro i
      rw [f7]
      by_cases hi : i = id
      · subst hi
        simp only [Function.update_same]
        exact (List.nodup_cons.mp hnd).2
      · simp only [Function.update_apply, hi, if_false]
        exact hq.queue_nodup i
    · intro i j a hi hj
      exact hq.queue_disj i j a ((hq1mem i a).mp hi).1 ((hq1mem j a).mp hj).1
    · intro a ha hsa
      rw [f9] at ha
      rw [hc1]
      rw [hst1] at hsa
      by_cases hax : a = x
      · rw [hax]; exact hxc
      · rw [if_neg hax] at hsa; exact hq.ready_cnt a ha hsa
    · rw [f14]; exact hq.elog_nodup
    · rw [f14]; exact hq.elog_pre
    · intro a ha
      rw [f9] at ha
      rw [hst1, f14, ← hq.elog_iff a ha]
      by_cases hax : a = x
      · rw [if_pos hax, hax, hxs]
        exact iff_of_true (by decide) (by decide)
      · rw [if_neg hax]
    · rw [f14, f9]; exact hq.elog_lt
  have hx1 : (s1.task x).status = RUNNING := by rw [hst1, if_pos rfl]
  have hd1 : ∀ a, (s1.task a).status = DONE ↔ (s.task a).status = DONE := by
    intro a
    rw [hst1]
    by_cases hax : a = x
    · rw [if_pos hax, hax, hxs]
      constructor <;> intro h <;> exact absurd h (by decide)
    · rw [if_neg hax]
  have hp1 : ∀ a, cj_pending s1 a = cj_pending s a :=
    fun a => cj_pending_congr s s1 a (hsg.task_in a) hd1
  obtain ⟨s2, hloop, hsg2, hq2, hk2, hd2, hx2, hst2, hcnt2⟩ :=
    cj_update_loop_ok E x (s1.task x).out s1 hg1 hq1 (by rw [hsg.ntask]; exact hx) hx1
      (by
        intro a ha hax
        rw [hsg.ntask] at ha
        rw [hst1, if_neg hax]
        exact hr.status_ok a ha)
      (by
        intro a ha
        rw [hsg.ntask] at ha
        rw [hc1, hp1, hr.cnt a ha])
      (fun c hc => hc)
  have hn2 : s2.ntask = s.ntask := hsg2.ntask.trans hsg.ntask
  refine ⟨{ s2 with task := Function.update s2.task x { (s2.task x) with status := DONE } },
    ?_, ?_, ?_⟩
  · unfold cj_Task_dependencies_update
    rw [hloop]
  · exact cj_InvQueue_done s2 x hq2 (by rw [hn2]; exact hx) (by rw [hx2]; decide)
      (by rw [hx2]; decide)
  · have hstf : ∀ a, ((Function.update s2.task x { (s2.task x) with status := DONE }) a).status
        = if a = x then DONE else (s2.task a).status := by
      intro a
      by_cases ha : a = x
      · subst ha; simp
      · simp [Function.update_apply, ha]
    have hinf : ∀ a, ((Function.update s2.task x { (s2.task x) with status := DONE }) a).in_
        = (s.task a).in_ := by
      intro a
      rw [← hsg.task_in, ← hsg2.task_in]
      by_cases ha : a = x
      · subst ha; simp
      · simp [Function.update_apply, ha]
    have hcf : ∀ a, ((Function.update s2.task x
        { (s2.task x) with status := DONE }) a).num_dependencies_remaining
        = (s2.task a).num_dependencies_remaining := by
      intro a
      by_cases ha : a = x
      · subst ha; simp
      · simp [Function.update_apply, ha]
    have hdf : ∀ a, a ≠ x → ((s2.task a).status = DONE ↔ (s.task a).status = DONE) :=
      fun a _ => (hd2 a).trans (hd1 a)
    constructor
    · intro a ha
      simp only [hstf]
      by_cases hax : a = x
      · rw [if_pos hax]; exact Or.inr (Or.inr rfl)
      · rw [if_neg hax]
        exact hst2 a (by rw [hsg.ntask]; rw [hn2] at ha; exact ha) hax
    · intro a ha
      rw [hn2] at ha
      simp only [hcf]
      have h1 := hcnt2 a (by rw [hsg.ntask]; exact ha)
      have h2 := cj_pending_done s1
        { s2 with task := Function.update s2.task x { (s2.task x) with status := DONE } } a x
        (by simp only [hinf]; exact (hsg.task_in a).symm)
        (by rw [hx1]; decide)
        (by simp only [hstf, if_pos])
        (by
          intro p hp
          simp only [hstf, if_neg hp]
          exact hd2 p)
      have h3 : (s1.task x).out.count a = (s1.task a).in_.count x := by
        rw [hg1.adj_out x a (by rw [hsg.ntask]; exact hx) (by rw [hsg.ntask]; exact ha),
          hg1.adj_in x a (by rw [hsg.ntask]; exact hx) (by rw [hsg.ntask]; exact ha)]
      rw [h3] at h1
      rw [h2] at h1
      push_cast at h1
      omega
    · intro a
      simp only [hstf]
      rw [hk2, f2, List.mem_append, List.mem_singleton, hr.klog_iff a, hn2]
      by_cases hax : a = x
      · rw [if_pos hax, hax]
        exact iff_of_true (Or.inr rfl) ⟨hx, rfl⟩
      · rw [if_neg hax, hdf a hax]
        exact ⟨fun h => h.resolve_right hax, Or.inl⟩
    · simp only
      rw [hk2, f2]
      rw [List.nodup_append]
      refine ⟨hr.klog_nodup, List.nodup_singleton x, ?_⟩
      intro a ha hb
      rw [List.mem_singleton] at hb
      have := ((hr.klog_iff a).mp ha).2
      rw [hb, hxs] at this
      exact absurd this (by decide)
    · intro pre t post hsplit p hp
      simp only [hinf] at hp
      simp only at hsplit
      rw [hk2, f2] at hsplit
      rcases List.eq_nil_or_concat post with hpost | ⟨post', y, hpost⟩
      · subst hpost
        have hsplit' : s.kernel_log ++ [x] = pre ++ [t] := hsplit
        have h1 := List.append_inj_left' hsplit' rfl
        have h2 := List.append_inj_right' hsplit' rfl
        simp only [List.cons.injEq, and_true] at h2
        rw [← h1, hr.klog_iff]
        rw [← h2] at hp
        have hpx := hg.in_lt x hx p hp
        refine ⟨by omega, ?_⟩
        by_contra hnd'
        have hpend : cj_pending s x = 0 := by
          have := hr.cnt x hx
          rw [hxc] at this
          exact_mod_cast this.symm
        unfold cj_pending at hpend
        rw [List.countP_eq_zero] at hpend
        have := hpend p hp
        simp only [ne_eq, decide_not, Bool.not_eq_true', decide_eq_false_iff_not,
          not_not] at this
        exact hnd' this
      · subst hpost
        have hsplit' : s.kernel_log ++ [x] = (pre ++ t :: post') ++ [y] := by
          rw [hsplit]; simp
        have h1 := List.append_inj_left' hsplit' rfl
        exact hr.klog_order pre t post' h1 p hp

theorem cj_InvRun_enqueue (E : cj_Env) (s : cj_State) (t : Nat) (h : cj_InvRun s)
    (hst : (s.task t).status = NOTREADY) : cj_InvRun (cj_Task_enqueue E s t) := by
  have hs : ∀ a, ((cj_Task_enqueue E s t).task a).status =
      if a = t then QUEUED else (s.task a).status := by
    intro a
    simp only [cj_Task_enqueue]
    by_cases ha : a = t
    · subst ha; simp
    · simp [Function.update_apply, ha]
  have hd : ∀ a, ((cj_Task_enqueue E s t).task a).status = DONE ↔ (s.task a).status = DONE := by
    intro a
    rw [hs]
    by_cases ha : a = t
    · rw [if_pos ha, ha, hst]
      constructor <;> intro h' <;> exact absurd h' (by decide)
    · rw [if_neg ha]
  have hsg := cj_SameGraph_enqueue E s t
  constructor
  · intro a ha
    rw [hs]
    by_cases hat : a = t
    · rw [if_pos hat]; exact Or.inr (Or.inl rfl)
    · rw [if_neg hat]; exact h.status_ok a ha
  · intro a ha
    rw [cj_pending_congr s _ a (hsg.task_in a) hd, ← h.cnt a ha]
    simp only [cj_Task_enqueue]
    by_cases hat : a = t
    · subst hat; simp
    · simp [Function.update_apply, hat]
  · intro a
    rw [hd a]
    exact h.klog_iff a
  · exact h.klog_nodup
  · intro pre x post hsplit p hp
    rw [hsg.task_in] at hp
    exact h.klog_order pre x post hsplit p hp

theorem cj_Inv_begin_loop (E : cj_Env) (l : List Nat) (s : cj_State) (hg : cj_InvGraph s)
    (hq : cj_InvQueue s) (hr : cj_InvRun s) (hl : ∀ a, a ∈ l → a < s.ntask) :
    cj_InvQueue (cj_Queue_begin_loop E l s) ∧ cj_InvRun (cj_Queue_begin_loop E l s) := by
  induction l generalizing s with
  | nil => exact ⟨hq, hr⟩
  | cons now rest ih =>
    unfold cj_Queue_begin_loop
    have hnow := hl now (List.mem_cons_self _ _)
    split_ifs with hc
    · exact ih _ (cj_InvGraph_same _ _ hg (cj_SameGraph_enqueue E s now))
        (cj_InvQueue_enqueue E s now hq hnow hc.2 hc.1) (cj_InvRun_enqueue E s now hr hc.2)
        (fun a ha => hl a (List.mem_cons_of_mem _ ha))
    · exact ih s hg hq hr (fun a ha => hl a (List.mem_cons_of_mem _ ha))

theorem cj_Inv_prepare (s : cj_State) (function : cj_Function) (args : List cj_Object)
    (uninit_cost : Int) (hg : cj_InvGraph s) (hq : cj_InvQueue s) (hr : cj_InvRun s) :
    cj_InvQueue (cj_prepare s function args uninit_cost) ∧
    cj_InvRun (cj_prepare s function args uninit_cost) := by
  have hn : (cj_prepare s function args uninit_cost).ntask = s.ntask + 1 := by
    rw [cj_prepare_fields]
  have hqu : (cj_prepare s function args uninit_cost).ready_queue = s.ready_queue := by
    rw [cj_prepare_fields]
  have hel : (cj_prepare s function args uninit_cost).enqueue_log = s.enqueue_log := by
    rw [cj_prepare_fields]
  have hkl : (cj_prepare s function args uninit_cost).kernel_log = s.kernel_log := by
    rw [cj_prepare_fields]
  have hold : ∀ a, a < s.ntask → (cj_prepare s function args uninit_cost).task a = s.task a := by
    intro a ha
    rw [cj_prepare_task, if_neg (by omega)]
  have hnew := cj_prepare_task s function args uninit_cost s.ntask
  rw [if_pos rfl] at hnew
  have hpend : ∀ a, a < s.ntask →
      cj_pending (cj_prepare s function args uninit_cost) a = cj_pending s a := by
    intro a ha
    unfold cj_pending
    rw [hold a ha]
    apply List.countP_congr
    intro p hp
    have := hg.in_lt a ha p hp
    rw [hold p (by omega)]
  constructor
  · constructor
    · intro i a ha
      rw [hqu] at ha; rw [hn]
      have := hq.queue_lt i a ha; omega
    · intro a ha
      rw [hn] at ha; rw [hqu]
      by_cases hax : a = s.ntask
      · rw [hax, hnew]
        refine iff_of_false (by simp) ?_
        rintro ⟨i, hi⟩
        have := hq.queue_lt i _ hi; omega
      · rw [hold a (by omega)]; exact hq.queued_iff a (by omega)
    · rw [hqu]; exact hq.queue_nodup
    · rw [hqu]; exact hq.queue_disj
    · intro a ha hsa
      rw [hn] at ha
      by_cases hax : a = s.ntask
      · rw [hax, hnew]
      · rw [hold a (by omega)] at hsa ⊢; exact hq.ready_cnt a (by omega) hsa
    · rw [hel]; exact hq.elog_nodup
    · rw [hel]; exact hq.elog_pre
    · intro a ha
      rw [hn] at ha; rw [hel]
      by_cases hax : a = s.ntask
      · rw [hax, hnew]
        refine iff_of_false (by simp) ?_
        intro hmem
        obtain ⟨e, he, hee⟩ := List.mem_map.mp hmem
        have := hq.elog_lt e he
        omega
      · rw [hold a (by omega)]; exact hq.elog_iff a (by omega)
    · intro e he
      rw [hel] at he; rw [hn]
      have := hq.elog_lt e he; omega
  · constructor
    · intro a ha
      rw [hn] at ha
      by_cases hax : a = s.ntask
      · rw [hax, hnew]; exact Or.inl rfl
      · rw [hold a (by omega)]; exact hr.status_ok a (by omega)
    · intro a ha
      rw [hn] at ha
      by_cases hax : a = s.ntask
      · rw [hax]
        unfold cj_pending
        rw [hnew]; simp
      · rw [hpend a (by omega), hold a (by omega)]; exact hr.cnt a (by omega)
    · intro a
      rw [hkl, hr.klog_iff a, hn]
      constructor
      · rintro ⟨h1, h2⟩
        exact ⟨by omega, by rw [hold a h1]; exact h2⟩
      · rintro ⟨h1, h2⟩
        by_cases hax : a = s.ntask
        · rw [hax, hnew] at h2; simp at h2
        · exact ⟨by omega, by rw [hold a (by omega)] at h2; exact h2⟩
    · rw [hkl]; exact hr.klog_nodup
    · intro pre t post hsplit p hp
      rw [hkl] at hsplit
      have ht : t < s.ntask := by
        have : t ∈ s.kernel_log := by rw [hsplit]; simp
        exact ((hr.klog_iff t).mp this).1
      rw [hold t ht] at hp
      exact hr.klog_order pre t post hsplit p hp

theorem cj_Task_dependency_link_fields (t : Nat) (ps : List Nat) (s : cj_State) (a : Nat) :
    ((cj_Task_dependency_link t ps s).task a).in_ =
      (if a = t then (s.task a).in_ ++ cj_linked s t ps else (s.task a).in_) ∧
    ((cj_Task_dependency_link t ps s).task a).num_dependencies_remaining =
      (if a = t then (s.task a).num_dependencies_remaining + cj_linked_pending s t ps
        else (s.task a).num_dependencies_remaining) := by
  rw [cj_Task_dependency_link_eq]
  exact ⟨rfl, rfl⟩

/-- The linking loop for a task that is `NOTREADY` keeps the scheduling invariants. -/
theorem cj_Inv_link (t : Nat) (ps : List Nat) (s : cj_State) (hq : cj_InvQueue s)
    (hr : cj_InvRun s) (hst : (s.task t).status = NOTREADY) :
    cj_InvQueue (cj_Task_dependency_link t ps s) ∧
    cj_InvRun (cj_Task_dependency_link t ps s) := by
  have hgr := cj_Grows_link t ps s
  have hf := cj_Task_dependency_link_fields t ps s
  have hd : ∀ p, ((cj_Task_dependency_link t ps s).task p).status = DONE ↔
      (s.task p).status = DONE := fun p => by rw [hgr.task_status]
  have hpend : ∀ a, cj_pending (cj_Task_dependency_link t ps s) a =
      if a = t then cj_pending s a + cj_linked_pending s t ps else cj_pending s a := by
    intro a
    by_cases hat : a = t
    · rw [if_pos hat]
      unfold cj_pending cj_linked_pending
      rw [(hf a).1, if_pos hat, List.countP_append, hat]
      simp only [hgr.task_status]
    · rw [if_neg hat]
      have := (hf a).1
      rw [if_neg hat] at this
      exact cj_pending_congr s _ a this hd
  constructor
  · constructor
    · rw [hgr.ready_queue, hgr.ntask]; exact hq.queue_lt
    · intro a ha
      rw [hgr.ntask] at ha
      rw [hgr.task_status, hgr.ready_queue]; exact hq.queued_iff a ha
    · rw [hgr.ready_queue]; exact hq.queue_nodup
    · rw [hgr.ready_queue]; exact hq.queue_disj
    · intro a ha hsa
      rw [hgr.ntask] at ha
      rw [hgr.task_status] at hsa
      have hat : a ≠ t := fun e => hsa (e ▸ hst)
      rw [(hf a).2, if_neg hat]
      exact hq.ready_cnt a ha hsa
    · rw [hgr.enqueue_log]; exact hq.elog_nodup
    · rw [hgr.enqueue_log]; exact hq.elog_pre
    · intro a ha
      rw [hgr.ntask] at ha
      rw [hgr.task_status, hgr.enqueue_log]; exact hq.elog_iff a ha
    · rw [hgr.enqueue_log, hgr.ntask]; exact hq.elog_lt
  · constructor
    · intro a ha
      rw [hgr.ntask] at ha
      rw [hgr.task_status]; exact hr.status_ok a ha
    · intro a ha
      rw [hgr.ntask] at ha
      rw [(hf a).2, hpend a]
      by_cases hat : a = t
      · rw [if_pos hat, if_pos hat, hr.cnt a ha]; push_cast; rfl
      · rw [if_neg hat, if_neg hat]; exact hr.cnt a ha
    · intro a
      rw [hgr.kernel_log, hgr.ntask, hgr.task_status]; exact hr.klog_iff a
    · rw [hgr.kernel_log]; exact hr.klog_nodup
    · intro pre x post hsplit p hp
      rw [hgr.kernel_log] at hsplit
      have hx : (s.task x).status = DONE := by
        have : x ∈ s.kernel_log := by rw [hsplit]; simp
        exact ((hr.klog_iff x).mp this).2
      have hxt : x ≠ t := by
        intro e; rw [e, hst] at hx; exact absurd hx (by decide)
      rw [(hf x).1, if_neg hxt] at hp
      exact hr.klog_order pre x post hsplit p hp

theorem cj_Inv_args (E : cj_Env) (t : Nat) (args : List cj_Object) (s : cj_State)
    (hq : cj_InvQueue s) (hr : cj_InvRun s) (ht : t < s.ntask)
    (hst : (s.task t).status = NOTREADY) :
    cj_InvQueue (cj_Task_dependency_analysis_args E t args s) ∧
    cj_InvRun (cj_Task_dependency_analysis_args E t args s) := by
  induction args generalizing s with
  | nil => exact ⟨hq, hr⟩
  | cons now rest ih =>
    have hgr := cj_Grows_arg E t now s
    have harg : cj_InvQueue (cj_Task_dependency_analysis_arg E t now s) ∧
        cj_InvRun (cj_Task_dependency_analysis_arg E t now s) := by
      unfold cj_Task_dependency_analysis_arg
      split_ifs
      · have hR : cj_InvQueue (cj_Task_dependency_analysis_read t (cj_tile E now.matrix)
            now.rwtype s) ∧ cj_InvRun (cj_Task_dependency_analysis_read t
              (cj_tile E now.matrix) now.rwtype s) := by
          by_cases hr' : now.rwtype = CJ_R ∨ now.rwtype = CJ_RW
          · rw [cj_Task_dependency_analysis_read_eq _ _ _ _ hr']
            exact cj_Inv_link t _ _ (cj_InvQueue_congr s _ hq rfl rfl rfl rfl)
              (cj_InvRun_congr s _ hr rfl rfl rfl) hst
          · simp only [cj_Task_dependency_analysis_read, if_neg hr']
            exact ⟨hq, hr⟩
        have hgR := cj_Grows_read t (cj_tile E now.matrix) now.rwtype s
        by_cases hw : now.rwtype = CJ_W ∨ now.rwtype = CJ_RW
        · simp only [cj_Task_dependency_analysis_write, if_pos hw]
          have hL := cj_Inv_link t
            ((cj_Task_dependency_analysis_read t (cj_tile E now.matrix) now.rwtype s).rset
              (cj_tile E now.matrix))
            _ hR.1 hR.2 (by rw [hgR.task_status]; exact hst)
          exact ⟨cj_InvQueue_congr _ _ hL.1 rfl rfl rfl rfl, cj_InvRun_congr _ _ hL.2 rfl rfl rfl⟩
        · simp only [cj_Task_dependency_analysis_write, if_neg hw]
          exact hR
      · exact ⟨hq, hr⟩
    exact ih _ harg.1 harg.2 (by rw [hgr.ntask]; exact ht) (by rw [hgr.task_status]; exact hst)

theorem cj_Inv_submit (E : cj_Env) (s : cj_State) (function : cj_Function)
    (args : List cj_Object) (uninit_cost : Int) (hg : cj_InvGraph s) (hq : cj_InvQueue s)
    (hr : cj_InvRun s) :
    cj_InvQueue (cj_submit E s function args uninit_cost) ∧
    cj_InvRun (cj_submit E s function args uninit_cost) := by
  unfold cj_submit cj_Task_dependency_analysis
  obtain ⟨hq1, hr1⟩ := cj_Inv_prepare s function args uninit_cost hg hq hr
  have hn : (cj_prepare s function args uninit_cost).ntask = s.ntask + 1 := by
    rw [cj_prepare_fields]
  have hnew := cj_prepare_task s function args uninit_cost s.ntask
  rw [if_pos rfl] at hnew
  apply cj_Inv_args
  · exact cj_InvQueue_congr _ _ hq1 rfl rfl rfl rfl
  · exact cj_InvRun_congr _ _ hr1 rfl rfl rfl
  · simp only [cj_Graph_vertex_add, cj_Task_new]; omega
  · simp only [cj_Graph_vertex_add, cj_Task_new]
    rw [hnew]

/-- The scheduling invariants hold in the initial state. -/
theorem cj_Inv_init (n : Nat) : cj_InvQueue (cj_Init_state n) ∧ cj_InvRun (cj_Init_state n) := by
  constructor
  · constructor <;> simp [cj_Init_state]
  · constructor <;> simp [cj_Init_state]

/-- One atomic step keeps the invariants and does not stop with the error of the dependency
counter. -/
theorem cj_Inv_step (E : cj_Env) (s : cj_State) (ev : cj_Event) (hg : cj_InvGraph s)
    (hq : cj_InvQueue s) (hr : cj_InvRun s) :
    cj_step E s ev ≠ .error cj_Error.negative_dependencies ∧
    ∀ s', cj_step E s ev = .ok s' → cj_InvQueue s' ∧ cj_InvRun s' := by
  cases ev with
  | submit function args uninit_cost =>
    refine ⟨by simp [cj_step], ?_⟩
    intro s' hstep
    simp only [cj_step, Except.ok.injEq] at hstep
    subst hstep
    exact cj_Inv_submit E s function args uninit_cost hg hq hr
  | queue_begin =>
    refine ⟨by simp [cj_step], ?_⟩
    intro s' hstep
    simp only [cj_step, Except.ok.injEq] at hstep
    subst hstep
    unfold cj_Queue_begin
    exact cj_Inv_begin_loop E s.vertex _ (cj_InvGraph_same s _ hg (by constructor <;> intros <;> rfl))
      (cj_InvQueue_congr s _ hq rfl rfl rfl rfl) (cj_InvRun_congr s _ hr rfl rfl rfl)
      hg.vertex_lt
  | queue_end =>
    refine ⟨by simp [cj_step], ?_⟩
    intro s' hstep
    simp only [cj_step, Except.ok.injEq] at hstep
    subst hstep
    exact ⟨cj_InvQueue_congr s _ hq rfl rfl rfl rfl, cj_InvRun_congr s _ hr rfl rfl rfl⟩
  | worker id =>
    simp only [cj_step]
    split_ifs with hid
    · unfold cj_Worker_entry_point_iteration
      cases hqu : s.ready_queue id with
      | nil =>
        refine ⟨by simp, ?_⟩
        intro s' hstep
        simp only [Except.ok.injEq] at hstep
        subst hstep
        exact ⟨hq, hr⟩
      | cons x rest =>
        simp only
        cases hexec : cj_Worker_execute E
            { s with ready_queue := Function.update s.ready_queue id rest } x id with
        | error e =>
          simp only
          refine ⟨?_, by simp⟩
          intro h
          simp only [Except.error.injEq] at h
          exact cj_Worker_execute_error E _ x id e hexec h
        | ok s1 =>
          simp only
          obtain ⟨s', hup, hq', hr'⟩ := cj_iteration_ok E s s1 id x rest hg hq hr hqu hexec
          rw [hup]
          refine ⟨by simp, ?_⟩
          intro s'' hs''
          simp only [Except.ok.injEq] at hs''
          subst hs''
          exact ⟨hq', hr'⟩
    · exact ⟨by simp, by simp⟩

theorem cj_Inv_reachable (E : cj_Env) (s : cj_State) (h : cj_Reachable E s) :
    cj_InvGraph s ∧ cj_InvQueue s ∧ cj_InvRun s := by
  induction h with
  | init nworker s hinit =>
    rw [(cj_Init_ok nworker s hinit).2]
    exact ⟨cj_InvGraph_init _, cj_Inv_init _⟩
  | step s s' ev _ hstep ih =>
    exact ⟨cj_InvGraph_step E s s' ev ih.1 hstep, (cj_Inv_step E s ev ih.1 ih.2.1 ih.2.2).2 s' hstep⟩

/-- A state reached by a run from the state set up by `cj_Init` is reachable. -/
theorem cj_Reachable_of_run (E : cj_Env) (n : Nat) (hn : 0 < n) (evs : List cj_Event)
    (s : cj_State) (h : cj_run E evs (cj_Init_state n) = .ok s) : cj_Reachable E s := by
  refine cj_Reachable_run E evs (cj_Init_state n) s (cj_Reachable.init n _ ?_) h
  unfold cj_Init
  rw [if_neg (by omega)]
  simp

/-- C1. With submit, `cj_Queue_begin`, `cj_Queue_end` and a worker's pop, execute and complete
of one task as atomic steps: in every reachable state and for every edge `(p, t)` of the graph,
every kernel call of `t` in the log of kernel calls is preceded by a kernel call of `p`; no
kernel is called twice. -/
theorem cj_C1_edge_order (E : cj_Env) (s : cj_State) (h : cj_Reachable E s) :
    (∀ p t, (p, t) ∈ s.edge → ∀ pre post, s.kernel_log = pre ++ t :: post → p ∈ pre) ∧
    s.kernel_log.Nodup := by
  obtain ⟨hg, -, hr⟩ := cj_Inv_reachable E s h
  refine ⟨?_, hr.klog_nodup⟩
  intro p t he pre post hlog
  have hlt := hg.edge_lt _ he
  simp only at hlt
  have hcount : 0 < s.edge.count (p, t) := List.count_pos_iff.mpr he
  rw [← hg.adj_in p t (by omega) hlt.2] at hcount
  exact hr.klog_order pre t post hlog p (List.count_pos_iff.mp hcount)

/-- Witness of C1: the run of scenario S1; the kernels are called in the order T1, T2, T3. -/
theorem cj_C1_edge_order_witness :
    ∃ s, cj_run cj_Env_example cj_S1_events (cj_Init_state 3) = .ok s ∧
      s.edge = [(0, 1), (1, 2)] ∧ s.kernel_log = [0, 1, 2] ∧
      ((∀ p t, (p, t) ∈ s.edge → ∀ pre post, s.kernel_log = pre ++ t :: post → p ∈ pre) ∧
        s.kernel_log.Nodup) :=
  ⟨_, rfl, by decide, by decide,
    cj_C1_edge_order cj_Env_example _
      (cj_Reachable_of_run cj_Env_example 3 (by decide) cj_S1_events _ rfl)⟩

/-- C6. In every reachable state the pending counter of every allocated task equals the number
of entries of its predecessor list (with multiplicity) whose task is not `DONE`. -/
theorem cj_C6_counter (E : cj_Env) (s : cj_State) (h : cj_Reachable E s) :
    ∀ t, t < s.ntask →
      (s.task t).num_dependencies_remaining =
        ((s.task t).in_.countP (fun p => decide ((s.task p).status ≠ DONE)) : Nat) :=
  fun t ht => (cj_Inv_reachable E s h).2.2.cnt t ht

/-- Witness of C6: scenario S1 after `cj_Queue_begin` and the first worker step; T1 is `DONE`,
and the counters of T1, T2, T3 are 0, 0, 1. -/
theorem cj_C6_counter_witness :
    ∃ s, cj_run cj_Env_example (cj_S1_events.take 5) (cj_Init_state 3) = .ok s ∧
      s.ntask = 3 ∧ (s.task 0).status = DONE ∧
      (s.task 1).num_dependencies_remaining = 0 ∧ (s.task 2).num_dependencies_remaining = 1 ∧
      (∀ t, t < s.ntask →
        (s.task t).num_dependencies_remaining =
          ((s.task t).in_.countP (fun p => decide ((s.task p).status ≠ DONE)) : Nat)) :=
  ⟨_, rfl, by decide, by decide, by decide, by decide,
    cj_C6_counter cj_Env_example _
      (cj_Reachable_of_run cj_Env_example 3 (by decide) (cj_S1_events.take 5) _ rfl)⟩

/-! ## Logs only grow -/

theorem cj_logs_enqueue (E : cj_Env) (s : cj_State) (t : Nat) :
    (cj_Task_enqueue E s t).kernel_log = s.kernel_log ∧
    s.enqueue_log <+: (cj_Task_enqueue E s t).enqueue_log := by
  simp [cj_Task_enqueue]

theorem cj_logs_update_loop (E : cj_Env) (l : List Nat) (s s' : cj_State)
    (h : cj_Task_dependencies_update_loop E l s = .ok s') :
    s'.kernel_log = s.kernel_log ∧ s.enqueue_log <+: s'.enqueue_log := by
  induction l generalizing s with
  | nil =>
    simp only [cj_Task_dependencies_update_loop, Except.ok.injEq] at h
    subst h; exact ⟨rfl, List.prefix_refl _⟩
  | cons child rest ih =>
    unfold cj_Task_dependencies_update_loop at h
    split_ifs at h
    · obtain ⟨a1, a2⟩ := ih _ h
      obtain ⟨b1, b2⟩ := cj_logs_enqueue E
        { s with
            task := Function.update s.task child
              { (s.task child) with
                  num_dependencies_remaining :=
                    (s.task child).num_dependencies_remaining - 1 } } child
      exact ⟨a1.trans b1, b2.trans a2⟩
    · obtain ⟨a1, a2⟩ := ih _ h
      exact ⟨a1, a2⟩

theorem cj_logs_begin_loop (E : cj_Env) (l : List Nat) (s : cj_State) :
    (cj_Queue_begin_loop E l s).kernel_log = s.kernel_log ∧
    s.enqueue_log <+: (cj_Queue_begin_loop E l s).enqueue_log := by
  induction l generalizing s with
  | nil => exact ⟨rfl, List.prefix_refl _⟩
  | cons now rest ih =>
    unfold cj_Queue_begin_loop
    split_ifs
    · obtain ⟨a1, a2⟩ := ih (cj_Task_enqueue E s now)
      obtain ⟨b1, b2⟩ := cj_logs_enqueue E s now
      exact ⟨a1.trans b1, b2.trans a2⟩
    · exact ih s

/-- An atomic step allocates at most new tasks and extends both logs at the tail. -/
theorem cj_step_grows (E : cj_Env) (s s' : cj_State) (ev : cj_Event)
    (h : cj_step E s ev = .ok s') :
    s.ntask ≤ s'.ntask ∧ s.kernel_log <+: s'.kernel_log ∧ s.enqueue_log <+: s'.enqueue_log := by
  cases ev with
  | submit function args uninit_cost =>
    simp only [cj_step, Except.ok.injEq] at h
    subst h
    unfold cj_submit cj_Task_dependency_analysis
    have hgr := cj_Grows_args E (cj_Task_new s uninit_cost).2
      ((cj_prepare s function args uninit_cost).task (cj_Task_new s uninit_cost).2).arg
      (cj_Graph_vertex_add (cj_prepare s function args uninit_cost) (cj_Task_new s uninit_cost).2)
    refine ⟨?_, ?_, ?_⟩
    · rw [hgr.ntask]
      simp only [cj_Graph_vertex_add]
      rw [cj_prepare_fields]
      simp
    · rw [hgr.kernel_log]; exact List.prefix_refl _
    · rw [hgr.enqueue_log]; exact List.prefix_refl _
  | queue_begin =>
    simp only [cj_step, Except.ok.injEq] at h
    subst h
    obtain ⟨a1, a2⟩ := cj_logs_begin_loop E s.vertex { s with cj_queue_enable := true }
    exact ⟨le_of_eq (cj_SameGraph_begin E s).ntask.symm, by rw [cj_Queue_begin, a1], a2⟩
  | queue_end =>
    simp only [cj_step, Except.ok.injEq] at h
    subst h
    exact ⟨le_refl _, List.prefix_refl _, List.prefix_refl _⟩
  | worker id =>
    simp only [cj_step] at h
    split_ifs at h
    have hn := (cj_SameGraph_iteration E s s' id h).ntask
    refine ⟨le_of_eq hn.symm, ?_⟩
    unfold cj_Worker_entry_point_iteration at h
    split at h
    · simp only [Except.ok.injEq] at h
      subst h; exact ⟨List.prefix_refl _, List.prefix_refl _⟩
    · split at h
      · exact absurd h (by simp)
      · rename_i t rest _ _ s1 hs1
        obtain ⟨-, f2, -, -, -, -, -, -, -, -, -, -, -, f14⟩ :=
          cj_Worker_execute_frame E _ s1 t id hs1
        unfold cj_Task_dependencies_update at h
        split at h
        · exact absurd h (by simp)
        · rename_i s2 hs2
          simp only [Except.ok.injEq] at h
          subst h
          obtain ⟨a1, a2⟩ := cj_logs_update_loop E _ s1 s2 hs2
          simp only at f2 f14 ⊢
          refine ⟨?_, ?_⟩
          · rw [a1, f2]; exact List.prefix_append _ _
          · rw [f14] at a2; exact a2

/-- Along an atomic step between reachable states the status of a task never goes back: a task
that left `NOTREADY` stays out of it, and a task that is `DONE` stays `DONE`. -/
theorem cj_status_forward (E : cj_Env) (s s' : cj_State) (ev : cj_Event)
    (h : cj_Reachable E s) (hstep : cj_step E s ev = .ok s') (a : Nat) (ha : a < s.ntask) :
    ((s.task a).status ≠ NOTREADY → (s'.task a).status ≠ NOTREADY) ∧
    ((s.task a).status = DONE → (s'.task a).status = DONE) := by
  obtain ⟨-, hq, hr⟩ := cj_Inv_reachable E s h
  obtain ⟨-, hq', hr'⟩ := cj_Inv_reachable E s' (cj_Reachable.step s s' ev h hstep)
  obtain ⟨hn, hk, he⟩ := cj_step_grows E s s' ev hstep
  constructor
  · intro hne
    have h1 := (hq.elog_iff a ha).mp hne
    have h2 : a ∈ s'.enqueue_log.map cj_EnqueueCall.task := by
      obtain ⟨e, he1, he2⟩ := List.mem_map.mp h1
      exact List.mem_map.mpr ⟨e, he.subset he1, he2⟩
    exact (hq'.elog_iff a (by omega)).mpr h2
  · intro hd
    have h1 := (hr.klog_iff a).mpr ⟨ha, hd⟩
    exact ((hr'.klog_iff a).mp (hk.subset h1)).2

/-- C7. In every reachable state: no task was passed to `cj_Task_enqueue` twice; at every call
the task was `NOTREADY` with a zero counter; the tasks that left `NOTREADY` are exactly the
tasks passed to `cj_Task_enqueue`; a task that left `NOTREADY` has a zero counter; no task
occurs twice in a ready queue, nor in two ready queues. Along every atomic step, a task that
is `QUEUED` afterwards was `NOTREADY` or already `QUEUED` before, and a task that left
`NOTREADY` never returns to it, so that a task becomes `QUEUED` at most once. -/
theorem cj_C7_enqueue_once (E : cj_Env) (s : cj_State) (h : cj_Reachable E s) :
    (s.enqueue_log.map cj_EnqueueCall.task).Nodup ∧
    (∀ e, e ∈ s.enqueue_log → e.status = NOTREADY ∧ e.num_dependencies_remaining = 0) ∧
    (∀ t, t < s.ntask →
      ((s.task t).status ≠ NOTREADY ↔ t ∈ s.enqueue_log.map cj_EnqueueCall.task)) ∧
    (∀ t, t < s.ntask → (s.task t).status ≠ NOTREADY →
      (s.task t).num_dependencies_remaining = 0) ∧
    (∀ i, (s.ready_queue i).Nodup) ∧
    (∀ i j t, t ∈ s.ready_queue i → t ∈ s.ready_queue j → i = j) ∧
    (∀ ev s', cj_step E s ev = .ok s' → ∀ t, t < s.ntask →
      ((s'.task t).status = QUEUED →
        (s.task t).status = NOTREADY ∨ (s.task t).status = QUEUED) ∧
      ((s.task t).status ≠ NOTREADY → (s'.task t).status ≠ NOTREADY)) := by
  obtain ⟨-, hq, hr⟩ := cj_Inv_reachable E s h
  refine ⟨hq.elog_nodup, hq.elog_pre, hq.elog_iff, hq.ready_cnt, hq.queue_nodup, hq.queue_disj,
    ?_⟩
  intro ev s' hstep t ht
  obtain ⟨h1, h2⟩ := cj_status_forward E s s' ev h hstep t ht
  refine ⟨?_, h1⟩
  intro hqd
  rcases hr.status_ok t ht with h3 | h3 | h3
  · exact Or.inl h3
  · exact Or.inr h3
  · rw [h2 h3] at hqd
    exact absurd hqd (by decide)

/-- Witness of C7: the run of scenario S1 up to the second worker step; T1 and T2 were passed
to `cj_Task_enqueue` once each, T3 not yet, and the next worker step enqueues T3. -/
theorem cj_C7_enqueue_once_witness :
    ∃ s, cj_run cj_Env_example (cj_S1_events.take 5) (cj_Init_state 3) = .ok s ∧
      s.enqueue_log.map cj_EnqueueCall.task = [0, 1] ∧
      (s.task 2).status = NOTREADY ∧
      ((s.enqueue_log.map cj_EnqueueCall.task).Nodup ∧
        (∀ e, e ∈ s.enqueue_log → e.status = NOTREADY ∧ e.num_dependencies_remaining = 0) ∧
        (∀ t, t < s.ntask →
          ((s.task t).status ≠ NOTREADY ↔ t ∈ s.enqueue_log.map cj_EnqueueCall.task)) ∧
        (∀ t, t < s.ntask → (s.task t).status ≠ NOTREADY →
          (s.task t).num_dependencies_remaining = 0) ∧
        (∀ i, (s.ready_queue i).Nodup) ∧
        (∀ i j t, t ∈ s.ready_queue i → t ∈ s.ready_queue j → i = j) ∧
        (∀ ev s', cj_step cj_Env_example s ev = .ok s' → ∀ t, t < s.ntask →
          ((s'.task t).status = QUEUED →
            (s.task t).status = NOTREADY ∨ (s.task t).status = QUEUED) ∧
          ((s.task t).status ≠ NOTREADY → (s'.task t).status ≠ NOTREADY))) :=
  ⟨_, rfl, by decide, by decide,
    cj_C7_enqueue_once cj_Env_example _
      (cj_Reachable_of_run cj_Env_example 3 (by decide) (cj_S1_events.take 5) _ rfl)⟩

/-- With every submission and every completion taken as one atomic step: in every reachable
state the pending counter of every allocated task is non-negative, and no atomic step from a
reachable state stops with the error "Remaining dependencies can't be negative" of
`cj_Task_dependencies_update`. -/
theorem cj_counter_nonneg_atomic (E : cj_Env) (s : cj_State) (h : cj_Reachable E s) :
    (∀ t, t < s.ntask → 0 ≤ (s.task t).num_dependencies_remaining) ∧
    (∀ ev, cj_step E s ev ≠ .error cj_Error.negative_dependencies) := by
  obtain ⟨hg, hq, hr⟩ := cj_Inv_reachable E s h
  refine ⟨?_, fun ev => (cj_Inv_step E s ev hg hq hr).1⟩
  intro t ht
  rw [hr.cnt t ht]
  exact Int.natCast_nonneg _

/-- Scenario S1 after `cj_Queue_begin` and two worker steps; the third worker step, which
completes T3, succeeds. -/
theorem cj_counter_nonneg_atomic_witness :
    ∃ s, cj_run cj_Env_example (cj_S1_events.take 6) (cj_Init_state 3) = .ok s ∧
      s.kernel_log = [0, 1] ∧
      ((∀ t, t < s.ntask → 0 ≤ (s.task t).num_dependencies_remaining) ∧
        (∀ ev, cj_step cj_Env_example s ev ≠ .error cj_Error.negative_dependencies)) :=
  ⟨_, rfl, by decide,
    cj_counter_nonneg_atomic cj_Env_example _
      (cj_Reachable_of_run cj_Env_example 3 (by decide) (cj_S1_events.take 6) _ rfl)⟩

/-! ## Choice of the destination worker -/

theorem cj_float_round_small (n : Nat) (h : n < 2 ^ 24) : cj_float_round n = n := by
  have hs : cj_float_shift 128 n = 0 := by
    show (if n < 2 ^ 24 then 0 else cj_float_shift 127 (n / 2) + 1) = 0
    rw [if_pos h]
  unfold cj_float_round
  rw [hs]
  simp [Nat.mod_one]

theorem cj_fadd32_nat (a b : Nat) : cj_fadd32 a b = (cj_float_round (a + b) : Nat) := by
  unfold cj_fadd32
  have h : (0 : Int) ≤ (a : Int) + (b : Int) := by omega
  rw [if_pos h]
  have h2 : ((a : Int) + (b : Int)).toNat = a + b := by omega
  rw [h2]

theorem cj_dist_scan_some (device_id : Int) (l : List cj_Distribution)
    (acc c : Option cj_Distribution) (d : cj_Distribution)
    (h : cj_dist_scan device_id l acc = (some d, c)) : d ∈ l ∧ d.device_id = device_id := by
  induction l generalizing acc with
  | nil => simp [cj_dist_scan] at h
  | cons e rest ih =>
    unfold cj_dist_scan at h
    split_ifs at h with h1 h2
    · simp only [Prod.mk.injEq, Option.some.injEq] at h
      rw [← h.1]
      exact ⟨List.mem_cons_self _ _, h1⟩
    · exact ⟨List.mem_cons_of_mem _ (ih _ h).1, (ih _ h).2⟩
    · exact ⟨List.mem_cons_of_mem _ (ih _ h).1, (ih _ h).2⟩

theorem cj_dist_scan_none (device_id : Int) (l : List cj_Distribution)
    (acc c : Option cj_Distribution)
    (h : cj_dist_scan device_id l acc = (none, c)) :
    (∀ d, d ∈ l → d.device_id ≠ device_id) ∧
    (c = acc ∨ ∃ d, d ∈ l ∧ d.device_id = -1 ∧ c = some d) := by
  induction l generalizing acc with
  | nil =>
    simp only [cj_dist_scan, Prod.mk.injEq, true_and] at h
    exact ⟨by simp, Or.inl h.symm⟩
  | cons e rest ih =>
    unfold cj_dist_scan at h
    split_ifs at h with h1 h2
    · simp at h
    · obtain ⟨a1, a2⟩ := ih _ h
      refine ⟨?_, Or.inr ?_⟩
      · intro d hd
        rcases List.mem_cons.mp hd with hd | hd
        · rw [hd]; exact h1
        · exact a1 d hd
      · rcases a2 with a2 | ⟨d, hd, hd1, hd2⟩
        · exact ⟨e, List.mem_cons_self _ _, h2, a2⟩
        · exact ⟨d, List.mem_cons_of_mem _ hd, hd1, hd2⟩
    · obtain ⟨a1, a2⟩ := ih _ h
      refine ⟨?_, ?_⟩
      · intro d hd
        rcases List.mem_cons.mp hd with hd | hd
        · rw [hd]; exact h1
        · exact a1 d hd
      · rcases a2 with a2 | ⟨d, hd, hd1, hd2⟩
        · exact Or.inl a2
        · exact Or.inr ⟨d, List.mem_cons_of_mem _ hd, hd1, hd2⟩

/-- Staging only pushes locations at the head of location lists. -/
theorem cj_Worker_stage_arg_suffix (E : cj_Env) (w : cj_Worker) (now : cj_Object)
    (s s' : cj_State) (h : cj_Worker_stage_arg E w now s = .ok s') (k : cj_Tile) :
    s.dist k <:+ s'.dist k := by
  have hhost : ∀ (k0 : cj_Tile) (head : cj_Distribution) (c : Option cj_Distribution)
      (s0 s1 : cj_State), cj_Worker_stage_host E now k0 head c s0 = .ok s1 →
      s0.dist k <:+ s1.dist k := by
    intro k0 head c s0 s1 h0
    unfold cj_Worker_stage_host at h0
    split at h0
    · simp only [Except.ok.injEq] at h0; subst h0; exact List.suffix_refl _
    · split_ifs at h0
      simp only [Except.ok.injEq] at h0; subst h0
      simp only
      by_cases hk : k = k0
      · subst hk; simp only [Function.update_same]; exact List.suffix_cons _ _
      · simp only [Function.update_apply, hk, if_false]; exact List.suffix_refl _
  have hdev : ∀ (k0 : cj_Tile) (s0 s1 : cj_State),
      cj_Worker_stage_device E w now k0 s0 = .ok s1 → s0.dist k <:+ s1.dist k := by
    intro k0 s0 s1 h0
    unfold cj_Worker_stage_device at h0
    split_ifs at h0
    · simp only [Except.ok.injEq] at h0; subst h0
      simp only
      by_cases hk : k = k0
      · subst hk; simp only [Function.update_same]; exact List.suffix_cons _ _
      · simp only [Function.update_apply, hk, if_false]; exact List.suffix_refl _
    · simp only [Except.ok.injEq] at h0; subst h0; exact List.suffix_refl _
  unfold cj_Worker_stage_arg at h
  split_ifs at h
  · split at h
    · simp only [Except.ok.injEq] at h; subst h; exact List.suffix_refl _
    · split at h
      · exact absurd h (by simp)
      · split at h
        · exact absurd h (by simp)
        · rename_i s1 hs1
          exact (hhost _ _ _ _ _ hs1).trans (hdev _ _ _ h)
  · simp only [Except.ok.injEq] at h; subst h; exact List.suffix_refl _

/-- After the staging of a matrix argument by a worker that is a host worker with
`device_id = -1` or a device worker, the tile has a location on the device of the worker. -/
theorem cj_Worker_stage_arg_has (E : cj_Env) (w : cj_Worker) (now : cj_Object)
    (s s' : cj_State) (h : cj_Worker_stage_arg E w now s = .ok s')
    (hm : now.objtype = CJ_MATRIX) (hw : w.devtype = CJ_DEV_CPU → w.device_id = -1) :
    ∃ e, e ∈ s'.dist (cj_tile E now.matrix) ∧ e.device_id = w.device_id := by
  unfold cj_Worker_stage_arg at h
  rw [if_pos hm] at h
  split at h
  · rename_i d c hscan
    simp only [Except.ok.injEq] at h; subst h
    exact ⟨d, cj_dist_scan_some _ _ _ _ _ hscan⟩
  · rename_i c hscan
    obtain ⟨hno, hc⟩ := cj_dist_scan_none _ _ _ _ hscan
    split at h
    · exact absurd h (by simp)
    · rename_i head tl hdist
      split at h
      · exact absurd h (by simp)
      · rename_i s1 hs1
        unfold cj_Worker_stage_device at h
        by_cases hcpu : w.devtype = CJ_DEV_CPU
        · rw [if_neg (not_not.mpr hcpu)] at h
          simp only [Except.ok.injEq] at h; subst h
          have hid := hw hcpu
          have hcnone : c = none := by
            rcases hc with hc | ⟨d, hd, hd1, -⟩
            · exact hc
            · exact absurd (hd1.trans hid.symm) (hno d hd)
          subst hcnone
          unfold cj_Worker_stage_host at hs1
          simp only at hs1
          split_ifs at hs1
          simp only [Except.ok.injEq] at hs1; subst hs1
          refine ⟨cj_Distribution_new, ?_, ?_⟩
          · simp
          · rw [hid]; rfl
        · rw [if_pos hcpu] at h
          split_ifs at h
          simp only [Except.ok.injEq] at h; subst h
          refine ⟨cj_Distribution_set w.device_id
            (E.cj_Cache_fetch (s1.device w.device_id) now).2, ?_, rfl⟩
          simp

theorem cj_Worker_fetch_has (E : cj_Env) (w : cj_Worker) (args : List cj_Object)
    (s s' : cj_State) (h : cj_Worker_fetch E w args s = .ok s')
    (hw : w.devtype = CJ_DEV_CPU → w.device_id = -1) :
    ∀ a, a ∈ args → a.objtype = CJ_MATRIX →
      ∃ e, e ∈ s'.dist (cj_tile E a.matrix) ∧ e.device_id = w.device_id := by
  induction args generalizing s with
  | nil => intro a ha; simp at ha
  | cons now rest ih =>
    unfold cj_Worker_fetch at h
    split at h
    · exact absurd h (by simp)
    · rename_i s1 hs1
      have hsuf : ∀ k, s1.dist k <:+ s'.dist k := by
        intro k
        clear ih hs1
        induction rest generalizing s1 with
        | nil =>
          simp only [cj_Worker_fetch, Except.ok.injEq] at h
          subst h; exact List.suffix_refl _
        | cons n2 r2 ih2 =>
          unfold cj_Worker_fetch at h
          split at h
          · exact absurd h (by simp)
          · rename_i s2 hs2
            exact (cj_Worker_stage_arg_suffix E w n2 s1 s2 hs2 k).trans (ih2 s2 h)
      intro a ha hm
      rcases List.mem_cons.mp ha with ha | ha
      · subst ha
        obtain ⟨e, he, hed⟩ := cj_Worker_stage_arg_has E w a s s1 hs1 hm hw
        exact ⟨e, (hsuf _).subset he, hed⟩
      · exact ih s1 h a ha hm

/-- The commit loop, in terms of the first location `F k` on the device of the worker that each
tile `k` has when the loop starts: every tile keeps its first location on the device, a tile is
either untouched or collapsed to that location, and the tile of every `W` or `RW` matrix
argument is collapsed. -/
theorem cj_Worker_commit_spec (E : cj_Env) (w : cj_Worker) (args : List cj_Object)
    (s : cj_State) (F : cj_Tile → Option cj_Distribution)
    (hF : ∀ k, (s.dist k).find? (fun d => decide (d.device_id = w.device_id)) = F k)
    (hsome : ∀ a, a ∈ args → a.objtype = CJ_MATRIX → ∃ e, F (cj_tile E a.matrix) = some e) :
    (∀ k, ((cj_Worker_commit E w args s).dist k).find?
      (fun d => decide (d.device_id = w.device_id)) = F k) ∧
    (∀ k, (cj_Worker_commit E w args s).dist k = s.dist k ∨
      ∃ e, F k = some e ∧ (cj_Worker_commit E w args s).dist k = [e]) ∧
    (∀ a, a ∈ args → a.objtype = CJ_MATRIX → (a.rwtype = CJ_W ∨ a.rwtype = CJ_RW) →
      ∃ e, F (cj_tile E a.matrix) = some e ∧
        (cj_Worker_commit E w args s).dist (cj_tile E a.matrix) = [e]) := by
  induction args generalizing s with
  | nil =>
    unfold cj_Worker_commit
    exact ⟨hF, fun k => Or.inl rfl, fun a ha => absurd ha (List.not_mem_nil a)⟩
  | cons now rest ih =>
    unfold cj_Worker_commit
    by_cases hc : (now.rwtype = CJ_W ∨ now.rwtype = CJ_RW) ∧ now.objtype = CJ_MATRIX
    · obtain ⟨e, he⟩ := hsome now (List.mem_cons_self _ _) hc.2
      have hed : e.device_id = w.device_id := by
        have := hF (cj_tile E now.matrix)
        rw [he] at this
        simpa using List.find?_some this
      have hs1 : ∀ k, (cj_Worker_commit_arg E w now s).dist k =
          if k = cj_tile E now.matrix then [e] else s.dist k := by
        intro k
        unfold cj_Worker_commit_arg
        rw [if_pos hc.1, if_pos hc.2]
        simp only [cj_Distribution_duplicate, hF, he]
        by_cases hk : k = cj_tile E now.matrix
        · subst hk; simp
        · simp [Function.update_apply, hk]
      have hF1 : ∀ k, ((cj_Worker_commit_arg E w now s).dist k).find?
          (fun d => decide (d.device_id = w.device_id)) = F k := by
        intro k
        rw [hs1]
        by_cases hk : k = cj_tile E now.matrix
        · rw [if_pos hk, hk, he]
          simp [hed]
        · rw [if_neg hk]; exact hF k
      obtain ⟨a1, a2, a3⟩ := ih (cj_Worker_commit_arg E w now s) hF1
        (fun a ha hm => hsome a (List.mem_cons_of_mem _ ha) hm)
      refine ⟨a1, ?_, ?_⟩
      · intro k
        rcases a2 k with h | h
        · rw [h, hs1]
          by_cases hk : k = cj_tile E now.matrix
          · rw [if_pos hk, hk]; exact Or.inr ⟨e, he, rfl⟩
          · rw [if_neg hk]; exact Or.inl rfl
        · exact Or.inr h
      · intro a ha hm hrw
        rcases List.mem_cons.mp ha with ha | ha
        · subst ha
          refine ⟨e, he, ?_⟩
          rcases a2 (cj_tile E a.matrix) with h | ⟨e', he', h⟩
          · rw [h, hs1, if_pos rfl]
          · rw [h]
            rw [he] at he'
            simp only [Option.some.injEq] at he'
            rw [he']
        · exact a3 a ha hm hrw
    · have hs1 : cj_Worker_commit_arg E w now s = s := by
        unfold cj_Worker_commit_arg
        by_cases h1 : now.rwtype = CJ_W ∨ now.rwtype = CJ_RW
        · rw [if_pos h1, if_neg (fun h2 => hc ⟨h1, h2⟩)]
        · rw [if_neg h1]
      rw [hs1]
      obtain ⟨a1, a2, a3⟩ := ih s hF (fun a ha hm => hsome a (List.mem_cons_of_mem _ ha) hm)
      refine ⟨a1, a2, ?_⟩
      intro a ha hm hrw
      rcases List.mem_cons.mp ha with ha | ha
      · subst ha
        exact absurd ⟨hrw, hm⟩ hc
      · exact a3 a ha hm hrw

/-- C10. Let worker `w` be bound to its device: a host worker has `device_id = -1`, a device
worker has the id of its device. If `cj_Worker_execute` of task `t` on `w` returns, then for
every matrix argument of `t` with mode `W` or `RW` the location list of its tile has exactly one
entry; the entry names the device of the worker, and it is the location (device and cache line)
under which the tile was staged on that device, that is the first location on the device that
the tile has after the staging loop. -/
theorem cj_C10_write_collapses (E : cj_Env) (s s' : cj_State) (t w : Nat)
    (hw : (s.worker w).devtype = CJ_DEV_CPU → (s.worker w).device_id = -1)
    (hexec : cj_Worker_execute E s t w = .ok s') :
    ∃ s1, cj_Worker_fetch E (s.worker w) (s.task t).arg (cj_Worker_execute_begin s t w) = .ok s1 ∧
      ∀ a, a ∈ (s.task t).arg → a.objtype = CJ_MATRIX →
        (a.rwtype = CJ_W ∨ a.rwtype = CJ_RW) →
        ∃ e, s'.dist (cj_tile E a.matrix) = [e] ∧ e.device_id = (s.worker w).device_id ∧
          (s1.dist (cj_tile E a.matrix)).find?
            (fun d => decide (d.device_id = (s.worker w).device_id)) = some e := by
  unfold cj_Worker_execute at hexec
  split at hexec
  · exact absurd hexec (by simp)
  · rename_i s1 hs1
    simp only [Except.ok.injEq] at hexec
    refine ⟨s1, hs1, ?_⟩
    have hhas := cj_Worker_fetch_has E (s.worker w) (s.task t).arg _ s1 hs1 hw
    obtain ⟨-, -, a3⟩ := cj_Worker_commit_spec E (s.worker w) (s.task t).arg
      (cj_kernel_call s1 t)
      (fun k => (s1.dist k).find? (fun d => decide (d.device_id = (s.worker w).device_id)))
      (fun k => rfl)
      (by
        intro a ha hm
        obtain ⟨e, he, hed⟩ := hhas a ha hm
        cases hfind : (s1.dist (cj_tile E a.matrix)).find?
            (fun d => decide (d.device_id = (s.worker w).device_id)) with
        | none =>
          rw [List.find?_eq_none] at hfind
          exact absurd (by simpa using hed) (hfind e he)
        | some e' => exact ⟨e', hfind⟩)
    intro a ha hm hrw
    obtain ⟨e, he1, he2⟩ := a3 a ha hm hrw
    rw [hexec] at he2
    refine ⟨e, he2, ?_, he1⟩
    simpa using List.find?_some he1

/-- Witness of C10, for a device worker and for a host worker. On `cj_device_state`, worker 1
(CUDA, device 0) executes task 0 with the argument `RW A`: the tile is staged into cache line 5
of device 0 and the location list of A ends as the single entry `(0, 5)`. In scenario S1 the
host worker 1 executes T1, which writes A: the list of A ends as the single host entry. -/
theorem cj_C10_write_collapses_witness :
    (∃ s', cj_Worker_execute cj_Env_device cj_device_state 0 1 = .ok s' ∧
      s'.dist (0, 0, 0) = [{ device_id := 0, cache_id := 5 }] ∧
      ∃ s1, cj_Worker_fetch cj_Env_device (cj_device_state.worker 1) (cj_device_state.task 0).arg
          (cj_Worker_execute_begin cj_device_state 0 1) = .ok s1 ∧
        ∀ a, a ∈ (cj_device_state.task 0).arg → a.objtype = CJ_MATRIX →
          (a.rwtype = CJ_W ∨ a.rwtype = CJ_RW) →
          ∃ e, s'.dist (cj_tile cj_Env_device a.matrix) = [e] ∧
            e.device_id = (cj_device_state.worker 1).device_id ∧
            (s1.dist (cj_tile cj_Env_device a.matrix)).find?
              (fun d => decide (d.device_id = (cj_device_state.worker 1).device_id)) = some e) ∧
    (∃ s', cj_Worker_execute cj_Env_example cj_S1_three 0 1 = .ok s' ∧
      s'.dist (0, 0, 0) = [{ device_id := -1, cache_id := 0 }]) :=
  ⟨⟨_, rfl, by decide,
      cj_C10_write_collapses cj_Env_device cj_device_state _ 0 1 (by decide) rfl⟩,
    ⟨_, rfl, by decide⟩⟩

/-! ## Write after write -/

/-- A graph without edges has no path. -/
theorem cj_no_path_of_no_edge (s : cj_State) (h : s.edge = []) (a c : Nat) :
    ¬ Relation.TransGen (fun x y => (x, y) ∈ s.edge) a c := by
  intro hpath
  obtain ⟨b, hb, -⟩ := Relation.TransGen.head'_iff.mp hpath
  rw [h] at hb
  exact absurd hb (List.not_mem_nil _)

/-- C4, evaluation of the code at the failing input: T1 (task 0) and T2 (task 1) both write
tile A with mode `W`. The analysis adds no edge, so there is no path from T1 to T2; both tasks
are enqueued by `cj_Queue_begin`, T1 to worker 1 and T2 to worker 2, and in the run where
worker 2 steps first the kernel of T2 is called before the kernel of T1. -/
theorem cj_C4_waw_unordered :
    ∃ s, cj_run cj_Env_example cj_waw_events (cj_Init_state 3) = .ok s ∧
      (s.task 0).arg = [cj_arg CJ_W 0] ∧ (s.task 1).arg = [cj_arg CJ_W 0] ∧
      s.edge = [] ∧
      ¬ Relation.TransGen (fun a b => (a, b) ∈ s.edge) 0 1 ∧
      (s.task 0).worker = some 1 ∧ (s.task 1).worker = some 2 ∧
      s.kernel_log = [1, 0] := by
  exact ⟨_, rfl, by decide, by decide, by decide, cj_no_path_of_no_edge _ (by decide) 0 1,
    by decide, by decide, by decide⟩

/-! ## Staging of one argument, case by case -/

theorem cj_dist_scan_found (device_id : Int) (l : List cj_Distribution)
    (acc : Option cj_Distribution) (h : ∃ e, e ∈ l ∧ e.device_id = device_id) :
    ∃ d c, cj_dist_scan device_id l acc = (some d, c) := by
  induction l generalizing acc with
  | nil => obtain ⟨e, he, -⟩ := h; simp at he
  | cons a rest ih =>
    unfold cj_dist_scan
    by_cases h1 : a.device_id = device_id
    · rw [if_pos h1]; exact ⟨_, _, rfl⟩
    · rw [if_neg h1]
      have hrest : ∃ e, e ∈ rest ∧ e.device_id = device_id := by
        obtain ⟨e, he, hd⟩ := h
        rcases List.mem_cons.mp he with he | he
        · rw [he] at hd; exact absurd hd h1
        · exact ⟨e, he, hd⟩
      split_ifs
      · exact ih _ hrest
      · exact ih _ hrest

theorem cj_dist_scan_missing (device_id : Int) (l : List cj_Distribution)
    (acc : Option cj_Distribution) (h : ∀ e, e ∈ l → e.device_id ≠ device_id) :
    ∃ c, cj_dist_scan device_id l acc = (none, c) ∧
      (c = none ↔ acc = none ∧ ∀ e, e ∈ l → e.device_id ≠ -1) := by
  induction l generalizing acc with
  | nil => exact ⟨acc, rfl, by simp⟩
  | cons a rest ih =>
    unfold cj_dist_scan
    rw [if_neg (h a (List.mem_cons_self _ _))]
    have hrest : ∀ e, e ∈ rest → e.device_id ≠ device_id :=
      fun e he => h e (List.mem_cons_of_mem _ he)
    by_cases h2 : a.device_id = -1
    · rw [if_pos h2]
      obtain ⟨c, hc, hiff⟩ := ih (some a) hrest
      refine ⟨c, hc, ?_⟩
      rw [hiff]
      constructor
      · intro hh; exact absurd hh.1 (by simp)
      · intro hh; exact absurd h2 (hh.2 a (List.mem_cons_self _ _))
    · rw [if_neg h2]
      obtain ⟨c, hc, hiff⟩ := ih acc hrest
      refine ⟨c, hc, ?_⟩
      rw [hiff]
      constructor
      · intro hh
        refine ⟨hh.1, ?_⟩
        intro e he
        rcases List.mem_cons.mp he with he | he
        · rw [he]; exact h2
        · exact hh.2 e he
      · intro hh
        exact ⟨hh.1, fun e he => hh.2 e (List.mem_cons_of_mem _ he)⟩

/-- C11. Staging of a matrix argument by a worker on device `d = w.device_id` (a host worker
has `d = -1`, a device worker `d ≥ 0`) when the location list of the tile is `head :: tl`.
The staging returns. If the list has an entry for `d` the state is unchanged. Otherwise the new
list is the old list, with a host entry pushed in front exactly if the old list had none (and
then the device of the head has done a write-back), and with a new entry for `d` pushed in
front of that for a device worker. In every case the old list is a suffix of the new one, the
new list has an entry for `d`, and it has a host entry whenever `d` had to be materialised.
`cj_Worker_fetch` and the first loop of `cj_Worker_execute` run this same body. -/
theorem cj_C11_staging (E : cj_Env) (w : cj_Worker) (now : cj_Object) (s : cj_State)
    (head : cj_Distribution) (tl : List cj_Distribution)
    (hm : now.objtype = CJ_MATRIX)
    (hdist : s.dist (cj_tile E now.matrix) = head :: tl)
    (hw1 : w.devtype = CJ_DEV_CPU → w.device_id = -1)
    (hw2 : w.devtype ≠ CJ_DEV_CPU → 0 ≤ w.device_id)
    (hhead : -1 ≤ head.device_id) :
    ∃ s', cj_Worker_stage_arg E w now s = .ok s' ∧
      (∀ k, k ≠ cj_tile E now.matrix → s'.dist k = s.dist k) ∧
      ((∃ e, e ∈ head :: tl ∧ e.device_id = w.device_id) → s' = s) ∧
      ((∀ e, e ∈ head :: tl → e.device_id ≠ w.device_id) →
        ∃ dev1 : Int → cj_Device,
          dev1 = (if (head :: tl).any (fun e => decide (e.device_id = -1)) then s.device
            else Function.update s.device head.device_id
              (E.cj_Cache_write_back (s.device head.device_id) head.cache_id now)) ∧
          s'.dist (cj_tile E now.matrix) =
            (if w.devtype ≠ CJ_DEV_CPU then
              [cj_Distribution_set w.device_id (E.cj_Cache_fetch (dev1 w.device_id) now).2]
             else []) ++
            (if (head :: tl).any (fun e => decide (e.device_id = -1)) then []
             else [cj_Distribution_new]) ++
            (head :: tl) ∧
          s'.device = (if w.devtype ≠ CJ_DEV_CPU then
              Function.update dev1 w.device_id (E.cj_Cache_fetch (dev1 w.device_id) now).1
            else dev1)) ∧
      (head :: tl) <:+ s'.dist (cj_tile E now.matrix) ∧
      (∃ e, e ∈ s'.dist (cj_tile E now.matrix) ∧ e.device_id = w.device_id) ∧
      ((∀ e, e ∈ head :: tl → e.device_id ≠ w.device_id) →
        ∃ e, e ∈ s'.dist (cj_tile E now.matrix) ∧ e.device_id = -1) := by
  by_cases hex : ∃ e, e ∈ head :: tl ∧ e.device_id = w.device_id
  · obtain ⟨d, c, hscan⟩ := cj_dist_scan_found w.device_id (head :: tl) none hex
    have hok : cj_Worker_stage_arg E w now s = .ok s := by
      unfold cj_Worker_stage_arg
      rw [if_pos hm, hdist, hscan]
    refine ⟨s, hok, fun _ _ => rfl, fun _ => rfl, ?_, ?_, ?_, ?_⟩
    · intro hno
      obtain ⟨e, he, hd⟩ := hex
      exact absurd hd (hno e he)
    · rw [hdist]
    · rw [hdist]; exact hex
    · intro hno
      obtain ⟨e, he, hd⟩ := hex
      exact absurd hd (hno e he)
  · have hno : ∀ e, e ∈ head :: tl → e.device_id ≠ w.device_id :=
      fun e he hd => hex ⟨e, he, hd⟩
    obtain ⟨c, hscan, hc⟩ := cj_dist_scan_missing w.device_id (head :: tl) none hno
    by_cases hhost : ∃ e, e ∈ head :: tl ∧ e.device_id = -1
    · have hany : (head :: tl).any (fun e => decide (e.device_id = -1)) = true := by
        obtain ⟨e, he, hd⟩ := hhost
        exact List.any_eq_true.mpr ⟨e, he, by simp [hd]⟩
      have hcs : ∃ d0, c = some d0 := by
        cases c with
        | none =>
          obtain ⟨e, he, hd⟩ := hhost
          exact absurd hd ((hc.mp rfl).2 e he)
        | some d0 => exact ⟨d0, rfl⟩
      obtain ⟨d0, rfl⟩ := hcs
      have hdev : w.devtype ≠ CJ_DEV_CPU := by
        intro hcpu
        obtain ⟨e, he, hd⟩ := hhost
        exact hno e he (hd.trans (hw1 hcpu).symm)
      have hpos : ¬ w.device_id < 0 := not_lt.mpr (hw2 hdev)
      have hok : cj_Worker_stage_arg E w now s = .ok
          { s with
              device := Function.update s.device w.device_id
                (E.cj_Cache_fetch (s.device w.device_id) now).1
              dist := Function.update s.dist (cj_tile E now.matrix)
                (cj_Distribution_set w.device_id
                  (E.cj_Cache_fetch (s.device w.device_id) now).2 ::
                    s.dist (cj_tile E now.matrix)) } := by
        unfold cj_Worker_stage_arg
        rw [if_pos hm]
        simp only [hdist, hscan, cj_Worker_stage_host, cj_Worker_stage_device]
        rw [if_pos hdev, if_neg hpos]
      refine ⟨_, hok, ?_, ?_, ?_, ?_, ?_, ?_⟩
      · intro k hk
        simp only [Function.update_apply, hk, if_false]
      · intro hyes; exact absurd hyes hex
      · intro _
        refine ⟨s.device, ?_, ?_, ?_⟩
        · rw [if_pos hany]
        · simp only [Function.update_same, hdist, if_pos hdev, hany, if_true]
          rfl
        · simp only [if_pos hdev]
      · simp only [Function.update_same, hdist]
        exact List.suffix_cons _ _
      · simp only [Function.update_same]
        exact ⟨_, List.mem_cons_self _ _, rfl⟩
      · intro _
        obtain ⟨e, he, hd⟩ := hhost
        simp only [Function.update_same, hdist]
        exact ⟨e, List.mem_cons_of_mem _ he, hd⟩
    · have hany : (head :: tl).any (fun e => decide (e.device_id = -1)) = false := by
        rw [Bool.eq_false_iff]
        intro hh
        obtain ⟨e, he, hd⟩ := List.any_eq_true.mp hh
        exact hhost ⟨e, he, by simpa using hd⟩
      have hcn : c = none := hc.mpr ⟨rfl, fun e he hd => hhost ⟨e, he, hd⟩⟩
      subst hcn
      have hh1 : head.device_id ≠ -1 := fun hd => hhost ⟨head, List.mem_cons_self _ _, hd⟩
      have hh2 : ¬ head.device_id < 0 := by omega
      by_cases hdev : w.devtype ≠ CJ_DEV_CPU
      · have hpos : ¬ w.device_id < 0 := not_lt.mpr (hw2 hdev)
        have hok : cj_Worker_stage_arg E w now s = .ok
            { s with
                device := Function.update
                  (Function.update s.device head.device_id
                    (E.cj_Cache_write_back (s.device head.device_id) head.cache_id now))
                  w.device_id
                  (E.cj_Cache_fetch
                    (Function.update s.device head.device_id
                      (E.cj_Cache_write_back (s.device head.device_id) head.cache_id now)
                      w.device_id) now).1
                dist := Function.update
                  (Function.update s.dist (cj_tile E now.matrix)
                    (cj_Distribution_new :: s.dist (cj_tile E now.matrix)))
                  (cj_tile E now.matrix)
                  (cj_Distribution_set w.device_id
                    (E.cj_Cache_fetch
                      (Function.update s.device head.device_id
                        (E.cj_Cache_write_back (s.device head.device_id) head.cache_id now)
                        w.device_id) now).2 ::
                      cj_Distribution_new :: s.dist (cj_tile E now.matrix)) } := by
          unfold cj_Worker_stage_arg
          rw [if_pos hm]
          simp only [hdist, hscan, cj_Worker_stage_host, if_neg hh2, cj_Worker_stage_device]
          rw [if_pos hdev, if_neg hpos]
          simp only [Function.update_same]
        refine ⟨_, hok, ?_, ?_, ?_, ?_, ?_, ?_⟩
        · intro k hk
          simp only [Function.update_apply, hk, if_false]
        · intro hyes; exact absurd hyes hex
        · intro _
          refine ⟨_, rfl, ?_, ?_⟩
          · simp only [Function.update_same, hdist, if_pos hdev, hany]
            rfl
          · simp only [if_pos hdev, hany]
            rfl
        · simp only [Function.update_same, hdist]
          exact (List.suffix_cons _ _).trans (List.suffix_cons _ _)
        · simp only [Function.update_same]
          exact ⟨_, List.mem_cons_self _ _, rfl⟩
        · intro _
          simp only [Function.update_same]
          exact ⟨cj_Distribution_new, by simp, rfl⟩
      · have hcpu : w.devtype = CJ_DEV_CPU := not_not.mp hdev
        have hok : cj_Worker_stage_arg E w now s = .ok
            { s with
                device := Function.update s.device head.device_id
                  (E.cj_Cache_write_back (s.device head.device_id) head.cache_id now)
                dist := Function.update s.dist (cj_tile E now.matrix)
                  (cj_Distribution_new :: s.dist (cj_tile E now.matrix)) } := by
          unfold cj_Worker_stage_arg
          rw [if_pos hm]
          simp only [hdist, hscan, cj_Worker_stage_host, if_neg hh2, cj_Worker_stage_device]
          rw [if_neg hdev]
        refine ⟨_, hok, ?_, ?_, ?_, ?_, ?_, ?_⟩
        · intro k hk
          simp only [Function.update_apply, hk, if_false]
        · intro hyes; exact absurd hyes hex
        · intro _
          refine ⟨_, rfl, ?_, ?_⟩
          · simp only [Function.update_same, hdist, if_neg hdev, hany]
            rfl
          · simp only [if_neg hdev, hany]
            rfl
        · simp only [Function.update_same, hdist]
          exact List.suffix_cons _ _
        · simp only [Function.update_same]
          exact ⟨cj_Distribution_new, by simp, (hw1 hcpu).symm⟩
        · intro _
          simp only [Function.update_same]
          exact ⟨cj_Distribution_new, by simp, rfl⟩

/-- Witness of C11 on `cj_device_state`: the CUDA worker on device 0 stages tile A, whose location list is
the host location; the new list is the entry for device 0 (line 5) in front of the host
location. -/
theorem cj_C11_staging_witness :
    cj_device_state.dist (cj_tile cj_Env_device (cj_arg CJ_RW 0).matrix) = [cj_Distribution_new] ∧
    (match cj_Worker_stage_arg cj_Env_device { devtype := CJ_DEV_CUDA, id := 1, device_id := 0 }
        (cj_arg CJ_RW 0) cj_device_state with
      | .ok s' => s'.dist (0, 0, 0)
      | .error _ => []) = [{ device_id := 0, cache_id := 5 }, { device_id := -1, cache_id := 0 }] ∧
    ∃ s', cj_Worker_stage_arg cj_Env_device { devtype := CJ_DEV_CUDA, id := 1, device_id := 0 }
        (cj_arg CJ_RW 0) cj_device_state = .ok s' ∧
      [cj_Distribution_new] <:+ s'.dist (0, 0, 0) ∧
      (∃ e, e ∈ s'.dist (0, 0, 0) ∧ e.device_id = 0) ∧
      (∃ e, e ∈ s'.dist (0, 0, 0) ∧ e.device_id = -1) :=
  ⟨rfl, rfl,
    (cj_C11_staging cj_Env_device { devtype := CJ_DEV_CUDA, id := 1, device_id := 0 }
      (cj_arg CJ_RW 0) cj_device_state cj_Distribution_new [] rfl rfl (by decide) (by decide)
      (by decide)).imp
      (fun _ h => ⟨h.1, h.2.2.2.2.1, h.2.2.2.2.2.1, h.2.2.2.2.2.2 (by decide)⟩)⟩

/-! ## The walk of `cj_Queue_begin` -/

theorem cj_Task_enqueue_task_ne (E : cj_Env) (s : cj_State) (t a : Nat) (h : a ≠ t) :
    (cj_Task_enqueue E s t).task a = s.task a := by
  simp only [cj_Task_enqueue, Function.update_apply, h, if_false]

theorem cj_Task_enqueue_queue (E : cj_Env) (s : cj_State) (t i : Nat) :
    (cj_Task_enqueue E s t).ready_queue i =
      if i = (cj_Task_enqueue_choice E s t).dest then s.ready_queue i ++ [t]
      else s.ready_queue i := by
  simp only [cj_Task_enqueue, Function.update_apply]
  split_ifs with h
  · rw [h]
  · rfl

theorem cj_ready_in_congr (s s1 : cj_State) (l : List Nat)
    (h : ∀ a, a ∈ l → s1.task a = s.task a) : cj_ready_in s1 l = cj_ready_in s l := by
  unfold cj_ready_in
  apply List.filter_congr
  intro a ha
  rw [h a ha]

theorem cj_Queue_begin_loop_spec (E : cj_Env) (l : List Nat) (s : cj_State) (hl : l.Nodup) :
    (cj_Queue_begin_loop E l s).enqueue_log.map cj_EnqueueCall.task =
      s.enqueue_log.map cj_EnqueueCall.task ++ cj_ready_in s l ∧
    (∀ a, a ∈ cj_ready_in s l →
      ((cj_Queue_begin_loop E l s).task a).status = QUEUED ∧
      ((cj_Queue_begin_loop E l s).task a).num_dependencies_remaining = 0) ∧
    (∀ a, a ∉ cj_ready_in s l → (cj_Queue_begin_loop E l s).task a = s.task a) ∧
    (∀ a, a ∈ cj_ready_in s l → ∃ i,
      ((cj_Queue_begin_loop E l s).ready_queue i).count a = (s.ready_queue i).count a + 1 ∧
      ∀ j, j ≠ i →
        ((cj_Queue_begin_loop E l s).ready_queue j).count a = (s.ready_queue j).count a) ∧
    (∀ a, a ∉ cj_ready_in s l → ∀ i,
      ((cj_Queue_begin_loop E l s).ready_queue i).count a = (s.ready_queue i).count a) ∧
    (∀ i, ∃ l1, (cj_Queue_begin_loop E l s).ready_queue i = s.ready_queue i ++ l1 ∧
      l1.Sublist (cj_ready_in s l)) := by
  induction l generalizing s with
  | nil =>
    simp only [cj_Queue_begin_loop, cj_ready_in, List.filter_nil, List.append_nil,
      List.not_mem_nil, false_implies, implies_true, true_and]
    exact fun i => ⟨[], by simp⟩
  | cons now rest ih =>
    have hnow : now ∉ rest := (List.nodup_cons.mp hl).1
    have hrest : rest.Nodup := (List.nodup_cons.mp hl).2
    unfold cj_Queue_begin_loop
    by_cases hP : (s.task now).num_dependencies_remaining = 0 ∧ (s.task now).status = NOTREADY
    · rw [if_pos hP]
      have hR1 : cj_ready_in (cj_Task_enqueue E s now) rest = cj_ready_in s rest :=
        cj_ready_in_congr _ _ _ (fun a ha =>
          cj_Task_enqueue_task_ne E s now a (fun h => hnow (h ▸ ha)))
      have hR : cj_ready_in s (now :: rest) = now :: cj_ready_in s rest := by
        unfold cj_ready_in
        rw [List.filter_cons_of_pos (by simpa using hP)]
      have hnowR : now ∉ cj_ready_in s rest := fun h => hnow (List.mem_filter.mp h).1
      obtain ⟨iA, iB, iC, iD, iE, iF⟩ := ih (cj_Task_enqueue E s now) hrest
      rw [hR1] at iA iB iC iD iE iF
      rw [hR]
      refine ⟨?_, ?_, ?_, ?_, ?_, ?_⟩
      · rw [iA]
        simp [cj_Task_enqueue]
      · intro a ha
        rcases List.mem_cons.mp ha with ha | ha
        · rw [ha, iC now hnowR]
          simp [cj_Task_enqueue, hP.1]
        · exact iB a ha
      · intro a ha
        have h1 : a ≠ now := fun h => ha (h ▸ List.mem_cons_self _ _)
        have h2 : a ∉ cj_ready_in s rest := fun h => ha (List.mem_cons_of_mem _ h)
        rw [iC a h2, cj_Task_enqueue_task_ne E s now a h1]
      · intro a ha
        rcases List.mem_cons.mp ha with ha | ha
        · refine ⟨(cj_Task_enqueue_choice E s now).dest, ?_, ?_⟩
          · rw [ha, iE now hnowR, cj_Task_enqueue_queue, if_pos rfl]
            simp
          · intro j hj
            rw [ha, iE now hnowR, cj_Task_enqueue_queue, if_neg hj]
        · have h1 : a ≠ now := fun h => hnowR (h ▸ ha)
          obtain ⟨i, hi1, hi2⟩ := iD a ha
          have hq : ∀ j, ((cj_Task_enqueue E s now).ready_queue j).count a =
              (s.ready_queue j).count a := by
            intro j
            rw [cj_Task_enqueue_queue]
            split_ifs
            · rw [List.count_append, List.count_singleton]
              simp [Ne.symm h1]
            · rfl
          refine ⟨i, ?_, ?_⟩
          · rw [hi1, hq]
          · intro j hj
            rw [hi2 j hj, hq]
      · intro a ha i
        have h1 : a ≠ now := fun h => ha (h ▸ List.mem_cons_self _ _)
        have h2 : a ∉ cj_ready_in s rest := fun h => ha (List.mem_cons_of_mem _ h)
        rw [iE a h2 i, cj_Task_enqueue_queue]
        split_ifs
        · rw [List.count_append, List.count_singleton]
          simp [Ne.symm h1]
        · rfl
      · intro i
        obtain ⟨l1, hl1, hsub⟩ := iF i
        rw [cj_Task_enqueue_queue] at hl1
        split_ifs at hl1
        · exact ⟨now :: l1, by rw [hl1]; simp, hsub.cons₂ _⟩
        · exact ⟨l1, hl1, hsub.cons _⟩
    · rw [if_neg hP]
      have hR : cj_ready_in s (now :: rest) = cj_ready_in s rest := by
        unfold cj_ready_in
        rw [List.filter_cons_of_neg (by simpa using hP)]
      rw [hR]
      exact ih s hrest

/-- C12. `cj_Queue_begin` on a graph whose vertex list has no repetition. The calls of
`cj_Task_enqueue` it makes are exactly for the vertices with a zero counter and status
`NOTREADY`, once each and in vertex order (`cj_ready_in s s.vertex`). Each of them ends with
status `QUEUED`, a zero counter and one more occurrence in exactly one ready queue. Every other
task keeps its descriptor (status and counter included) and its number of occurrences in every
ready queue. Every ready queue is extended at its tail, by enqueued tasks in vertex order.
Afterwards no vertex has both a zero counter and status `NOTREADY`. -/
theorem cj_C12_queue_begin (E : cj_Env) (s : cj_State) (hv : s.vertex.Nodup) :
    (cj_Queue_begin E s).enqueue_log.map cj_EnqueueCall.task =
      s.enqueue_log.map cj_EnqueueCall.task ++ cj_ready_in s s.vertex ∧
    (cj_ready_in s s.vertex).Nodup ∧
    (∀ a, a ∈ cj_ready_in s s.vertex →
      ((cj_Queue_begin E s).task a).status = QUEUED ∧
      ((cj_Queue_begin E s).task a).num_dependencies_remaining = 0 ∧
      ∃ i, ((cj_Queue_begin E s).ready_queue i).count a = (s.ready_queue i).count a + 1 ∧
        ∀ j, j ≠ i → ((cj_Queue_begin E s).ready_queue j).count a = (s.ready_queue j).count a) ∧
    (∀ a, a ∉ cj_ready_in s s.vertex →
      (cj_Queue_begin E s).task a = s.task a ∧
      ∀ i, ((cj_Queue_begin E s).ready_queue i).count a = (s.ready_queue i).count a) ∧
    (∀ i, ∃ l1, (cj_Queue_begin E s).ready_queue i = s.ready_queue i ++ l1 ∧
      l1.Sublist (cj_ready_in s s.vertex)) ∧
    (∀ a, a ∈ s.vertex →
      ¬ (((cj_Queue_begin E s).task a).num_dependencies_remaining = 0 ∧
         ((cj_Queue_begin E s).task a).status = NOTREADY)) := by
  obtain ⟨hA, hB, hC, hD, hE, hF⟩ :=
    cj_Queue_begin_loop_spec E s.vertex { s with cj_queue_enable := true } hv
  have hR : cj_ready_in { s with cj_queue_enable := true } s.vertex = cj_ready_in s s.vertex :=
    rfl
  rw [hR] at hA hB hC hD hE hF
  refine ⟨hA, hv.filter _, ?_, ?_, hF, ?_⟩
  · intro a ha
    exact ⟨(hB a ha).1, (hB a ha).2, hD a ha⟩
  · intro a ha
    exact ⟨hC a ha, hE a ha⟩
  · intro a hav hP
    by_cases ha : a ∈ cj_ready_in s s.vertex
    · have h1 := (hB a ha).1
      have h2 : (cj_Queue_begin E s).task a =
          (cj_Queue_begin_loop E s.vertex { s with cj_queue_enable := true }).task a := rfl
      rw [h2, h1] at hP
      exact absurd hP.2 (by decide)
    · have h1 := hC a ha
      have h2 : (cj_Queue_begin E s).task a =
          (cj_Queue_begin_loop E s.vertex { s with cj_queue_enable := true }).task a := rfl
      rw [h2, h1] at hP
      exact ha (List.mem_filter.mpr ⟨hav, by simpa using hP⟩)

/-- Witness of C12 on scenario S1 after the three submissions: `cj_Queue_begin` enqueues T1 (task 0) only. -/
theorem cj_C12_queue_begin_witness :
    cj_S1_three.vertex = [0, 1, 2] ∧ cj_ready_in cj_S1_three cj_S1_three.vertex = [0] ∧
    (cj_Queue_begin cj_Env_example cj_S1_three).enqueue_log.map cj_EnqueueCall.task = [0] ∧
    (cj_Queue_begin cj_Env_example cj_S1_three).ready_queue 1 = [0] ∧
    ((cj_Queue_begin cj_Env_example cj_S1_three).enqueue_log.map cj_EnqueueCall.task =
      cj_S1_three.enqueue_log.map cj_EnqueueCall.task ++
        cj_ready_in cj_S1_three cj_S1_three.vertex ∧
     ∀ a, a ∈ cj_S1_three.vertex →
      ¬ (((cj_Queue_begin cj_Env_example cj_S1_three).task a).num_dependencies_remaining = 0 ∧
         ((cj_Queue_begin cj_Env_example cj_S1_three).task a).status = NOTREADY)) :=
  ⟨by decide, by decide, by decide, by decide,
    (cj_C12_queue_begin cj_Env_example cj_S1_three (by decide)).1,
    (cj_C12_queue_begin cj_Env_example cj_S1_three (by decide)).2.2.2.2.2⟩

/-! ## The flag `cj_queue_enable` is never read -/

theorem cj_set_enable_comm (E : cj_Env) (b : Bool) (s : cj_State) (device_id : Int)
    (args : List cj_Object) (cost : Int) :
    cj_Worker_estimate_comm E (cj_set_enable b s) device_id args cost =
      cj_Worker_estimate_comm E s device_id args cost := by
  induction args generalizing cost with
  | nil => rfl
  | cons now rest ih =>
    unfold cj_Worker_estimate_comm
    rw [ih]
    rfl

theorem cj_set_enable_cost (E : cj_Env) (b : Bool) (s : cj_State) (task : cj_Task)
    (worker : cj_Worker) :
    cj_Worker_estimate_cost E (cj_set_enable b s) task worker =
      cj_Worker_estimate_cost E s task worker := by
  unfold cj_Worker_estimate_cost
  rw [cj_set_enable_comm]

theorem cj_set_enable_scan (E : cj_Env) (b : Bool) (s : cj_State) (t : Nat) (l : List Nat)
    (acc : cj_EnqueueScan) :
    cj_Task_enqueue_scan E (cj_set_enable b s) t l acc = cj_Task_enqueue_scan E s t l acc := by
  induction l generalizing acc with
  | nil => rfl
  | cons i rest ih =>
    unfold cj_Task_enqueue_scan
    rw [cj_set_enable_cost, ih, ih]
    rfl

theorem cj_set_enable_choice (E : cj_Env) (b : Bool) (s : cj_State) (t : Nat) :
    cj_Task_enqueue_choice E (cj_set_enable b s) t = cj_Task_enqueue_choice E s t := by
  unfold cj_Task_enqueue_choice
  rw [cj_set_enable_scan]
  rfl

theorem cj_set_enable_enqueue (E : cj_Env) (b : Bool) (s : cj_State) (t : Nat) :
    cj_Task_enqueue E (cj_set_enable b s) t = cj_set_enable b (cj_Task_enqueue E s t) := by
  unfold cj_Task_enqueue
  rw [cj_set_enable_choice]
  rfl

theorem cj_set_enable_update_loop (E : cj_Env) (b : Bool) (l : List Nat) (s : cj_State) :
    cj_Task_dependencies_update_loop E l (cj_set_enable b s) =
      (cj_Task_dependencies_update_loop E l s).map (cj_set_enable b) := by
  induction l generalizing s with
  | nil => rfl
  | cons child rest ih =>
    unfold cj_Task_dependencies_update_loop
    have h1 : (cj_set_enable b s).task = s.task := rfl
    simp only [h1]
    split_ifs
    · rfl
    · rw [← ih, ← cj_set_enable_enqueue]
      rfl
    · rw [← ih]
      rfl

theorem cj_set_enable_update (E : cj_Env) (b : Bool) (s : cj_State) (t : Nat) :
    cj_Task_dependencies_update E (cj_set_enable b s) t =
      (cj_Task_dependencies_update E s t).map (cj_set_enable b) := by
  unfold cj_Task_dependencies_update
  have h1 : (cj_set_enable b s).task = s.task := rfl
  rw [h1, cj_set_enable_update_loop]
  cases cj_Task_dependencies_update_loop E (s.task t).out s with
  | error e => rfl
  | ok s1 => rfl

theorem cj_set_enable_stage_host (E : cj_Env) (b : Bool) (now : cj_Object) (k : cj_Tile)
    (head : cj_Distribution) (c : Option cj_Distribution) (s : cj_State) :
    cj_Worker_stage_host E now k head c (cj_set_enable b s) =
      (cj_Worker_stage_host E now k head c s).map (cj_set_enable b) := by
  unfold cj_Worker_stage_host
  split
  · rfl
  · split_ifs
    · rfl
    · rfl

theorem cj_set_enable_stage_device (E : cj_Env) (b : Bool) (w : cj_Worker) (now : cj_Object)
    (k : cj_Tile) (s : cj_State) :
    cj_Worker_stage_device E w now k (cj_set_enable b s) =
      (cj_Worker_stage_device E w now k s).map (cj_set_enable b) := by
  unfold cj_Worker_stage_device
  split_ifs
  · rfl
  · rfl
  · rfl

theorem cj_set_enable_stage_arg (E : cj_Env) (b : Bool) (w : cj_Worker) (now : cj_Object)
    (s : cj_State) :
    cj_Worker_stage_arg E w now (cj_set_enable b s) =
      (cj_Worker_stage_arg E w now s).map (cj_set_enable b) := by
  unfold cj_Worker_stage_arg
  have h1 : (cj_set_enable b s).dist = s.dist := rfl
  simp only [h1]
  split_ifs
  · split
    · rfl
    · split
      · rfl
      · rename_i c _ _ head tl _
        rw [cj_set_enable_stage_host]
        cases cj_Worker_stage_host E now (cj_tile E now.matrix) head c s with
        | error e => rfl
        | ok s1 => exact cj_set_enable_stage_device E b w now _ s1
  · rfl

theorem cj_set_enable_fetch (E : cj_Env) (b : Bool) (w : cj_Worker) (args : List cj_Object)
    (s : cj_State) :
    cj_Worker_fetch E w args (cj_set_enable b s) =
      (cj_Worker_fetch E w args s).map (cj_set_enable b) := by
  induction args generalizing s with
  | nil => rfl
  | cons now rest ih =>
    unfold cj_Worker_fetch
    rw [cj_set_enable_stage_arg]
    cases cj_Worker_stage_arg E w now s with
    | error e => rfl
    | ok s1 => exact ih s1

theorem cj_set_enable_commit (E : cj_Env) (b : Bool) (w : cj_Worker) (args : List cj_Object)
    (s : cj_State) :
    cj_Worker_commit E w args (cj_set_enable b s) =
      cj_set_enable b (cj_Worker_commit E w args s) := by
  induction args generalizing s with
  | nil => rfl
  | cons now rest ih =>
    unfold cj_Worker_commit
    rw [← ih]
    congr 1
    unfold cj_Worker_commit_arg
    split_ifs
    · rfl
    · rfl
    · rfl

theorem cj_set_enable_execute (E : cj_Env) (b : Bool) (s : cj_State) (t w : Nat) :
    cj_Worker_execute E (cj_set_enable b s) t w =
      (cj_Worker_execute E s t w).map (cj_set_enable b) := by
  unfold cj_Worker_execute
  have h1 : cj_Worker_execute_begin (cj_set_enable b s) t w =
      cj_set_enable b (cj_Worker_execute_begin s t w) := rfl
  have h2 : (cj_set_enable b s).worker = s.worker := rfl
  have h3 : (cj_set_enable b s).task = s.task := rfl
  rw [h1, h2, h3, cj_set_enable_fetch]
  cases cj_Worker_fetch E (s.worker w) (s.task t).arg (cj_Worker_execute_begin s t w) with
  | error e => rfl
  | ok s1 =>
    simp only [Except.map]
    have h4 : cj_kernel_call (cj_set_enable b s1) t = cj_set_enable b (cj_kernel_call s1 t) :=
      rfl
    rw [h4, cj_set_enable_commit]

theorem cj_set_enable_iteration (E : cj_Env) (b : Bool) (s : cj_State) (id : Nat) :
    cj_Worker_entry_point_iteration E (cj_set_enable b s) id =
      (cj_Worker_entry_point_iteration E s id).map (cj_set_enable b) := by
  unfold cj_Worker_entry_point_iteration
  have h1 : (cj_set_enable b s).ready_queue = s.ready_queue := rfl
  simp only [h1]
  split
  · rfl
  · rename_i t rest _
    have h2 : ({ (cj_set_enable b s) with
        ready_queue := Function.update s.ready_queue id rest } : cj_State) =
        cj_set_enable b { s with ready_queue := Function.update s.ready_queue id rest } := rfl
    rw [h2, cj_set_enable_execute]
    cases cj_Worker_execute E { s with ready_queue := Function.update s.ready_queue id rest }
        t id with
    | error e => rfl
    | ok s1 =>
      simp only [Except.map]
      exact cj_set_enable_update E b s1 t
theorem cj_set_enable_self (s : cj_State) : cj_set_enable s.cj_queue_enable s = s := rfl

theorem cj_submit_frame (E : cj_Env) (s : cj_State) (function : cj_Function)
    (args : List cj_Object) (uninit_cost : Int) :
    (cj_submit E s function args uninit_cost).ready_queue = s.ready_queue ∧
    (cj_submit E s function args uninit_cost).time_remaining = s.time_remaining ∧
    (cj_submit E s function args uninit_cost).enqueue_log = s.enqueue_log ∧
    (cj_submit E s function args uninit_cost).kernel_log = s.kernel_log ∧
    (cj_submit E s function args uninit_cost).cj_queue_enable = s.cj_queue_enable ∧
    (cj_submit E s function args uninit_cost).dist = s.dist ∧
    (cj_submit E s function args uninit_cost).worker = s.worker ∧
    (cj_submit E s function args uninit_cost).nworker = s.nworker ∧
    (cj_submit E s function args uninit_cost).ntask = s.ntask + 1 ∧
    (cj_submit E s function args uninit_cost).vertex = s.vertex ++ [s.ntask] ∧
    (∀ a, ((cj_submit E s function args uninit_cost).task a).status =
      if a = s.ntask then NOTREADY else (s.task a).status) := by
  unfold cj_submit cj_Task_dependency_analysis
  have hgr := cj_Grows_args E (cj_Task_new s uninit_cost).2
    ((cj_prepare s function args uninit_cost).task (cj_Task_new s uninit_cost).2).arg
    (cj_Graph_vertex_add (cj_prepare s function args uninit_cost) (cj_Task_new s uninit_cost).2)
  refine ⟨?_, ?_, ?_, ?_, ?_, ?_, ?_, ?_, ?_, ?_, ?_⟩
  · rw [hgr.ready_queue]; simp only [cj_Graph_vertex_add]; rw [cj_prepare_fields]
  · rw [hgr.time_remaining]; simp only [cj_Graph_vertex_add]; rw [cj_prepare_fields]
  · rw [hgr.enqueue_log]; simp only [cj_Graph_vertex_add]; rw [cj_prepare_fields]
  · rw [hgr.kernel_log]; simp only [cj_Graph_vertex_add]; rw [cj_prepare_fields]
  · rw [hgr.cj_queue_enable]; simp only [cj_Graph_vertex_add]; rw [cj_prepare_fields]
  · rw [hgr.dist]; simp only [cj_Graph_vertex_add]; rw [cj_prepare_fields]
  · rw [hgr.worker]; simp only [cj_Graph_vertex_add]; rw [cj_prepare_fields]
  · rw [hgr.nworker]; simp only [cj_Graph_vertex_add]; rw [cj_prepare_fields]
  · rw [hgr.ntask]; simp only [cj_Graph_vertex_add]; rw [cj_prepare_fields]
  · rw [hgr.vertex]; simp only [cj_Graph_vertex_add]; rw [cj_prepare_fields]; rfl
  · intro a
    rw [hgr.task_status]
    simp only [cj_Graph_vertex_add]
    rw [cj_prepare_task]
    split_ifs <;> rfl

/-- Counterexample to C14 as stated: after T1 = `[W A]`, T2 = `[R A]`, `cj_Queue_begin` and
`cj_Queue_end` the flag `cj_queue_enable` is `FALSE`; the step of worker 1 runs T1 and its
completion passes T2 to `cj_Task_enqueue`: T2 goes from `NOTREADY` to `QUEUED` and is appended
to the ready queue of worker 1 while the flag is `FALSE`. -/
theorem cj_C14_counterexample :
    ∃ s s', cj_run cj_Env_example cj_recording_events (cj_Init_state 3) = .ok s ∧
      cj_step cj_Env_example s (cj_Event.worker 1) = .ok s' ∧
      s.cj_queue_enable = false ∧ s'.cj_queue_enable = false ∧
      (s.task 1).status = NOTREADY ∧ (s'.task 1).status = QUEUED ∧
      s.ready_queue 1 = [0] ∧ s'.ready_queue 1 = [1] :=
  ⟨_, _, rfl, rfl, rfl, rfl, rfl, rfl, rfl, rfl⟩

/-- C14 (amended). While `cj_queue_enable` is `FALSE`, a submit step and a `cj_Queue_end` step
change no ready queue, make no call of `cj_Task_enqueue` and leave every `NOTREADY` task
`NOTREADY`; a worker step does what it does when the flag is `TRUE` (the same step from the
state with the flag set gives the same state with the flag set), so a completion enqueues the
successors whose counter reaches zero; after each of these steps the flag is still `FALSE`. -/
theorem cj_C14_recording (E : cj_Env) (s s' : cj_State) (ev : cj_Event)
    (hrec : s.cj_queue_enable = false) (hev : ev ≠ cj_Event.queue_begin)
    (hstep : cj_step E s ev = .ok s') :
    s'.cj_queue_enable = false ∧
    ((∀ id, ev ≠ cj_Event.worker id) →
      s'.ready_queue = s.ready_queue ∧ s'.enqueue_log = s.enqueue_log ∧
      ∀ a, (s.task a).status = NOTREADY → (s'.task a).status = NOTREADY) ∧
    (∀ id, ev = cj_Event.worker id →
      cj_step E (cj_set_enable true s) ev = .ok (cj_set_enable true s')) := by
  cases ev with
  | submit function args uninit_cost =>
    simp only [cj_step, Except.ok.injEq] at hstep
    subst hstep
    obtain ⟨h1, -, h3, -, h5, -, -, -, -, -, h11⟩ := cj_submit_frame E s function args uninit_cost
    refine ⟨h5.trans hrec, fun _ => ⟨h1, h3, ?_⟩, fun id hid => by cases hid⟩
    intro a ha
    rw [h11 a]
    split_ifs
    · rfl
    · exact ha
  | queue_begin => exact absurd rfl hev
  | queue_end =>
    simp only [cj_step, Except.ok.injEq] at hstep
    subst hstep
    exact ⟨rfl, fun _ => ⟨rfl, rfl, fun a ha => ha⟩, fun id hid => by cases hid⟩
  | worker id =>
    simp only [cj_step] at hstep ⊢
    split_ifs at hstep with hid
    have hb : ∀ b, cj_Worker_entry_point_iteration E (cj_set_enable b s) id =
        .ok (cj_set_enable b s') := by
      intro b
      rw [cj_set_enable_iteration, hstep]
      rfl
    refine ⟨?_, fun hno => absurd rfl (hno id), ?_⟩
    · have h1 := hb s.cj_queue_enable
      rw [cj_set_enable_self, hstep] at h1
      simp only [Except.ok.injEq] at h1
      rw [h1]
      exact hrec
    · intro id1 hid1
      simp only [cj_Event.worker.injEq] at hid1
      subst hid1
      have h2 : (cj_set_enable true s).nworker = s.nworker := rfl
      simp only [cj_step, h2, if_pos hid]
      exact hb true

/-- Witness of C14 (amended) on the run of the counterexample: the step of worker 1 while the flag is
`FALSE` is the step it makes when the flag is `TRUE`. -/
theorem cj_C14_recording_witness :
    ∃ s s', cj_run cj_Env_example cj_recording_events (cj_Init_state 3) = .ok s ∧
      cj_step cj_Env_example s (cj_Event.worker 1) = .ok s' ∧
      s.cj_queue_enable = false ∧
      (s'.cj_queue_enable = false ∧
       ((∀ id, cj_Event.worker 1 ≠ cj_Event.worker id) →
         s'.ready_queue = s.ready_queue ∧ s'.enqueue_log = s.enqueue_log ∧
         ∀ a, (s.task a).status = NOTREADY → (s'.task a).status = NOTREADY) ∧
       (∀ id, cj_Event.worker 1 = cj_Event.worker id →
         cj_step cj_Env_example (cj_set_enable true s) (cj_Event.worker 1) =
           .ok (cj_set_enable true s'))) :=
  ⟨_, _, rfl, rfl, rfl, cj_C14_recording _ _ _ _ rfl (by decide) rfl⟩

/-! ## What the calls of `cj_Task_enqueue` see -/

theorem cj_pending_list_congr (s s' : cj_State) (a : Nat)
    (hin : (s'.task a).in_ = (s.task a).in_)
    (hd : ∀ p, (s'.task p).status = DONE ↔ (s.task p).status = DONE) :
    cj_pending_list s' a = cj_pending_list s a := by
  unfold cj_pending_list
  rw [hin]
  congr 1
  funext p
  simp only [ne_eq, decide_not, hd p]

theorem cj_pending_list_length (s : cj_State) (a : Nat) :
    (cj_pending_list s a).length = cj_pending s a := by
  unfold cj_pending_list cj_pending
  rw [List.countP_eq_length_filter]

/-- Effect of one call of `cj_Task_enqueue` for a task that is `NOTREADY`: what a later call
records is not affected, and the entry of this call is appended to the log. -/
theorem cj_Task_enqueue_log (E : cj_Env) (s : cj_State) (t : Nat)
    (ht : (s.task t).status = NOTREADY) :
    (∀ a, cj_pending_list (cj_Task_enqueue E s t) a = cj_pending_list s a) ∧
    (∀ a, ((cj_Task_enqueue E s t).task a).status = DONE ↔ (s.task a).status = DONE) ∧
    ∃ e, (cj_Task_enqueue E s t).enqueue_log = s.enqueue_log ++ [e] ∧ e.task = t ∧
      e.pending = cj_pending_list s t ∧
      e.num_dependencies_remaining = (s.task t).num_dependencies_remaining := by
  have hd : ∀ a, ((cj_Task_enqueue E s t).task a).status = DONE ↔ (s.task a).status = DONE := by
    intro a
    by_cases ha : a = t
    · subst ha
      simp only [cj_Task_enqueue, Function.update_same, ht]
      constructor <;> intro h <;> exact absurd h (by decide)
    · rw [cj_Task_enqueue_task_ne E s t a ha]
  refine ⟨?_, hd, ⟨_, rfl, rfl, rfl, rfl⟩⟩
  intro a
  exact cj_pending_list_congr s _ a ((cj_SameGraph_enqueue E s t).task_in a) hd

/-- A change of the counter of a task does not change what a call of `cj_Task_enqueue`
records as pending. -/
theorem cj_pending_list_counter (s : cj_State) (c : Nat) (n : Int) (a : Nat) :
    cj_pending_list
      { s with
          task := Function.update s.task c
            { (s.task c) with num_dependencies_remaining := n } } a = cj_pending_list s a := by
  apply cj_pending_list_congr
  · exact (cj_SameGraph_counter s c n).task_in a
  · intro p
    by_cases hp : p = c
    · subst hp; simp
    · simp [Function.update_apply, hp]

/-- The calls of `cj_Task_enqueue` made by the completion loop over `todo`: each is for a member
of `todo`, with a zero counter, and each records the predecessors that were not `DONE` when the
loop started. -/
theorem cj_update_loop_log (E : cj_Env) (todo : List Nat) (s s' : cj_State)
    (h : cj_Task_dependencies_update_loop E todo s = .ok s') :
    (∀ a, cj_pending_list s' a = cj_pending_list s a) ∧
    (∀ a, (s'.task a).status = DONE ↔ (s.task a).status = DONE) ∧
    ∃ new, s'.enqueue_log = s.enqueue_log ++ new ∧
      ∀ e, e ∈ new → e.task ∈ todo ∧ e.pending = cj_pending_list s e.task ∧
        e.num_dependencies_remaining = 0 := by
  induction todo generalizing s with
  | nil =>
    simp only [cj_Task_dependencies_update_loop, Except.ok.injEq] at h
    subst h
    exact ⟨fun _ => rfl, fun _ => Iff.rfl, [], by simp, by simp⟩
  | cons c rest ih =>
    unfold cj_Task_dependencies_update_loop at h
    split_ifs at h with h1 h2
    · have hst : ∀ a, ((Function.update s.task c
          { (s.task c) with
            num_dependencies_remaining := (s.task c).num_dependencies_remaining - 1 }) a).status
            = (s.task a).status := by
        intro a
        by_cases ha : a = c
        · subst ha; simp
        · simp [Function.update_apply, ha]
      obtain ⟨e1, e2, e, e3, e4, e5, e6⟩ := cj_Task_enqueue_log E
        { s with
            task := Function.update s.task c
              { (s.task c) with
                  num_dependencies_remaining := (s.task c).num_dependencies_remaining - 1 } }
        c (by rw [hst]; exact h2.2)
      obtain ⟨i1, i2, new, i3, i4⟩ := ih _ h
      have hp : ∀ a, cj_pending_list s' a = cj_pending_list s a := by
        intro a
        rw [i1, e1, cj_pending_list_counter]
      refine ⟨hp, ?_, e :: new, ?_, ?_⟩
      · intro a
        rw [i2, e2, hst]
      · rw [i3, e3]
        simp
      · intro e' he'
        rcases List.mem_cons.mp he' with he' | he'
        · rw [he', e4, e5, cj_pending_list_counter, e6]
          refine ⟨List.mem_cons_self _ _, rfl, ?_⟩
          simp only [Function.update_same]
          exact h2.1
        · obtain ⟨j1, j2, j3⟩ := i4 e' he'
          refine ⟨List.mem_cons_of_mem _ j1, ?_, j3⟩
          rw [j2, e1, cj_pending_list_counter]
    · obtain ⟨i1, i2, new, i3, i4⟩ := ih _ h
      refine ⟨?_, ?_, new, i3, ?_⟩
      · intro a
        rw [i1, cj_pending_list_counter]
      · intro a
        rw [i2]
        by_cases ha : a = c
        · subst ha; simp
        · simp [Function.update_apply, ha]
      · intro e' he'
        obtain ⟨j1, j2, j3⟩ := i4 e' he'
        refine ⟨List.mem_cons_of_mem _ j1, ?_, j3⟩
        rw [j2, cj_pending_list_counter]

/-- The calls of `cj_Task_enqueue` made by the walk of `cj_Queue_begin` over `l`: each is for a
member of `l` that had a zero counter when the walk started, and each records the predecessors
that were not `DONE` when the walk started. -/
theorem cj_begin_loop_log (E : cj_Env) (l : List Nat) (s : cj_State) :
    (∀ a, cj_pending_list (cj_Queue_begin_loop E l s) a = cj_pending_list s a) ∧
    (∀ a, (cj_Queue_begin_loop E l s).task a = s.task a ∨
      ((s.task a).status = NOTREADY ∧ ((cj_Queue_begin_loop E l s).task a).status = QUEUED)) ∧
    ∃ new, (cj_Queue_begin_loop E l s).enqueue_log = s.enqueue_log ++ new ∧
      ∀ e, e ∈ new → e.task ∈ l ∧ e.pending = cj_pending_list s e.task ∧
        (s.task e.task).num_dependencies_remaining = 0 := by
  induction l generalizing s with
  | nil =>
    exact ⟨fun _ => rfl, fun _ => Or.inl rfl, [], by simp [cj_Queue_begin_loop], by simp⟩
  | cons now rest ih =>
    unfold cj_Queue_begin_loop
    split_ifs with hP
    · obtain ⟨e1, e2, e, e3, e4, e5, e6⟩ := cj_Task_enqueue_log E s now hP.2
      obtain ⟨i1, i2, new, i3, i4⟩ := ih (cj_Task_enqueue E s now)
      have hq : ((cj_Task_enqueue E s now).task now).status = QUEUED := by
        simp [cj_Task_enqueue]
      refine ⟨fun a => by rw [i1, e1], ?_, e :: new, ?_, ?_⟩
      · intro a
        by_cases ha : a = now
        · right
          rw [ha]
          refine ⟨hP.2, ?_⟩
          rcases i2 now with h | h
          · rw [h]; exact hq
          · rw [hq] at h; exact absurd h.1 (by decide)
        · rcases i2 a with h | h
          · left; rw [h, cj_Task_enqueue_task_ne E s now a ha]
          · right
            rw [cj_Task_enqueue_task_ne E s now a ha] at h
            exact h
      · rw [i3, e3]; simp
      · intro e' he'
        rcases List.mem_cons.mp he' with he' | he'
        · rw [he', e4, e5]
          exact ⟨List.mem_cons_self _ _, rfl, hP.1⟩
        · obtain ⟨j1, j2, j3⟩ := i4 e' he'
          refine ⟨List.mem_cons_of_mem _ j1, by rw [j2, e1], ?_⟩
          by_cases ha : e'.task = now
          · rw [ha]; exact hP.1
          · rw [cj_Task_enqueue_task_ne E s now _ ha] at j3
            exact j3
    · obtain ⟨i1, i2, new, i3, i4⟩ := ih s
      refine ⟨i1, i2, new, i3, ?_⟩
      intro e' he'
      obtain ⟨j1, j2, j3⟩ := i4 e' he'
      exact ⟨List.mem_cons_of_mem _ j1, j2, j3⟩
theorem cj_pending_list_nil (s : cj_State) (a : Nat) (hr : cj_InvRun s) (ha : a < s.ntask)
    (hc : (s.task a).num_dependencies_remaining = 0) : cj_pending_list s a = [] := by
  have h1 := hr.cnt a ha
  rw [hc] at h1
  have h2 : (cj_pending_list s a).length = 0 := by
    rw [cj_pending_list_length]
    exact_mod_cast h1.symm
  exact List.length_eq_zero.mp h2

/-- Counterexample to C15 as stated. First, in the run of scenario S1 the call of
`cj_Task_enqueue` for T2 (task 1) is made by the completion of T1 (task 0) and records T1 as a
predecessor that is not `DONE` at the call; likewise T3 (task 2) is enqueued while T2 is not
`DONE`. Second, with two workers that complete the two predecessors T1 and T2 of T3 at the same
time: worker 1 has run T1 and decremented the counter of T3 and has not yet written
`task->status = DONE`; the completion of T2 by worker 2 then calls `cj_Task_enqueue` for T3
while both predecessors are not `DONE`. -/
theorem cj_C15_counterexample :
    (∃ s, cj_run cj_Env_example cj_S1_events (cj_Init_state 3) = .ok s ∧
      (s.task 1).in_ = [0] ∧
      s.enqueue_log.map (fun e => (e.task, e.pending)) = [(0, []), (1, [0]), (2, [1])]) ∧
    (∃ s sa sb, cj_run cj_Env_example cj_join_events (cj_Init_state 3) = .ok s ∧
      s.ready_queue 1 = [0] ∧ s.ready_queue 2 = [1] ∧ (s.task 2).in_ = [0, 1] ∧
      cj_Worker_entry_point_before_done cj_Env_example s 1 = .ok sa ∧
      (sa.task 0).status = RUNNING ∧ sa.kernel_log = [0] ∧
      (sa.task 2).num_dependencies_remaining = 1 ∧
      cj_step cj_Env_example sa (cj_Event.worker 2) = .ok sb ∧
      (sb.task 0).status = RUNNING ∧ sb.kernel_log = [0, 1] ∧
      sb.enqueue_log.map (fun e => (e.task, e.pending)) = [(0, []), (1, []), (2, [0, 1])]) :=
  ⟨⟨_, rfl, rfl, rfl⟩, ⟨_, _, _, rfl, rfl, rfl, rfl, rfl, rfl, rfl, rfl, rfl, rfl, rfl, rfl⟩⟩

/-- C15 (amended). With every submission, `cj_Queue_begin` and every pop, execute and complete
of a worker taken as one atomic step: the calls of `cj_Task_enqueue` made by one step from a
reachable state (the entries `new` appended to the ghost log, each with the predecessors that
were not `DONE` at the call). A call made by `cj_Queue_begin` finds every predecessor `DONE`. A call made by the
completion of the task `x` popped by a worker finds every predecessor `DONE` except `x` itself,
which is in the predecessor list and is not `DONE` yet: `cj_Task_dependencies_update` sets the
status of `x` after the loop over its successors. -/
theorem cj_C15_enqueue_pending (E : cj_Env) (s s' : cj_State) (ev : cj_Event)
    (hreach : cj_Reachable E s) (hstep : cj_step E s ev = .ok s') :
    ∃ new, s'.enqueue_log = s.enqueue_log ++ new ∧
      ((∀ id, ev ≠ cj_Event.worker id) → ∀ e, e ∈ new → e.pending = []) ∧
      (∀ id x rest, ev = cj_Event.worker id → s.ready_queue id = x :: rest →
        ∀ e, e ∈ new → x ∈ e.pending ∧ ∀ p, p ∈ e.pending → p = x) := by
  obtain ⟨hg, hq, hr⟩ := cj_Inv_reachable E s hreach
  obtain ⟨hg', hq', hr'⟩ := cj_Inv_reachable E s' (cj_Reachable.step s s' ev hreach hstep)
  cases ev with
  | submit function args uninit_cost =>
    simp only [cj_step, Except.ok.injEq] at hstep
    subst hstep
    obtain ⟨-, -, h3, -⟩ := cj_submit_frame E s function args uninit_cost
    exact ⟨[], by rw [h3]; simp, fun _ e he => by simp at he,
      fun id x rest hid => by cases hid⟩
  | queue_end =>
    simp only [cj_step, Except.ok.injEq] at hstep
    subst hstep
    exact ⟨[], by simp [cj_Queue_end], fun _ e he => by simp at he,
      fun id x rest hid => by cases hid⟩
  | queue_begin =>
    simp only [cj_step, Except.ok.injEq] at hstep
    subst hstep
    obtain ⟨-, -, new, h3, h4⟩ :=
      cj_begin_loop_log E s.vertex { s with cj_queue_enable := true }
    refine ⟨new, h3, ?_, fun id x rest hid => by cases hid⟩
    intro _ e he
    obtain ⟨j1, j2, j3⟩ := h4 e he
    rw [j2]
    exact cj_pending_list_nil s e.task hr (hg.vertex_lt _ j1) j3
  | worker id =>
    have hsame := cj_SameGraph_iteration E s s' id (by
      simp only [cj_step] at hstep
      split_ifs at hstep
      exact hstep)
    simp only [cj_step] at hstep
    split_ifs at hstep
    unfold cj_Worker_entry_point_iteration at hstep
    split at hstep
    · rename_i hnil
      simp only [Except.ok.injEq] at hstep
      subst hstep
      refine ⟨[], by simp, fun _ e he => by simp at he, ?_⟩
      intro id1 x rest hid hqu
      simp only [cj_Event.worker.injEq] at hid
      subst hid
      rw [hnil] at hqu
      exact absurd hqu (by simp)
    · rename_i t rest0 hqu0
      split at hstep
      · exact absurd hstep (by simp)
      · rename_i s1 hs1
        obtain ⟨f1, -, -, -, -, -, -, -, -, -, -, -, -, f14⟩ :=
          cj_Worker_execute_frame E _ s1 t id hs1
        simp only at f1 f14
        unfold cj_Task_dependencies_update at hstep
        split at hstep
        · exact absurd hstep (by simp)
        · rename_i s2 hs2
          simp only [Except.ok.injEq] at hstep
          obtain ⟨-, l2, new, l3, l4⟩ := cj_update_loop_log E _ s1 s2 hs2
          have hlog : s'.enqueue_log = s.enqueue_log ++ new := by
            rw [← hstep]
            simp only
            rw [l3, f14]
          refine ⟨new, hlog, fun hno => absurd rfl (hno id), ?_⟩
          intro id1 x rest hid hqu
          simp only [cj_Event.worker.injEq] at hid
          subst hid
          rw [hqu0] at hqu
          simp only [List.cons.injEq] at hqu
          obtain ⟨hx, -⟩ := hqu
          subst hx
          have htq : t ∈ s.ready_queue id := by rw [hqu0]; exact List.mem_cons_self _ _
          have ht : t < s.ntask := hq.queue_lt id t htq
          have hts : (s.task t).status = QUEUED := (hq.queued_iff t ht).mpr ⟨id, htq⟩
          have hst1 : ∀ a, (s1.task a).status = if a = t then RUNNING else (s.task a).status := by
            intro a
            rw [f1]
            by_cases ha : a = t
            · subst ha; simp
            · simp [Function.update_apply, ha]
          have hin1 : ∀ a, (s1.task a).in_ = (s.task a).in_ := by
            intro a
            rw [f1]
            by_cases ha : a = t
            · subst ha; simp
            · simp [Function.update_apply, ha]
          have hout1 : (s1.task t).out = (s.task t).out := by
            rw [f1]; simp
          intro e he
          obtain ⟨j1, j2, -⟩ := l4 e he
          rw [hout1] at j1
          obtain ⟨htc, hc⟩ := hg.out_lt t ht e.task j1
          have hcin : t ∈ (s.task e.task).in_ := by
            apply List.count_pos_iff.mp
            rw [hg.adj_in t e.task ht hc, ← hg.adj_out t e.task ht hc]
            exact List.count_pos_iff.mpr j1
          have hmem : ∀ p, p ∈ e.pending ↔
              (p ∈ (s.task e.task).in_ ∧ (s1.task p).status ≠ DONE) := by
            intro p
            rw [j2]
            unfold cj_pending_list
            rw [hin1]
            simp
          refine ⟨(hmem t).mpr ⟨hcin, by rw [hst1, if_pos rfl]; decide⟩, ?_⟩
          intro p hp
          obtain ⟨hp1, hp2⟩ := (hmem p).mp hp
          by_contra hpt
          -- in the state after the step the counter of the enqueued task is zero
          have hc' : e.task < s'.ntask := by rw [hsame.ntask]; exact hc
          have helog : e.task ∈ s'.enqueue_log.map cj_EnqueueCall.task := by
            rw [hlog]
            simp only [List.map_append, List.mem_append, List.mem_map]
            exact Or.inr ⟨e, he, rfl⟩
          have hz : (s'.task e.task).num_dependencies_remaining = 0 :=
            hq'.ready_cnt e.task hc' ((hq'.elog_iff e.task hc').mpr helog)
          have hnil := cj_pending_list_nil s' e.task hr' hc' hz
          have hpd : (s'.task p).status = DONE := by
            by_contra hnd
            have : p ∈ cj_pending_list s' e.task := by
              unfold cj_pending_list
              rw [hsame.task_in]
              simp only [List.mem_filter, decide_eq_true_eq]
              exact ⟨hp1, hnd⟩
            rw [hnil] at this
            simp at this
          have hp2' : (s2.task p).status = DONE := by
            rw [← hstep] at hpd
            simpa [Function.update_apply, hpt] using hpd
          exact hp2 ((l2 p).mp hp2')

/-- Witness of C15 (amended) on scenario S1: after the three submissions and `cj_Queue_begin`, the step of
worker 1 completes T1 (task 0), and the call of `cj_Task_enqueue` it makes finds T1 not
`DONE`. -/
theorem cj_C15_enqueue_pending_witness :
    ∃ s s', cj_run cj_Env_example (cj_S1_events.take 4) (cj_Init_state 3) = .ok s ∧
      cj_step cj_Env_example s (cj_Event.worker 1) = .ok s' ∧
      s.ready_queue 1 = [0] ∧ (s'.enqueue_log.drop 1).map cj_EnqueueCall.pending = [[0]] ∧
      ∃ new, s'.enqueue_log = s.enqueue_log ++ new ∧
        ((∀ id, cj_Event.worker 1 ≠ cj_Event.worker id) → ∀ e, e ∈ new → e.pending = []) ∧
        (∀ id x rest, cj_Event.worker 1 = cj_Event.worker id → s.ready_queue id = x :: rest →
          ∀ e, e ∈ new → x ∈ e.pending ∧ ∀ p, p ∈ e.pending → p = x) :=
  ⟨_, _, rfl, rfl, rfl, rfl,
    cj_C15_enqueue_pending cj_Env_example _ _ _
      (cj_Reachable_of_run cj_Env_example 3 (by decide) (cj_S1_events.take 4) _ rfl) rfl⟩

/-! ## The reader and writer sets as a function of the accesses -/

theorem cj_Task_dependency_link_edge (t : Nat) (ps : List Nat) (s : cj_State) :
    (cj_Task_dependency_link t ps s).edge = s.edge ++ (cj_linked s t ps).map (fun p => (p, t)) := by
  rw [cj_Task_dependency_link_eq]

/-- Sets after the loop body for one matrix argument: the bookkeeping of the specification. -/
theorem cj_arg_sets (E : cj_Env) (t : Nat) (now : cj_Object) (s : cj_State)
    (hm : now.objtype = CJ_MATRIX) :
    ((cj_Task_dependency_analysis_arg E t now s).rset,
      (cj_Task_dependency_analysis_arg E t now s).wset) =
      cj_spec_sets_step E (s.rset, s.wset) (t, now) := by
  unfold cj_Task_dependency_analysis_arg cj_spec_sets_step
  rw [if_pos hm]
  cases hrw : now.rwtype with
  | CJ_R =>
    rw [cj_Task_dependency_analysis_write_skip _ _ _ _ rfl,
      cj_Task_dependency_analysis_read_eq _ _ _ _ (Or.inl rfl)]
    simp only [(cj_Task_dependency_link_rset _ _ _).1, (cj_Task_dependency_link_rset _ _ _).2,
      if_true]
  | CJ_W =>
    simp only [cj_Task_dependency_analysis_read, cj_Task_dependency_analysis_write,
      (cj_Task_dependency_link_rset _ _ _).1, (cj_Task_dependency_link_rset _ _ _).2]
    simp
  | CJ_RW =>
    rw [cj_Task_dependency_analysis_read_eq _ _ _ _ (Or.inr rfl)]
    simp only [cj_Task_dependency_analysis_write,
      (cj_Task_dependency_link_rset _ _ _).1, (cj_Task_dependency_link_rset _ _ _).2]
    simp

theorem cj_args_sets (E : cj_Env) (t : Nat) (args : List cj_Object) (s : cj_State) :
    ((cj_Task_dependency_analysis_args E t args s).rset,
      (cj_Task_dependency_analysis_args E t args s).wset) =
      cj_spec_sets E (cj_accesses t args) (s.rset, s.wset) := by
  induction args generalizing s with
  | nil => rfl
  | cons now rest ih =>
    unfold cj_Task_dependency_analysis_args
    rw [ih]
    by_cases hm : now.objtype = CJ_MATRIX
    · rw [cj_arg_sets E t now s hm]
      simp [cj_accesses, cj_spec_sets, hm]
    · have h1 : cj_Task_dependency_analysis_arg E t now s = s := by
        unfold cj_Task_dependency_analysis_arg
        rw [if_neg hm]
      rw [h1]
      simp [cj_accesses, hm]

/-- Edges added by the loop body for one argument: each goes to the task, from another task
that is in the writer set of the tile (argument of mode `R` or `RW`) or in the reader set of
the tile (argument of mode `W` or `RW`) when the argument is reached. -/
theorem cj_arg_edges (E : cj_Env) (t : Nat) (now : cj_Object) (s : cj_State) :
    ∃ new, (cj_Task_dependency_analysis_arg E t now s).edge = s.edge ++ new ∧
      ∀ e, e ∈ new → e.2 = t ∧ e.1 ≠ t ∧ now.objtype = CJ_MATRIX ∧
        (((now.rwtype = CJ_R ∨ now.rwtype = CJ_RW) ∧ e.1 ∈ s.wset (cj_tile E now.matrix)) ∨
         ((now.rwtype = CJ_W ∨ now.rwtype = CJ_RW) ∧ e.1 ∈ s.rset (cj_tile E now.matrix))) := by
  have hlink : ∀ (ps : List Nat) (s0 : cj_State) (e : Nat × Nat),
      e ∈ (cj_linked s0 t ps).map (fun p => (p, t)) → e.2 = t ∧ e.1 ≠ t ∧ e.1 ∈ ps := by
    intro ps s0 e he
    obtain ⟨p, hp, rfl⟩ := List.mem_map.mp he
    unfold cj_linked at hp
    obtain ⟨hp1, hp2⟩ := List.mem_filter.mp hp
    refine ⟨rfl, ?_, hp1⟩
    intro h
    simp only [decide_eq_true_eq] at hp2
    simp only at h
    rw [h] at hp2
    exact hp2 rfl
  unfold cj_Task_dependency_analysis_arg
  by_cases hm : now.objtype = CJ_MATRIX
  · rw [if_pos hm]
    cases hrw : now.rwtype with
    | CJ_R =>
      rw [cj_Task_dependency_analysis_write_skip _ _ _ _ rfl,
        cj_Task_dependency_analysis_read_eq _ _ _ _ (Or.inl rfl), cj_Task_dependency_link_edge]
      refine ⟨_, rfl, ?_⟩
      intro e he
      obtain ⟨h1, h2, h3⟩ := hlink _ _ e he
      exact ⟨h1, h2, hm, Or.inl ⟨Or.inl rfl, h3⟩⟩
    | CJ_W =>
      have h0 : cj_Task_dependency_analysis_read t (cj_tile E now.matrix) CJ_W s = s := by
        simp [cj_Task_dependency_analysis_read]
      rw [h0]
      simp only [cj_Task_dependency_analysis_write, true_or, if_true]
      rw [cj_Task_dependency_link_edge]
      refine ⟨_, rfl, ?_⟩
      intro e he
      obtain ⟨h1, h2, h3⟩ := hlink _ _ e he
      exact ⟨h1, h2, hm, Or.inr ⟨trivial, h3⟩⟩
    | CJ_RW =>
      rw [cj_Task_dependency_analysis_read_eq _ _ _ _ (Or.inr rfl)]
      simp only [cj_Task_dependency_analysis_write, or_true, if_true]
      rw [cj_Task_dependency_link_edge, cj_Task_dependency_link_edge,
        (cj_Task_dependency_link_rset _ _ _).1]
      simp only [Function.update_same, List.append_assoc]
      refine ⟨_, rfl, ?_⟩
      intro e he
      rcases List.mem_append.mp he with he | he
      · obtain ⟨h1, h2, h3⟩ := hlink _ _ e he
        exact ⟨h1, h2, hm, Or.inl ⟨trivial, h3⟩⟩
      · obtain ⟨h1, h2, h3⟩ := hlink _ _ e he
        refine ⟨h1, h2, hm, Or.inr ⟨trivial, ?_⟩⟩
        rcases List.mem_append.mp h3 with h3 | h3
        · exact h3
        · simp only [List.mem_singleton] at h3
          exact absurd h3 h2
  · rw [if_neg hm]
    exact ⟨[], by simp, fun e he => by simp at he⟩
/-- Edges added by the argument loop: each goes to the task, from another task that is in the
writer set (argument of mode `R` or `RW`) or the reader set (argument of mode `W` or `RW`) of
the tile of an argument at the moment the loop reaches this argument. -/
theorem cj_args_edges (E : cj_Env) (t : Nat) (args : List cj_Object) (s : cj_State) :
    ∃ new, (cj_Task_dependency_analysis_args E t args s).edge = s.edge ++ new ∧
      ∀ e, e ∈ new → e.2 = t ∧ e.1 ≠ t ∧
        ∃ pre now post, args = pre ++ now :: post ∧ now.objtype = CJ_MATRIX ∧
          (((now.rwtype = CJ_R ∨ now.rwtype = CJ_RW) ∧
              e.1 ∈ (cj_Task_dependency_analysis_args E t pre s).wset (cj_tile E now.matrix)) ∨
           ((now.rwtype = CJ_W ∨ now.rwtype = CJ_RW) ∧
              e.1 ∈ (cj_Task_dependency_analysis_args E t pre s).rset (cj_tile E now.matrix))) := by
  induction args generalizing s with
  | nil => exact ⟨[], by simp [cj_Task_dependency_analysis_args], fun e he => by simp at he⟩
  | cons now rest ih =>
    obtain ⟨new0, h0, g0⟩ := cj_arg_edges E t now s
    obtain ⟨new1, h1, g1⟩ := ih (cj_Task_dependency_analysis_arg E t now s)
    refine ⟨new0 ++ new1, ?_, ?_⟩
    · unfold cj_Task_dependency_analysis_args
      rw [h1, h0, List.append_assoc]
    · intro e he
      rcases List.mem_append.mp he with he | he
      · obtain ⟨a1, a2, a3, a4⟩ := g0 e he
        exact ⟨a1, a2, [], now, rest, rfl, a3, a4⟩
      · obtain ⟨a1, a2, pre, now1, post, a3, a4, a5⟩ := g1 e he
        exact ⟨a1, a2, now :: pre, now1, post, by rw [a3]; rfl, a4, a5⟩

theorem cj_submit_arg (E : cj_Env) (s : cj_State) (function : cj_Function)
    (args : List cj_Object) (uninit_cost : Int) (a : Nat) :
    ((cj_submit E s function args uninit_cost).task a).arg =
      if a = s.ntask then args else (s.task a).arg := by
  unfold cj_submit cj_Task_dependency_analysis
  have hgr := cj_Grows_args E (cj_Task_new s uninit_cost).2
    ((cj_prepare s function args uninit_cost).task (cj_Task_new s uninit_cost).2).arg
    (cj_Graph_vertex_add (cj_prepare s function args uninit_cost) (cj_Task_new s uninit_cost).2)
  rw [hgr.task_arg]
  simp only [cj_Graph_vertex_add]
  rw [cj_prepare_task]
  split_ifs <;> rfl

theorem cj_history_congr (s s' : cj_State) (hn : s'.ntask = s.ntask)
    (ha : ∀ a, a < s.ntask → (s'.task a).arg = (s.task a).arg) :
    cj_history s' = cj_history s := by
  unfold cj_history
  rw [hn]
  apply List.flatMap_congr
  intro a ha1
  rw [ha a (List.mem_range.mp ha1)]

theorem cj_history_submit (E : cj_Env) (s : cj_State) (function : cj_Function)
    (args : List cj_Object) (uninit_cost : Int) :
    cj_history (cj_submit E s function args uninit_cost) =
      cj_history s ++ cj_accesses s.ntask args := by
  obtain ⟨-, -, -, -, -, -, -, -, h9, -⟩ := cj_submit_frame E s function args uninit_cost
  unfold cj_history
  rw [h9, List.range_succ, List.flatMap_append, List.flatMap_singleton, cj_submit_arg,
    if_pos rfl]
  congr 1
  apply List.flatMap_congr
  intro a ha1
  rw [cj_submit_arg, if_neg (Nat.ne_of_lt (List.mem_range.mp ha1))]

/-- The sets after a submission are the bookkeeping of the specification over the accesses of
the new task, from the sets before. -/
theorem cj_submit_sets (E : cj_Env) (s : cj_State) (function : cj_Function)
    (args : List cj_Object) (uninit_cost : Int) :
    ((cj_submit E s function args uninit_cost).rset,
      (cj_submit E s function args uninit_cost).wset) =
      cj_spec_sets E (cj_accesses s.ntask args) (s.rset, s.wset) := by
  unfold cj_submit cj_Task_dependency_analysis
  rw [cj_args_sets]
  have h1 : ((cj_prepare s function args uninit_cost).task (cj_Task_new s uninit_cost).2).arg
      = args := by
    rw [cj_prepare_task]
    simp [cj_Task_new]
  rw [h1]
  simp only [cj_Graph_vertex_add]
  rw [cj_prepare_fields]
  rfl

/-- In a reachable state the reader and writer sets are the bookkeeping of the specification
over the accesses of all tasks, from empty sets. -/
theorem cj_sets_reachable (E : cj_Env) (s : cj_State) (h : cj_Reachable E s) :
    (s.rset, s.wset) = cj_spec_sets E (cj_history s) (fun _ => [], fun _ => []) := by
  induction h with
  | init nworker s hinit =>
    rw [(cj_Init_ok nworker s hinit).2]
    rfl
  | step s s' ev _ hstep ih =>
    cases ev with
    | submit function args uninit_cost =>
      simp only [cj_step, Except.ok.injEq] at hstep
      subst hstep
      rw [cj_submit_sets, cj_history_submit, ih]
      unfold cj_spec_sets
      rw [List.foldl_append]
    | queue_begin =>
      simp only [cj_step, Except.ok.injEq] at hstep
      subst hstep
      have hs := cj_SameGraph_begin E s
      rw [hs.rset, hs.wset, cj_history_congr s _ hs.ntask (fun a _ => hs.task_arg a)]
      exact ih
    | queue_end =>
      simp only [cj_step, Except.ok.injEq] at hstep
      subst hstep
      exact ih
    | worker id =>
      simp only [cj_step] at hstep
      split_ifs at hstep
      have hs := cj_SameGraph_iteration E s s' id hstep
      rw [hs.rset, hs.wset, cj_history_congr s _ hs.ntask (fun a _ => hs.task_arg a)]
      exact ih

/-- The bookkeeping of the specification, seen from one tile `k`: the sequence of accesses
splits at the last `W` or `RW` access to `k`. The writer set of `k` holds at most one task, the
task of that access; the reader set of `k` holds only tasks with an `R` access to `k` after
it. -/
theorem cj_spec_sets_split (E : cj_Env) (k : cj_Tile) (h : List (Nat × cj_Object)) :
    ∃ h1 h2, h = h1 ++ h2 ∧
      ((cj_spec_sets E h (fun _ => [], fun _ => [])).2 k).length ≤ 1 ∧
      (∀ w, w ∈ (cj_spec_sets E h (fun _ => [], fun _ => [])).2 k →
        ∃ h0 a, h1 = h0 ++ [(w, a)] ∧ cj_tile E a.matrix = k ∧
          (a.rwtype = CJ_W ∨ a.rwtype = CJ_RW)) ∧
      (∀ r, r ∈ (cj_spec_sets E h (fun _ => [], fun _ => [])).1 k →
        ∃ a, (r, a) ∈ h2 ∧ cj_tile E a.matrix = k ∧ a.rwtype = CJ_R) ∧
      (∀ x, x ∈ h2 → cj_tile E x.2.matrix = k → x.2.rwtype = CJ_R) := by
  induction h using List.reverseRecOn with
  | nil => exact ⟨[], [], rfl, by simp [cj_spec_sets], by simp [cj_spec_sets],
      by simp [cj_spec_sets], by simp⟩
  | append_singleton l x ih =>
    obtain ⟨h1, h2, e1, e2, e3, e4, e5⟩ := ih
    have hstep : cj_spec_sets E (l ++ [x]) (fun _ => [], fun _ => []) =
        cj_spec_sets_step E (cj_spec_sets E l (fun _ => [], fun _ => [])) x := by
      unfold cj_spec_sets
      rw [List.foldl_append]
      rfl
    rw [hstep]
    unfold cj_spec_sets_step
    by_cases hk : cj_tile E x.2.matrix = k
    · subst hk
      by_cases hr : x.2.rwtype = CJ_R
      · rw [if_pos hr]
        refine ⟨h1, h2 ++ [x], by rw [e1, List.append_assoc], e2, e3, ?_, ?_⟩
        · intro r hr1
          simp only [Function.update_same] at hr1
          rcases List.mem_append.mp hr1 with hr1 | hr1
          · obtain ⟨a, a1, a2, a3⟩ := e4 r hr1
            exact ⟨a, List.mem_append_left _ a1, a2, a3⟩
          · rw [List.mem_singleton] at hr1
            exact ⟨x.2, by rw [hr1]; simp, rfl, hr⟩
        · intro y hy hyk
          rcases List.mem_append.mp hy with hy | hy
          · exact e5 y hy hyk
          · simp only [List.mem_singleton] at hy
            rw [hy]; exact hr
      · rw [if_neg hr]
        have hw : x.2.rwtype = CJ_W ∨ x.2.rwtype = CJ_RW := by
          cases h0 : x.2.rwtype with
          | CJ_R => exact absurd h0 hr
          | CJ_W => exact Or.inl rfl
          | CJ_RW => exact Or.inr rfl
        refine ⟨l ++ [x], [], by simp, ?_, ?_, ?_, by simp⟩
        · simp only [Function.update_same]; simp
        · intro w hw1
          simp only [Function.update_same, List.mem_singleton] at hw1
          exact ⟨l, x.2, by rw [hw1], rfl, hw⟩
        · intro r hr1
          simp only [Function.update_same] at hr1
          simp at hr1
    · have hk' : k ≠ cj_tile E x.2.matrix := fun h => hk h.symm
      refine ⟨h1, h2 ++ [x], by rw [e1, List.append_assoc], ?_, ?_, ?_, ?_⟩
      · split_ifs
        · exact e2
        · simp only [Function.update_noteq hk']; exact e2
      · intro w hw1
        split_ifs at hw1
        · exact e3 w hw1
        · simp only [Function.update_noteq hk'] at hw1; exact e3 w hw1
      · intro r hr1
        have hr2 : r ∈ (cj_spec_sets E l (fun _ => [], fun _ => [])).1 k := by
          split_ifs at hr1
          · simpa only [Function.update_noteq hk'] using hr1
          · simpa only [Function.update_noteq hk'] using hr1
        obtain ⟨a, a1, a2, a3⟩ := e4 r hr2
        exact ⟨a, List.mem_append_left _ a1, a2, a3⟩
      · intro y hy hyk
        rcases List.mem_append.mp hy with hy | hy
        · exact e5 y hy hyk
        · simp only [List.mem_singleton] at hy
          rw [hy] at hyk
          exact absurd hyk hk
theorem cj_accesses_mem (t : Nat) (args : List cj_Object) (x : Nat × cj_Object) :
    x ∈ cj_accesses t args ↔ x.1 = t ∧ x.2 ∈ args ∧ x.2.objtype = CJ_MATRIX := by
  unfold cj_accesses
  simp only [List.mem_map, List.mem_filter, decide_eq_true_eq]
  constructor
  · rintro ⟨a, ⟨h1, h2⟩, rfl⟩
    exact ⟨rfl, h1, h2⟩
  · rintro ⟨h1, h2, h3⟩
    exact ⟨x.2, ⟨h2, h3⟩, by rw [← h1]⟩

theorem cj_history_mem (s : cj_State) (x : Nat × cj_Object) :
    x ∈ cj_history s ↔ x.1 < s.ntask ∧ x.2 ∈ (s.task x.1).arg ∧ x.2.objtype = CJ_MATRIX := by
  unfold cj_history
  simp only [List.mem_flatMap, List.mem_range, cj_accesses_mem]
  constructor
  · rintro ⟨a, h1, h2, h3, h4⟩
    rw [h2]
    exact ⟨h1, h3, h4⟩
  · rintro ⟨h1, h2, h3⟩
    exact ⟨x.1, h1, rfl, h2, h3⟩

/-- Accesses of mode `R` only leave the writer sets as they are. -/
theorem cj_spec_sets_read_only (E : cj_Env) (h : List (Nat × cj_Object))
    (sets : (cj_Tile → List Nat) × (cj_Tile → List Nat))
    (hr : ∀ x, x ∈ h → x.2.rwtype = CJ_R) : (cj_spec_sets E h sets).2 = sets.2 := by
  induction h generalizing sets with
  | nil => rfl
  | cons x rest ih =>
    unfold cj_spec_sets
    rw [List.foldl_cons]
    have h1 := ih (cj_spec_sets_step E sets x) (fun y hy => hr y (List.mem_cons_of_mem _ hy))
    unfold cj_spec_sets at h1
    rw [h1]
    unfold cj_spec_sets_step
    rw [if_pos (hr x (List.mem_cons_self _ _))]

/-- Sets at the moment the analysis of a new task reaches an argument, after a reachable
state: the bookkeeping of the specification over the accesses so far. -/
theorem cj_analysis_before_sets (E : cj_Env) (s : cj_State) (function : cj_Function)
    (args pre : List cj_Object) (uninit_cost : Int) (hreach : cj_Reachable E s) :
    ((cj_analysis_before E (cj_prepare s function args uninit_cost) s.ntask pre).rset,
      (cj_analysis_before E (cj_prepare s function args uninit_cost) s.ntask pre).wset) =
      cj_spec_sets E (cj_history s ++ cj_accesses s.ntask pre) (fun _ => [], fun _ => []) := by
  unfold cj_analysis_before
  rw [cj_args_sets]
  simp only [cj_Graph_vertex_add]
  rw [cj_prepare_fields]
  simp only
  rw [cj_sets_reachable E s hreach]
  unfold cj_spec_sets
  rw [List.foldl_append]

/-- Members of the sets at the moment the analysis of a new task reaches an argument on tile
`k`, other than the new task: a member of the writer set is an earlier task with a `W` or `RW`
argument on `k`, a member of the reader set is an earlier task with an `R` argument on `k`. -/
theorem cj_analysis_before_member (E : cj_Env) (s : cj_State) (function : cj_Function)
    (args pre : List cj_Object) (uninit_cost : Int) (hreach : cj_Reachable E s)
    (k : cj_Tile) (p : Nat) (hp : p ≠ s.ntask) :
    (p ∈ (cj_analysis_before E (cj_prepare s function args uninit_cost) s.ntask pre).wset k →
      p < s.ntask ∧ ∃ a, a ∈ (s.task p).arg ∧ a.objtype = CJ_MATRIX ∧ cj_tile E a.matrix = k ∧
        (a.rwtype = CJ_W ∨ a.rwtype = CJ_RW)) ∧
    (p ∈ (cj_analysis_before E (cj_prepare s function args uninit_cost) s.ntask pre).rset k →
      p < s.ntask ∧ ∃ a, a ∈ (s.task p).arg ∧ a.objtype = CJ_MATRIX ∧ cj_tile E a.matrix = k ∧
        a.rwtype = CJ_R) := by
  have hsets := cj_analysis_before_sets E s function args pre uninit_cost hreach
  obtain ⟨h1, h2, e1, -, e3, e4, -⟩ :=
    cj_spec_sets_split E k (cj_history s ++ cj_accesses s.ntask pre)
  rw [← hsets] at e3 e4
  simp only at e3 e4
  have key : ∀ a, (p, a) ∈ cj_history s ++ cj_accesses s.ntask pre →
      p < s.ntask ∧ a ∈ (s.task p).arg ∧ a.objtype = CJ_MATRIX := by
    intro a ha
    rcases List.mem_append.mp ha with ha | ha
    · exact (cj_history_mem s (p, a)).mp ha
    · exact absurd ((cj_accesses_mem _ _ _).mp ha).1 hp
  constructor
  · intro hmem
    obtain ⟨h0, a, a1, a2, a3⟩ := e3 p hmem
    obtain ⟨b1, b2, b3⟩ := key a (by rw [e1, a1]; simp)
    exact ⟨b1, a, b2, b3, a2, a3⟩
  · intro hmem
    obtain ⟨a, a1, a2, a3⟩ := e4 p hmem
    obtain ⟨b1, b2, b3⟩ := key a (by rw [e1]; exact List.mem_append_right _ a1)
    exact ⟨b1, a, b2, b3, a2, a3⟩

/-- Edges added by a submission after a reachable state. -/
theorem cj_submit_edges (E : cj_Env) (s : cj_State) (function : cj_Function)
    (args : List cj_Object) (uninit_cost : Int) :
    ∃ new, (cj_submit E s function args uninit_cost).edge = s.edge ++ new ∧
      ∀ e, e ∈ new → e.2 = s.ntask ∧ e.1 ≠ s.ntask ∧
        ∃ pre now post, args = pre ++ now :: post ∧ now.objtype = CJ_MATRIX ∧
          (((now.rwtype = CJ_R ∨ now.rwtype = CJ_RW) ∧
              e.1 ∈ (cj_analysis_before E (cj_prepare s function args uninit_cost) s.ntask
                pre).wset (cj_tile E now.matrix)) ∨
           ((now.rwtype = CJ_W ∨ now.rwtype = CJ_RW) ∧
              e.1 ∈ (cj_analysis_before E (cj_prepare s function args uninit_cost) s.ntask
                pre).rset (cj_tile E now.matrix))) := by
  have h1 : ((cj_prepare s function args uninit_cost).task (cj_Task_new s uninit_cost).2).arg
      = args := by
    rw [cj_prepare_task]
    simp [cj_Task_new]
  obtain ⟨new, e1, e2⟩ := cj_args_edges E s.ntask args
    (cj_Graph_vertex_add (cj_prepare s function args uninit_cost) s.ntask)
  refine ⟨new, ?_, e2⟩
  unfold cj_submit cj_Task_dependency_analysis
  rw [h1]
  have h2 : (cj_Task_new s uninit_cost).2 = s.ntask := rfl
  rw [h2, e1]
  simp only [cj_Graph_vertex_add]
  rw [cj_prepare_fields]
theorem cj_wset_length (E : cj_Env) (s : cj_State) (hreach : cj_Reachable E s) (k : cj_Tile) :
    (s.wset k).length ≤ 1 := by
  obtain ⟨h1, h2, -, e2, -⟩ := cj_spec_sets_split E k (cj_history s)
  rw [← cj_sets_reachable E s hreach] at e2
  exact e2

/-- The edges a submission adds after a reachable state, with the reason of each edge. -/
theorem cj_submit_edges_spec (E : cj_Env) (s : cj_State) (function : cj_Function)
    (args : List cj_Object) (uninit_cost : Int) (hreach : cj_Reachable E s) :
    ∃ new, (cj_submit E s function args uninit_cost).edge = s.edge ++ new ∧
      (∀ e, e ∈ new → e.2 = s.ntask ∧ e.1 < s.ntask ∧
        ∃ pre now post, args = pre ++ now :: post ∧ now.objtype = CJ_MATRIX ∧
          (((now.rwtype = CJ_R ∨ now.rwtype = CJ_RW) ∧
              e.1 ∈ (cj_analysis_before E (cj_prepare s function args uninit_cost) s.ntask
                pre).wset (cj_tile E now.matrix) ∧
              ∃ a, a ∈ (s.task e.1).arg ∧ a.objtype = CJ_MATRIX ∧
                cj_tile E a.matrix = cj_tile E now.matrix ∧
                (a.rwtype = CJ_W ∨ a.rwtype = CJ_RW)) ∨
           ((now.rwtype = CJ_W ∨ now.rwtype = CJ_RW) ∧
              e.1 ∈ (cj_analysis_before E (cj_prepare s function args uninit_cost) s.ntask
                pre).rset (cj_tile E now.matrix) ∧
              ∃ a, a ∈ (s.task e.1).arg ∧ a.objtype = CJ_MATRIX ∧
                cj_tile E a.matrix = cj_tile E now.matrix ∧ a.rwtype = CJ_R))) ∧
      ((∀ a, a ∈ args → a.rwtype = CJ_R) →
        ∀ e, e ∈ new → ∃ now, now ∈ args ∧ now.objtype = CJ_MATRIX ∧
          s.wset (cj_tile E now.matrix) = [e.1]) := by
  obtain ⟨new, e1, e2⟩ := cj_submit_edges E s function args uninit_cost
  have main : ∀ e, e ∈ new → e.2 = s.ntask ∧ e.1 < s.ntask ∧
        ∃ pre now post, args = pre ++ now :: post ∧ now.objtype = CJ_MATRIX ∧
          (((now.rwtype = CJ_R ∨ now.rwtype = CJ_RW) ∧
              e.1 ∈ (cj_analysis_before E (cj_prepare s function args uninit_cost) s.ntask
                pre).wset (cj_tile E now.matrix) ∧
              ∃ a, a ∈ (s.task e.1).arg ∧ a.objtype = CJ_MATRIX ∧
                cj_tile E a.matrix = cj_tile E now.matrix ∧
                (a.rwtype = CJ_W ∨ a.rwtype = CJ_RW)) ∨
           ((now.rwtype = CJ_W ∨ now.rwtype = CJ_RW) ∧
              e.1 ∈ (cj_analysis_before E (cj_prepare s function args uninit_cost) s.ntask
                pre).rset (cj_tile E now.matrix) ∧
              ∃ a, a ∈ (s.task e.1).arg ∧ a.objtype = CJ_MATRIX ∧
                cj_tile E a.matrix = cj_tile E now.matrix ∧ a.rwtype = CJ_R)) := by
    intro e he
    obtain ⟨a1, a2, pre, now, post, a3, a4, a5⟩ := e2 e he
    have hmem := cj_analysis_before_member E s function args pre uninit_cost hreach
      (cj_tile E now.matrix) e.1 a2
    rcases a5 with ⟨b1, b2⟩ | ⟨b1, b2⟩
    · obtain ⟨c1, c2⟩ := hmem.1 b2
      exact ⟨a1, c1, pre, now, post, a3, a4, Or.inl ⟨b1, b2, c2⟩⟩
    · obtain ⟨c1, c2⟩ := hmem.2 b2
      exact ⟨a1, c1, pre, now, post, a3, a4, Or.inr ⟨b1, b2, c2⟩⟩
  refine ⟨new, e1, main, ?_⟩
  intro hall e he
  obtain ⟨-, -, pre, now, post, a3, a4, a5⟩ := main e he
  have hnow : now ∈ args := by rw [a3]; simp
  have hR := hall now hnow
  have hw : e.1 ∈ (cj_analysis_before E (cj_prepare s function args uninit_cost) s.ntask
      pre).wset (cj_tile E now.matrix) := by
    rcases a5 with ⟨-, b2, -⟩ | ⟨b1, -⟩
    · exact b2
    · rw [hR] at b1
      rcases b1 with b1 | b1 <;> exact absurd b1 (by decide)
  have hsame : (cj_analysis_before E (cj_prepare s function args uninit_cost) s.ntask
      pre).wset = s.wset := by
    unfold cj_analysis_before
    have h0 := cj_args_sets E s.ntask pre
      (cj_Graph_vertex_add (cj_prepare s function args uninit_cost) s.ntask)
    have h1 := congrArg Prod.snd h0
    simp only at h1
    rw [h1, cj_spec_sets_read_only]
    · simp only [cj_Graph_vertex_add]
      rw [cj_prepare_fields]
    · intro x hx
      obtain ⟨-, x2, -⟩ := (cj_accesses_mem _ _ _).mp hx
      exact hall x.2 (by rw [a3]; exact List.mem_append_left _ x2)
  rw [hsame] at hw
  refine ⟨now, hnow, a4, ?_⟩
  have hlen := cj_wset_length E s hreach (cj_tile E now.matrix)
  revert hw hlen
  cases s.wset (cj_tile E now.matrix) with
  | nil => intro hw; simp at hw
  | cons y rest =>
    intro hw hlen
    simp only [List.length_cons] at hlen
    have hrest : rest = [] := List.length_eq_zero.mp (by omega)
    subst hrest
    simp only [List.mem_singleton] at hw
    rw [hw]

/-- In a reachable state every edge has a reason: the two tasks have an argument on a common
tile, and at least one of the two arguments writes (mode `W` or `RW`). In particular there is
no edge between two tasks that only read. -/
theorem cj_edge_has_writer (E : cj_Env) (s : cj_State) (h : cj_Reachable E s) :
    ∀ e, e ∈ s.edge → ∃ a b, a ∈ (s.task e.1).arg ∧ b ∈ (s.task e.2).arg ∧
      a.objtype = CJ_MATRIX ∧ b.objtype = CJ_MATRIX ∧
      cj_tile E a.matrix = cj_tile E b.matrix ∧
      ((a.rwtype = CJ_W ∨ a.rwtype = CJ_RW) ∨ (b.rwtype = CJ_W ∨ b.rwtype = CJ_RW)) := by
  induction h with
  | init nworker s hinit =>
    rw [(cj_Init_ok nworker s hinit).2]
    intro e he
    simp [cj_Init_state] at he
  | step s s' ev hreach hstep ih =>
    cases ev with
    | submit function args uninit_cost =>
      simp only [cj_step, Except.ok.injEq] at hstep
      subst hstep
      obtain ⟨new, e1, e2, -⟩ := cj_submit_edges_spec E s function args uninit_cost hreach
      have hg := (cj_Inv_reachable E s hreach).1
      intro e he
      rw [e1] at he
      rcases List.mem_append.mp he with he | he
      · obtain ⟨a, b, h1, h2, h3⟩ := ih e he
        obtain ⟨l1, l2⟩ := hg.edge_lt e he
        refine ⟨a, b, ?_, ?_, h3⟩
        · rw [cj_submit_arg, if_neg (by omega)]; exact h1
        · rw [cj_submit_arg, if_neg (by omega)]; exact h2
      · obtain ⟨a1, a2, pre, now, post, a3, a4, a5⟩ := e2 e he
        have hnow : now ∈ ((cj_submit E s function args uninit_cost).task e.2).arg := by
          rw [cj_submit_arg, if_pos a1, a3]; simp
        have harg : ((cj_submit E s function args uninit_cost).task e.1).arg =
            (s.task e.1).arg := by
          rw [cj_submit_arg, if_neg (by omega)]
        rw [harg]
        rcases a5 with ⟨-, -, a, b1, b2, b3, b4⟩ | ⟨c1, -, a, b1, b2, b3, -⟩
        · exact ⟨a, now, b1, hnow, b2, a4, b3, Or.inl b4⟩
        · exact ⟨a, now, b1, hnow, b2, a4, b3, Or.inr c1⟩
    | queue_begin =>
      simp only [cj_step, Except.ok.injEq] at hstep
      subst hstep
      have hs := cj_SameGraph_begin E s
      intro e he
      rw [hs.edge] at he
      rw [hs.task_arg, hs.task_arg]
      exact ih e he
    | queue_end =>
      simp only [cj_step, Except.ok.injEq] at hstep
      subst hstep
      exact ih
    | worker id =>
      simp only [cj_step] at hstep
      split_ifs at hstep
      have hs := cj_SameGraph_iteration E s s' id hstep
      intro e he
      rw [hs.edge] at he
      rw [hs.task_arg, hs.task_arg]
      exact ih e he

/-- One writer followed by readers: after a reachable state in which the writer set of tile
`k` is `[w]`, submissions of tasks whose arguments all have mode `R` and name no other tile
than `k` add edges from `w` only, into the new tasks; the writer set of `k` stays `[w]`. -/
theorem cj_readers_edges (E : cj_Env) (k : cj_Tile) (w : Nat) (evs : List cj_Event)
    (s : cj_State) (hreach : cj_Reachable E s) (hw : s.wset k = [w])
    (hev : ∀ ev, ev ∈ evs → ∃ function args uninit_cost,
      ev = cj_Event.submit function args uninit_cost ∧
      ∀ a, a ∈ args → a.rwtype = CJ_R ∧ (a.objtype = CJ_MATRIX → cj_tile E a.matrix = k)) :
    ∃ s' new, cj_run E evs s = .ok s' ∧ s'.edge = s.edge ++ new ∧ s'.wset k = [w] ∧
      ∀ e, e ∈ new → e.1 = w ∧ s.ntask ≤ e.2 := by
  induction evs generalizing s with
  | nil => exact ⟨s, [], rfl, by simp, hw, fun e he => by simp at he⟩
  | cons ev rest ih =>
    obtain ⟨function, args, uninit_cost, rfl, hall⟩ := hev _ (List.mem_cons_self _ _)
    obtain ⟨new0, e1, main, ronly⟩ := cj_submit_edges_spec E s function args uninit_cost hreach
    have hsets := cj_submit_sets E s function args uninit_cost
    have hw1 : (cj_submit E s function args uninit_cost).wset k = [w] := by
      have h1 := congrArg Prod.snd hsets
      simp only at h1
      rw [h1, cj_spec_sets_read_only]
      · exact hw
      · intro x hx
        exact (hall x.2 ((cj_accesses_mem _ _ _).mp hx).2.1).1
    have hn1 : (cj_submit E s function args uninit_cost).ntask = s.ntask + 1 := by
      obtain ⟨-, -, -, -, -, -, -, -, h9, -⟩ := cj_submit_frame E s function args uninit_cost
      exact h9
    obtain ⟨s', new1, r1, r2, r3, r4⟩ := ih (cj_submit E s function args uninit_cost)
      (cj_Reachable.step s _ (cj_Event.submit function args uninit_cost) hreach rfl) hw1
      (fun ev hev1 => hev ev (List.mem_cons_of_mem _ hev1))
    refine ⟨s', new0 ++ new1, ?_, ?_, r3, ?_⟩
    · simp only [cj_run, cj_step]
      exact r1
    · rw [r2, e1, List.append_assoc]
    · intro e he
      rcases List.mem_append.mp he with he | he
      · obtain ⟨now, hnow, hm, hwn⟩ := ronly (fun a ha => (hall a ha).1) e he
        rw [(hall now hnow).2 hm, hw] at hwn
        simp only [List.cons.injEq, and_true] at hwn
        exact ⟨hwn.symm, le_of_eq (main e he).1.symm⟩
      · obtain ⟨a1, a2⟩ := r4 e he
        exact ⟨a1, by omega⟩

/-- C16. The edges added by the dependency analysis of a new task `t = s.ntask`, submitted
after a reachable state. Every added edge goes into `t` from an earlier task `p`, and there is
an argument `now` of `t` on a tile `k` such that either `now` has mode `R` or `RW` and `p` is
in the writer set of `k` when the loop reaches `now`, or `now` has mode `W` or `RW` and `p` is
in the reader set of `k` then; in both cases `p` has an argument on `k` (of mode `W`/`RW`,
resp. `R`). If all arguments of `t` have mode `R`, every added edge comes from the task that is
the writer set of the tile of one of the arguments. One writer followed by readers: if the
writer set of a tile `k` is `[w]`, any number of submissions of tasks that only read `k` add
edges from `w` only, into the new tasks: there is no edge between two readers. -/
theorem cj_C16_only_edges (E : cj_Env) (s : cj_State) (function : cj_Function)
    (args : List cj_Object) (uninit_cost : Int) (hreach : cj_Reachable E s) :
    (∃ new, (cj_submit E s function args uninit_cost).edge = s.edge ++ new ∧
      (∀ e, e ∈ new → e.2 = s.ntask ∧ e.1 < s.ntask ∧
        ∃ pre now post, args = pre ++ now :: post ∧ now.objtype = CJ_MATRIX ∧
          (((now.rwtype = CJ_R ∨ now.rwtype = CJ_RW) ∧
              e.1 ∈ (cj_analysis_before E (cj_prepare s function args uninit_cost) s.ntask
                pre).wset (cj_tile E now.matrix) ∧
              ∃ a, a ∈ (s.task e.1).arg ∧ a.objtype = CJ_MATRIX ∧
                cj_tile E a.matrix = cj_tile E now.matrix ∧
                (a.rwtype = CJ_W ∨ a.rwtype = CJ_RW)) ∨
           ((now.rwtype = CJ_W ∨ now.rwtype = CJ_RW) ∧
              e.1 ∈ (cj_analysis_before E (cj_prepare s function args uninit_cost) s.ntask
                pre).rset (cj_tile E now.matrix) ∧
              ∃ a, a ∈ (s.task e.1).arg ∧ a.objtype = CJ_MATRIX ∧
                cj_tile E a.matrix = cj_tile E now.matrix ∧ a.rwtype = CJ_R))) ∧
      ((∀ a, a ∈ args → a.rwtype = CJ_R) →
        ∀ e, e ∈ new → ∃ now, now ∈ args ∧ now.objtype = CJ_MATRIX ∧
          s.wset (cj_tile E now.matrix) = [e.1])) ∧
    (∀ (k : cj_Tile) (w : Nat) (evs : List cj_Event), s.wset k = [w] →
      (∀ ev, ev ∈ evs → ∃ function args uninit_cost,
        ev = cj_Event.submit function args uninit_cost ∧
        ∀ a, a ∈ args → a.rwtype = CJ_R ∧ (a.objtype = CJ_MATRIX → cj_tile E a.matrix = k)) →
      ∃ s' new, cj_run E evs s = .ok s' ∧ s'.edge = s.edge ++ new ∧
        ∀ e, e ∈ new → e.1 = w ∧ s.ntask ≤ e.2) := by
  refine ⟨cj_submit_edges_spec E s function args uninit_cost hreach, ?_⟩
  intro k w evs hw hev
  obtain ⟨s', new, h1, h2, -, h4⟩ := cj_readers_edges E k w evs s hreach hw hev
  exact ⟨s', new, h1, h2, h4⟩

/-- Witness of C16 on one writer and three readers of tile A: after T1 = `[W A]` the writer
set of A is `[T1]`; the submissions of three tasks `[R A]` give the edges T1 → T2, T1 → T3 and
T1 → T4 and no others. -/
theorem cj_C16_only_edges_witness :
    cj_S1_one.wset (0, 0, 0) = [0] ∧
    (∃ s', cj_run cj_Env_example
        (List.replicate 3 (cj_Event.submit (cj_Function.other 0) [cj_arg CJ_R 0] 0))
        cj_S1_one = .ok s' ∧ s'.edge = [(0, 1), (0, 2), (0, 3)]) ∧
    ∃ s' new, cj_run cj_Env_example
        (List.replicate 3 (cj_Event.submit (cj_Function.other 0) [cj_arg CJ_R 0] 0))
        cj_S1_one = .ok s' ∧ s'.edge = cj_S1_one.edge ++ new ∧
      ∀ e, e ∈ new → e.1 = 0 ∧ cj_S1_one.ntask ≤ e.2 :=
  ⟨rfl, ⟨_, rfl, rfl⟩,
    (cj_C16_only_edges cj_Env_example cj_S1_one (cj_Function.other 0) [] 0
      (cj_Reachable_of_run cj_Env_example 3 (by decide)
        [cj_Event.submit (cj_Function.other 0) [cj_arg CJ_W 0] 0] _ rfl)).2 (0, 0, 0) 0
      (List.replicate 3 (cj_Event.submit (cj_Function.other 0) [cj_arg CJ_R 0] 0)) rfl
      (fun _ hev => ⟨_, _, _, List.eq_of_mem_replicate hev, by decide⟩)⟩

/-- C17. Bookkeeping of the sets. Processing a matrix argument `now` of task `t` in any state
`s0`: with mode `W` or `RW` the writer set of its tile becomes `[t]` and the reader set of its
tile becomes empty; with mode `R` the task is appended to the reader set of the tile and the
writer sets stay; the sets of the other tiles stay. In a reachable state `s`, for every tile
`k`: the writer set holds at most one task, and the sequence of all accesses processed so far
(`cj_history s`) splits into `h1 ++ h2` such that a member of the writer set is the task of the
last access of `h1`, an access of mode `W` or `RW` to `k`, and every member of the reader set
has an access of mode `R` to `k` in `h2`, that is after that access. -/
theorem cj_C17_tile_sets (E : cj_Env) (t : Nat) (now : cj_Object) (s0 s : cj_State)
    (k : cj_Tile) (hm : now.objtype = CJ_MATRIX) (hreach : cj_Reachable E s) :
    ((now.rwtype = CJ_W ∨ now.rwtype = CJ_RW) →
      (cj_Task_dependency_analysis_arg E t now s0).wset (cj_tile E now.matrix) = [t] ∧
      (cj_Task_dependency_analysis_arg E t now s0).rset (cj_tile E now.matrix) = []) ∧
    (now.rwtype = CJ_R →
      (cj_Task_dependency_analysis_arg E t now s0).rset (cj_tile E now.matrix) =
        s0.rset (cj_tile E now.matrix) ++ [t] ∧
      (cj_Task_dependency_analysis_arg E t now s0).wset = s0.wset) ∧
    (∀ k1, k1 ≠ cj_tile E now.matrix →
      (cj_Task_dependency_analysis_arg E t now s0).rset k1 = s0.rset k1 ∧
      (cj_Task_dependency_analysis_arg E t now s0).wset k1 = s0.wset k1) ∧
    (s.wset k).length ≤ 1 ∧
    ∃ h1 h2, cj_history s = h1 ++ h2 ∧
      (∀ w, w ∈ s.wset k → ∃ h0 a, h1 = h0 ++ [(w, a)] ∧ cj_tile E a.matrix = k ∧
        (a.rwtype = CJ_W ∨ a.rwtype = CJ_RW)) ∧
      (∀ r, r ∈ s.rset k → ∃ a, (r, a) ∈ h2 ∧ cj_tile E a.matrix = k ∧ a.rwtype = CJ_R) := by
  have hsets := cj_arg_sets E t now s0 hm
  have hr := congrArg Prod.fst hsets
  have hw := congrArg Prod.snd hsets
  simp only at hr hw
  refine ⟨?_, ?_, ?_, cj_wset_length E s hreach k, ?_⟩
  · intro hmode
    have hnr : now.rwtype ≠ CJ_R := by
      rcases hmode with h | h <;> rw [h] <;> decide
    rw [hr, hw]
    unfold cj_spec_sets_step
    simp only [if_neg hnr, Function.update_same, and_self]
  · intro hmode
    rw [hr, hw]
    unfold cj_spec_sets_step
    simp only [if_pos hmode, Function.update_same, and_self]
  · intro k1 hk1
    rw [hr, hw]
    unfold cj_spec_sets_step
    split_ifs
    · simp only [Function.update_noteq hk1, and_self]
    · simp only [Function.update_noteq hk1, and_self]
  · obtain ⟨h1, h2, e1, -, e3, e4, -⟩ := cj_spec_sets_split E k (cj_history s)
    rw [← cj_sets_reachable E s hreach] at e3 e4
    exact ⟨h1, h2, e1, e3, e4⟩

/-- Witness of C17 on three submissions on one tile A (T1 = `[W A]`, T2 = `[R A, W A]`,
T3 = `[RW A, R A]`): at the end the writer set of A is `[T3]` and the reader set of A is
`[T3]`, from the `R` argument of T3 that comes after its `RW` argument. -/
theorem cj_C17_tile_sets_witness :
    ∃ s, cj_run cj_Env_example cj_same_tile_events (cj_Init_state 3) = .ok s ∧
      s.wset (0, 0, 0) = [2] ∧ s.rset (0, 0, 0) = [2] ∧
      (cj_Task_dependency_analysis_arg cj_Env_example 1 (cj_arg CJ_R 0) cj_S1_one).rset
        (0, 0, 0) = [1] ∧
      (s.wset (0, 0, 0)).length ≤ 1 ∧
      ∃ h1 h2, cj_history s = h1 ++ h2 ∧
        (∀ w, w ∈ s.wset (0, 0, 0) → ∃ h0 a, h1 = h0 ++ [(w, a)] ∧
          cj_tile cj_Env_example a.matrix = (0, 0, 0) ∧
          (a.rwtype = CJ_W ∨ a.rwtype = CJ_RW)) ∧
        (∀ r, r ∈ s.rset (0, 0, 0) → ∃ a, (r, a) ∈ h2 ∧
          cj_tile cj_Env_example a.matrix = (0, 0, 0) ∧ a.rwtype = CJ_R) :=
  ⟨_, rfl, rfl, rfl, rfl,
    (cj_C17_tile_sets cj_Env_example 1 (cj_arg CJ_R 0) cj_S1_one _ (0, 0, 0) rfl
      (cj_Reachable_of_run cj_Env_example 3 (by decide) cj_same_tile_events _ rfl)).2.2.2⟩

/-! ## Runs from `cj_Init`: host workers only -/

theorem cj_Task_enqueue_scan_dest (E : cj_Env) (s : cj_State) (t : Nat) (l : List Nat)
    (acc : cj_EnqueueScan) :
    (cj_Task_enqueue_scan E s t l acc).dest = acc.dest ∨
      (cj_Task_enqueue_scan E s t l acc).dest ∈ l := by
  induction l generalizing acc with
  | nil => exact Or.inl rfl
  | cons i rest ih =>
    unfold cj_Task_enqueue_scan
    split_ifs
    · rcases ih
        { min_time :=
            E.fadd (s.time_remaining i) (cj_Worker_estimate_cost E s (s.task t) (s.worker i))
          cost := cj_Worker_estimate_cost E s (s.task t) (s.worker i)
          dest := i } with h | h
      · exact Or.inr (by rw [h]; exact List.mem_cons_self _ _)
      · exact Or.inr (List.mem_cons_of_mem _ h)
    · rcases ih acc with h | h
      · exact Or.inl h
      · exact Or.inr (List.mem_cons_of_mem _ h)

/-- With at least one executor the destination chosen by `cj_Task_enqueue` is an executor. -/
theorem cj_Task_enqueue_choice_dest (E : cj_Env) (s : cj_State) (t : Nat)
    (hn : 2 ≤ s.nworker) :
    1 ≤ (cj_Task_enqueue_choice E s t).dest ∧ (cj_Task_enqueue_choice E s t).dest < s.nworker := by
  unfold cj_Task_enqueue_choice
  rcases cj_Task_enqueue_scan_dest E s t (List.range' 1 (s.nworker - 1))
    { min_time := -1, cost := (s.task t).cost, dest := 1 } with h | h
  · rw [h]; simp only; omega
  · rw [List.mem_range'_1] at h
    omega

theorem cj_InvHost_of_eq (s s' : cj_State) (h : cj_InvHost s) (e1 : s'.worker = s.worker)
    (e2 : s'.dist = s.dist) (e3 : s'.vertex = s.vertex) (e4 : s'.ntask = s.ntask)
    (e5 : s'.nworker = s.nworker) (e6 : s'.ready_queue = s.ready_queue) : cj_InvHost s' := by
  constructor
  · rw [e1]; exact h.worker_host
  · rw [e2]; exact h.dist_host
  · rw [e3, e4]; exact h.vertex_eq
  · rw [e5, e6]; exact h.queue_range

theorem cj_InvHost_enqueue (E : cj_Env) (s : cj_State) (t : Nat) (h : cj_InvHost s) :
    cj_InvHost (cj_Task_enqueue E s t) := by
  constructor
  · exact h.worker_host
  · exact h.dist_host
  · exact h.vertex_eq
  · intro hn i hi
    rw [cj_Task_enqueue_queue]
    have hd := cj_Task_enqueue_choice_dest E s t hn
    have hne : i ≠ (cj_Task_enqueue_choice E s t).dest := by
      intro he
      rw [he] at hi
      exact hi hd
    rw [if_neg hne]
    exact h.queue_range hn i hi

theorem cj_InvHost_update_loop (E : cj_Env) (l : List Nat) (s s' : cj_State)
    (h : cj_InvHost s) (hl : cj_Task_dependencies_update_loop E l s = .ok s') :
    cj_InvHost s' := by
  induction l generalizing s with
  | nil =>
    simp only [cj_Task_dependencies_update_loop, Except.ok.injEq] at hl
    subst hl; exact h
  | cons c rest ih =>
    unfold cj_Task_dependencies_update_loop at hl
    split_ifs at hl
    · refine ih _ ?_ hl
      exact cj_InvHost_enqueue E _ c (cj_InvHost_of_eq s _ h rfl rfl rfl rfl rfl rfl)
    · refine ih _ ?_ hl
      exact cj_InvHost_of_eq s _ h rfl rfl rfl rfl rfl rfl

theorem cj_InvHost_begin_loop (E : cj_Env) (l : List Nat) (s : cj_State) (h : cj_InvHost s) :
    cj_InvHost (cj_Queue_begin_loop E l s) := by
  induction l generalizing s with
  | nil => exact h
  | cons now rest ih =>
    unfold cj_Queue_begin_loop
    split_ifs
    · exact ih _ (cj_InvHost_enqueue E s now h)
    · exact ih _ h

/-- Staging by a host worker when every tile has a host location: nothing to do. -/
theorem cj_Worker_fetch_host (E : cj_Env) (w : cj_Worker) (args : List cj_Object)
    (s : cj_State) (hw : w.device_id = -1)
    (hd : ∀ k, ∃ e, e ∈ s.dist k ∧ e.device_id = -1) :
    cj_Worker_fetch E w args s = .ok s := by
  induction args with
  | nil => rfl
  | cons now rest ih =>
    unfold cj_Worker_fetch
    have h1 : cj_Worker_stage_arg E w now s = .ok s := by
      unfold cj_Worker_stage_arg
      split_ifs
      · obtain ⟨d, c, hscan⟩ := cj_dist_scan_found w.device_id (s.dist (cj_tile E now.matrix))
          none (by rw [hw]; exact hd _)
        rw [hscan]
      · rfl
    rw [h1]
    exact ih

/-- The commit loop of a host worker keeps a host location on every tile. -/
theorem cj_Worker_commit_host (E : cj_Env) (w : cj_Worker) (args : List cj_Object)
    (s : cj_State) (hw : w.device_id = -1)
    (hd : ∀ k, ∃ e, e ∈ s.dist k ∧ e.device_id = -1) :
    ∀ k, ∃ e, e ∈ (cj_Worker_commit E w args s).dist k ∧ e.device_id = -1 := by
  induction args generalizing s with
  | nil => exact hd
  | cons now rest ih =>
    unfold cj_Worker_commit
    apply ih
    intro k
    unfold cj_Worker_commit_arg
    split_ifs with h1 h2
    · by_cases hk : k = cj_tile E now.matrix
      · obtain ⟨e, he, hed⟩ := hd (cj_tile E now.matrix)
        have hfind : ∃ d, (s.dist (cj_tile E now.matrix)).find?
            (fun d => decide (d.device_id = w.device_id)) = some d := by
          cases hf : (s.dist (cj_tile E now.matrix)).find?
              (fun d => decide (d.device_id = w.device_id)) with
          | none =>
            have := List.find?_eq_none.mp hf e he
            simp only [decide_eq_true_eq] at this
            exact absurd (hed.trans hw.symm) this
          | some d => exact ⟨d, rfl⟩
        obtain ⟨d, hf⟩ := hfind
        have hdd : d.device_id = -1 := by
          have := List.find?_some hf
          simp only [decide_eq_true_eq] at this
          rw [this, hw]
        refine ⟨d, ?_, hdd⟩
        rw [hk]
        simp only [Function.update_same, cj_Distribution_duplicate, hf]
        exact List.mem_singleton.mpr rfl
      · simp only [Function.update_noteq hk]
        exact hd k
    · exact hd k
    · exact hd k

/-- Execution by a host worker when every tile has a host location: the staging does nothing
and the execution returns. -/
theorem cj_Worker_execute_host (E : cj_Env) (s : cj_State) (t w : Nat) (h : cj_InvHost s) :
    ∃ s', cj_Worker_execute E s t w = .ok s' ∧ cj_InvHost s' := by
  have hf : cj_Worker_fetch E (s.worker w) (s.task t).arg (cj_Worker_execute_begin s t w) =
      .ok (cj_Worker_execute_begin s t w) :=
    cj_Worker_fetch_host E _ _ _ (h.worker_host w) h.dist_host
  refine ⟨_, by unfold cj_Worker_execute; rw [hf], ?_⟩
  have hc := cj_SameButDist_commit E (s.worker w) (s.task t).arg
    (cj_kernel_call (cj_Worker_execute_begin s t w) t)
  constructor
  · rw [hc.worker]; exact h.worker_host
  · exact cj_Worker_commit_host E _ _ _ (h.worker_host w) h.dist_host
  · rw [hc.vertex, hc.ntask]; exact h.vertex_eq
  · rw [hc.nworker, hc.ready_queue]; exact h.queue_range

theorem cj_InvHost_init (nworker : Nat) : cj_InvHost (cj_Init_state nworker) := by
  constructor
  · intro i; rfl
  · intro k; exact ⟨cj_Distribution_new, List.mem_singleton.mpr rfl, rfl⟩
  · rfl
  · intro _ i _; rfl

theorem cj_InvHost_step (E : cj_Env) (s s' : cj_State) (ev : cj_Event) (h : cj_InvHost s)
    (hstep : cj_step E s ev = .ok s') : cj_InvHost s' := by
  cases ev with
  | submit function args uninit_cost =>
    simp only [cj_step, Except.ok.injEq] at hstep
    subst hstep
    obtain ⟨h1, -, -, -, -, h6, h7, h8, h9, h10, -⟩ :=
      cj_submit_frame E s function args uninit_cost
    constructor
    · rw [h7]; exact h.worker_host
    · rw [h6]; exact h.dist_host
    · rw [h10, h9, h.vertex_eq, List.range_succ]
    · rw [h8, h1]; exact h.queue_range
  | queue_begin =>
    simp only [cj_step, Except.ok.injEq] at hstep
    subst hstep
    exact cj_InvHost_begin_loop E s.vertex _ (cj_InvHost_of_eq s _ h rfl rfl rfl rfl rfl rfl)
  | queue_end =>
    simp only [cj_step, Except.ok.injEq] at hstep
    subst hstep
    exact cj_InvHost_of_eq s _ h rfl rfl rfl rfl rfl rfl
  | worker id =>
    simp only [cj_step] at hstep
    split_ifs at hstep with hid
    unfold cj_Worker_entry_point_iteration at hstep
    split at hstep
    · simp only [Except.ok.injEq] at hstep
      subst hstep; exact h
    · rename_i t rest hqu
      have h0 : cj_InvHost { s with ready_queue := Function.update s.ready_queue id rest } := by
        constructor
        · exact h.worker_host
        · exact h.dist_host
        · exact h.vertex_eq
        · intro hn i hi
          have hne : i ≠ id := fun he => hi (he ▸ hid)
          simp only [Function.update_noteq hne]
          exact h.queue_range hn i hi
      obtain ⟨s1, hs1, hinv1⟩ := cj_Worker_execute_host E _ t id h0
      rw [hs1] at hstep
      simp only at hstep
      unfold cj_Task_dependencies_update at hstep
      split at hstep
      · exact absurd hstep (by simp)
      · rename_i s2 hs2
        simp only [Except.ok.injEq] at hstep
        subst hstep
        exact cj_InvHost_of_eq s2 _ (cj_InvHost_update_loop E _ s1 s2 hinv1 hs2)
          rfl rfl rfl rfl rfl rfl

theorem cj_InvHost_reachable (E : cj_Env) (s : cj_State) (h : cj_Reachable E s) :
    cj_InvHost s := by
  induction h with
  | init nworker s hinit =>
    rw [(cj_Init_ok nworker s hinit).2]
    exact cj_InvHost_init _
  | step s s' ev _ hstep ih => exact cj_InvHost_step E s s' ev ih hstep

theorem cj_Draining_reachable (E : cj_Env) (s : cj_State) (h : cj_Draining E s) :
    cj_Reachable E s := by
  induction h with
  | begin s hs => exact cj_Reachable.step s _ cj_Event.queue_begin hs rfl
  | worker s s' id _ hstep ih => exact cj_Reachable.step s s' _ ih hstep

theorem cj_Queue_begin_loop_flag (E : cj_Env) (l : List Nat) (s : cj_State) :
    (cj_Queue_begin_loop E l s).cj_queue_enable = s.cj_queue_enable := by
  induction l generalizing s with
  | nil => rfl
  | cons now rest ih =>
    unfold cj_Queue_begin_loop
    split_ifs
    · rw [ih]; rfl
    · exact ih s

theorem cj_iteration_flag (E : cj_Env) (s s' : cj_State) (id : Nat)
    (h : cj_Worker_entry_point_iteration E s id = .ok s') :
    s'.cj_queue_enable = s.cj_queue_enable := by
  have h1 := cj_set_enable_iteration E s.cj_queue_enable s id
  rw [cj_set_enable_self, h] at h1
  simp only [Except.map, Except.ok.injEq] at h1
  rw [h1]
  rfl

/-- In a draining phase the flag `cj_queue_enable` is `TRUE`. -/
theorem cj_Draining_flag (E : cj_Env) (s : cj_State) (h : cj_Draining E s) :
    s.cj_queue_enable = true := by
  induction h with
  | begin s hs =>
    unfold cj_Queue_begin
    rw [cj_Queue_begin_loop_flag]
  | worker s s' id _ hstep ih =>
    simp only [cj_step] at hstep
    split_ifs at hstep
    rw [cj_iteration_flag E s s' id hstep]
    exact ih

/-- The completion loop keeps: every allocated task that is `NOTREADY` has a non-zero
counter. -/
theorem cj_update_loop_ready (E : cj_Env) (n : Nat) (l : List Nat) (s s' : cj_State)
    (hl : cj_Task_dependencies_update_loop E l s = .ok s')
    (h : ∀ a, a < n → (s.task a).status = NOTREADY →
      (s.task a).num_dependencies_remaining ≠ 0) :
    ∀ a, a < n → (s'.task a).status = NOTREADY →
      (s'.task a).num_dependencies_remaining ≠ 0 := by
  induction l generalizing s with
  | nil =>
    simp only [cj_Task_dependencies_update_loop, Except.ok.injEq] at hl
    subst hl; exact h
  | cons c rest ih =>
    unfold cj_Task_dependencies_update_loop at hl
    split_ifs at hl with h1 h2
    · refine ih _ hl ?_
      intro a ha hst
      by_cases hac : a = c
      · subst hac
        simp [cj_Task_enqueue] at hst
      · rw [cj_Task_enqueue_task_ne E _ c a hac] at hst ⊢
        simp only [Function.update_noteq hac] at hst ⊢
        exact h a ha hst
    · refine ih _ hl ?_
      intro a ha hst
      by_cases hac : a = c
      · subst hac
        simp only [Function.update_same] at hst ⊢
        exact fun hz => h2 ⟨hz, hst⟩
      · simp only [Function.update_noteq hac] at hst ⊢
        exact h a ha hst

/-- After `cj_Queue_begin` on a graph without repeated vertices no vertex is `NOTREADY` with a
zero counter. -/
theorem cj_Queue_begin_ready (E : cj_Env) (s : cj_State) (hv : s.vertex.Nodup) :
    ∀ a, a ∈ s.vertex → ((cj_Queue_begin E s).task a).status = NOTREADY →
      ((cj_Queue_begin E s).task a).num_dependencies_remaining ≠ 0 := by
  obtain ⟨-, hB, hC, -⟩ :=
    cj_Queue_begin_loop_spec E s.vertex { s with cj_queue_enable := true } hv
  intro a hav hst hz
  have h2 : (cj_Queue_begin E s).task a =
      (cj_Queue_begin_loop E s.vertex { s with cj_queue_enable := true }).task a := rfl
  by_cases ha : a ∈ cj_ready_in { s with cj_queue_enable := true } s.vertex
  · rw [h2, (hB a ha).1] at hst
    exact absurd hst (by decide)
  · rw [h2, hC a ha] at hst hz
    exact ha (List.mem_filter.mpr ⟨hav, by simpa using ⟨hz, hst⟩⟩)

/-- In a draining phase every allocated task that is `NOTREADY` has a non-zero counter. -/
theorem cj_Draining_ready (E : cj_Env) (s : cj_State) (h : cj_Draining E s) :
    ∀ a, a < s.ntask → (s.task a).status = NOTREADY →
      (s.task a).num_dependencies_remaining ≠ 0 := by
  induction h with
  | begin s hs =>
    have hh := cj_InvHost_reachable E s hs
    intro a ha
    rw [(cj_SameGraph_begin E s).ntask] at ha
    apply cj_Queue_begin_ready E s (by rw [hh.vertex_eq]; exact List.nodup_range _)
    rw [hh.vertex_eq]
    exact List.mem_range.mpr ha
  | worker s s' id _ hstep ih =>
    simp only [cj_step] at hstep
    split_ifs at hstep
    have hsame := cj_SameGraph_iteration E s s' id hstep
    unfold cj_Worker_entry_point_iteration at hstep
    split at hstep
    · simp only [Except.ok.injEq] at hstep
      subst hstep; exact ih
    · rename_i t rest hqu
      split at hstep
      · exact absurd hstep (by simp)
      · rename_i s1 hs1
        obtain ⟨f1, -⟩ := cj_Worker_execute_frame E _ s1 t id hs1
        simp only at f1
        unfold cj_Task_dependencies_update at hstep
        split at hstep
        · exact absurd hstep (by simp)
        · rename_i s2 hs2
          simp only [Except.ok.injEq] at hstep
          have h1 : ∀ a, a < s.ntask → (s1.task a).status = NOTREADY →
              (s1.task a).num_dependencies_remaining ≠ 0 := by
            intro a ha hst
            rw [f1] at hst ⊢
            by_cases hat : a = t
            · subst hat
              simp at hst
            · simp only [Function.update_noteq hat] at hst ⊢
              exact ih a ha hst
          have h2 := cj_update_loop_ready E s.ntask _ s1 s2 hs2 h1
          intro a ha hst
          rw [hsame.ntask] at ha
          rw [← hstep] at hst ⊢
          by_cases hat : a = t
          · subst hat
            simp at hst
          · simp only [Function.update_noteq hat] at hst ⊢
            exact h2 a ha hst

theorem cj_Queue_begin_loop_id (E : cj_Env) (l : List Nat) (s : cj_State)
    (h : ∀ a, a ∈ l →
      ¬ ((s.task a).num_dependencies_remaining = 0 ∧ (s.task a).status = NOTREADY)) :
    cj_Queue_begin_loop E l s = s := by
  induction l with
  | nil => rfl
  | cons now rest ih =>
    unfold cj_Queue_begin_loop
    rw [if_neg (h now (List.mem_cons_self _ _))]
    exact ih (fun a ha => h a (List.mem_cons_of_mem _ ha))

/-- Counterexample to C18 as stated: after the submission of T1 = `[W A]` alone, a reachable
state, T1 has a zero counter and status `NOTREADY`. -/
theorem cj_C18_counterexample :
    ∃ s, cj_run cj_Env_example (cj_S1_events.take 1) (cj_Init_state 3) = .ok s ∧
      cj_Reachable cj_Env_example s ∧ 0 < s.ntask ∧
      (s.task 0).num_dependencies_remaining = 0 ∧ (s.task 0).status = NOTREADY :=
  ⟨_, rfl, cj_Reachable_of_run cj_Env_example 3 (by decide) (cj_S1_events.take 1) _ rfl,
    by decide, rfl, rfl⟩

/-- C18 (amended). In a draining phase (after `cj_Queue_begin` and worker steps only, no
submission since) every allocated task with a zero counter has status `QUEUED`, `RUNNING` or
`DONE`; it is not `NOTREADY`. -/
theorem cj_C18_zero_counter (E : cj_Env) (s : cj_State) (a : Nat) (h : cj_Draining E s)
    (ha : a < s.ntask) (hz : (s.task a).num_dependencies_remaining = 0) :
    ((s.task a).status = QUEUED ∨ (s.task a).status = RUNNING ∨ (s.task a).status = DONE) ∧
    (s.task a).status ≠ NOTREADY := by
  have hnr : (s.task a).status ≠ NOTREADY := fun hst => cj_Draining_ready E s h a ha hst hz
  refine ⟨?_, hnr⟩
  rcases (cj_Inv_reachable E s (cj_Draining_reachable E s h)).2.2.status_ok a ha with h1 | h1 | h1
  · exact absurd h1 hnr
  · exact Or.inl h1
  · exact Or.inr (Or.inr h1)

/-- Witness of C18 (amended) on scenario S1: after the three submissions and `cj_Queue_begin`, T1 has a
zero counter and is `QUEUED`. -/
theorem cj_C18_zero_counter_witness :
    ∃ s, cj_run cj_Env_example (cj_S1_events.take 3) (cj_Init_state 3) = .ok s ∧
      0 < (cj_Queue_begin cj_Env_example s).ntask ∧
      ((cj_Queue_begin cj_Env_example s).task 0).num_dependencies_remaining = 0 ∧
      ((cj_Queue_begin cj_Env_example s).task 0).status = QUEUED ∧
      ((((cj_Queue_begin cj_Env_example s).task 0).status = QUEUED ∨
        ((cj_Queue_begin cj_Env_example s).task 0).status = RUNNING ∨
        ((cj_Queue_begin cj_Env_example s).task 0).status = DONE) ∧
       ((cj_Queue_begin cj_Env_example s).task 0).status ≠ NOTREADY) :=
  ⟨_, rfl, by decide, rfl, rfl,
    cj_C18_zero_counter cj_Env_example _ 0
      (cj_Draining.begin _
        (cj_Reachable_of_run cj_Env_example 3 (by decide) (cj_S1_events.take 3) _ rfl))
      (by decide) rfl⟩

/-- C20. In a draining phase (after `cj_Queue_begin` and worker steps only), `cj_Queue_end`
followed by `cj_Queue_begin` gives back the same state: every task descriptor (status and
counter included), every ready queue, every `time_remaining` value and the flag, which is
`TRUE`, are as before the `cj_Queue_end`; no call of `cj_Task_enqueue` is made. -/
theorem cj_C20_end_begin (E : cj_Env) (s : cj_State) (h : cj_Draining E s) :
    cj_Queue_begin E (cj_Queue_end s) = s ∧ s.cj_queue_enable = true := by
  have hflag := cj_Draining_flag E s h
  have hg := (cj_Inv_reachable E s (cj_Draining_reachable E s h)).1
  refine ⟨?_, hflag⟩
  have h0 : ({ cj_Queue_end s with cj_queue_enable := true } : cj_State) = s := by
    cases s
    simp only [cj_Queue_end] at hflag ⊢
    rw [hflag]
  unfold cj_Queue_begin
  rw [h0]
  have hv : (cj_Queue_end s).vertex = s.vertex := rfl
  rw [hv]
  apply cj_Queue_begin_loop_id
  intro a ha hP
  exact cj_Draining_ready E s h a (hg.vertex_lt a ha) hP.2 hP.1

/-- Witness of C20 on scenario S1: after the three submissions, `cj_Queue_begin` and the step of worker 1
that runs T1, closing and reopening the queue changes nothing. -/
theorem cj_C20_end_begin_witness :
    ∃ s0 s, cj_run cj_Env_example (cj_S1_events.take 3) (cj_Init_state 3) = .ok s0 ∧
      cj_step cj_Env_example (cj_Queue_begin cj_Env_example s0) (cj_Event.worker 1) = .ok s ∧
      s.ready_queue 2 = [1] ∧
      (cj_Queue_begin cj_Env_example (cj_Queue_end s) = s ∧ s.cj_queue_enable = true) :=
  ⟨_, _, rfl, rfl, rfl,
    cj_C20_end_begin cj_Env_example _
      (cj_Draining.worker _ _ 1
        (cj_Draining.begin _
          (cj_Reachable_of_run cj_Env_example 3 (by decide) (cj_S1_events.take 3) _ rfl))
        rfl)⟩

/-! ## Termination of the draining phase -/

theorem cj_linked_filter (s : cj_State) (t : Nat) (ps : List Nat) :
    cj_linked s t ps = ps.filter (fun p => decide ((s.task p).id ≠ (s.task t).id)) := rfl

theorem cj_filter_append_self (id : Nat → Int) (t : Nat) (ps : List Nat) :
    (ps ++ [t]).filter (fun p => decide (id p ≠ id t)) =
      ps.filter (fun p => decide (id p ≠ id t)) := by
  rw [List.filter_append]
  simp

theorem cj_link_id (t : Nat) (ps : List Nat) (s : cj_State) (x : Nat) :
    ((cj_Task_dependency_link t ps s).task x).id = (s.task x).id :=
  (cj_Grows_link t ps s).task_id x

theorem cj_link_status (t : Nat) (ps : List Nat) (s : cj_State) (x : Nat) :
    ((cj_Task_dependency_link t ps s).task x).status = (s.task x).status :=
  (cj_Grows_link t ps s).task_status x

/-- Effect of the loop body for one argument on the summary. -/
theorem cj_arg_summary (E : cj_Env) (t : Nat) (now : cj_Object) (s : cj_State) :
    cj_summary (cj_Task_dependency_analysis_arg E t now s) t =
      cj_summary_step E (fun p => (s.task p).id)
        (fun p => decide ((s.task p).status ≠ DONE)) t (cj_summary s t) now := by
  by_cases hm : now.objtype = CJ_MATRIX
  · have hsets := cj_arg_sets E t now s hm
    have hr := congrArg Prod.fst hsets
    have hw := congrArg Prod.snd hsets
    simp only at hr hw
    unfold cj_summary_step
    rw [if_pos hm]
    apply cj_Summary.ext
    · exact hr
    · exact hw
    · simp only [cj_summary, cj_arg_sources, if_pos hm]
      unfold cj_Task_dependency_analysis_arg
      rw [if_pos hm]
      cases hrw : now.rwtype with
      | CJ_R =>
        rw [cj_Task_dependency_analysis_write_skip _ _ _ _ rfl,
          cj_Task_dependency_analysis_read_eq _ _ _ _ (Or.inl rfl),
          (cj_Task_dependency_link_fields _ _ _ t).2, if_pos rfl]
        simp [cj_linked_pending, cj_linked_filter]
      | CJ_W =>
        have h0 : cj_Task_dependency_analysis_read t (cj_tile E now.matrix) CJ_W s = s := by
          simp [cj_Task_dependency_analysis_read]
        rw [h0]
        simp only [cj_Task_dependency_analysis_write, true_or, if_true]
        rw [(cj_Task_dependency_link_fields _ _ _ t).2, if_pos rfl]
        simp [cj_linked_pending, cj_linked_filter]
      | CJ_RW =>
        rw [cj_Task_dependency_analysis_read_eq _ _ _ _ (Or.inr rfl)]
        simp only [cj_Task_dependency_analysis_write, or_true, if_true]
        rw [(cj_Task_dependency_link_fields _ _ _ t).2, if_pos rfl,
          (cj_Task_dependency_link_fields _ _ _ t).2, if_pos rfl,
          (cj_Task_dependency_link_rset _ _ _).1]
        simp only [cj_linked_pending, cj_linked_filter, cj_link_id, cj_link_status,
          Function.update_same, cj_filter_append_self, List.countP_append]
        push_cast
        ring
    · simp only [cj_summary, cj_arg_sources, if_pos hm]
      unfold cj_Task_dependency_analysis_arg
      rw [if_pos hm]
      cases hrw : now.rwtype with
      | CJ_R =>
        rw [cj_Task_dependency_analysis_write_skip _ _ _ _ rfl,
          cj_Task_dependency_analysis_read_eq _ _ _ _ (Or.inl rfl),
          cj_Task_dependency_link_edge]
        simp [cj_linked_filter]
      | CJ_W =>
        have h0 : cj_Task_dependency_analysis_read t (cj_tile E now.matrix) CJ_W s = s := by
          simp [cj_Task_dependency_analysis_read]
        rw [h0]
        simp only [cj_Task_dependency_analysis_write, true_or, if_true]
        rw [cj_Task_dependency_link_edge]
        simp [cj_linked_filter]
      | CJ_RW =>
        rw [cj_Task_dependency_analysis_read_eq _ _ _ _ (Or.inr rfl)]
        simp only [cj_Task_dependency_analysis_write, or_true, if_true]
        rw [cj_Task_dependency_link_edge, cj_Task_dependency_link_edge,
          (cj_Task_dependency_link_rset _ _ _).1]
        simp only [cj_linked_filter, cj_link_id, Function.update_same, cj_filter_append_self]
        simp
  · unfold cj_summary_step cj_Task_dependency_analysis_arg
    rw [if_neg hm, if_neg hm]

theorem cj_args_summary (E : cj_Env) (t : Nat) (args : List cj_Object) (s : cj_State) :
    cj_summary (cj_Task_dependency_analysis_args E t args s) t =
      args.foldl (cj_summary_step E (fun p => (s.task p).id)
        (fun p => decide ((s.task p).status ≠ DONE)) t) (cj_summary s t) := by
  induction args generalizing s with
  | nil => rfl
  | cons now rest ih =>
    unfold cj_Task_dependency_analysis_args
    rw [ih, List.foldl_cons, cj_arg_summary]
    have hgr := cj_Grows_arg E t now s
    have h1 : (fun p => ((cj_Task_dependency_analysis_arg E t now s).task p).id) =
        (fun p => (s.task p).id) := funext hgr.task_id
    have h2 : (fun p => decide (((cj_Task_dependency_analysis_arg E t now s).task p).status
        ≠ DONE)) = (fun p => decide ((s.task p).status ≠ DONE)) := by
      funext p
      rw [hgr.task_status]
    rw [h1, h2]

/-- The bookkeeping for an access leaves the sets of the other tiles as they are. -/
theorem cj_spec_sets_step_other (E : cj_Env)
    (sets : (cj_Tile → List Nat) × (cj_Tile → List Nat)) (x : Nat × cj_Object) (k : cj_Tile)
    (hk : k ≠ cj_tile E x.2.matrix) :
    (cj_spec_sets_step E sets x).1 k = sets.1 k ∧ (cj_spec_sets_step E sets x).2 k = sets.2 k := by
  unfold cj_spec_sets_step
  split_ifs
  · simp only [Function.update_noteq hk, and_self]
  · simp only [Function.update_noteq hk, and_self]

/-- The bookkeeping for two accesses to different tiles does not depend on their order. -/
theorem cj_spec_sets_step_comm (E : cj_Env)
    (sets : (cj_Tile → List Nat) × (cj_Tile → List Nat)) (x y : Nat × cj_Object)
    (h : cj_tile E x.2.matrix ≠ cj_tile E y.2.matrix) :
    cj_spec_sets_step E (cj_spec_sets_step E sets x) y =
      cj_spec_sets_step E (cj_spec_sets_step E sets y) x := by
  unfold cj_spec_sets_step
  by_cases hx : x.2.rwtype = CJ_R <;> by_cases hy : y.2.rwtype = CJ_R
  · simp only [if_pos hx, if_pos hy, Function.update_noteq h, Function.update_noteq h.symm]
    rw [Function.update_comm h]
  · simp only [if_pos hx, if_neg hy, Function.update_noteq h, Function.update_noteq h.symm]
    rw [Function.update_comm h]
  · simp only [if_neg hx, if_pos hy, Function.update_noteq h, Function.update_noteq h.symm]
    rw [Function.update_comm h]
  · simp only [if_neg hx, if_neg hy, Function.update_noteq h, Function.update_noteq h.symm]
    rw [Function.update_comm h, Function.update_comm h]

theorem cj_arg_sources_congr (E : cj_Env) (id : Nat → Int) (t : Nat)
    (rset wset rset1 wset1 : cj_Tile → List Nat) (now : cj_Object)
    (hr : rset1 (cj_tile E now.matrix) = rset (cj_tile E now.matrix))
    (hw : wset1 (cj_tile E now.matrix) = wset (cj_tile E now.matrix)) :
    cj_arg_sources E id t rset1 wset1 now = cj_arg_sources E id t rset wset now := by
  unfold cj_arg_sources
  rw [hr, hw]

/-- The effect on the summary depends on the argument through its tile and its mode only. -/
theorem cj_summary_step_congr (E : cj_Env) (id : Nat → Int) (pend : Nat → Bool) (t : Nat)
    (A : cj_Summary) (x y : cj_Object) (hx : x.objtype = CJ_MATRIX) (hy : y.objtype = CJ_MATRIX)
    (hk : cj_tile E x.matrix = cj_tile E y.matrix) (hrw : x.rwtype = y.rwtype) :
    cj_summary_step E id pend t A x = cj_summary_step E id pend t A y := by
  unfold cj_summary_step cj_arg_sources cj_spec_sets_step
  simp only [hx, hy, hk, hrw]

/-- Two arguments that do not name the same tile with different modes can be processed in
either order. -/
theorem cj_summary_step_comm (E : cj_Env) (id : Nat → Int) (pend : Nat → Bool) (t : Nat)
    (A : cj_Summary) (x y : cj_Object)
    (h : x.objtype = CJ_MATRIX → y.objtype = CJ_MATRIX →
      cj_tile E x.matrix = cj_tile E y.matrix → x.rwtype = y.rwtype) :
    cj_summary_step E id pend t (cj_summary_step E id pend t A x) y =
      cj_summary_step E id pend t (cj_summary_step E id pend t A y) x := by
  by_cases hx : x.objtype = CJ_MATRIX
  · by_cases hy : y.objtype = CJ_MATRIX
    · by_cases hk : cj_tile E x.matrix = cj_tile E y.matrix
      · rw [cj_summary_step_congr E id pend t _ y x hy hx hk.symm (h hx hy hk).symm,
          cj_summary_step_congr E id pend t A y x hy hx hk.symm (h hx hy hk).symm]
      · have hk' : cj_tile E y.matrix ≠ cj_tile E x.matrix := fun e => hk e.symm
        have s1 := cj_spec_sets_step_other E (A.rset, A.wset) (t, x) (cj_tile E y.matrix) hk'
        have s2 := cj_spec_sets_step_other E (A.rset, A.wset) (t, y) (cj_tile E x.matrix) hk
        have c1 := cj_arg_sources_congr E id t A.rset A.wset
          (cj_spec_sets_step E (A.rset, A.wset) (t, x)).1
          (cj_spec_sets_step E (A.rset, A.wset) (t, x)).2 y s1.1 s1.2
        have c2 := cj_arg_sources_congr E id t A.rset A.wset
          (cj_spec_sets_step E (A.rset, A.wset) (t, y)).1
          (cj_spec_sets_step E (A.rset, A.wset) (t, y)).2 x s2.1 s2.2
        have hcomm := cj_spec_sets_step_comm E (A.rset, A.wset) (t, x) (t, y) hk
        unfold cj_summary_step
        simp only [if_pos hx, if_pos hy, c1, c2]
        apply cj_Summary.ext
        · exact congrArg Prod.fst hcomm
        · exact congrArg Prod.snd hcomm
        · simp only
          omega
        · simp only
          rw [add_right_comm]
    · unfold cj_summary_step
      simp only [if_neg hy]
  · unfold cj_summary_step
    simp only [if_neg hx]

/-- The summary after a submission: the fold of the effect of the arguments, from the state
before the submission. -/
theorem cj_submit_summary (E : cj_Env) (s : cj_State) (function : cj_Function)
    (args : List cj_Object) (uninit_cost : Int) :
    cj_summary (cj_submit E s function args uninit_cost) s.ntask =
      args.foldl (cj_summary_step E
          (fun p => if p = s.ntask then s.taskid else (s.task p).id)
          (fun p => decide ((if p = s.ntask then NOTREADY else (s.task p).status) ≠ DONE))
          s.ntask)
        { rset := s.rset, wset := s.wset, counter := 0, edge := Multiset.ofList s.edge } := by
  have h1 : ((cj_prepare s function args uninit_cost).task (cj_Task_new s uninit_cost).2).arg
      = args := by
    rw [cj_prepare_task]
    simp [cj_Task_new]
  have h2 : (cj_Task_new s uninit_cost).2 = s.ntask := rfl
  unfold cj_submit cj_Task_dependency_analysis
  rw [h1, h2, cj_args_summary]
  have e1 : (fun p => ((cj_Graph_vertex_add (cj_prepare s function args uninit_cost)
      s.ntask).task p).id) = (fun p => if p = s.ntask then s.taskid else (s.task p).id) := by
    funext p
    simp only [cj_Graph_vertex_add]
    rw [cj_prepare_task]
    split_ifs <;> rfl
  have e2 : (fun p => decide (((cj_Graph_vertex_add (cj_prepare s function args uninit_cost)
      s.ntask).task p).status ≠ DONE)) =
      (fun p => decide ((if p = s.ntask then NOTREADY else (s.task p).status) ≠ DONE)) := by
    funext p
    simp only [cj_Graph_vertex_add]
    have hst : ((cj_prepare s function args uninit_cost).task p).status =
        (if p = s.ntask then NOTREADY else (s.task p).status) := by
      rw [cj_prepare_task]
      split_ifs <;> rfl
    simp only [hst]
  have e3 : cj_summary (cj_Graph_vertex_add (cj_prepare s function args uninit_cost) s.ntask)
      s.ntask =
      { rset := s.rset, wset := s.wset, counter := 0, edge := Multiset.ofList s.edge } := by
    unfold cj_summary
    simp only [cj_Graph_vertex_add]
    rw [cj_prepare_task, if_pos rfl, cj_prepare_fields]
  rw [e1, e2, e3]

/-- Counterexample to C19 as stated: after T1 = `[W A]`, the submission of T2 with the
arguments `[R A, W A]` adds the edge T1 → T2, gives T2 the counter 1 and leaves the reader set
of A empty; with the permuted arguments `[W A, R A]` it adds no edge, the counter is 0 and the
reader set of A is `[T2]`. -/
theorem cj_C19_counterexample :
    List.Perm [cj_arg CJ_R 0, cj_arg CJ_W 0] [cj_arg CJ_W 0, cj_arg CJ_R 0] ∧
    (cj_submit cj_Env_example cj_S1_one (cj_Function.other 0)
      [cj_arg CJ_R 0, cj_arg CJ_W 0] 0).edge = [(0, 1)] ∧
    (cj_submit cj_Env_example cj_S1_one (cj_Function.other 0)
      [cj_arg CJ_W 0, cj_arg CJ_R 0] 0).edge = [] ∧
    ((cj_submit cj_Env_example cj_S1_one (cj_Function.other 0)
      [cj_arg CJ_R 0, cj_arg CJ_W 0] 0).task 1).num_dependencies_remaining = 1 ∧
    ((cj_submit cj_Env_example cj_S1_one (cj_Function.other 0)
      [cj_arg CJ_W 0, cj_arg CJ_R 0] 0).task 1).num_dependencies_remaining = 0 ∧
    (cj_submit cj_Env_example cj_S1_one (cj_Function.other 0)
      [cj_arg CJ_R 0, cj_arg CJ_W 0] 0).rset (0, 0, 0) = [] ∧
    (cj_submit cj_Env_example cj_S1_one (cj_Function.other 0)
      [cj_arg CJ_W 0, cj_arg CJ_R 0] 0).rset (0, 0, 0) = [1] :=
  ⟨List.Perm.swap _ _ _, rfl, rfl, rfl, rfl, rfl, rfl⟩

/-- C19 (amended). For every state `s` and every permutation `args1` of the argument list `args`
of a new task, if no two matrix arguments name the same tile with different access modes, the
submission with either order adds the same edges (the added edges are a permutation of each
other), gives the new task the same pending counter and leaves the same reader sets and the
same writer sets. -/
theorem cj_C19_order (E : cj_Env) (s : cj_State) (function : cj_Function)
    (args args1 : List cj_Object) (uninit_cost : Int) (hperm : args.Perm args1)
    (hmode : ∀ x, x ∈ args → ∀ y, y ∈ args → x.objtype = CJ_MATRIX → y.objtype = CJ_MATRIX →
      cj_tile E x.matrix = cj_tile E y.matrix → x.rwtype = y.rwtype) :
    (∃ new new1, (cj_submit E s function args uninit_cost).edge = s.edge ++ new ∧
      (cj_submit E s function args1 uninit_cost).edge = s.edge ++ new1 ∧ new.Perm new1) ∧
    ((cj_submit E s function args uninit_cost).task s.ntask).num_dependencies_remaining =
      ((cj_submit E s function args1 uninit_cost).task s.ntask).num_dependencies_remaining ∧
    (cj_submit E s function args uninit_cost).rset =
      (cj_submit E s function args1 uninit_cost).rset ∧
    (cj_submit E s function args uninit_cost).wset =
      (cj_submit E s function args1 uninit_cost).wset := by
  have hsum : cj_summary (cj_submit E s function args uninit_cost) s.ntask =
      cj_summary (cj_submit E s function args1 uninit_cost) s.ntask := by
    rw [cj_submit_summary, cj_submit_summary]
    apply List.Perm.foldl_eq' hperm
    intro x hx y hy z
    exact cj_summary_step_comm E _ _ _ z x y (hmode x hx y hy)
  obtain ⟨new, e1, -⟩ := cj_submit_edges E s function args uninit_cost
  obtain ⟨new1, e2, -⟩ := cj_submit_edges E s function args1 uninit_cost
  refine ⟨⟨new, new1, e1, e2, ?_⟩, congrArg cj_Summary.counter hsum,
    congrArg cj_Summary.rset hsum, congrArg cj_Summary.wset hsum⟩
  have h3 := congrArg cj_Summary.edge hsum
  simp only [cj_summary] at h3
  have h4 : (cj_submit E s function args uninit_cost).edge.Perm
      (cj_submit E s function args1 uninit_cost).edge := Quotient.exact h3
  rw [e1, e2] at h4
  exact (List.perm_append_left_iff _).mp h4

/-- Witness of C19 (amended) on scenario S1: after T1 = `[W A]`, the task T2 with the arguments
`[R A, W B]` or `[W B, R A]` gets the edge T1 → T2 and the counter 1. -/
theorem cj_C19_order_witness :
    List.Perm [cj_arg CJ_R 0, cj_arg CJ_W 1] [cj_arg CJ_W 1, cj_arg CJ_R 0] ∧
    (cj_submit cj_Env_example cj_S1_one (cj_Function.other 0)
      [cj_arg CJ_R 0, cj_arg CJ_W 1] 0).edge = [(0, 1)] ∧
    (cj_submit cj_Env_example cj_S1_one (cj_Function.other 0)
      [cj_arg CJ_W 1, cj_arg CJ_R 0] 0).edge = [(0, 1)] ∧
    ((∃ new new1,
      (cj_submit cj_Env_example cj_S1_one (cj_Function.other 0)
        [cj_arg CJ_R 0, cj_arg CJ_W 1] 0).edge = cj_S1_one.edge ++ new ∧
      (cj_submit cj_Env_example cj_S1_one (cj_Function.other 0)
        [cj_arg CJ_W 1, cj_arg CJ_R 0] 0).edge = cj_S1_one.edge ++ new1 ∧ new.Perm new1) ∧
     ((cj_submit cj_Env_example cj_S1_one (cj_Function.other 0)
        [cj_arg CJ_R 0, cj_arg CJ_W 1] 0).task cj_S1_one.ntask).num_dependencies_remaining =
      ((cj_submit cj_Env_example cj_S1_one (cj_Function.other 0)
        [cj_arg CJ_W 1, cj_arg CJ_R 0] 0).task cj_S1_one.ntask).num_dependencies_remaining ∧
     (cj_submit cj_Env_example cj_S1_one (cj_Function.other 0)
        [cj_arg CJ_R 0, cj_arg CJ_W 1] 0).rset =
      (cj_submit cj_Env_example cj_S1_one (cj_Function.other 0)
        [cj_arg CJ_W 1, cj_arg CJ_R 0] 0).rset ∧
     (cj_submit cj_Env_example cj_S1_one (cj_Function.other 0)
        [cj_arg CJ_R 0, cj_arg CJ_W 1] 0).wset =
      (cj_submit cj_Env_example cj_S1_one (cj_Function.other 0)
        [cj_arg CJ_W 1, cj_arg CJ_R 0] 0).wset) :=
  ⟨List.Perm.swap _ _ _, rfl, rfl,
    cj_C19_order cj_Env_example cj_S1_one (cj_Function.other 0)
      [cj_arg CJ_R 0, cj_arg CJ_W 1] [cj_arg CJ_W 1, cj_arg CJ_R 0] 0
      (List.Perm.swap _ _ _) (by decide)⟩

/-! ## The successor and predecessor lists -/

theorem cj_args_filter (E : cj_Env) (t : Nat) (args : List cj_Object) (s : cj_State) :
    cj_Task_dependency_analysis_args E t args s =
      cj_Task_dependency_analysis_args E t
        (args.filter (fun now => decide (now.objtype = CJ_MATRIX))) s := by
  induction args generalizing s with
  | nil => rfl
  | cons now rest ih =>
    by_cases hm : now.objtype = CJ_MATRIX
    · rw [List.filter_cons_of_pos (by simpa using hm)]
      simp only [cj_Task_dependency_analysis_args]
      exact ih _
    · rw [List.filter_cons_of_neg (by simpa using hm)]
      simp only [cj_Task_dependency_analysis_args, cj_Task_dependency_analysis_arg, if_neg hm]
      exact ih _

theorem cj_summary_filter (E : cj_Env) (id : Nat → Int) (pend : Nat → Bool) (t : Nat)
    (args : List cj_Object) (A : cj_Summary) :
    args.foldl (cj_summary_step E id pend t) A =
      (args.filter (fun now => decide (now.objtype = CJ_MATRIX))).foldl
        (cj_summary_step E id pend t) A := by
  induction args generalizing A with
  | nil => rfl
  | cons now rest ih =>
    by_cases hm : now.objtype = CJ_MATRIX
    · rw [List.filter_cons_of_pos (by simpa using hm)]
      simp only [List.foldl_cons]
      exact ih _
    · rw [List.filter_cons_of_neg (by simpa using hm)]
      simp only [List.foldl_cons, cj_summary_step, if_neg hm]
      exact ih _

/-- Counterexample to C25 as stated: after T1 = `[W A]`, the submission of a task with the
argument list `[x, R A]`, where `x` is not a matrix, returns without error; the vertex of the
task is added, the edge T1 → T2 is added and the reader set of tile A changes. -/
theorem cj_C25_counterexample :
    cj_arg_other.objtype ≠ CJ_MATRIX ∧
    cj_S1_one.vertex = [0] ∧ cj_S1_one.edge = [] ∧ cj_S1_one.rset (0, 0, 0) = [] ∧
    ∃ s, cj_step cj_Env_example cj_S1_one
        (cj_Event.submit (cj_Function.other 0) [cj_arg_other, cj_arg CJ_R 0] 0) = .ok s ∧
      s.vertex = [0, 1] ∧ s.edge = [(0, 1)] ∧ s.rset (0, 0, 0) = [1] :=
  ⟨by decide, rfl, rfl, rfl, _, rfl, rfl, rfl, rfl⟩

/-- C25 (amended). The submission of a task whose argument list contains an argument that
is not a matrix raises no error. `cj_Task_dependency_analysis` adds the vertex of the task
and its loop skips every argument that is not a matrix: the state after the analysis is the
state that the loop reaches over the matrix arguments of the list alone, and the reader sets,
the writer sets, the counter of the task and the edges are those of a submission of the
matrix arguments alone. -/
theorem cj_C25_non_matrix (E : cj_Env) (s : cj_State) (function : cj_Function)
    (args : List cj_Object) (uninit_cost : Int) :
    cj_step E s (cj_Event.submit function args uninit_cost) =
      .ok (cj_submit E s function args uninit_cost) ∧
    (cj_submit E s function args uninit_cost).vertex = s.vertex ++ [s.ntask] ∧
    (∀ (t : Nat) (now : cj_Object) (s0 : cj_State), now.objtype ≠ CJ_MATRIX →
      cj_Task_dependency_analysis_arg E t now s0 = s0) ∧
    cj_submit E s function args uninit_cost =
      cj_Task_dependency_analysis_args E s.ntask
        (args.filter (fun now => decide (now.objtype = CJ_MATRIX)))
        (cj_Graph_vertex_add (cj_prepare s function args uninit_cost) s.ntask) ∧
    cj_summary (cj_submit E s function args uninit_cost) s.ntask =
      cj_summary (cj_submit E s function
        (args.filter (fun now => decide (now.objtype = CJ_MATRIX))) uninit_cost) s.ntask := by
  refine ⟨rfl, ?_, ?_, ?_, ?_⟩
  · obtain ⟨-, -, -, -, -, -, -, -, -, h10, -⟩ := cj_submit_frame E s function args uninit_cost
    exact h10
  · intro t now s0 hm
    simp only [cj_Task_dependency_analysis_arg, if_neg hm]
  · have harg : ((cj_prepare s function args uninit_cost).task s.ntask).arg = args := by
      rw [cj_prepare_task, if_pos rfl]
    have hnew : (cj_Task_new s uninit_cost).2 = s.ntask := rfl
    unfold cj_submit cj_Task_dependency_analysis
    rw [hnew, harg]
    exact cj_args_filter E s.ntask args _
  · rw [cj_submit_summary, cj_submit_summary]
    rw [cj_summary_filter E _ _ s.ntask args]

/-! ## A runtime with one worker -/

theorem cj_single_choice (E : cj_Env) (s : cj_State) (t : Nat) (hn : s.nworker = 1) :
    cj_Task_enqueue_choice E s t = { min_time := -1, cost := (s.task t).cost, dest := 1 } := by
  unfold cj_Task_enqueue_choice
  rw [hn]
  rfl

theorem cj_single_begin_loop (E : cj_Env) (l : List Nat) (s : cj_State) (hn : s.nworker = 1)
    (i : Nat) (hi : i ≠ 1) :
    (cj_Queue_begin_loop E l s).ready_queue i = s.ready_queue i := by
  induction l generalizing s with
  | nil => rfl
  | cons now rest ih =>
    unfold cj_Queue_begin_loop
    split_ifs
    · rw [ih (cj_Task_enqueue E s now) hn, cj_Task_enqueue_queue, cj_single_choice E s now hn,
        if_neg hi]
    · exact ih s hn

theorem cj_single_inv (E : cj_Env) (s : cj_State) (h : cj_Reachable E s) (hn : s.nworker = 1) :
    s.kernel_log = [] ∧
    (∀ a, a < s.ntask → (s.task a).status = NOTREADY ∨ (s.task a).status = QUEUED) ∧
    ∀ i, i ≠ 1 → s.ready_queue i = [] := by
  induction h with
  | init nworker s hinit =>
    rw [(cj_Init_ok nworker s hinit).2]
    exact ⟨rfl, fun a ha => absurd ha (Nat.not_lt_zero a), fun _ _ => rfl⟩
  | step s s' ev hreach hstep ih =>
    cases ev with
    | submit function args uninit_cost =>
      simp only [cj_step, Except.ok.injEq] at hstep
      subst hstep
      obtain ⟨f1, -, -, f4, -, -, -, f8, f9, -, f11⟩ :=
        cj_submit_frame E s function args uninit_cost
      obtain ⟨i1, i2, i3⟩ := ih (f8.symm.trans hn)
      refine ⟨f4.trans i1, ?_, fun i hi => by rw [f1]; exact i3 i hi⟩
      intro a ha
      rw [f11 a]
      split_ifs with hnew
      · exact Or.inl rfl
      · exact i2 a (by omega)
    | queue_begin =>
      simp only [cj_step, Except.ok.injEq] at hstep
      subst hstep
      have hs := cj_SameGraph_begin E s
      obtain ⟨i1, i2, i3⟩ := ih (hs.nworker.symm.trans hn)
      have hnw : s.nworker = 1 := hs.nworker.symm.trans hn
      refine ⟨?_, ?_, ?_⟩
      · unfold cj_Queue_begin
        rw [(cj_logs_begin_loop E s.vertex _).1]
        exact i1
      · intro a ha
        rw [hs.ntask] at ha
        unfold cj_Queue_begin
        rcases (cj_begin_loop_log E s.vertex { s with cj_queue_enable := true }).2.1 a with e | e
        · rw [e]
          exact i2 a ha
        · exact Or.inr e.2
      · intro i hi
        unfold cj_Queue_begin
        exact (cj_single_begin_loop E s.vertex { s with cj_queue_enable := true } hnw i hi).trans
          (i3 i hi)
    | queue_end =>
      simp only [cj_step, Except.ok.injEq] at hstep
      subst hstep
      exact ih hn
    | worker id =>
      simp only [cj_step] at hstep
      split_ifs at hstep with hid
      have hs := cj_SameGraph_iteration E s s' id hstep
      rw [hs.nworker] at hn
      omega

/-- Counterexample to C23 as stated: after `cj_Init(1)`, the submission of one GEMM task whose
cost field holds 7 and `cj_Queue_begin`, the task is in the ready queue of worker 1, an index
that is not below `nworker = 1`; its cost field still holds 7, not the estimate 2; no kernel has
run, the task is `QUEUED`, and no worker step exists, for worker 0 in particular. -/
theorem cj_C23_counterexample :
    ∃ s0 s, cj_Init 1 = .ok s0 ∧ cj_run cj_Env_example cj_single_events s0 = .ok s ∧
      s.nworker = 1 ∧ s.ready_queue 1 = [0] ∧ s.ready_queue 0 = [] ∧
      (s.task 0).status = QUEUED ∧ (s.task 0).cost = 7 ∧
      cj_Worker_estimate_cost cj_Env_example s (s.task 0) (s.worker 0) = 2 ∧
      cj_Worker_estimate_cost cj_Env_example s (s.task 0) (s.worker 1) = 2 ∧
      s.kernel_log = [] ∧
      cj_step cj_Env_example s (cj_Event.worker 0) = .error cj_Error.no_thread ∧
      cj_step cj_Env_example s (cj_Event.worker 1) = .error cj_Error.no_thread :=
  ⟨_, _, rfl, rfl, rfl, rfl, rfl, rfl, rfl, by decide, by decide, rfl, rfl, rfl⟩

/-- C23 (amended). When the runtime was initialised with one worker (`cj_Init(1)`, only
worker 0 exists), no worker thread exists and worker 0 runs no task: in every reachable state
no worker step is possible, no kernel has been called, every submitted task is `NOTREADY` or
`QUEUED`, and the ready queue of worker 0 is empty. -/
theorem cj_C23_single_worker (E : cj_Env) (s : cj_State) (h : cj_Reachable E s)
    (hn : s.nworker = 1) :
    (∀ id, cj_step E s (cj_Event.worker id) = .error cj_Error.no_thread) ∧
    s.kernel_log = [] ∧
    (∀ a, a < s.ntask → (s.task a).status = NOTREADY ∨ (s.task a).status = QUEUED) ∧
    s.ready_queue 0 = [] := by
  obtain ⟨i1, i2, i3⟩ := cj_single_inv E s h hn
  refine ⟨?_, i1, i2, i3 0 (by decide)⟩
  intro id
  simp only [cj_step]
  rw [if_neg (by omega)]

/-- Witness of C23 (amended) on the session `cj_single_events` after `cj_Init(1)`. -/
theorem cj_C23_single_worker_witness :
    ∃ s, cj_run cj_Env_example cj_single_events (cj_Init_state 1) = .ok s ∧
      s.nworker = 1 ∧ s.ntask = 1 ∧ (s.task 0).status = QUEUED ∧
      (∀ id, cj_step cj_Env_example s (cj_Event.worker id) = .error cj_Error.no_thread) ∧
      s.kernel_log = [] ∧
      (∀ a, a < s.ntask → (s.task a).status = NOTREADY ∨ (s.task a).status = QUEUED) ∧
      s.ready_queue 0 = [] :=
  ⟨_, rfl, rfl, rfl, rfl,
    cj_C23_single_worker cj_Env_example _
      (cj_Reachable_of_run cj_Env_example 1 (by decide) cj_single_events _ rfl) rfl⟩

/-! ## The checks of `cj_Chol_l` -/

theorem cj_Chol_l_blk_var3_loop_ok (E : cj_Env) (B : cj_Blas) (uninit_cost : Nat → Int)
    (A : cj_Matrix) (hbs : 1 ≤ E.BLOCK_SIZE)
    (h1 : ∀ x y s, ∃ s', B.cj_Trsm_rlt x y s = .ok s')
    (h2 : ∀ x y s, ∃ s', B.cj_Syrk_ln x y s = .ok s') (fuel k : Nat) (s : cj_State)
    (hf : A.m ≤ k + fuel) :
    ∃ s', cj_Chol_l_blk_var3_loop E B uninit_cost A fuel k s = .ok s' := by
  induction fuel generalizing k s with
  | zero =>
    unfold cj_Chol_l_blk_var3_loop
    rw [if_neg (by omega)]
    exact ⟨s, rfl⟩
  | succ fuel ih =>
    unfold cj_Chol_l_blk_var3_loop
    split_ifs with hk
    · obtain ⟨s1, e1⟩ := h1 (cj_Matrix_repart A k (min (A.m - k) E.BLOCK_SIZE)).1
        (cj_Matrix_repart A k (min (A.m - k) E.BLOCK_SIZE)).2.1
        (cj_Chol_l_task E uninit_cost (cj_Matrix_repart A k (min (A.m - k) E.BLOCK_SIZE)).1 s)
      obtain ⟨s2, e2⟩ := h2 (cj_Matrix_repart A k (min (A.m - k) E.BLOCK_SIZE)).2.1
        (cj_Matrix_repart A k (min (A.m - k) E.BLOCK_SIZE)).2.2 s1
      simp only [e1, e2]
      apply ih
      have : 1 ≤ min (A.m - k) E.BLOCK_SIZE := by
        rw [Nat.le_min]
        exact ⟨by omega, hbs⟩
      omega
    · exact ⟨s, rfl⟩

/-- C24. `cj_Chol_l` called with a null reference, with an object that holds no matrix, or
with a matrix that is not square stops in `cj_Lapack_error`, and the state of the runtime at
the stop is the state at the call: the task id counter, the vertices, the edges, the reader
and writer sets and the flag `cj_queue_enable` are untouched. For a square matrix the checks
raise nothing: the call is `cj_Queue_end`, `cj_Chol_l_blk_var3`, `cj_Queue_begin`, and it
returns, with the flag set, when the block size is positive, the routines of cj_Blas.c return
and the loop is followed for at least `m` iterations. -/
theorem cj_C24_checks (E : cj_Env) (B : cj_Blas) (uninit_cost : Nat → Int) (fuel : Nat)
    (s : cj_State) :
    cj_Chol_l E B uninit_cost fuel none s =
      .error { message := cj_Message.chol_not_initialized, state := s } ∧
    cj_Chol_l E B uninit_cost fuel (some none) s =
      .error { message := cj_Message.chol_not_matrix, state := s } ∧
    (∀ a : cj_Matrix, a.m ≠ a.n →
      cj_Chol_l E B uninit_cost fuel (some (some a)) s =
        .error { message := cj_Message.chol_not_square, state := s }) ∧
    (∀ A, (∀ a : cj_Matrix, A = some (some a) → a.m ≠ a.n) →
      ∃ e, cj_Chol_l E B uninit_cost fuel A s = .error e ∧
        e.state.taskid = s.taskid ∧ e.state.ntask = s.ntask ∧ e.state.vertex = s.vertex ∧
        e.state.edge = s.edge ∧ e.state.rset = s.rset ∧ e.state.wset = s.wset ∧
        e.state.cj_queue_enable = s.cj_queue_enable) ∧
    (∀ a : cj_Matrix, a.m = a.n →
      cj_Chol_l E B uninit_cost fuel (some (some a)) s =
        (match cj_Chol_l_blk_var3 E B uninit_cost fuel a (cj_Queue_end s) with
          | .error e => .error e
          | .ok s1 => .ok (cj_Queue_begin E s1)) ∧
      (1 ≤ E.BLOCK_SIZE → (∀ x y s0, ∃ s', B.cj_Trsm_rlt x y s0 = .ok s') →
        (∀ x y s0, ∃ s', B.cj_Syrk_ln x y s0 = .ok s') → a.m ≤ fuel →
        ∃ s', cj_Chol_l E B uninit_cost fuel (some (some a)) s = .ok s' ∧
          s'.cj_queue_enable = true)) := by
  have hsq : ∀ a : cj_Matrix, a.m ≠ a.n →
      cj_Chol_l E B uninit_cost fuel (some (some a)) s =
        .error { message := cj_Message.chol_not_square, state := s } := by
    intro a ha
    simp only [cj_Chol_l, cj_Lapack_error, if_pos ha]
  refine ⟨rfl, rfl, hsq, ?_, ?_⟩
  · intro A hA
    match A, hA with
    | none, _ => exact ⟨_, rfl, rfl, rfl, rfl, rfl, rfl, rfl, rfl⟩
    | some none, _ => exact ⟨_, rfl, rfl, rfl, rfl, rfl, rfl, rfl, rfl⟩
    | some (some a), hA => exact ⟨_, hsq a (hA a rfl), rfl, rfl, rfl, rfl, rfl, rfl, rfl⟩
  · intro a ha
    have heq : cj_Chol_l E B uninit_cost fuel (some (some a)) s =
        (match cj_Chol_l_blk_var3 E B uninit_cost fuel a (cj_Queue_end s) with
          | .error e => .error e
          | .ok s1 => .ok (cj_Queue_begin E s1)) := by
      simp only [cj_Chol_l, ne_eq, ha, not_true_eq_false, if_false]
    refine ⟨heq, ?_⟩
    intro hbs h1 h2 hf
    obtain ⟨s1, e1⟩ := cj_Chol_l_blk_var3_loop_ok E B uninit_cost a hbs h1 h2 fuel 0
      (cj_Queue_end s) (by omega)
    rw [heq]
    unfold cj_Chol_l_blk_var3
    rw [e1]
    refine ⟨_, rfl, ?_⟩
    unfold cj_Queue_begin
    rw [cj_Queue_begin_loop_flag]

/-- Witness of C24: in the state after T1 of scenario S1, a `2 × 3` matrix is rejected with the
state untouched, and the `2 × 2` matrix is accepted: with block size 1 the call returns after
two iterations with six new tasks and the flag set. -/
theorem cj_C24_checks_witness :
    (cj_Matrix_example 2 3).m ≠ (cj_Matrix_example 2 3).n ∧
    cj_Chol_l cj_Env_example cj_Blas_example (fun _ => 0) 2
        (some (some (cj_Matrix_example 2 3))) cj_S1_one =
      .error { message := cj_Message.chol_not_square, state := cj_S1_one } ∧
    (∃ s', cj_Chol_l cj_Env_example cj_Blas_example (fun _ => 0) 2
        (some (some (cj_Matrix_example 2 2))) cj_S1_one = .ok s' ∧
      s'.cj_queue_enable = true) ∧
    (match cj_Chol_l cj_Env_example cj_Blas_example (fun _ => 0) 2
        (some (some (cj_Matrix_example 2 2))) cj_S1_one with
      | .ok s' => s'.ntask
      | .error _ => 0) = 7 :=
  ⟨by decide,
    (cj_C24_checks cj_Env_example cj_Blas_example (fun _ => 0) 2 cj_S1_one).2.2.1
      (cj_Matrix_example 2 3) (by decide),
    ((cj_C24_checks cj_Env_example cj_Blas_example (fun _ => 0) 2 cj_S1_one).2.2.2.2
      (cj_Matrix_example 2 2) rfl).2 (by decide) (fun _ _ _ => ⟨_, rfl⟩) (fun _ _ _ => ⟨_, rfl⟩)
      (by decide),
    by decide⟩

/-! ## The loop of the workers and `cj_Term` -/

theorem cj_Worker_entry_point_idle (E : cj_Env) (id : Nat) (s : cj_State)
    (h : s.ready_queue id = []) (fuel : Nat) :
    cj_Worker_entry_point E id fuel s = .ok none := by
  unfold cj_Worker_entry_point
  induction fuel with
  | zero => rfl
  | succ fuel ih =>
    unfold cj_Worker_entry_point_loop
    rw [if_pos (by decide)]
    simp only [cj_Worker_entry_point_iteration, h]
    exact ih

theorem cj_Worker_entry_point_loop_running (E : cj_Env) (id fuel : Nat) (s s' : cj_State) :
    cj_Worker_entry_point_loop E id fuel 1 s ≠ .ok (some s') := by
  induction fuel generalizing s with
  | zero => simp [cj_Worker_entry_point_loop]
  | succ fuel ih =>
    unfold cj_Worker_entry_point_loop
    rw [if_pos (by decide)]
    cases hit : cj_Worker_entry_point_iteration E s id with
    | error e => simp
    | ok s1 => exact ih s1

/-- C27, the code at the failing input: `cj_Init(3)`, scenario S1 run to the end (the three
tasks are `DONE`, every ready queue is empty), then `cj_Term`. However many iterations are
followed, the loop of each worker is still running, no join of `cj_Term` completes and
`cj_Term` has not returned; the graph has been written before the joins. In no state does the
loop of a worker end. -/
theorem cj_C27_worker_loop :
    ∃ s, cj_run cj_Env_example cj_S1_events (cj_Init_state 3) = .ok s ∧
      s.nworker = 3 ∧ s.ntask = 3 ∧
      (s.task 0).status = DONE ∧ (s.task 1).status = DONE ∧ (s.task 2).status = DONE ∧
      (∀ i, s.ready_queue i = []) ∧
      (∀ id fuel, cj_Worker_entry_point cj_Env_example id fuel s = .ok none) ∧
      (∀ fuel, cj_Term cj_Env_example fuel s =
        .ok { graph := ([0, 1, 2], [(0, 1), (1, 2)]), returned := false }) ∧
      ∀ (E : cj_Env) (id fuel : Nat) (s0 s' : cj_State),
        cj_Worker_entry_point E id fuel s0 ≠ .ok (some s') := by
  have hrun : ∃ s, cj_run cj_Env_example cj_S1_events (cj_Init_state 3) = .ok s := ⟨_, rfl⟩
  obtain ⟨s, hs⟩ := hrun
  have hobs : (match cj_run cj_Env_example cj_S1_events (cj_Init_state 3) with
      | .ok s => (s.nworker, s.ntask, (s.task 0).status, (s.task 1).status, (s.task 2).status,
          s.ready_queue 1, s.ready_queue 2, s.vertex, s.edge)
      | .error _ => (0, 0, NOTREADY, NOTREADY, NOTREADY, [], [], [], [])) =
      (3, 3, DONE, DONE, DONE, [], [], [0, 1, 2], [(0, 1), (1, 2)]) := rfl
  rw [hs] at hobs
  simp only [Prod.mk.injEq] at hobs
  obtain ⟨o1, o2, o3, o4, o5, o6, o7, o8, o9⟩ := hobs
  have hr := cj_Reachable_of_run cj_Env_example 3 (by decide) cj_S1_events s hs
  have hq : ∀ i, s.ready_queue i = [] := by
    intro i
    by_cases h1 : i = 1
    · rw [h1]; exact o6
    · by_cases h2 : i = 2
      · rw [h2]; exact o7
      · exact (cj_InvHost_reachable cj_Env_example s hr).queue_range (by omega) i (by omega)
  refine ⟨s, hs, o1, o2, o3, o4, o5, hq, ?_, ?_, ?_⟩
  · intro id fuel
    exact cj_Worker_entry_point_idle cj_Env_example id s (hq id) fuel
  · intro fuel
    have h1 := cj_Worker_entry_point_idle cj_Env_example 1 s (hq 1) fuel
    have hl : List.range' 1 (s.nworker - 1) = [1, 2] := by rw [o1]; rfl
    simp only [cj_Term, hl, cj_Term_join, h1, o8, o9]
  · intro E id fuel s0 s'
    exact cj_Worker_entry_point_loop_running E id fuel s0 s'

/-! ## The linear chain on two executors -/

theorem cj_zero_scan (E : cj_Env)
    (hz : E.fadd 0 0 = 0)
    (hE : ∀ s task worker, cj_Worker_estimate_cost E s task worker = 0) (s : cj_State) (t : Nat)
    (htr : ∀ i, s.time_remaining i = 0) (l : List Nat) (acc : cj_EnqueueScan)
    (hm : acc.min_time = 0) : cj_Task_enqueue_scan E s t l acc = acc := by
  induction l with
  | nil => rfl
  | cons i rest ih =>
    unfold cj_Task_enqueue_scan
    rw [if_neg, ih]
    rw [hm, htr i, hE, hz]
    omega

theorem cj_zero_choice (E : cj_Env)
    (hz : E.fadd 0 0 = 0)
    (hE : ∀ s task worker, cj_Worker_estimate_cost E s task worker = 0) (s : cj_State) (t : Nat)
    (h : cj_InvZero s) :
    cj_Task_enqueue_choice E s t = { min_time := 0, cost := 0, dest := 1 } := by
  obtain ⟨hn, htr, -⟩ := h
  unfold cj_Task_enqueue_choice
  have hrange : List.range' 1 (s.nworker - 1) = 1 :: List.range' 2 (s.nworker - 2) := by
    have : s.nworker - 1 = (s.nworker - 2) + 1 := by omega
    rw [this]
    rfl
  rw [hrange]
  unfold cj_Task_enqueue_scan
  rw [if_pos (Or.inl rfl), htr 1, hE, hz]
  exact cj_zero_scan E hz hE s t htr _ _ rfl

theorem cj_InvZero_enqueue (E : cj_Env)
    (hz : E.fadd 0 0 = 0)
    (hE : ∀ s task worker, cj_Worker_estimate_cost E s task worker = 0) (s : cj_State) (t : Nat)
    (h : cj_InvZero s) : cj_InvZero (cj_Task_enqueue E s t) := by
  have hc := cj_zero_choice E hz hE s t h
  obtain ⟨hn, htr, hq⟩ := h
  refine ⟨hn, ?_, ?_⟩
  · intro i
    simp only [cj_Task_enqueue, hc, Function.update_apply, htr, hz]
    split_ifs <;> rfl
  · intro i hi
    rw [cj_Task_enqueue_queue, hc, if_neg hi]
    exact hq i hi

theorem cj_InvZero_of_eq (s s' : cj_State) (h : cj_InvZero s) (e1 : s'.nworker = s.nworker)
    (e2 : s'.time_remaining = s.time_remaining) (e3 : s'.ready_queue = s.ready_queue) :
    cj_InvZero s' := by
  unfold cj_InvZero
  rw [e1, e2, e3]
  exact h

theorem cj_InvZero_begin_loop (E : cj_Env)
    (hz : E.fadd 0 0 = 0)
    (hE : ∀ s task worker, cj_Worker_estimate_cost E s task worker = 0) (l : List Nat)
    (s : cj_State) (h : cj_InvZero s) : cj_InvZero (cj_Queue_begin_loop E l s) := by
  induction l generalizing s with
  | nil => exact h
  | cons now rest ih =>
    unfold cj_Queue_begin_loop
    split_ifs
    · exact ih _ (cj_InvZero_enqueue E hz hE s now h)
    · exact ih s h

theorem cj_InvZero_update_loop (E : cj_Env)
    (hz : E.fadd 0 0 = 0)
    (hE : ∀ s task worker, cj_Worker_estimate_cost E s task worker = 0) (l : List Nat)
    (s s' : cj_State) (h : cj_InvZero s)
    (hl : cj_Task_dependencies_update_loop E l s = .ok s') : cj_InvZero s' := by
  induction l generalizing s with
  | nil =>
    simp only [cj_Task_dependencies_update_loop, Except.ok.injEq] at hl
    subst hl
    exact h
  | cons c rest ih =>
    unfold cj_Task_dependencies_update_loop at hl
    split_ifs at hl
    · refine ih _ ?_ hl
      exact cj_InvZero_enqueue E hz hE _ c (cj_InvZero_of_eq s _ h rfl rfl rfl)
    · refine ih _ ?_ hl
      exact cj_InvZero_of_eq s _ h rfl rfl rfl

theorem cj_InvZero_reachable (E : cj_Env)
    (hz : E.fadd 0 0 = 0)
    (hE : ∀ s task worker, cj_Worker_estimate_cost E s task worker = 0) (s : cj_State)
    (h : cj_Reachable E s) (hn : 2 ≤ s.nworker) : cj_InvZero s := by
  induction h with
  | init nworker s hinit =>
    rw [(cj_Init_ok nworker s hinit).2] at hn ⊢
    exact ⟨hn, fun _ => rfl, fun _ _ => rfl⟩
  | step s s' ev hreach hstep ih =>
    cases ev with
    | submit function args uninit_cost =>
      simp only [cj_step, Except.ok.injEq] at hstep
      subst hstep
      obtain ⟨f1, f2, -, -, -, -, -, f8, -⟩ := cj_submit_frame E s function args uninit_cost
      exact cj_InvZero_of_eq s _ (ih (by rw [← f8]; exact hn)) f8 f2 f1
    | queue_begin =>
      simp only [cj_step, Except.ok.injEq] at hstep
      subst hstep
      have hs := cj_SameGraph_begin E s
      have h0 := ih (by rw [← hs.nworker]; exact hn)
      exact cj_InvZero_begin_loop E hz hE s.vertex _
        (cj_InvZero_of_eq s { s with cj_queue_enable := true } h0 rfl rfl rfl)
    | queue_end =>
      simp only [cj_step, Except.ok.injEq] at hstep
      subst hstep
      exact ih hn
    | worker id =>
      simp only [cj_step] at hstep
      split_ifs at hstep with hid
      have hs := cj_SameGraph_iteration E s s' id hstep
      have h0 := ih (by rw [← hs.nworker]; exact hn)
      unfold cj_Worker_entry_point_iteration at hstep
      split at hstep
      · simp only [Except.ok.injEq] at hstep
        subst hstep
        exact h0
      · rename_i t rest hq
        split at hstep
        · exact absurd hstep (by simp)
        · rename_i s1 hex
          obtain ⟨-, -, -, -, e5, -, e7, e8, -⟩ := cj_Worker_execute_frame E _ s1 t id hex
          have hid1 : id = 1 := by
            by_contra hne
            rw [h0.2.2 id hne] at hq
            exact absurd hq (by simp)
          have h1 : cj_InvZero s1 := by
            refine ⟨by rw [e5]; exact h0.1, fun i => by rw [e8]; exact h0.2.1 i, ?_⟩
            intro i hi
            rw [e7]
            simp only [Function.update_apply]
            rw [if_neg (by rw [hid1]; exact hi)]
            exact h0.2.2 i hi
          unfold cj_Task_dependencies_update at hstep
          split at hstep
          · exact absurd hstep (by simp)
          · rename_i s2 hup
            simp only [Except.ok.injEq] at hstep
            subst hstep
            exact cj_InvZero_of_eq s2 _ (cj_InvZero_update_loop E hz hE _ s1 s2 h1 hup) rfl rfl rfl

theorem cj_Env_cost_comm (s : cj_State) (device_id : Int) (args : List cj_Object) :
    cj_Worker_estimate_comm (cj_Env_cost 0) s device_id args 0 = 0 := by
  induction args with
  | nil => rfl
  | cons now rest ih =>
    unfold cj_Worker_estimate_comm
    have h0 : (if now.objtype = CJ_MATRIX then
        (cj_Env_cost 0).fadd 0
          (if (s.dist (cj_tile (cj_Env_cost 0) now.matrix)).any
              (fun d => decide (d.device_id = device_id))
            then 0 else (cj_Env_cost 0).model.pci_bandwidth)
       else 0) = 0 := by
      split_ifs <;> rfl
    rw [h0]
    exact ih

theorem cj_Env_cost_zero (s : cj_State) (task : cj_Task) (worker : cj_Worker) :
    cj_Worker_estimate_cost (cj_Env_cost 0) s task worker = 0 := by
  unfold cj_Worker_estimate_cost
  rw [cj_Env_cost_comm]
  split_ifs <;> rfl

/-- Counterexample to C26 as stated: scenario S1 with three workers (executors 1 and 2), the
estimate of every task being 2 on both executors and both expected finish times 0 at the
start. T1 is enqueued to worker 1; when T1 completes, T2 is enqueued to worker 2, whose ready
queue is then not empty. -/
theorem cj_C26_counterexample :
    ∃ s3 s4 s5, cj_run cj_Env_example (cj_S1_events.take 3) (cj_Init_state 3) = .ok s3 ∧
      cj_run cj_Env_example (cj_S1_events.take 4) (cj_Init_state 3) = .ok s4 ∧
      cj_run cj_Env_example (cj_S1_events.take 5) (cj_Init_state 3) = .ok s5 ∧
      s3.edge = [(0, 1), (1, 2)] ∧
      s3.time_remaining 1 = 0 ∧ s3.time_remaining 2 = 0 ∧
      (∀ a, a < 3 → cj_Worker_estimate_cost cj_Env_example s3 (s3.task a) (s3.worker 1) = 2 ∧
        cj_Worker_estimate_cost cj_Env_example s3 (s3.task a) (s3.worker 2) = 2) ∧
      s4.ready_queue 1 = [0] ∧ s4.ready_queue 2 = [] ∧
      s5.time_remaining 1 = 2 ∧ s5.time_remaining 2 = 2 ∧
      s5.ready_queue 1 = [] ∧ s5.ready_queue 2 = [1] :=
  ⟨_, _, _, rfl, rfl, rfl, rfl, rfl, rfl, by decide, rfl, rfl, by decide, by decide, rfl, rfl⟩

/-- C26 (amended). Scenario S1 (linear chain T1 → T2 → T3 of GEMM tasks) with two executors,
workers 1 and 2, the same estimate `c ≥ 0` on both and both expected finish times 0 at the
start. `cj_Queue_begin` enqueues T1 to worker 1. With `c = 0`, T2 and T3 are enqueued to
worker 1 as well, in that order, and the ready queue of every worker other than worker 1 is empty
in every reachable state. With `c > 0`, the completion of T1 enqueues T2 to worker 2 (the
expected finish time of worker 1 still holds `c`), and the completion of T2 enqueues T3 to
worker 1. -/
theorem cj_C26_chain (c : Int) (hc : 0 ≤ c) :
    cj_queues (cj_run (cj_Env_cost c) (cj_S1_events.take 4) (cj_Init_state 3)) =
      some ([0], []) ∧
    (c = 0 →
      cj_queues (cj_run (cj_Env_cost c) (cj_chain_events.take 5) (cj_Init_state 3)) =
        some ([1], []) ∧
      cj_queues (cj_run (cj_Env_cost c) (cj_chain_events.take 6) (cj_Init_state 3)) =
        some ([2], []) ∧
      cj_queues (cj_run (cj_Env_cost c) cj_chain_events (cj_Init_state 3)) =
        some ([], []) ∧
      ∀ s, cj_Reachable (cj_Env_cost c) s → 2 ≤ s.nworker →
        ∀ i, i ≠ 1 → s.ready_queue i = []) ∧
    (0 < c →
      cj_queues (cj_run (cj_Env_cost c) (cj_S1_events.take 5) (cj_Init_state 3)) =
        some ([], [1]) ∧
      cj_queues (cj_run (cj_Env_cost c) (cj_S1_events.take 6) (cj_Init_state 3)) =
        some ([2], []) ∧
      cj_queues (cj_run (cj_Env_cost c) cj_S1_events (cj_Init_state 3)) =
        some ([], [])) := by
  have h1 : c ≠ -1 := by omega
  refine ⟨?_, ?_, ?_⟩
  · simp [cj_queues, cj_S1_events, cj_run, cj_step, cj_Queue_begin, cj_submit,
      cj_Task_dependency_analysis, cj_prepare, cj_Task_new, cj_Task_set, cj_Task_push_args,
      cj_Graph_vertex_add, cj_Init_state, cj_Queue_begin_loop, cj_Task_dependency_analysis_args,
      cj_Task_dependency_analysis_arg, cj_arg, cj_Task_dependency_analysis_read,
      cj_Task_dependency_analysis_write, cj_Task_dependency_link, cj_tile, cj_Env_cost,
      cj_Task_enqueue, cj_Task_enqueue_choice, cj_Task_enqueue_scan, cj_Worker_estimate_cost,
      cj_Worker_estimate_comm, Function.update_apply, cj_Task_dependency_add,
      cj_Graph_edge_add, cj_Matrix_dist_init, cj_Distribution_new, List.range', cj_int, h1]
  · intro h0
    subst h0
    refine ⟨by decide, by decide, by decide, ?_⟩
    intro s hs hn
    exact (cj_InvZero_reachable (cj_Env_cost 0) rfl cj_Env_cost_zero s hs hn).2.2
  · intro hpos
    have h2 : c + c ≠ -1 := by omega
    have h3 : ¬ (c + c < c) := by omega
    refine ⟨?_, ?_, ?_⟩ <;>
    simp [cj_queues, cj_S1_events, cj_run, cj_step, cj_Queue_begin, cj_submit,
      cj_Task_dependency_analysis, cj_prepare, cj_Task_new, cj_Task_set, cj_Task_push_args,
      cj_Graph_vertex_add, cj_Init_state, cj_Queue_begin_loop, cj_Task_dependency_analysis_args,
      cj_Task_dependency_analysis_arg, cj_arg, cj_Task_dependency_analysis_read,
      cj_Task_dependency_analysis_write, cj_Task_dependency_link, cj_tile, cj_Env_cost,
      cj_Task_enqueue, cj_Task_enqueue_choice, cj_Task_enqueue_scan, cj_Worker_estimate_cost,
      cj_Worker_estimate_comm, Function.update_apply, cj_Task_dependency_add,
      cj_Graph_edge_add, cj_Matrix_dist_init, cj_Distribution_new, List.range', cj_int,
      cj_Worker_entry_point_iteration, cj_Worker_execute, cj_Worker_execute_begin,
      cj_Worker_fetch, cj_Worker_stage_arg, cj_dist_scan, cj_Worker_stage_host,
      cj_Worker_stage_device, cj_kernel_call, cj_Worker_commit, cj_Worker_commit_arg,
      cj_Distribution_duplicate, cj_Task_dependencies_update, cj_Task_dependencies_update_loop,
      h1, h2, h3, hpos]

/-- Witness of C26 (amended) at the estimates 0 and 2. -/
theorem cj_C26_chain_witness :
    cj_queues (cj_run (cj_Env_cost 0) (cj_chain_events.take 6) (cj_Init_state 3)) =
      some ([2], []) ∧
    cj_queues (cj_run (cj_Env_cost 2) (cj_S1_events.take 5) (cj_Init_state 3)) =
      some ([], [1]) :=
  ⟨((cj_C26_chain 0 (by decide)).2.1 rfl).2.1, ((cj_C26_chain 2 (by decide)).2.2 (by decide)).1⟩

/-- Witness of C25 (amended): in the state after T1 of scenario S1 the loop body leaves the
state as it is for the argument `cj_arg_other`, and the submission of `[x, R A]` has the
vertices of a submission of `[R A]`. -/
theorem cj_C25_non_matrix_witness :
    cj_arg_other.objtype ≠ CJ_MATRIX ∧
    cj_Task_dependency_analysis_arg cj_Env_example 1 cj_arg_other cj_S1_one = cj_S1_one ∧
    (cj_submit cj_Env_example cj_S1_one (cj_Function.other 0) [cj_arg_other, cj_arg CJ_R 0]
      0).vertex = [0, 1] :=
  ⟨by decide,
    (cj_C25_non_matrix cj_Env_example cj_S1_one (cj_Function.other 0)
      [cj_arg_other, cj_arg CJ_R 0] 0).2.2.1 1 cj_arg_other cj_S1_one (by decide),
    rfl⟩

/-! ## The `int` counter of the task ids -/

theorem cj_run_append (E : cj_Env) (l1 l2 : List cj_Event) (s s1 : cj_State)
    (h : cj_run E l1 s = .ok s1) : cj_run E (l1 ++ l2) s = cj_run E l2 s1 := by
  induction l1 generalizing s with
  | nil =>
    simp only [cj_run, Except.ok.injEq] at h
    subst h
    rfl
  | cons ev rest ih =>
    simp only [List.cons_append, cj_run] at h ⊢
    cases hstep : cj_step E s ev with
    | error e => rw [hstep] at h; exact absurd h (by simp)
    | ok s2 =>
      rw [hstep] at h
      simp only at h ⊢
      exact ih s2 h

theorem cj_submit_nil (E : cj_Env) (s : cj_State) :
    (cj_submit E s (cj_Function.other 0) [] 0).ntask = s.ntask + 1 ∧
    (cj_submit E s (cj_Function.other 0) [] 0).rset = s.rset ∧
    (cj_submit E s (cj_Function.other 0) [] 0).wset = s.wset ∧
    (cj_submit E s (cj_Function.other 0) [] 0).edge = s.edge := by
  simp [cj_submit, cj_Task_dependency_analysis, cj_prepare, cj_Task_new, cj_Task_set,
    cj_Task_push_args, cj_Graph_vertex_add, cj_Task_dependency_analysis_args]

theorem cj_many_events_run (E : cj_Env) (n : Nat) (s : cj_State) :
    ∃ s', cj_run E (cj_many_events n) s = .ok s' ∧ s'.ntask = s.ntask + n ∧
      s'.rset = s.rset ∧ s'.wset = s.wset ∧ s'.edge = s.edge := by
  induction n generalizing s with
  | zero => exact ⟨s, rfl, rfl, rfl, rfl, rfl⟩
  | succ n ih =>
    obtain ⟨s', h1, h2, h3, h4, h5⟩ := ih (cj_submit E s (cj_Function.other 0) [] 0)
    obtain ⟨e1, e2, e3, e4⟩ := cj_submit_nil E s
    refine ⟨s', ?_, ?_, ?_, ?_, ?_⟩
    · unfold cj_many_events
      rw [List.replicate_succ]
      simp only [cj_run, cj_step]
      exact h1
    · rw [h2, e1]
      omega
    · rw [h3, e2]
    · rw [h4, e3]
    · rw [h5, e4]

theorem cj_wrap_edge (E : cj_Env) (s : cj_State) (hr : s.rset = fun _ => [])
    (hw : s.wset = fun _ => []) (hid : s.taskid ≠ cj_int (s.taskid + 1)) :
    ∃ s', cj_run E [cj_Event.submit (cj_Function.other 0) [cj_arg CJ_W 0] 0,
        cj_Event.submit (cj_Function.other 0) [cj_arg CJ_R 0] 0] s = .ok s' ∧
      (s.ntask, s.ntask + 1) ∈ s'.edge ∧
      (s'.task s.ntask).id = s.taskid ∧ (s'.task (s.ntask + 1)).id = cj_int (s.taskid + 1) := by
  refine ⟨_, rfl, ?_, ?_, ?_⟩
  · simp [cj_submit, cj_Task_dependency_analysis, cj_prepare, cj_Task_new, cj_Task_set,
      cj_Task_push_args, cj_Graph_vertex_add, cj_Task_dependency_analysis_args,
      cj_Task_dependency_analysis_arg, cj_arg, cj_Task_dependency_analysis_read,
      cj_Task_dependency_analysis_write, cj_Task_dependency_link, cj_tile,
      Function.update_apply, cj_Task_dependency_add, cj_Graph_edge_add, hr, hw, hid]
  · simp [cj_submit, cj_Task_dependency_analysis, cj_prepare, cj_Task_new, cj_Task_set,
      cj_Task_push_args, cj_Graph_vertex_add, cj_Task_dependency_analysis_args,
      cj_Task_dependency_analysis_arg, cj_arg, cj_Task_dependency_analysis_read,
      cj_Task_dependency_analysis_write, cj_Task_dependency_link, cj_tile,
      Function.update_apply, cj_Task_dependency_add, cj_Graph_edge_add, hr, hw, hid]
  · simp [cj_submit, cj_Task_dependency_analysis, cj_prepare, cj_Task_new, cj_Task_set,
      cj_Task_push_args, cj_Graph_vertex_add, cj_Task_dependency_analysis_args,
      cj_Task_dependency_analysis_arg, cj_arg, cj_Task_dependency_analysis_read,
      cj_Task_dependency_analysis_write, cj_Task_dependency_link, cj_tile,
      Function.update_apply, cj_Task_dependency_add, cj_Graph_edge_add, hr, hw, hid]

/-- C5, the code at the failing input: `2147483647` submissions of a task without arguments,
then T = `[W A]` and T' = `[R A]`. The counter `taskid` gives T the id `INT_MAX = 2147483647` and
wraps, so T' has the id `INT_MIN = -2147483648`; the analysis adds the edge T → T', from the
higher id to the lower id. -/
theorem cj_C5_id_wrap :
    ∃ s, cj_run cj_Env_example
        (cj_many_events 2147483647 ++
          [cj_Event.submit (cj_Function.other 0) [cj_arg CJ_W 0] 0,
           cj_Event.submit (cj_Function.other 0) [cj_arg CJ_R 0] 0]) (cj_Init_state 2) = .ok s ∧
      (2147483647, 2147483648) ∈ s.edge ∧
      (s.task 2147483647).id = 2147483647 ∧ (s.task 2147483648).id = -2147483648 ∧
      ¬ ((s.task 2147483647).id < (s.task 2147483648).id) := by
  obtain ⟨s0, h0, hn, hr, hw, -⟩ := cj_many_events_run cj_Env_example 2147483647 (cj_Init_state 2)
  have hreach : cj_Reachable cj_Env_example s0 :=
    cj_Reachable_of_run cj_Env_example 2 (by decide) _ s0 h0
  have hnt : s0.ntask = 2147483647 := by rw [hn]; rfl
  have htid : s0.taskid = 2147483647 := by
    rw [(cj_InvGraph_reachable cj_Env_example s0 hreach).taskid_eq, hnt]
    unfold cj_int
    norm_num
  have hwrap : cj_int (s0.taskid + 1) = -2147483648 := by
    rw [htid]
    unfold cj_int
    norm_num
  obtain ⟨s, h1, h2, h3, h4⟩ := cj_wrap_edge cj_Env_example s0
    (by rw [hr]; rfl) (by rw [hw]; rfl) (by rw [hwrap, htid]; norm_num)
  rw [hnt] at h2 h3 h4
  rw [htid] at h3
  rw [hwrap] at h4
  refine ⟨s, ?_, h2, h3, h4, ?_⟩
  · rw [cj_run_append cj_Env_example _ _ _ s0 h0]
    exact h1
  · rw [h3, h4]
    norm_num

/-! ## The cost estimate -/

theorem cj_transfer_sum_succ (E : cj_Env) (cost : Int) (k : Nat) :
    cj_transfer_sum E (E.fadd cost E.model.pci_bandwidth) k = cj_transfer_sum E cost (k + 1) := by
  unfold cj_transfer_sum
  rw [Function.iterate_succ_apply]

theorem cj_estimate_comm_eq (E : cj_Env) (s : cj_State) (device_id : Int)
    (args : List cj_Object) (cost : Int)
    (hz : ∀ j, E.fadd (cj_transfer_sum E cost j) 0 = cj_transfer_sum E cost j) :
    cj_Worker_estimate_comm E s device_id args cost =
      cj_transfer_sum E cost (cj_missing E s device_id args) := by
  induction args generalizing cost with
  | nil => rfl
  | cons now rest ih =>
    unfold cj_missing at ih ⊢
    rw [cj_Worker_estimate_comm, List.countP_cons]
    by_cases hm : now.objtype = CJ_MATRIX
    · by_cases ha : (s.dist (cj_tile E now.matrix)).any
          (fun d => decide (d.device_id = device_id)) = true
      · have h0 : E.fadd cost 0 = cost := hz 0
        simp only [hm, ha, if_true, h0, decide_True, Bool.not_true, Bool.and_false,
          Bool.false_eq_true, if_false, add_zero]
        exact ih cost hz
      · simp only [Bool.not_eq_true] at ha
        simp only [hm, ha, if_true, decide_True, Bool.not_false, Bool.and_self,
          Bool.false_eq_true, if_false]
        rw [ih (E.fadd cost E.model.pci_bandwidth) (fun j => by
          rw [cj_transfer_sum_succ]
          exact hz (j + 1))]
        exact cj_transfer_sum_succ E cost _
    · simp only [hm, if_false, decide_False, Bool.false_and, Bool.false_eq_true, add_zero]
      exact ih cost hz

theorem cj_estimate_comm_congr (E E' : cj_Env) (s s' : cj_State) (device_id : Int)
    (args : List cj_Object) (cost : Int) (hp : E'.model.pci_bandwidth = E.model.pci_bandwidth)
    (hadd : E'.fadd = E.fadd)
    (h : ∀ now ∈ args, now.objtype = CJ_MATRIX →
      s'.dist (cj_tile E' now.matrix) = s.dist (cj_tile E now.matrix)) :
    cj_Worker_estimate_comm E' s' device_id args cost =
      cj_Worker_estimate_comm E s device_id args cost := by
  induction args generalizing cost with
  | nil => rfl
  | cons now rest ih =>
    unfold cj_Worker_estimate_comm
    rw [ih _ (fun x hx => h x (List.mem_cons_of_mem _ hx))]
    by_cases hm : now.objtype = CJ_MATRIX
    · rw [if_pos hm, if_pos hm, h now (List.mem_cons_self _ _) hm, hp, hadd]
    · rw [if_neg hm, if_neg hm]

theorem cj_missing_zero (E : cj_Env) (s : cj_State) (device_id : Int) (args : List cj_Object) :
    cj_missing E s device_id args = 0 ↔
      ∀ now ∈ args, now.objtype = CJ_MATRIX →
        ∃ d ∈ s.dist (cj_tile E now.matrix), d.device_id = device_id := by
  unfold cj_missing
  rw [List.countP_eq_zero]
  constructor
  · intro h now hn hm
    have := h now hn
    simpa [hm] using this
  · intro h now hn
    by_cases hm : now.objtype = CJ_MATRIX
    · simpa [hm] using h now hn hm
    · simp [hm]

theorem cj_estimate_gemm (E : cj_Env) (s : cj_State) (task : cj_Task) (worker : cj_Worker)
    (hf : task.function = some cj_Function.cj_Gemm_nn_task_function)
    (hw : worker.devtype = CJ_DEV_CPU ∨ worker.devtype = CJ_DEV_CUDA)
    (hz : ∀ j, E.fadd (cj_transfer_sum E 0 j) 0 = cj_transfer_sum E 0 j) :
    cj_Worker_estimate_cost E s task worker =
      E.fadd (cj_transfer_sum E 0 (cj_missing E s worker.device_id task.arg))
        (if worker.devtype = CJ_DEV_CUDA then E.model.cublas_dgemm else E.model.mkl_dgemm) := by
  unfold cj_Worker_estimate_cost
  rw [if_pos hf, cj_estimate_comm_eq E s worker.device_id task.arg 0 hz]
  rcases hw with hw | hw
  · have hne : worker.devtype ≠ CJ_DEV_CUDA := by rw [hw]; decide
    rw [if_neg hne, if_pos hw, if_neg hne]
  · rw [if_pos hw, if_pos hw]

theorem cj_transfer_sum_nonneg (E : cj_Env) (hF : cj_fadd_nonneg E)
    (hp : 0 ≤ E.model.pci_bandwidth) (k : Nat) : 0 ≤ cj_transfer_sum E 0 k := by
  induction k with
  | zero => exact le_refl _
  | succ k ih =>
    unfold cj_transfer_sum at ih ⊢
    rw [Function.iterate_succ_apply']
    exact hF _ _ ih hp

theorem cj_transfer_sum_float32 (j : Nat) :
    cj_transfer_sum cj_Env_float32 0 j = ((min j 16777216 : Nat) : Int) := by
  induction j with
  | zero => rfl
  | succ j ih =>
    have hstep : cj_transfer_sum cj_Env_float32 0 (j + 1) =
        cj_fadd32 (cj_transfer_sum cj_Env_float32 0 j) 1 := by
      unfold cj_transfer_sum
      rw [Function.iterate_succ_apply']
      rfl
    rw [hstep, ih]
    have h1 : ((1 : Nat) : Int) = 1 := rfl
    rw [← h1, cj_fadd32_nat]
    by_cases hj : j + 1 < 16777216
    · rw [Nat.min_eq_left (by omega), Nat.min_eq_left (by omega),
        cj_float_round_small _ (by norm_num; omega)]
    · by_cases hj' : j + 1 = 16777216
      · rw [Nat.min_eq_left (by omega), hj', Nat.min_eq_left (by omega)]
        have : cj_float_round 16777216 = 16777216 := by decide
        rw [this]
      · rw [Nat.min_eq_right (by omega), Nat.min_eq_right (by omega)]
        have : cj_float_round (16777216 + 1) = 16777216 := by decide
        rw [this]

theorem cj_transfer_sum_float32_zero (j : Nat) :
    cj_Env_float32.fadd (cj_transfer_sum cj_Env_float32 0 j) 0 =
      cj_transfer_sum cj_Env_float32 0 j := by
  rw [cj_transfer_sum_float32]
  show cj_fadd32 ((min j 16777216 : Nat) : Int) ((0 : Nat) : Int) = _
  rw [cj_fadd32_nat, Nat.add_zero]
  by_cases hj : j < 16777216
  · rw [Nat.min_eq_left (by omega), cj_float_round_small _ (by norm_num; omega)]
  · rw [Nat.min_eq_right (by omega)]
    have : cj_float_round 16777216 = 16777216 := by decide
    rw [this]

/-- Counterexample to C21 as stated. First, a GEMM task `[RW A]` and the CUDA worker of
device 0 with tile A on the host only and the transfer coefficient 0: the estimate is the
compute coefficient although an operand is not resident. Second, the same task and worker
with single precision addition, compute coefficient `16777216` and transfer coefficient 1:
the estimate is `16777216`, not `compute + 1 * transfer`. -/
theorem cj_C21_counterexample :
    (cj_device_state.task 0).function = some cj_Function.cj_Gemm_nn_task_function ∧
    (cj_device_state.worker 1).devtype = CJ_DEV_CUDA ∧
    cj_missing (cj_Env_cost 1) cj_device_state (cj_device_state.worker 1).device_id
      (cj_device_state.task 0).arg = 1 ∧
    (cj_Env_cost 1).model.cublas_dgemm = 1 ∧
    cj_Worker_estimate_cost (cj_Env_cost 1) cj_device_state (cj_device_state.task 0)
      (cj_device_state.worker 1) = 1 ∧
    ¬ (∀ now ∈ (cj_device_state.task 0).arg, now.objtype = CJ_MATRIX →
        ∃ d ∈ cj_device_state.dist (cj_tile (cj_Env_cost 1) now.matrix),
          d.device_id = (cj_device_state.worker 1).device_id) ∧
    cj_missing cj_Env_float32 cj_device_state (cj_device_state.worker 1).device_id
      (cj_device_state.task 0).arg = 1 ∧
    cj_Worker_estimate_cost cj_Env_float32 cj_device_state (cj_device_state.task 0)
      (cj_device_state.worker 1) = 16777216 ∧
    cj_Env_float32.model.cublas_dgemm + 1 * cj_Env_float32.model.pci_bandwidth = 16777217 := by
  refine ⟨rfl, rfl, by decide, rfl, by decide, ?_, by decide, by decide, by decide⟩
  intro h
  obtain ⟨d, hd, hd'⟩ := h (cj_arg CJ_RW 0) (by decide) (by decide)
  have hdist : cj_device_state.dist (cj_tile (cj_Env_cost 1) (cj_arg CJ_RW 0).matrix) =
      [cj_Distribution_new] := rfl
  rw [hdist, List.mem_singleton] at hd
  rw [hd] at hd'
  exact absurd hd' (by decide)

/-- C21 (amended). For a GEMM task and a CPU or CUDA worker, `cj_Worker_estimate_cost` returns
`compute + k * transfer` as the float arithmetic of the code computes it: the transfer
coefficient `pci_bandwidth` is added `k` times to `0.0`, one float addition at a time, and the
compute coefficient of the device kind (`cublas_dgemm` on CUDA, `mkl_dgemm` on CPU) is added
last; `k` is the number of matrix arguments, counted with multiplicity, whose tile has no
location on the device of the worker. When every operand is resident on the device of the
worker the estimate is the compute coefficient; it is the compute coefficient only then if no
sum of one or more transfer terms is absorbed by the compute coefficient. The estimate depends
only on the coefficients and on the location lists of the tiles of the arguments. The law
`x + 0.0 = x` of float addition is used for the sums of transfer terms and, in the second
part, `0.0 + x = x` for the compute coefficient. -/
theorem cj_C21_estimate (E : cj_Env) (s : cj_State) (task : cj_Task) (worker : cj_Worker)
    (hf : task.function = some cj_Function.cj_Gemm_nn_task_function)
    (hw : worker.devtype = CJ_DEV_CPU ∨ worker.devtype = CJ_DEV_CUDA)
    (hz : ∀ j, E.fadd (cj_transfer_sum E 0 j) 0 = cj_transfer_sum E 0 j) :
    cj_Worker_estimate_cost E s task worker =
      E.fadd (cj_transfer_sum E 0 (cj_missing E s worker.device_id task.arg))
        (if worker.devtype = CJ_DEV_CUDA then E.model.cublas_dgemm else E.model.mkl_dgemm) ∧
    (E.fadd 0 (if worker.devtype = CJ_DEV_CUDA then E.model.cublas_dgemm
        else E.model.mkl_dgemm) =
        (if worker.devtype = CJ_DEV_CUDA then E.model.cublas_dgemm else E.model.mkl_dgemm) →
      (∀ now ∈ task.arg, now.objtype = CJ_MATRIX →
        ∃ d ∈ s.dist (cj_tile E now.matrix), d.device_id = worker.device_id) →
      cj_Worker_estimate_cost E s task worker =
        (if worker.devtype = CJ_DEV_CUDA then E.model.cublas_dgemm else E.model.mkl_dgemm)) ∧
    ((∀ j, 1 ≤ j → E.fadd (cj_transfer_sum E 0 j)
          (if worker.devtype = CJ_DEV_CUDA then E.model.cublas_dgemm else E.model.mkl_dgemm) ≠
        (if worker.devtype = CJ_DEV_CUDA then E.model.cublas_dgemm else E.model.mkl_dgemm)) →
      cj_Worker_estimate_cost E s task worker =
        (if worker.devtype = CJ_DEV_CUDA then E.model.cublas_dgemm else E.model.mkl_dgemm) →
      ∀ now ∈ task.arg, now.objtype = CJ_MATRIX →
        ∃ d ∈ s.dist (cj_tile E now.matrix), d.device_id = worker.device_id) ∧
    (∀ (E' : cj_Env) (s' : cj_State), E'.model = E.model → E'.fadd = E.fadd →
      (∀ now ∈ task.arg, now.objtype = CJ_MATRIX →
        s'.dist (cj_tile E' now.matrix) = s.dist (cj_tile E now.matrix)) →
      cj_Worker_estimate_cost E' s' task worker = cj_Worker_estimate_cost E s task worker) := by
  have he := cj_estimate_gemm E s task worker hf hw hz
  refine ⟨he, ?_, ?_, ?_⟩
  · intro hc hall
    rw [he, (cj_missing_zero E s worker.device_id task.arg).2 hall]
    exact hc
  · intro hno heq
    rw [he] at heq
    apply (cj_missing_zero E s worker.device_id task.arg).1
    by_contra hk
    exact hno _ (Nat.one_le_iff_ne_zero.mpr hk) heq
  · intro E' s' hm hadd hd
    unfold cj_Worker_estimate_cost
    rw [cj_estimate_comm_congr E E' s s' worker.device_id task.arg 0 (by rw [hm]) hadd hd,
      hm, hadd]

/-- Witness of C21 (amended) on `cj_device_state`: the GEMM task `[RW A]` on the CUDA worker of
device 0, tile A on the host only, one transfer. With exact sums of small coefficients the
estimate is `(0 + 3) + 1`; with single precision addition, compute coefficient `16777216` and
transfer coefficient 1 it is the rounded sum `16777216`. -/
theorem cj_C21_estimate_witness :
    (cj_device_state.task 0).function = some cj_Function.cj_Gemm_nn_task_function ∧
    (cj_device_state.worker 1).devtype = CJ_DEV_CUDA ∧
    cj_missing cj_Env_device cj_device_state (cj_device_state.worker 1).device_id
      (cj_device_state.task 0).arg = 1 ∧
    cj_Worker_estimate_cost cj_Env_device cj_device_state (cj_device_state.task 0)
      (cj_device_state.worker 1) = 4 ∧
    cj_Worker_estimate_cost cj_Env_device cj_device_state (cj_device_state.task 0)
        (cj_device_state.worker 1) =
      cj_Env_device.fadd
        (cj_transfer_sum cj_Env_device 0
          (cj_missing cj_Env_device cj_device_state (cj_device_state.worker 1).device_id
            (cj_device_state.task 0).arg))
        (if (cj_device_state.worker 1).devtype = CJ_DEV_CUDA then
          cj_Env_device.model.cublas_dgemm else cj_Env_device.model.mkl_dgemm) ∧
    cj_Worker_estimate_cost cj_Env_float32 cj_device_state (cj_device_state.task 0)
        (cj_device_state.worker 1) = 16777216 ∧
    cj_Worker_estimate_cost cj_Env_float32 cj_device_state (cj_device_state.task 0)
        (cj_device_state.worker 1) =
      cj_Env_float32.fadd
        (cj_transfer_sum cj_Env_float32 0
          (cj_missing cj_Env_float32 cj_device_state (cj_device_state.worker 1).device_id
            (cj_device_state.task 0).arg))
        (if (cj_device_state.worker 1).devtype = CJ_DEV_CUDA then
          cj_Env_float32.model.cublas_dgemm else cj_Env_float32.model.mkl_dgemm) :=
  ⟨rfl, rfl, by decide, by decide,
    (cj_C21_estimate cj_Env_device cj_device_state (cj_device_state.task 0)
      (cj_device_state.worker 1) rfl (Or.inr rfl) (fun _ => add_zero _)).1,
    by decide,
    (cj_C21_estimate cj_Env_float32 cj_device_state (cj_device_state.task 0)
      (cj_device_state.worker 1) rfl (Or.inr rfl) cj_transfer_sum_float32_zero).1⟩

/-- Counterexample to C22 as stated. First, the task built as `cj_Chol_l_task` builds it
(kernel POTRF, argument `[RW A]`) and the CUDA worker of device 0, transfer coefficient 3: with
tile A on the host only the estimate is 0, and after the tile has been staged to device 0 it
is 0 as well. Second, a GEMM task `[RW A]` on the same worker with single precision addition,
compute coefficient `16777216` and transfer coefficient 1: the estimate is `16777216` with
tile A on the host only and with tile A staged. In both cases the estimate is not larger for
the non-resident tile. -/
theorem cj_C22_counterexample :
    (cj_potrf_state.task 0).function = some cj_Function.cj_Chol_l_task_function ∧
    (cj_potrf_staged.task 0) = (cj_potrf_state.task 0) ∧
    0 < cj_Env_device.model.pci_bandwidth ∧
    cj_missing cj_Env_device cj_potrf_state 0 (cj_potrf_state.task 0).arg = 1 ∧
    cj_missing cj_Env_device cj_potrf_staged 0 (cj_potrf_state.task 0).arg = 0 ∧
    cj_Worker_estimate_cost cj_Env_device cj_potrf_state (cj_potrf_state.task 0)
      (cj_potrf_state.worker 1) = 0 ∧
    cj_Worker_estimate_cost cj_Env_device cj_potrf_staged (cj_potrf_state.task 0)
      (cj_potrf_state.worker 1) = 0 ∧
    ¬ (cj_Worker_estimate_cost cj_Env_device cj_potrf_staged (cj_potrf_state.task 0)
        (cj_potrf_state.worker 1) <
      cj_Worker_estimate_cost cj_Env_device cj_potrf_state (cj_potrf_state.task 0)
        (cj_potrf_state.worker 1)) ∧
    (cj_device_state.task 0).function = some cj_Function.cj_Gemm_nn_task_function ∧
    0 < cj_Env_float32.model.pci_bandwidth ∧
    cj_missing cj_Env_float32 cj_device_state 0 (cj_device_state.task 0).arg = 1 ∧
    cj_missing cj_Env_float32 cj_device_staged 0 (cj_device_state.task 0).arg = 0 ∧
    cj_Worker_estimate_cost cj_Env_float32 cj_device_state (cj_device_state.task 0)
      (cj_device_state.worker 1) = 16777216 ∧
    cj_Worker_estimate_cost cj_Env_float32 cj_device_staged (cj_device_state.task 0)
      (cj_device_state.worker 1) = 16777216 :=
  ⟨rfl, by decide, by decide, by decide, by decide, by decide, by decide, by decide,
    rfl, by decide, by decide, by decide, by decide, by decide⟩

/-- C22 (amended). For a GEMM task and a CPU or CUDA worker, `cj_Worker_estimate_cost` returns
the double-precision GEMM constant of the device kind of the worker plus one transfer term for
each tile argument of which the device of the worker holds no copy, added in the float
arithmetic of the code (transfer terms first, the constant last). With a non-negative link
cost a GEMM task with non-resident tile arguments gets an estimate that is at least the
estimate of the same task with all tiles resident, and a strictly larger one exactly when the
float sum of the transfer terms and the constant is not the constant itself. For a task of
any other kernel, and for a worker of kind MIC, the estimate is `0.0 + 0.0`, which is 0,
whatever the location lists. The laws of float addition that are used are named as
hypotheses. -/
theorem cj_C22_estimate (E : cj_Env) (s : cj_State) (task : cj_Task) (worker : cj_Worker)
    (hz : ∀ j, E.fadd (cj_transfer_sum E 0 j) 0 = cj_transfer_sum E 0 j) :
    (task.function = some cj_Function.cj_Gemm_nn_task_function →
      worker.devtype = CJ_DEV_CPU ∨ worker.devtype = CJ_DEV_CUDA →
      cj_Worker_estimate_cost E s task worker =
        E.fadd (cj_transfer_sum E 0 (cj_missing E s worker.device_id task.arg))
          (if worker.devtype = CJ_DEV_CUDA then E.model.cublas_dgemm else E.model.mkl_dgemm) ∧
      ∀ s' : cj_State, 0 ≤ E.model.pci_bandwidth → cj_fadd_nonneg E → cj_fadd_mono E →
        E.fadd 0 (if worker.devtype = CJ_DEV_CUDA then E.model.cublas_dgemm
          else E.model.mkl_dgemm) =
          (if worker.devtype = CJ_DEV_CUDA then E.model.cublas_dgemm else E.model.mkl_dgemm) →
        (∀ now ∈ task.arg, now.objtype = CJ_MATRIX →
          ∃ d ∈ s'.dist (cj_tile E now.matrix), d.device_id = worker.device_id) →
        cj_Worker_estimate_cost E s' task worker ≤ cj_Worker_estimate_cost E s task worker ∧
        (cj_Worker_estimate_cost E s' task worker < cj_Worker_estimate_cost E s task worker ↔
          E.fadd (cj_transfer_sum E 0 (cj_missing E s worker.device_id task.arg))
            (if worker.devtype = CJ_DEV_CUDA then E.model.cublas_dgemm
              else E.model.mkl_dgemm) ≠
            (if worker.devtype = CJ_DEV_CUDA then E.model.cublas_dgemm
              else E.model.mkl_dgemm))) ∧
    (task.function ≠ some cj_Function.cj_Gemm_nn_task_function ∨
        worker.devtype = CJ_DEV_MIC →
      cj_Worker_estimate_cost E s task worker = E.fadd 0 0 ∧
      (E.fadd 0 0 = 0 → cj_Worker_estimate_cost E s task worker = 0)) := by
  constructor
  · intro hf hw
    have he := cj_estimate_gemm E s task worker hf hw hz
    refine ⟨he, ?_⟩
    intro s' hp hF hM hc hres
    have he' := cj_estimate_gemm E s' task worker hf hw hz
    rw [(cj_missing_zero E s' worker.device_id task.arg).2 hres] at he'
    have he0 : cj_Worker_estimate_cost E s' task worker =
        (if worker.devtype = CJ_DEV_CUDA then E.model.cublas_dgemm else E.model.mkl_dgemm) :=
      he'.trans hc
    have hle : (if worker.devtype = CJ_DEV_CUDA then E.model.cublas_dgemm
        else E.model.mkl_dgemm) ≤ cj_Worker_estimate_cost E s task worker := by
      rw [he]
      calc (if worker.devtype = CJ_DEV_CUDA then E.model.cublas_dgemm else E.model.mkl_dgemm)
          = E.fadd 0 (if worker.devtype = CJ_DEV_CUDA then E.model.cublas_dgemm
              else E.model.mkl_dgemm) := hc.symm
        _ ≤ _ := hM _ _ _ (cj_transfer_sum_nonneg E hF hp _)
    rw [he0]
    refine ⟨hle, ?_⟩
    rw [← he]
    constructor
    · intro hlt heq
      rw [heq] at hlt
      exact lt_irrefl _ hlt
    · intro hne
      exact lt_of_le_of_ne hle (fun heq => hne heq.symm)
  · intro h
    have h0 : cj_Worker_estimate_cost E s task worker = E.fadd 0 0 := by
      unfold cj_Worker_estimate_cost
      rcases h with h | h
      · rw [if_neg h]
      · rw [h]
        simp
    exact ⟨h0, fun hz0 => h0.trans hz0⟩

/-- Witness of C22 (amended): on `cj_device_state` the GEMM task `[RW A]` has estimate 4 on the
CUDA worker of device 0 while tile A is on the host only and estimate 1 once the tile is
staged; the POTRF task of `cj_potrf_state` has estimate 0 on the same worker. -/
theorem cj_C22_estimate_witness :
    cj_Worker_estimate_cost cj_Env_device cj_device_state (cj_device_state.task 0)
      (cj_device_state.worker 1) = 4 ∧
    cj_Worker_estimate_cost cj_Env_device cj_device_staged (cj_device_state.task 0)
      (cj_device_state.worker 1) = 1 ∧
    cj_Worker_estimate_cost cj_Env_device cj_device_staged (cj_device_state.task 0)
        (cj_device_state.worker 1) ≤
      cj_Worker_estimate_cost cj_Env_device cj_device_state (cj_device_state.task 0)
        (cj_device_state.worker 1) ∧
    (cj_potrf_state.task 0).function ≠ some cj_Function.cj_Gemm_nn_task_function ∧
    cj_Worker_estimate_cost cj_Env_device cj_potrf_state (cj_potrf_state.task 0)
      (cj_potrf_state.worker 1) = 0 :=
  ⟨by decide, by decide,
    ((((cj_C22_estimate cj_Env_device cj_device_state (cj_device_state.task 0)
      (cj_device_state.worker 1) (fun _ => add_zero _)).1 rfl (Or.inr rfl)).2
        cj_device_staged (by decide) (fun _ _ ha hb => add_nonneg ha hb)
        (fun _ _ c hab => add_le_add_right hab c) (zero_add _) (by decide)).1),
    by decide,
    ((cj_C22_estimate cj_Env_device cj_potrf_state (cj_potrf_state.task 0)
      (cj_potrf_state.worker 1) (fun _ => add_zero _)).2 (Or.inl (by decide))).2 rfl⟩

/-! ## Steps that interleave at the critical sections -/

/-- C8, the code at the failing input. `cj_Task_dependency_add` is its two critical sections
one after the other. Between them, in the submission of T2 = `[R A]` while T1 = `[W A]` is in
the ready queue of worker 1, T2 is in the successor list of T1 and the counter of T2 is still
0; a step of worker 1 from this state runs T1, decrements the counter of T2 to `-1` and stops
with the error "Remaining dependencies can't be negative". -/
theorem cj_C8_race :
    (∀ (s : cj_State) (p c : Nat),
      cj_Task_dependency_add s p c =
        cj_Task_dependency_add_in (cj_Task_dependency_add_out s p c) p c) ∧
    cj_submit cj_Env_example cj_race_start cj_Function.cj_Gemm_nn_task_function
        [cj_arg CJ_R 0] 0 = cj_Task_dependency_add_in cj_race_state 0 1 ∧
    cj_race_start.ready_queue 1 = [0] ∧ cj_race_state.ready_queue 1 = [0] ∧
    (cj_race_state.task 0).status = QUEUED ∧ (cj_race_state.task 0).out = [1] ∧
    (cj_race_state.task 1).in_ = [] ∧ (cj_race_state.task 1).num_dependencies_remaining = 0 ∧
    cj_step cj_Env_example cj_race_state (cj_Event.worker 1) =
      .error cj_Error.negative_dependencies :=
  ⟨fun _ _ _ => rfl, rfl, rfl, rfl, rfl, rfl, rfl, rfl, rfl⟩
